import Mathlib

/-! Terrain mesh and path walkers: a shallow embedding of `Terrain.cpp`,
`Hiker.cpp` and `AnimatedCharacter.cpp`.

Scalars (`float` in the source) are elements of an arbitrary linearly ordered
field `R` with a floor function, so every definition can be evaluated over `ℚ`
and every theorem also holds over `ℝ`.  The square root used by
`glm::normalize` and `glm::distance` is passed in as `sqrt : R → R`.
C++ `int` is `Int`; an out-of-range read of a `std::vector` in a query or a
traversal step yields `none`, and so does a traversal step that divides by a
zero segment length, where the `float` quotient is NaN or infinite.

The height query and the loader of the terrain are given a second time in
`float` arithmetic (namespace `Fp`): every operation rounds its exact result
with `rnd : R → R`, which is `round32` for binary32 and the identity for exact
arithmetic, and a coordinate may be NaN (`none`, namespace `Nan`).  The path
file is read character by character with `extractFloat`, the extraction
`file >> v` of the standard library.
-/

set_option autoImplicit false
set_option linter.unusedSectionVars false
set_option linter.unusedVariables false

namespace Glm

/-- The three-component vector `glm::vec3`. -/
structure Vec3 (R : Type) where
  x : R
  y : R
  z : R
deriving DecidableEq, Repr

/-- The two-component vector `glm::vec2`. -/
structure Vec2 (R : Type) where
  x : R
  y : R
deriving DecidableEq, Repr

variable {R : Type} [LinearOrderedField R]

/-- The vector `glm::vec3(0.0f)`. -/
def Vec3.zero : Vec3 R := ⟨0, 0, 0⟩

/-- Component-wise sum, `a + b` on `glm::vec3`. -/
def Vec3.add (a b : Vec3 R) : Vec3 R := ⟨a.x + b.x, a.y + b.y, a.z + b.z⟩

/-- Component-wise difference, `a - b` on `glm::vec3`. -/
def Vec3.sub (a b : Vec3 R) : Vec3 R := ⟨a.x - b.x, a.y - b.y, a.z - b.z⟩

/-- Scaling by a scalar, `v * s` on `glm::vec3`. -/
def Vec3.scale (v : Vec3 R) (s : R) : Vec3 R := ⟨v.x * s, v.y * s, v.z * s⟩

/-- The dot product `glm::dot`. -/
def dot (a b : Vec3 R) : R := a.x * b.x + a.y * b.y + a.z * b.z

/-- The cross product `glm::cross`. -/
def cross (a b : Vec3 R) : Vec3 R :=
  ⟨a.y * b.z - b.y * a.z, a.z * b.x - b.z * a.x, a.x * b.y - b.x * a.y⟩

/-- The Euclidean norm `glm::length(v) = sqrt(dot(v, v))`. -/
def length (sqrt : R → R) (v : Vec3 R) : R := sqrt (dot v v)

/-- The Euclidean distance `glm::distance(p0, p1) = length(p1 - p0)`. -/
def distance (sqrt : R → R) (p0 p1 : Vec3 R) : R := length sqrt (p1.sub p0)

/-- The unit vector `glm::normalize(v) = v * inversesqrt(dot(v, v))`. -/
def normalize (sqrt : R → R) (v : Vec3 R) : Vec3 R := v.scale (1 / sqrt (dot v v))

/-- The scalar `glm::clamp(x, minVal, maxVal) = min(max(x, minVal), maxVal)`. -/
def clamp (x minVal maxVal : R) : R := min (max x minVal) maxVal

/-- The scalar `glm::mix(x, y, a) = x * (1 - a) + y * a`. -/
def mix (x y a : R) : R := x * (1 - a) + y * a

/-- The vector `glm::mix(x, y, a)` with a scalar weight. -/
def mixVec (p q : Vec3 R) (a : R) : Vec3 R := (p.scale (1 - a)).add (q.scale a)

/-- The quotient `a / b` of two `float`s as a scalar; `none` for a zero divisor,
where the `float` result is NaN or infinite. -/
def fdiv (a b : R) : Option R := if b = 0 then none else some (a / b)

/-- The conversion `static_cast<int>(f)`: truncation toward zero. -/
def toInt [FloorRing R] (f : R) : Int := if 0 ≤ f then ⌊f⌋ else ⌈f⌉

end Glm

open Glm

/-- Element `v[i]` of a `std::vector` for a C++ `int` index; `none` when the
index is outside `[0, size)`. -/
def readAt {α : Type} (v : List α) (i : Int) : Option α :=
  if 0 ≤ i then v[i.toNat]? else none

/-- The data members of `class Terrain` that the mesh construction and the
height query use. -/
structure Terrain (R : Type) where
  width : Int
  height : Int
  heightScale : R
  horizontalScale : R
  heights : List R
  positions : List (Vec3 R)
  normals : List (Vec3 R)
  texCoords : List (Vec2 R)
  indices : List Int
  textureRepeat : R
  maxHeight : R
deriving DecidableEq, Repr

namespace Terrain

variable {R : Type} [LinearOrderedField R] [FloorRing R]

/-- The value `halfWidth = (width - 1) * horizontalScale * 0.5f`. -/
def halfWidth (t : Terrain R) : R := ((t.width - 1 : Int) : R) * t.horizontalScale * (1 / 2)

/-- The value `halfDepth = (height - 1) * horizontalScale * 0.5f`. -/
def halfDepth (t : Terrain R) : R := ((t.height - 1 : Int) : R) * t.horizontalScale * (1 / 2)

/-- The clamped fractional grid column `localX` of `getHeightAtPosition`. -/
def localX (t : Terrain R) (x : R) : R :=
  clamp ((x + t.halfWidth) / t.horizontalScale) 0 ((t.width - 1 : Int) : R)

/-- The clamped fractional grid row `localZ` of `getHeightAtPosition`. -/
def localZ (t : Terrain R) (z : R) : R :=
  clamp ((z + t.halfDepth) / t.horizontalScale) 0 ((t.height - 1 : Int) : R)

/-- The bilinear height query `Terrain::getHeightAtPosition`; `none` when one
of the four reads of `positions` is out of range. -/
def getHeightAtPosition (t : Terrain R) (x z : R) : Option R :=
  let localX := t.localX x
  let localZ := t.localZ z
  let x0 : Int := toInt localX
  let z0 : Int := toInt localZ
  let x1 : Int := min (x0 + 1) (t.width - 1)
  let z1 : Int := min (z0 + 1) (t.height - 1)
  let fx : R := localX - (x0 : R)
  let fz : R := localZ - (z0 : R)
  match readAt t.positions (z0 * t.width + x0), readAt t.positions (z0 * t.width + x1),
        readAt t.positions (z1 * t.width + x0), readAt t.positions (z1 * t.width + x1) with
  | some p00, some p10, some p01, some p11 =>
    let h0 := mix p00.y p10.y fx
    let h1 := mix p01.y p11.y fx
    some (mix h0 h1 fz)
  | _, _, _, _ => none

/-- The elevation stored for the grid vertex in column `i` and row `j`, that is
`positions[j * width + i].y`. -/
def elevation (t : Terrain R) (i j : Int) : Option R :=
  (readAt t.positions (j * t.width + i)).map (fun p => p.y)

/-- The decoded single-channel image that `stbi_load` hands to `loadHeightmap`:
its dimensions and its `width * height` bytes in row-major order. -/
structure Image where
  width : Int
  height : Int
  data : List Nat
deriving DecidableEq, Repr

/-- The call `v.resize(n)` on a `std::vector`: keep the first `n` elements and
pad with value-initialised ones. -/
def resize {α : Type} (v : List α) (n : Nat) (fill : α) : List α :=
  v.take n ++ List.replicate (n - v.length) fill

/-- The assignment `v[i] = a` for a C++ `int` index. -/
def writeAt {α : Type} (v : List α) (i : Int) (a : α) : List α :=
  if 0 ≤ i then v.set i.toNat a else v

/-- The update `v[i] += d` on a vector of `glm::vec3`. -/
def addAt (v : List (Vec3 R)) (i : Int) (d : Vec3 R) : List (Vec3 R) :=
  match readAt v i with
  | some a => writeAt v i (a.add d)
  | none => v

/-- A counting loop `for (int i = 0; i < n; ++i) body(i)` threading the state. -/
def forLoop {σ : Type} (n : Int) (body : Int → σ → σ) (s : σ) : σ :=
  (List.range n.toNat).foldl (fun acc i => body (i : Int) acc) s

/-- The body of the first loop of `loadHeightmap`: scale sample `i` by
`data[i] / 255.0f * heightScale`, store it and track the running maximum.
The buffer returned by `stbi_load` holds `width * height` bytes, so `data[i]`
is always in range. -/
def scaleSample (data : List Nat) (i : Int) (t : Terrain R) : Terrain R :=
  let heightValue : R := ((data.getD i.toNat 0 : Nat) : R) / 255 * t.heightScale
  let t := { t with heights := writeAt t.heights i heightValue }
  if heightValue > t.maxHeight then { t with maxHeight := heightValue } else t

/-- The first loop of `loadHeightmap` with the `resize` and the reset of
`maxHeight` that precede it; `data` holds the `width * height` decoded bytes. -/
def processHeights (t : Terrain R) (data : List Nat) : Terrain R :=
  let t := { t with heights := resize t.heights (t.width * t.height).toNat 0, maxHeight := 0 }
  forLoop (t.width * t.height) (scaleSample data) t

/-- The three `resize(width * height)` calls on the vertex attribute vectors. -/
def resizeVertexData (t : Terrain R) : Terrain R :=
  { t with positions := resize t.positions (t.width * t.height).toNat Vec3.zero,
           normals := resize t.normals (t.width * t.height).toNat Vec3.zero,
           texCoords := resize t.texCoords (t.width * t.height).toNat ⟨0, 0⟩ }

/-- The body of the second loop nest of `loadHeightmap`: world position and
texture coordinate of the grid vertex `(x, z)`.  All three vectors were resized
to `width * height`, so the index `z * width + x` is in range. -/
def setVertex (halfWidth halfDepth : R) (z x : Int) (t : Terrain R) : Terrain R :=
  let heightValue : R := (readAt t.heights (z * t.width + x)).getD 0
  { t with
    positions := writeAt t.positions (z * t.width + x)
      ⟨(x : R) * t.horizontalScale - halfWidth, heightValue,
       (z : R) * t.horizontalScale - halfDepth⟩,
    texCoords := writeAt t.texCoords (z * t.width + x)
      ⟨(x : R) / ((t.width - 1 : Int) : R) * t.textureRepeat,
       (z : R) / ((t.height - 1 : Int) : R) * t.textureRepeat⟩ }

/-- The second loop nest of `loadHeightmap`: world positions and texture
coordinates of every grid vertex. -/
def generatePositions (t : Terrain R) : Terrain R :=
  let t := resizeVertexData t
  let halfWidth := t.halfWidth
  let halfDepth := t.halfDepth
  forLoop t.height (fun z t =>
    forLoop t.width (fun x t => setVertex halfWidth halfDepth z x t) t) t

/-- The body of the loop nest of `calculateNormals` for the cell `(x, z)`:
the two normalised face normals are added onto the four corners.  The caller
has resized `positions` and `normals` to `width * height`, so the four corner
indices are in range. -/
def accumulateCell (sqrt : R → R) (width : Int) (positions : List (Vec3 R)) (z x : Int)
    (normals : List (Vec3 R)) : List (Vec3 R) :=
  let i0 := z * width + x
  let i1 := z * width + x + 1
  let i2 := (z + 1) * width + x
  let i3 := (z + 1) * width + x + 1
  let v0 := (readAt positions i0).getD Vec3.zero
  let v1 := (readAt positions i1).getD Vec3.zero
  let v2 := (readAt positions i2).getD Vec3.zero
  let v3 := (readAt positions i3).getD Vec3.zero
  let normal1 := normalize sqrt (cross (v1.sub v0) (v2.sub v0))
  let normal2 := normalize sqrt (cross (v3.sub v1) (v2.sub v1))
  let normals := addAt normals i0 normal1
  let normals := addAt normals i1 (normal1.add normal2)
  let normals := addAt normals i2 (normal1.add normal2)
  addAt normals i3 normal2

/-- The per-vertex normal estimation `Terrain::calculateNormals`. -/
def calculateNormals (sqrt : R → R) (t : Terrain R) : Terrain R :=
  let normals := t.normals.map (fun _ => Vec3.zero)
  let normals := forLoop (t.height - 1) (fun z normals =>
    forLoop (t.width - 1) (fun x normals =>
      accumulateCell sqrt t.width t.positions z x normals) normals) normals
  { t with normals := normals.map (normalize sqrt) }

/-- The index generation of `Terrain::setupMesh` (the buffer uploads that
follow it do not change the members modelled here). -/
def setupMesh (t : Terrain R) : Terrain R :=
  let indices := forLoop (t.height - 1) (fun z indices =>
    forLoop (t.width - 1) (fun x (indices : List Int) =>
      let i0 := z * t.width + x
      let i1 := z * t.width + x + 1
      let i2 := (z + 1) * t.width + x
      let i3 := (z + 1) * t.width + x + 1
      indices ++ [i0] ++ [i1] ++ [i2] ++ [i1] ++ [i3] ++ [i2]) indices) []
  { t with indices := indices }

/-- The loader `Terrain::loadHeightmap`; `img` is the result of `stbi_load`
(`none` for a decode failure). -/
def loadHeightmap (sqrt : R → R) (t : Terrain R) (img : Option Image) : Bool × Terrain R :=
  match img with
  | none => (false, t)
  | some img =>
    let t := { t with width := img.width, height := img.height }
    let t := processHeights t img.data
    let t := generatePositions t
    let t := calculateNormals sqrt t
    let t := setupMesh t
    (true, t)

/-- The constructor `Terrain::Terrain()`. -/
def new : Terrain R :=
  { width := 0, height := 0, heightScale := 1, horizontalScale := 1, heights := [],
    positions := [], normals := [], texCoords := [], indices := [], textureRepeat := 10,
    maxHeight := 0 }

/-- The setter `Terrain::setHeightScale`. -/
def setHeightScale (t : Terrain R) (scale : R) : Terrain R := { t with heightScale := scale }

/-- The setter `Terrain::setHorizontalScale`. -/
def setHorizontalScale (t : Terrain R) (scale : R) : Terrain R :=
  { t with horizontalScale := scale }

/-- The getter `Terrain::getWidth`. -/
def getWidth (t : Terrain R) : Int := t.width

/-- The getter `Terrain::getHeight`. -/
def getHeight (t : Terrain R) : Int := t.height

/-- The getter `Terrain::getHorizontalScale`. -/
def getHorizontalScale (t : Terrain R) : R := t.horizontalScale

/-- The fields that the sample loop leaves alone. -/
def HeightsFrame (t0 t : Terrain R) : Prop :=
  t.width = t0.width ∧ t.height = t0.height ∧ t.heightScale = t0.heightScale ∧
  t.horizontalScale = t0.horizontalScale ∧ t.positions = t0.positions ∧
  t.normals = t0.normals ∧ t.texCoords = t0.texCoords ∧ t.indices = t0.indices ∧
  t.textureRepeat = t0.textureRepeat

/-- The state of the position loop nest: everything but `positions` and
`texCoords` is as in `t1`, and the cells selected by `done` hold their vertex. -/
def GenInv (t1 : Terrain R) (wn : Nat) (done : Nat → Nat → Prop) (t : Terrain R) : Prop :=
  t.width = t1.width ∧ t.height = t1.height ∧ t.heightScale = t1.heightScale ∧
  t.horizontalScale = t1.horizontalScale ∧ t.heights = t1.heights ∧ t.normals = t1.normals ∧
  t.indices = t1.indices ∧ t.textureRepeat = t1.textureRepeat ∧ t.maxHeight = t1.maxHeight ∧
  t.positions.length = t1.positions.length ∧
  ∀ z x : Nat, x < wn → done z x →
    t.positions[z * wn + x]? = some
      ⟨(x : R) * t1.horizontalScale - t1.halfWidth,
       (readAt t1.heights ((z * wn + x : Nat) : Int)).getD 0,
       (z : R) * t1.horizontalScale - t1.halfDepth⟩

/-- A terrain whose vertex vector has one entry per cell of a non-empty grid. -/
structure IsGrid (t : Terrain R) : Prop where
  width_pos : 1 ≤ t.width
  height_pos : 1 ≤ t.height
  length_positions : t.positions.length = (t.width * t.height).toNat

end Terrain

/-- Newton iteration for the integer square root of `n` from the estimate `x`. -/
def natSqrtIter : Nat → Nat → Nat → Nat
  | 0, _, x => x
  | fuel + 1, n, x =>
    let y := (x + n / x) / 2
    if y < x then natSqrtIter fuel n y else x

/-- The integer square root of `n`. -/
def natSqrt (n : Nat) : Nat := if n = 0 then 0 else natSqrtIter n n n

/-- A square root on `ℚ` that is exact on squares of rationals, for evaluating
the definitions on concrete inputs whose lengths are rational. -/
def ratSqrt (q : ℚ) : ℚ := (natSqrt q.num.toNat : ℚ) / (natSqrt q.den : ℚ)

/-- The decoded 2x2 image with samples `[0, 0, 0, 10]`. -/
def cornerImage : Terrain.Image := ⟨2, 2, [0, 0, 0, 10]⟩

/-- The terrain loaded from `cornerImage` with `heightScale = 255` and
`horizontalScale = 1`: its elevations are `[0, 0, 0, 10]`. -/
def cornerTerrain : Terrain ℚ :=
  (Terrain.loadHeightmap ratSqrt (Terrain.new.setHeightScale 255) (some cornerImage)).2

namespace Glm

variable {R : Type} [LinearOrderedField R]

/-- An exact square root: non-negative, and squaring it gives the argument back. -/
def IsSqrt {R : Type} [LinearOrderedField R] (sqrt : R → R) : Prop :=
  ∀ x : R, 0 ≤ x → 0 ≤ sqrt x ∧ sqrt x * sqrt x = x

end Glm

namespace Terrain

variable {R : Type} [LinearOrderedField R] [FloorRing R]

/-- Every stored vector has a non-positive `y` component. -/
def AllNonpos (v : List (Vec3 R)) : Prop := ∀ (k : Nat) (p : Vec3 R), v[k]? = some p → p.y ≤ 0

/-- Entry `i` exists and has a strictly negative `y` component. -/
def NegAt (v : List (Vec3 R)) (i : Int) : Prop := ∃ p : Vec3 R, readAt v i = some p ∧ p.y < 0

/-- The vertices of `t` sit on the centred grid with spacing `horizontalScale`. -/
def OnGrid (t : Terrain R) : Prop :=
  ∀ i j : Int, 0 ≤ i → i < t.width → 0 ≤ j → j < t.height →
    ∃ y : R, readAt t.positions (j * t.width + i) = some
      ⟨(i : R) * t.horizontalScale - t.halfWidth, y, (j : R) * t.horizontalScale - t.halfDepth⟩

/-- The state of the accumulation loop of `calculateNormals`: no entry points
upward, and the four corners of every cell selected by `done` point downward. -/
def NormInv (w : Int) (n wn1 : Nat) (done : Nat → Nat → Prop) (v : List (Vec3 R)) : Prop :=
  v.length = n ∧ AllNonpos v ∧
  ∀ z x : Nat, x < wn1 → done z x →
    NegAt v (z * w + x) ∧ NegAt v (z * w + x + 1) ∧
    NegAt v ((z + 1) * w + x) ∧ NegAt v ((z + 1) * w + x + 1)

end Terrain

/-- The decoded 2x2 image with all samples `0`. -/
def flatImage : Terrain.Image := ⟨2, 2, [0, 0, 0, 0]⟩

/-- The flat terrain at height 0 loaded from `flatImage` with
`horizontalScale = 20`: it spans `[-10, 10] × [-10, 10]`. -/
def flatTerrain : Terrain ℚ :=
  (Terrain.loadHeightmap ratSqrt (Terrain.new.setHorizontalScale 20) (some flatImage)).2

/-- The data members of `class Hiker` that the path loading and the traversal
use; `terrainRef` is the terrain the pointer refers to, if it is set. -/
structure Hiker (R : Type) where
  terrainRef : Option (Terrain R)
  pathPoints : List (Vec3 R)
  segmentDistances : List R
  totalPathLength : R
  currentDistance : R
  currentSegmentIndex : Int
  speed : R
  movingForward : Bool
  horizontalScale : R
  heightScale : R
  position : Vec3 R
deriving DecidableEq, Repr

namespace Hiker

variable {R : Type} [LinearOrderedField R] [FloorRing R]

/-- The constructor `Hiker::Hiker`. -/
def new : Hiker R :=
  { terrainRef := none, pathPoints := [], segmentDistances := [], totalPathLength := 0,
    currentDistance := 0, currentSegmentIndex := 0, speed := 5, movingForward := true,
    horizontalScale := 1, heightScale := 1, position := Vec3.zero }

/-- The setter `Hiker::setScales(float hScale, float vScale)`. -/
def setScales (h : Hiker R) (hScale vScale : R) : Hiker R :=
  { h with horizontalScale := hScale, heightScale := vScale }

/-- The setter `Hiker::setSpeed`. -/
def setSpeed (h : Hiker R) (newSpeed : R) : Hiker R := { h with speed := newSpeed }

/-- The setter `Hiker::setTerrain`. -/
def setTerrain (h : Hiker R) (terrain : Terrain R) : Hiker R :=
  { h with terrainRef := some terrain }

/-- The read loop `while (file >> x >> y >> z)` of `loadPathData` on the results
of the successive extractions `file >> v`, `some v` for an extraction that
succeeds and `none` for one that fails (no number at the read position, a
number outside the range of `float`, or the end of the file): reading stops at
the first failure. -/
def readPoints : List (Option R) → List (Vec3 R)
  | some x :: some y :: some z :: rest => ⟨x, y, z⟩ :: readPoints rest
  | _ => []

/-- The body of the loop of `validatePath` for one point; `none` when the
height query reads out of range. -/
def validatePoint (h : Hiker R) (terrain : Terrain R) (minX maxX minZ maxZ : R)
    (point : Vec3 R) : Option (Vec3 R) :=
  let x := clamp (point.x * h.horizontalScale) minX maxX
  let z := clamp (point.z * h.horizontalScale) minZ maxZ
  match terrain.getHeightAtPosition x z with
  | some terrainHeight => some ⟨x, terrainHeight + 1 / 2, z⟩
  | none => none

/-- The path validation `Hiker::validatePath`. -/
def validatePath (h : Hiker R) (terrain : Terrain R) : Option (Hiker R) :=
  if h.pathPoints.isEmpty then some h
  else
    let terrainWidth : R := (terrain.getWidth : R) * terrain.getHorizontalScale
    let terrainDepth : R := (terrain.getHeight : R) * terrain.getHorizontalScale
    let minX := -terrainWidth * (1 / 2)
    let maxX := terrainWidth * (1 / 2)
    let minZ := -terrainDepth * (1 / 2)
    let maxZ := terrainDepth * (1 / 2)
    match h.pathPoints.mapM (validatePoint h terrain minX maxX minZ maxZ) with
    | some validatedPath => some { h with pathPoints := validatedPath }
    | none => none

/-- The body of the loop of `calculateSegmentDistances` for the index `i ≥ 1`. -/
def addSegment (sqrt : R → R) (i : Nat) (h : Hiker R) : Hiker R :=
  let segmentLength := distance sqrt (h.pathPoints.getD (i - 1) Vec3.zero)
    (h.pathPoints.getD i Vec3.zero)
  let total := h.totalPathLength + segmentLength
  { h with totalPathLength := total, segmentDistances := h.segmentDistances ++ [total] }

/-- The arc-length table `Hiker::calculateSegmentDistances`: the loop runs over
`i = 1, …, pathPoints.size() - 1`. -/
def calculateSegmentDistances (sqrt : R → R) (h : Hiker R) : Hiker R :=
  let h := { h with segmentDistances := [0], totalPathLength := 0 }
  (List.range' 1 (h.pathPoints.length - 1)).foldl (fun acc i => addSegment sqrt i acc) h

/-- The loader `Hiker::loadPathData`; `file` holds the results of the
extractions from the path file, as for `readPoints` (`none` when the file
cannot be opened).  The result is `none` when the
validation reads the terrain out of range. -/
def loadPathData (sqrt : R → R) (h : Hiker R) (file : Option (List (Option R)))
    (terrain : Terrain R) : Option (Bool × Hiker R) :=
  match file with
  | none => some (false, h)
  | some tokens =>
    let h := { h with pathPoints := readPoints tokens }
    if h.pathPoints.isEmpty then some (false, h)
    else
      match validatePath h terrain with
      | none => none
      | some h =>
        let h := calculateSegmentDistances sqrt h
        match h.pathPoints.head? with
        | none => none
        | some p0 => some (true, { h with position := p0, currentDistance := 0,
                                          currentSegmentIndex := 0 })

/-- The value `segmentDistances.size() - 1` computed in `size_t` (it wraps for
an empty vector); the `int` index it is compared with is never negative. -/
def sizeMinusOne (n : Nat) : Int := if n = 0 then 2 ^ 64 - 1 else (n : Int) - 1

/-- The first search loop of `updatePosition`,
`while (index < size - 1 && currentDistance > segmentDistances[index + 1]) index++`;
`fuel` bounds the number of tests and `none` is an out-of-range read. -/
def searchForward (segmentDistances : List R) (currentDistance : R) : Nat → Int → Option Int
  | 0, _ => none
  | fuel + 1, index =>
    if index < sizeMinusOne segmentDistances.length then
      match readAt segmentDistances (index + 1) with
      | some d =>
        if currentDistance > d then searchForward segmentDistances currentDistance fuel (index + 1)
        else some index
      | none => none
    else some index

/-- The second search loop of `updatePosition`,
`while (index > 0 && currentDistance < segmentDistances[index]) index--`. -/
def searchBackward (segmentDistances : List R) (currentDistance : R) : Nat → Int → Option Int
  | 0, _ => none
  | fuel + 1, index =>
    if index > 0 then
      match readAt segmentDistances index with
      | some d =>
        if currentDistance < d then searchBackward segmentDistances currentDistance fuel (index - 1)
        else some index
      | none => none
    else some index

/-- The first half of `updatePosition`: the cursor arithmetic up to the search
loops. -/
def advanceDistance (h : Hiker R) (deltaTime : R) : Hiker R :=
  let distanceToMove := h.speed * deltaTime
  let h := { h with currentDistance := h.currentDistance + distanceToMove }
  let h := if h.currentDistance ≥ h.totalPathLength then
      { h with currentDistance := 0, currentSegmentIndex := 0 }
    else h
  if h.movingForward then
    let h := { h with currentDistance := h.currentDistance + distanceToMove }
    if h.currentDistance ≥ h.totalPathLength then
      { h with currentDistance := h.totalPathLength, movingForward := false }
    else h
  else
    let h := { h with currentDistance := h.currentDistance - distanceToMove }
    if h.currentDistance ≤ 0 then
      { h with currentDistance := 0, movingForward := true }
    else h

/-- The traversal step `Hiker::updatePosition`; `none` when a vector is read
out of range or `segmentLength` is zero: the `float` quotient `t` is then NaN or
infinite, and so is the position handed to the height query.  The first search
loop makes at most `segmentDistances.size()` tests and the second at most
`index + 1`, which is the fuel they are given. -/
def updatePosition (h : Hiker R) (deltaTime : R) (terrain : Terrain R) : Option (Hiker R) :=
  let h := advanceDistance h deltaTime
  match searchForward h.segmentDistances h.currentDistance (h.segmentDistances.length + 1)
      h.currentSegmentIndex with
  | none => none
  | some index =>
  match searchBackward h.segmentDistances h.currentDistance (index.toNat + 1) index with
  | none => none
  | some index =>
  let h := { h with currentSegmentIndex := index }
  match readAt h.segmentDistances h.currentSegmentIndex,
        readAt h.segmentDistances (h.currentSegmentIndex + 1),
        readAt h.pathPoints h.currentSegmentIndex,
        readAt h.pathPoints (h.currentSegmentIndex + 1) with
  | some segmentStartDistance, some segmentEndDistance, some startPoint, some endPoint =>
    let segmentLength := segmentEndDistance - segmentStartDistance
    match fdiv (h.currentDistance - segmentStartDistance) segmentLength with
    | some t =>
      let interpolatedPosition := mixVec startPoint endPoint t
      match terrain.getHeightAtPosition interpolatedPosition.x interpolatedPosition.z with
      | some terrainHeight =>
        some { h with position := { interpolatedPosition with y := terrainHeight + 1 / 2 } }
      | none => none
    | none => none
  | _, _, _, _ => none

/-- The command `Hiker::moveForward`. -/
def moveForward (h : Hiker R) (deltaTime : R) : Option (Hiker R) :=
  let h := { h with movingForward := true }
  match h.terrainRef with
  | some terrain => updatePosition h deltaTime terrain
  | none => some h

/-- The command `Hiker::moveBackward`. -/
def moveBackward (h : Hiker R) (deltaTime : R) : Option (Hiker R) :=
  let h := { h with movingForward := false }
  match h.terrainRef with
  | some terrain => updatePosition h deltaTime terrain
  | none => some h

/-- The reset `Hiker::resetPath`. -/
def resetPath (h : Hiker R) : Hiker R :=
  let h := { h with currentDistance := 0, currentSegmentIndex := 0, movingForward := true }
  match h.pathPoints.head? with
  | some p0 => { h with position := p0 }
  | none => h

/-- The getter `Hiker::getPosition`. -/
def getPosition (h : Hiker R) : Vec3 R := h.position

end Hiker

/-- The values extracted from the path file `0 0 0  10 0 0  10 0 10`. -/
def cornerPathFile : List (Option ℚ) :=
  [some 0, some 0, some 0, some 10, some 0, some 0, some 10, some 0, some 10]

/-- The result of `loadPathData` on `cornerPathFile` over the flat terrain for a
freshly constructed hiker (scales 1) with the terrain set and speed 5. -/
def cornerLoad : Option (Bool × Hiker ℚ) :=
  Hiker.loadPathData ratSqrt ((Hiker.new.setTerrain flatTerrain).setSpeed 5)
    (some cornerPathFile) flatTerrain

/-- The hiker loaded by `cornerLoad`, reset to the start of its track. -/
def cornerHiker : Option (Hiker ℚ) := cornerLoad.map (fun r => r.2.resetPath)

/-- A hiker holding the three waypoints `(0,½,0), (10,½,0), (10,½,10)`. -/
def trackHiker : Hiker ℚ :=
  { (Hiker.new : Hiker ℚ) with pathPoints := [⟨0, 1 / 2, 0⟩, ⟨10, 1 / 2, 0⟩, ⟨10, 1 / 2, 10⟩] }

namespace Hiker

variable {R : Type} [LinearOrderedField R] [FloorRing R]

/-- The state of the loop of `calculateSegmentDistances` after `k` segments. -/
def SegInv (sqrt : R → R) (points : List (Vec3 R)) (k : Nat) (s : Hiker R) : Prop :=
  s.pathPoints = points ∧ s.segmentDistances.length = k + 1 ∧
  s.segmentDistances[0]? = some 0 ∧
  s.segmentDistances[k]? = some s.totalPathLength ∧
  ∀ i : Nat, 1 ≤ i → i ≤ k →
    ∃ (d0 d1 : R) (p0 p1 : Vec3 R),
      s.segmentDistances[i - 1]? = some d0 ∧ s.segmentDistances[i]? = some d1 ∧
      points[i - 1]? = some p0 ∧ points[i]? = some p1 ∧
      d1 = d0 + Glm.length sqrt (p1.sub p0)

end Hiker

namespace Terrain

variable {R : Type} [LinearOrderedField R] [FloorRing R]

/-- The elevation `data[i] / 255.0f * heightScale` of sample `i`. -/
def sampleHeight (data : List Nat) (heightScale : R) (i : Nat) : R :=
  ((data.getD i 0 : Nat) : R) / 255 * heightScale

/-- The state of the sample loop of `loadHeightmap` after `k` samples: the
first `k` heights are stored and `maxHeight` is the larger of 0 and their
maximum. -/
def HeightsInv (t0 : Terrain R) (data : List Nat) (k : Nat) (t : Terrain R) : Prop :=
  HeightsFrame t0 t ∧ t.heights.length = t0.heights.length ∧
  (∀ i : Nat, i < k → t.heights[i]? = some (sampleHeight data t0.heightScale i)) ∧
  (∀ i : Nat, i < k → sampleHeight data t0.heightScale i ≤ t.maxHeight) ∧
  0 ≤ t.maxHeight ∧
  (t.maxHeight = 0 ∨ ∃ i : Nat, i < k ∧ t.maxHeight = sampleHeight data t0.heightScale i)

end Terrain

/-- The terrain loaded from a 2x2 image of samples 255 with `heightScale = -1`:
every elevation is `-1`. -/
def sunkenTerrain : Terrain ℚ :=
  (Terrain.loadHeightmap ratSqrt (Terrain.new.setHeightScale (-1))
    (some ⟨2, 2, [255, 255, 255, 255]⟩)).2

/-- A freshly constructed hiker holding the single raw waypoint `(15, 0, 0)`. -/
def strayHiker : Hiker ℚ := { (Hiker.new : Hiker ℚ) with pathPoints := [⟨15, 0, 0⟩] }

/-- The waypoints of `trackHiker` with other elevations. -/
def liftedPoints : List (Vec3 ℚ) := [⟨0, 7, 0⟩, ⟨10, -3, 0⟩, ⟨10, 100, 10⟩]

namespace Hiker

variable {R : Type} [LinearOrderedField R] [FloorRing R]

/-- The track members are the ones that `calculateSegmentDistances` computes
from `pathPoints`, as `loadPathData` leaves them. -/
def TrackLoaded (sqrt : R → R) (h : Hiker R) : Prop :=
  h.segmentDistances = (calculateSegmentDistances sqrt h).segmentDistances ∧
  h.totalPathLength = (calculateSegmentDistances sqrt h).totalPathLength

/-- The segment invariant of the walker: the segment index is valid and its
segment contains the cursor,
`segmentDistances[index] ≤ currentDistance ≤ segmentDistances[index+1]`. -/
def SegmentInvariant (h : Hiker R) : Prop :=
  0 ≤ h.currentSegmentIndex ∧ h.currentSegmentIndex ≤ (h.pathPoints.length : Int) - 2 ∧
  ∃ d0 d1 : R, readAt h.segmentDistances h.currentSegmentIndex = some d0 ∧
    readAt h.segmentDistances (h.currentSegmentIndex + 1) = some d1 ∧
    d0 ≤ h.currentDistance ∧ h.currentDistance ≤ d1

/-- The cursor range invariant of the walker, `0 ≤ currentDistance ≤ totalPathLength`. -/
def CursorInRange (h : Hiker R) : Prop :=
  0 ≤ h.currentDistance ∧ h.currentDistance ≤ h.totalPathLength

/-- No two consecutive cumulative distances coincide: every segment of the
track has non-zero length. -/
def NoZeroSegment (h : Hiker R) : Prop :=
  ∀ (i : Int) (d0 d1 : R), readAt h.segmentDistances i = some d0 →
    readAt h.segmentDistances (i + 1) = some d1 → d0 ≠ d1

end Hiker

/-- The example hiker as a value: loaded over the flat terrain and reset. -/
def loadedHiker : Hiker ℚ := cornerHiker.getD Hiker.new

/-- The values extracted from the path file `5 0 5`: a single waypoint. -/
def singlePathFile : List (Option ℚ) := [some 5, some 0, some 5]

/-- The result of `loadPathData` on `singlePathFile` over the flat terrain for a
freshly constructed hiker with the terrain set and speed 5. -/
def singleLoad : Option (Bool × Hiker ℚ) :=
  Hiker.loadPathData ratSqrt ((Hiker.new.setTerrain flatTerrain).setSpeed 5)
    (some singlePathFile) flatTerrain

/-- The hiker that `singleLoad` leaves. -/
def singleHiker : Hiker ℚ := (singleLoad.map (fun r => r.2)).getD Hiker.new

/-- The values extracted from the path file `0 0 0  0 0 0  10 0 0`: the first waypoint is
listed twice. -/
def stalledPathFile : List (Option ℚ) :=
  [some 0, some 0, some 0, some 0, some 0, some 0, some 10, some 0, some 0]

/-- The result of `loadPathData` on `stalledPathFile` over the flat terrain for a
freshly constructed hiker with the terrain set and speed 5. -/
def stalledLoad : Option (Bool × Hiker ℚ) :=
  Hiker.loadPathData ratSqrt ((Hiker.new.setTerrain flatTerrain).setSpeed 5)
    (some stalledPathFile) flatTerrain

/-- The hiker that `stalledLoad` leaves. -/
def stalledHiker : Hiker ℚ := (stalledLoad.map (fun r => r.2)).getD Hiker.new

/-- The data members of `class AnimatedCharacter` that the traversal uses; the
OpenGL buffer handles and `elevationChange`, which no traversal step reads, are
left out. -/
structure AnimatedCharacter (R : Type) where
  characterPosition : Vec3 R
  pathPoints : List (Vec3 R)
  progress : R
  currentPathIndex : Int
  movingForward : Bool
  movementSpeed : R
  totalPathLength : R
  distanceHiked : R
  distanceRemaining : R
  timeElapsed : R
deriving DecidableEq, Repr

namespace AnimatedCharacter

variable {R : Type} [LinearOrderedField R] [FloorRing R]

/-- The constructor `AnimatedCharacter::AnimatedCharacter()`. -/
def new : AnimatedCharacter R :=
  { characterPosition := Vec3.zero, pathPoints := [], progress := 0, currentPathIndex := 0,
    movingForward := true, movementSpeed := 5, totalPathLength := 0, distanceHiked := 0,
    distanceRemaining := 0, timeElapsed := 0 }

/-- The value of the `int` `currentPathIndex` after its conversion to `size_t`
for a comparison with `pathPoints.size() - 1`. -/
def toSizeT (i : Int) : Int := if 0 ≤ i then i else i + 2 ^ 64

/-- The command `AnimatedCharacter::moveForward`. -/
def moveForward (c : AnimatedCharacter R) (deltaTime : R) : AnimatedCharacter R :=
  if toSizeT c.currentPathIndex < Hiker.sizeMinusOne c.pathPoints.length then
    let c := { c with progress := c.progress + c.movementSpeed * deltaTime }
    if c.progress ≥ 1 then
      { c with progress := 0, currentPathIndex := c.currentPathIndex + 1 }
    else c
  else c

/-- The command `AnimatedCharacter::moveBackward`. -/
def moveBackward (c : AnimatedCharacter R) (deltaTime : R) : AnimatedCharacter R :=
  if c.currentPathIndex > 0 then
    let c := { c with progress := c.progress - c.movementSpeed * deltaTime }
    if c.progress ≤ 0 then
      { c with progress := 1, currentPathIndex := c.currentPathIndex - 1 }
    else c
  else c

/-- The helper `AnimatedCharacter::calculatePathLength`: the loop runs over
`i = 1, …, pathPoints.size() - 1`. -/
def calculatePathLength (sqrt : R → R) (c : AnimatedCharacter R) : R :=
  (List.range' 1 (c.pathPoints.length - 1)).foldl (fun length i =>
    length + distance sqrt (c.pathPoints.getD (i - 1) Vec3.zero)
      (c.pathPoints.getD i Vec3.zero)) 0

/-- The loader `AnimatedCharacter::loadPathData` (the buffer setup that follows
it does not change the members modelled here). -/
def loadPathData (sqrt : R → R) (c : AnimatedCharacter R) (path : List (Vec3 R)) :
    AnimatedCharacter R :=
  let c := { c with pathPoints := path }
  match c.pathPoints.head? with
  | some p0 =>
    let c := { c with characterPosition := p0 }
    let c := { c with totalPathLength := calculatePathLength sqrt c }
    { c with distanceHiked := 0, distanceRemaining := c.totalPathLength }
  | none => c

/-- The progress arithmetic of `updatePosition`: advance `progress`, and on
reaching 1 start the next segment, wrapping to segment 0 after the last one. -/
def advanceProgress (c : AnimatedCharacter R) (deltaTime : R) : AnimatedCharacter R :=
  let c := { c with progress := c.progress + c.movementSpeed * deltaTime }
  if c.progress ≥ 1 then
    let c := { c with progress := 0, currentPathIndex := c.currentPathIndex + 1 }
    if toSizeT c.currentPathIndex ≥ Hiker.sizeMinusOne c.pathPoints.length then
      { c with currentPathIndex := 0 }
    else c
  else c

/-- The traversal step `AnimatedCharacter::updatePosition`; `none` when a
vector is read out of range. -/
def updatePosition (c : AnimatedCharacter R) (deltaTime : R) (terrain : Terrain R) :
    Option (AnimatedCharacter R) :=
  if c.pathPoints.isEmpty = true ∨
      toSizeT c.currentPathIndex ≥ Hiker.sizeMinusOne c.pathPoints.length then some c
  else
    match readAt c.pathPoints c.currentPathIndex,
          readAt c.pathPoints (c.currentPathIndex + 1) with
    | some start, some endPoint =>
      let c := advanceProgress c deltaTime
      let characterPosition := mixVec start endPoint c.progress
      match terrain.getHeightAtPosition characterPosition.x characterPosition.z with
      | some terrainHeight =>
        some { c with characterPosition := { characterPosition with y := terrainHeight + 2 } }
      | none => none
    | _, _ => none

/-- The reset `AnimatedCharacter::resetHike`. -/
def resetHike (c : AnimatedCharacter R) : AnimatedCharacter R :=
  { c with currentPathIndex := 0, progress := 0, movingForward := true, distanceHiked := 0,
           distanceRemaining := c.totalPathLength, timeElapsed := 0,
           characterPosition := c.pathPoints.head?.getD Vec3.zero }

/-- The getter `AnimatedCharacter::getCurrentPosition`. -/
def getCurrentPosition (c : AnimatedCharacter R) : Vec3 R := c.characterPosition

end AnimatedCharacter

/-- The character loaded with the validated waypoints of `loadedHiker`,
`(0,½,0), (10,½,0), (10,½,10)`, as `HikingSimulator` loads it. -/
def loadedCharacter : AnimatedCharacter ℚ :=
  AnimatedCharacter.loadPathData ratSqrt AnimatedCharacter.new loadedHiker.pathPoints

/-- The hiker `stalledHiker` after one step of 2 s over the flat terrain, which
takes it to the end of its track. -/
def turnedHiker : Hiker ℚ := (Hiker.updatePosition stalledHiker 2 flatTerrain).getD Hiker.new

/-- The example hiker `loadedHiker` after one step of 3 s over the flat
terrain, which takes it to the end of its track. -/
def endHiker : Hiker ℚ := (Hiker.updatePosition loadedHiker 3 flatTerrain).getD Hiker.new

/-- The decoded 3x3 image with the single non-zero sample 10 in the middle. -/
def peakImage : Terrain.Image := ⟨3, 3, [0, 0, 0, 0, 10, 0, 0, 0, 0]⟩

/-- The terrain loaded from `peakImage` with `heightScale = 255` and
`horizontalScale = 1`: a peak of elevation 10 over a flat border. -/
def peakTerrain : Terrain ℚ :=
  (Terrain.loadHeightmap ratSqrt (Terrain.new.setHeightScale 255) (some peakImage)).2

namespace Terrain

variable {R : Type} [LinearOrderedField R] [FloorRing R]

/-- The face normal `cross(v1 - v0, v2 - v0)` of the first triangle
`(i0, i1, i2)` of the cell `(x, z)`, as `calculateNormals` computes it, before
any normalisation. -/
def faceNormal1 (width : Int) (positions : List (Vec3 R)) (z x : Int) : Vec3 R :=
  let v0 := (readAt positions (z * width + x)).getD Vec3.zero
  let v1 := (readAt positions (z * width + x + 1)).getD Vec3.zero
  let v2 := (readAt positions ((z + 1) * width + x)).getD Vec3.zero
  cross (v1.sub v0) (v2.sub v0)

/-- The face normal `cross(v3 - v1, v2 - v1)` of the second triangle
`(i1, i3, i2)` of the cell `(x, z)`, before any normalisation. -/
def faceNormal2 (width : Int) (positions : List (Vec3 R)) (z x : Int) : Vec3 R :=
  let v1 := (readAt positions (z * width + x + 1)).getD Vec3.zero
  let v2 := (readAt positions ((z + 1) * width + x)).getD Vec3.zero
  let v3 := (readAt positions ((z + 1) * width + x + 1)).getD Vec3.zero
  cross (v3.sub v1) (v2.sub v1)

/-- The first two loops of `calculateNormals`: the normals reset to zero and
the face normals of every cell accumulated onto them, before the final
normalisation loop. -/
def accumulatedNormals (sqrt : R → R) (t : Terrain R) : List (Vec3 R) :=
  forLoop (t.height - 1) (fun z normals =>
    forLoop (t.width - 1) (fun x normals =>
      accumulateCell sqrt t.width t.positions z x normals) normals)
    (t.normals.map (fun _ => Vec3.zero))

/-- What the two triangles of the cell `(x, z)` add to the sum kept for the
vertex `i`: `f` of the face normal of each triangle that has `i` as a corner. -/
def incidentCell (f : Vec3 R → Vec3 R) (width : Int) (positions : List (Vec3 R)) (i z x : Int)
    (acc : Vec3 R) : Vec3 R :=
  let i0 := z * width + x
  let i1 := z * width + x + 1
  let i2 := (z + 1) * width + x
  let i3 := (z + 1) * width + x + 1
  let acc := if i = i0 ∨ i = i1 ∨ i = i2 then acc.add (f (faceNormal1 width positions z x))
    else acc
  if i = i1 ∨ i = i3 ∨ i = i2 then acc.add (f (faceNormal2 width positions z x)) else acc

/-- The sum, over the triangles of the mesh incident to the vertex `i`, of `f`
applied to the triangle's face normal: with `f = id` the area-weighted sum of
the specification, with `f = normalize` the sum of unit face normals. -/
def incidentSum (f : Vec3 R → Vec3 R) (t : Terrain R) (i : Int) : Vec3 R :=
  forLoop (t.height - 1) (fun z acc =>
    forLoop (t.width - 1) (fun x acc =>
      incidentCell f t.width t.positions i z x acc) acc) Vec3.zero

end Terrain

/-- The decoded 2x2 image with samples `[16, 24, 25, 9]`. -/
def slopeImage : Terrain.Image := ⟨2, 2, [16, 24, 25, 9]⟩

/-- The terrain loaded from `slopeImage` with `heightScale = 255` and
`horizontalScale = 12`: its elevations are `[16, 24, 25, 9]`, and its two
triangles have the face normals `(96, -144, 108)` of length 204 and
`(-192, -144, -180)` of length 300. -/
def slopeTerrain : Terrain ℚ :=
  (Terrain.loadHeightmap ratSqrt ((Terrain.new.setHeightScale 255).setHorizontalScale 12)
    (some slopeImage)).2

/-- The number of binary digits of `n`, for `n ≤ fuel`. -/
def bitLength : Nat → Nat → Nat
  | 0, _ => 0
  | fuel + 1, n => if n = 0 then 0 else bitLength fuel (n / 2) + 1

/-- The integer `⌊log₂ |q|⌋` of a non-zero rational `q`. -/
def ilog2 (q : ℚ) : ℤ :=
  let e : ℤ := (bitLength q.num.natAbs q.num.natAbs : ℤ) - (bitLength q.den q.den : ℤ)
  if (2 : ℚ) ^ e ≤ |q| then e else e - 1

/-- Rounding to the nearest integer, a tie going to the even one. -/
def roundEven (q : ℚ) : ℤ :=
  if q - ⌊q⌋ < 1 / 2 then ⌊q⌋
  else if 1 / 2 < q - ⌊q⌋ then ⌊q⌋ + 1
  else if ⌊q⌋ % 2 = 0 then ⌊q⌋ else ⌊q⌋ + 1

/-- The exponent of the unit in the last place of the binary32 `float`s next to
`q`: 24 significant bits, and `2⁻¹⁴⁹` for the subnormal ones. -/
def quantum (q : ℚ) : ℤ := max (ilog2 q - 23) (-149)

/-- The binary32 `float` nearest to `q`, a tie going to the even significand:
the result of every `float` operation whose exact result is `q`.  The format is
taken without an upper limit: a result beyond the largest `float`, which
binary32 turns into an infinity, stays finite here. -/
def round32 (q : ℚ) : ℚ := (roundEven (q / 2 ^ quantum q) : ℚ) * 2 ^ quantum q

namespace Nan

variable {R : Type} [LinearOrderedField R] [FloorRing R]

/-- The comparison `a < b` of two `float`s of which either may be NaN, written
`none`: it is false when one of them is NaN. -/
def lt (a b : Option R) : Bool :=
  match a, b with
  | some a, some b => decide (a < b)
  | _, _ => false

/-- The scalar `glm::max(x, y) = (x < y) ? y : x` on `float`s that may be NaN. -/
def max (x y : Option R) : Option R := if lt x y then y else x

/-- The scalar `glm::min(x, y) = (y < x) ? y : x` on `float`s that may be NaN. -/
def min (x y : Option R) : Option R := if lt y x then y else x

/-- The scalar `glm::clamp(x, minVal, maxVal) = min(max(x, minVal), maxVal)` on
`float`s that may be NaN. -/
def clamp (x minVal maxVal : Option R) : Option R := min (max x minVal) maxVal

/-- The conversion `static_cast<int>(f)` of a `float` that may be NaN: the
truncation toward zero, and undefined (`none`) for NaN. -/
def toInt (f : Option R) : Option Int := f.map Glm.toInt

end Nan

namespace Fp

variable {R : Type} [LinearOrderedField R] [FloorRing R]

/-- The properties of the rounding `rnd` of `float` arithmetic that the height
query depends on: it is monotone and leaves a `float` alone, the integers up to
`2²⁴` and their halves are `float`s, and so is the fractional part of a
non-negative `float`.  The identity, which is exact arithmetic, has them too. -/
structure IsRounding (rnd : R → R) : Prop where
  mono : ∀ x y : R, x ≤ y → rnd x ≤ rnd y
  idem : ∀ x : R, rnd (rnd x) = rnd x
  int : ∀ n : Int, |n| ≤ 2 ^ 24 → rnd (n : R) = (n : R)
  halves : ∀ n : Int, |n| ≤ 2 ^ 24 → rnd ((n : R) / 2) = (n : R) / 2
  fract : ∀ x : R, 0 ≤ x → rnd x = x → rnd (x - (⌊x⌋ : R)) = x - (⌊x⌋ : R)

/-- The scalar `glm::mix(x, y, a) = x * (1 - a) + y * a` in `float` arithmetic:
each of the four operations rounds its result with `rnd`. -/
def mix (rnd : R → R) (x y a : R) : R := rnd (rnd (x * rnd (1 - a)) + rnd (y * a))

/-- The value `halfWidth = (width - 1) * horizontalScale * 0.5f` in `float`
arithmetic. -/
def halfWidth (rnd : R → R) (t : Terrain R) : R :=
  rnd (rnd (rnd ((t.width - 1 : Int) : R) * t.horizontalScale) * (1 / 2))

/-- The value `halfDepth = (height - 1) * horizontalScale * 0.5f` in `float`
arithmetic. -/
def halfDepth (rnd : R → R) (t : Terrain R) : R :=
  rnd (rnd (rnd ((t.height - 1 : Int) : R) * t.horizontalScale) * (1 / 2))

/-- The fractional grid column `(x + halfWidth) / horizontalScale` of
`getHeightAtPosition` before it is clamped; NaN for a NaN coordinate, and `none`
also for a zero `horizontalScale`, where the `float` quotient is NaN or
infinite. -/
def gridX (rnd : R → R) (t : Terrain R) (x : Option R) : Option R :=
  x.bind (fun x => (fdiv (rnd (x + halfWidth rnd t)) t.horizontalScale).map rnd)

/-- The fractional grid row `(z + halfDepth) / horizontalScale` of
`getHeightAtPosition` before it is clamped. -/
def gridZ (rnd : R → R) (t : Terrain R) (z : Option R) : Option R :=
  z.bind (fun z => (fdiv (rnd (z + halfDepth rnd t)) t.horizontalScale).map rnd)

/-- The clamped grid column `localX` of `getHeightAtPosition`. -/
def localX (rnd : R → R) (t : Terrain R) (x : Option R) : Option R :=
  Nan.clamp (gridX rnd t x) (some 0) (some (rnd ((t.width - 1 : Int) : R)))

/-- The clamped grid row `localZ` of `getHeightAtPosition`. -/
def localZ (rnd : R → R) (t : Terrain R) (z : Option R) : Option R :=
  Nan.clamp (gridZ rnd t z) (some 0) (some (rnd ((t.height - 1 : Int) : R)))

/-- The bilinear height query `Terrain::getHeightAtPosition` in `float`
arithmetic, for coordinates that may be NaN; `none` when a cast to `int` is
undefined or one of the four reads of `positions` is out of range. -/
def getHeightAtPosition (rnd : R → R) (t : Terrain R) (x z : Option R) : Option R :=
  let localX := localX rnd t x
  let localZ := localZ rnd t z
  match Nan.toInt localX, Nan.toInt localZ, localX, localZ with
  | some x0, some z0, some localX, some localZ =>
    let x1 : Int := Min.min (x0 + 1) (t.width - 1)
    let z1 : Int := Min.min (z0 + 1) (t.height - 1)
    let fx : R := rnd (localX - rnd (x0 : R))
    let fz : R := rnd (localZ - rnd (z0 : R))
    match readAt t.positions (z0 * t.width + x0), readAt t.positions (z0 * t.width + x1),
          readAt t.positions (z1 * t.width + x0), readAt t.positions (z1 * t.width + x1) with
    | some p00, some p10, some p01, some p11 =>
      let h0 := mix rnd p00.y p10.y fx
      let h1 := mix rnd p01.y p11.y fx
      some (mix rnd h0 h1 fz)
    | _, _, _, _ => none
  | _, _, _, _ => none

/-- The body of the first loop of `loadHeightmap` in `float` arithmetic: the
elevation `data[i] / 255.0f * heightScale` of sample `i` and the running
maximum. -/
def scaleSample (rnd : R → R) (data : List Nat) (i : Int) (t : Terrain R) : Terrain R :=
  let heightValue : R := rnd (rnd (rnd ((data.getD i.toNat 0 : Nat) : R) / 255) * t.heightScale)
  let t := { t with heights := Terrain.writeAt t.heights i heightValue }
  if heightValue > t.maxHeight then { t with maxHeight := heightValue } else t

/-- The first loop of `loadHeightmap` in `float` arithmetic, with the `resize`
and the reset of `maxHeight` that precede it. -/
def processHeights (rnd : R → R) (t : Terrain R) (data : List Nat) : Terrain R :=
  let t := { t with heights := Terrain.resize t.heights (t.width * t.height).toNat 0,
                    maxHeight := 0 }
  Terrain.forLoop (t.width * t.height) (scaleSample rnd data) t

/-- The body of the second loop nest of `loadHeightmap` in `float` arithmetic:
world position and texture coordinate of the grid vertex `(x, z)`. -/
def setVertex (rnd : R → R) (halfWidth halfDepth : R) (z x : Int) (t : Terrain R) :
    Terrain R :=
  let heightValue : R := (readAt t.heights (z * t.width + x)).getD 0
  { t with
    positions := Terrain.writeAt t.positions (z * t.width + x)
      ⟨rnd (rnd (rnd (x : R) * t.horizontalScale) - halfWidth), heightValue,
       rnd (rnd (rnd (z : R) * t.horizontalScale) - halfDepth)⟩,
    texCoords := Terrain.writeAt t.texCoords (z * t.width + x)
      ⟨rnd (rnd (rnd (x : R) / rnd ((t.width - 1 : Int) : R)) * t.textureRepeat),
       rnd (rnd (rnd (z : R) / rnd ((t.height - 1 : Int) : R)) * t.textureRepeat)⟩ }

/-- The second loop nest of `loadHeightmap` in `float` arithmetic. -/
def generatePositions (rnd : R → R) (t : Terrain R) : Terrain R :=
  let t := Terrain.resizeVertexData t
  let halfWidth := halfWidth rnd t
  let halfDepth := halfDepth rnd t
  Terrain.forLoop t.height (fun z t =>
    Terrain.forLoop t.width (fun x t => setVertex rnd halfWidth halfDepth z x t) t) t

/-- Component-wise sum of two `glm::vec3` in `float` arithmetic. -/
def add (rnd : R → R) (a b : Vec3 R) : Vec3 R :=
  ⟨rnd (a.x + b.x), rnd (a.y + b.y), rnd (a.z + b.z)⟩

/-- Component-wise difference of two `glm::vec3` in `float` arithmetic. -/
def sub (rnd : R → R) (a b : Vec3 R) : Vec3 R :=
  ⟨rnd (a.x - b.x), rnd (a.y - b.y), rnd (a.z - b.z)⟩

/-- The cross product `glm::cross` in `float` arithmetic. -/
def cross (rnd : R → R) (a b : Vec3 R) : Vec3 R :=
  ⟨rnd (rnd (a.y * b.z) - rnd (b.y * a.z)), rnd (rnd (a.z * b.x) - rnd (b.z * a.x)),
   rnd (rnd (a.x * b.y) - rnd (b.x * a.y))⟩

/-- The dot product `glm::dot` in `float` arithmetic. -/
def dot (rnd : R → R) (a b : Vec3 R) : R :=
  rnd (rnd (rnd (a.x * b.x) + rnd (a.y * b.y)) + rnd (a.z * b.z))

/-- The unit vector `glm::normalize(v) = v * inversesqrt(dot(v, v))` in `float`
arithmetic. -/
def normalize (rnd : R → R) (sqrt : R → R) (v : Vec3 R) : Vec3 R :=
  let s := rnd (1 / rnd (sqrt (dot rnd v v)))
  ⟨rnd (v.x * s), rnd (v.y * s), rnd (v.z * s)⟩

/-- The update `v[i] += d` on a vector of `glm::vec3` in `float` arithmetic. -/
def addAt (rnd : R → R) (v : List (Vec3 R)) (i : Int) (d : Vec3 R) : List (Vec3 R) :=
  match readAt v i with
  | some a => Terrain.writeAt v i (add rnd a d)
  | none => v

/-- The body of the loop nest of `calculateNormals` in `float` arithmetic. -/
def accumulateCell (rnd : R → R) (sqrt : R → R) (width : Int) (positions : List (Vec3 R))
    (z x : Int) (normals : List (Vec3 R)) : List (Vec3 R) :=
  let i0 := z * width + x
  let i1 := z * width + x + 1
  let i2 := (z + 1) * width + x
  let i3 := (z + 1) * width + x + 1
  let v0 := (readAt positions i0).getD Vec3.zero
  let v1 := (readAt positions i1).getD Vec3.zero
  let v2 := (readAt positions i2).getD Vec3.zero
  let v3 := (readAt positions i3).getD Vec3.zero
  let normal1 := normalize rnd sqrt (cross rnd (sub rnd v1 v0) (sub rnd v2 v0))
  let normal2 := normalize rnd sqrt (cross rnd (sub rnd v3 v1) (sub rnd v2 v1))
  let normals := addAt rnd normals i0 normal1
  let normals := addAt rnd normals i1 (add rnd normal1 normal2)
  let normals := addAt rnd normals i2 (add rnd normal1 normal2)
  addAt rnd normals i3 normal2

/-- The per-vertex normal estimation `Terrain::calculateNormals` in `float`
arithmetic. -/
def calculateNormals (rnd : R → R) (sqrt : R → R) (t : Terrain R) : Terrain R :=
  let normals := t.normals.map (fun _ => Vec3.zero)
  let normals := Terrain.forLoop (t.height - 1) (fun z normals =>
    Terrain.forLoop (t.width - 1) (fun x normals =>
      accumulateCell rnd sqrt t.width t.positions z x normals) normals) normals
  { t with normals := normals.map (normalize rnd sqrt) }

/-- The loader `Terrain::loadHeightmap` in `float` arithmetic; `img` is the
result of `stbi_load` (`none` for a decode failure). -/
def loadHeightmap (rnd : R → R) (sqrt : R → R) (t : Terrain R) (img : Option Terrain.Image) :
    Bool × Terrain R :=
  match img with
  | none => (false, t)
  | some img =>
    let t := { t with width := img.width, height := img.height }
    let t := processHeights rnd t img.data
    let t := generatePositions rnd t
    let t := calculateNormals rnd sqrt t
    let t := Terrain.setupMesh t
    (true, t)

end Fp

namespace Fp

variable {R : Type} [LinearOrderedField R] [FloorRing R]

/-- The stored elevations are `float`s. -/
def FloatElevations (rnd : R → R) (t : Terrain R) : Prop :=
  ∀ p ∈ t.positions, rnd p.y = p.y

end Fp

namespace Fp

variable {R : Type} [LinearOrderedField R] [FloorRing R]

/-- The elevation `data[i] / 255.0f * heightScale` of sample `i` in `float`
arithmetic. -/
def sampleHeight (rnd : R → R) (data : List Nat) (heightScale : R) (i : Nat) : R :=
  rnd (rnd (rnd ((data.getD i 0 : Nat) : R) / 255) * heightScale)

/-- The state of the sample loop of `loadHeightmap` in `float` arithmetic after
`k` samples. -/
def HeightsInv (rnd : R → R) (t0 : Terrain R) (data : List Nat) (k : Nat) (t : Terrain R) :
    Prop :=
  Terrain.HeightsFrame t0 t ∧ t.heights.length = t0.heights.length ∧
  (∀ i : Nat, i < k → t.heights[i]? = some (sampleHeight rnd data t0.heightScale i)) ∧
  (∀ i : Nat, i < k → sampleHeight rnd data t0.heightScale i ≤ t.maxHeight) ∧
  0 ≤ t.maxHeight

/-- The state of the position loop nest in `float` arithmetic: everything but
`positions` and `texCoords` is as in `t1`, and the cells selected by `done` hold
their vertex. -/
def GenInv (rnd : R → R) (t1 : Terrain R) (wn : Nat) (done : Nat → Nat → Prop)
    (t : Terrain R) : Prop :=
  t.width = t1.width ∧ t.height = t1.height ∧ t.heightScale = t1.heightScale ∧
  t.horizontalScale = t1.horizontalScale ∧ t.heights = t1.heights ∧ t.normals = t1.normals ∧
  t.indices = t1.indices ∧ t.textureRepeat = t1.textureRepeat ∧ t.maxHeight = t1.maxHeight ∧
  t.positions.length = t1.positions.length ∧
  ∀ z x : Nat, x < wn → done z x →
    t.positions[z * wn + x]? = some
      ⟨rnd (rnd (rnd (x : R) * t1.horizontalScale) - halfWidth rnd t1),
       (readAt t1.heights ((z * wn + x : Nat) : Int)).getD 0,
       rnd (rnd (rnd (z : R) * t1.horizontalScale) - halfDepth rnd t1)⟩

end Fp

/-- The decoded 6x2 image whose only non-zero sample is 255 at vertex `(1, 0)`. -/
def spikeImage : Terrain.Image := ⟨6, 2, [0, 255, 0, 0, 0, 0, 0, 0, 0, 0, 0, 0]⟩

/-- The terrain loaded in binary32 arithmetic from `spikeImage` with
`heightScale = 37` and `horizontalScale = 0.1f`: vertex `(1, 0)` has the
elevation 37, the others 0. -/
def spikeTerrain : Terrain ℚ :=
  (Fp.loadHeightmap round32 ratSqrt
    ((Terrain.new.setHeightScale 37).setHorizontalScale (round32 (1 / 10))) (some spikeImage)).2

/-- The decoded 16x2 image whose only non-zero sample is 255 at vertex `(15, 0)`. -/
def ledgeImage : Terrain.Image := ⟨16, 2, List.replicate 15 0 ++ [255] ++ List.replicate 16 0⟩

/-- The terrain loaded in binary32 arithmetic from `ledgeImage` with
`heightScale = 43` and `horizontalScale = 0.3f`: vertex `(15, 0)` has the
elevation 43, the others 0. -/
def ledgeTerrain : Terrain ℚ :=
  (Fp.loadHeightmap round32 ratSqrt
    ((Terrain.new.setHeightScale 43).setHorizontalScale (round32 (3 / 10))) (some ledgeImage)).2

/-- The decoded 3x2 image with the samples `0, 51, 102, 153, 204, 255`. -/
def stepImage : Terrain.Image := ⟨3, 2, [0, 51, 102, 153, 204, 255]⟩

/-- The terrain loaded in binary32 arithmetic from `stepImage` with
`heightScale = 5` and `horizontalScale = 1`: it spans `[-1, 1] × [-0.5, 0.5]` and
its elevations are `0, 1, 2, 3, 4, 5`. -/
def stepTerrain : Terrain ℚ :=
  (Fp.loadHeightmap round32 ratSqrt (Terrain.new.setHeightScale 5) (some stepImage)).2

/-- The values extracted from the path file `5 0 5  5 0 5`: one waypoint, listed
twice. -/
def pinnedPathFile : List (Option ℚ) := [some 5, some 0, some 5, some 5, some 0, some 5]

/-- The result of `loadPathData` on `pinnedPathFile` over the flat terrain for a
freshly constructed hiker with the terrain set and speed 5. -/
def pinnedLoad : Option (Bool × Hiker ℚ) :=
  Hiker.loadPathData ratSqrt ((Hiker.new.setTerrain flatTerrain).setSpeed 5)
    (some pinnedPathFile) flatTerrain

/-- The hiker that `pinnedLoad` leaves. -/
def pinnedHiker : Hiker ℚ := (pinnedLoad.map (fun r => r.2)).getD Hiker.new

/-- The white space of the classic locale: space, `\t`, `\n`, `\v`, `\f`, `\r`. -/
def isSpace (c : Char) : Bool :=
  c.toNat = 32 || (9 ≤ c.toNat && c.toNat ≤ 13)

/-- The value of a decimal digit, `none` for any other character. -/
def digitValue (c : Char) : Option Nat :=
  if 48 ≤ c.toNat ∧ c.toNat ≤ 57 then some (c.toNat - 48) else none

/-- The leading decimal digits of the input: their value on top of `acc`, their
number on top of `n`, and the rest of the input. -/
def takeDigits : List Char → Nat → Nat → Nat × Nat × List Char
  | [], acc, n => (acc, n, [])
  | c :: s, acc, n =>
    match digitValue c with
    | some d => takeDigits s (10 * acc + d) (n + 1)
    | none => (acc, n, c :: s)

/-- An optional sign `+` or `-`: whether it is `-`, and the rest of the input. -/
def takeSign : List Char → Bool × List Char
  | [] => (false, [])
  | c :: s => if c.toNat = 45 then (true, s) else if c.toNat = 43 then (false, s) else (false, c :: s)

/-- The value `m · 10ᵉ`. -/
def scale10 (m : ℚ) (e : Int) : ℚ := if 0 ≤ e then m * 10 ^ e.toNat else m / 10 ^ (-e).toNat

/-- The fraction part of a field: a `.` and the digits after it, as for
`takeDigits`; nothing is consumed when the input does not start with a `.`. -/
def takeFraction : List Char → Nat × Nat × List Char
  | [] => (0, 0, [])
  | c :: r => if c.toNat = 46 then takeDigits r 0 0 else (0, 0, c :: r)

/-- The exponent part of a field with the mantissa `m`: an `e` or `E`, an
optional sign and digits.  Once the `e` is consumed the conversion fails when
no digit follows; without an `e` the field ends and its value is `m`. -/
def takeExponent (m : ℚ) : List Char → Option (ℚ × List Char)
  | [] => some (m, [])
  | c :: r =>
    if c.toNat = 101 ∨ c.toNat = 69 then
      if (takeDigits (takeSign r).2 0 0).2.1 = 0 then none
      else some (scale10 m (if (takeSign r).1 then -((takeDigits (takeSign r).2 0 0).1 : Int)
        else ((takeDigits (takeSign r).2 0 0).1 : Int)), (takeDigits (takeSign r).2 0 0).2.2)
    else some (m, c :: r)

/-- The field that the extraction of a `float` reads from a stream
(`std::num_get`, stages 2 and 3): white space is skipped, then the longest
prefix of the form `[sign] digits [. digits] [e [sign] digits]` is consumed, the
exponent part only after a digit; the conversion succeeds when the field has a
digit in its mantissa and, if it has an exponent part, a digit in it.  The
result is the decimal value of the field and the rest of the stream. -/
def scanFloat (s : List Char) : Option (ℚ × List Char) :=
  let sign := takeSign (s.dropWhile isSpace)
  let integer := takeDigits sign.2 0 0
  let fraction := takeFraction integer.2.2
  if integer.2.1 + fraction.2.1 = 0 then none
  else
    let m : ℚ := (integer.1 : ℚ) + (fraction.1 : ℚ) / 10 ^ fraction.2.1
    takeExponent (if sign.1 then -m else m) fraction.2.2

/-- The extraction `file >> v` of a `float` from the characters of a stream, as
the standard library performs it: the field of `scanFloat` converted to the
nearest `float`; it fails, as `strtof` reports an overflow, when the value
rounds to an infinity, that is from `2¹²⁸ - 2¹⁰³` on in magnitude. -/
def extractFloat (s : List Char) : Option (ℚ × List Char) :=
  match scanFloat s with
  | some (v, rest) => if 2 ^ 128 - 2 ^ 103 ≤ |v| then none else some (round32 v, rest)
  | none => none

/-- The results of the successive extractions `file >> v` on a stream, up to
the first one that fails: `some v` for an extraction that succeeds, `none` for
the one that fails.  After a failure the stream is in the fail state and every
further extraction fails too.  An extraction that succeeds consumes a
character, so that `fuel` above the length of the stream is never used up. -/
def extractions {R : Type} (extract : List Char → Option (R × List Char)) :
    Nat → List Char → List (Option R)
  | 0, _ => []
  | fuel + 1, s =>
    match extract s with
    | some (v, rest) => some v :: extractions extract fuel rest
    | none => [none]

namespace Hiker

variable {R : Type} [LinearOrderedField R] [FloorRing R]

end Hiker

/-! ## Loops and vectors -/

namespace Terrain

variable {R : Type} [LinearOrderedField R] [FloorRing R]

theorem forLoop_natCast_succ {σ : Type} (n : Nat) (body : Int → σ → σ) (s : σ) :
    forLoop ((n + 1 : Nat) : Int) body s = body (n : Int) (forLoop (n : Int) body s) := by
  simp [forLoop, List.range_succ, List.foldl_append]

theorem forLoop_of_nonpos {σ : Type} (n : Int) (hn : n ≤ 0) (body : Int → σ → σ) (s : σ) :
    forLoop n body s = s := by
  have : n.toNat = 0 := by omega
  simp [forLoop, this]

/-- Loop invariant rule for `forLoop`. -/
theorem forLoop_invariant {σ : Type} (P : Nat → σ → Prop) (n : Nat) (body : Int → σ → σ) (s : σ)
    (h0 : P 0 s) (hstep : ∀ (i : Nat) (a : σ), i < n → P i a → P (i + 1) (body (i : Int) a)) :
    P n (forLoop (n : Int) body s) := by
  induction n with
  | zero => simpa [forLoop] using h0
  | succ k ih =>
    rw [forLoop_natCast_succ]
    exact hstep k _ (Nat.lt_succ_self k) (ih (fun i a hi => hstep i a (Nat.lt_succ_of_lt hi)))

theorem readAt_natCast {α : Type} (v : List α) (n : Nat) : readAt v (n : Int) = v[n]? := by
  simp [readAt]

theorem writeAt_natCast {α : Type} (v : List α) (n : Nat) (a : α) :
    writeAt v (n : Int) a = v.set n a := by
  simp [writeAt]

theorem length_resize {α : Type} (v : List α) (n : Nat) (fill : α) :
    (resize v n fill).length = n := by
  simp [resize]; omega


theorem rowMajor_inj (w z x z' x' : Nat) (hx : x < w) (hx' : x' < w)
    (h : z' * w + x' = z * w + x) : z' = z ∧ x' = x := by
  rcases lt_trichotomy z' z with hlt | heq | hgt
  · have := Nat.mul_le_mul_right w (Nat.succ_le_of_lt hlt)
    rw [Nat.succ_mul] at this
    omega
  · subst heq; omega
  · have := Nat.mul_le_mul_right w (Nat.succ_le_of_lt hgt)
    rw [Nat.succ_mul] at this
    omega

theorem rowMajor_lt (w h z x : Nat) (hz : z < h) (hx : x < w) : z * w + x < w * h := by
  have := Nat.mul_le_mul_right w (Nat.succ_le_of_lt hz)
  rw [Nat.succ_mul] at this
  rw [Nat.mul_comm w h]
  omega

theorem generatePositions_spec (t : Terrain R) (wn hn : Nat) (hw : t.width = wn)
    (hh : t.height = hn) :
    GenInv (resizeVertexData t) wn (fun z _ => z < hn) (generatePositions t) := by
  have hN : (t.width * t.height).toNat = wn * hn := by
    rw [hw, hh]; exact_mod_cast Int.toNat_ofNat (wn * hn)
  unfold generatePositions
  simp only []
  generalize ht1 : resizeVertexData t = t1
  have h1w : t1.width = wn := by rw [← ht1]; exact hw
  have h1h : t1.height = hn := by rw [← ht1]; exact hh
  have h1len : t1.positions.length = wn * hn := by
    rw [← ht1]; simp [resizeVertexData, length_resize, hN]
  rw [h1h]
  refine forLoop_invariant (fun z s => GenInv t1 wn (fun z' _ => z' < z) s) hn _ t1 ?_ ?_
  · refine ⟨rfl, rfl, rfl, rfl, rfl, rfl, rfl, rfl, rfl, rfl, ?_⟩
    intro z x _ hz; exact absurd hz (Nat.not_lt_zero z)
  · intro z s hz hs
    have hsw : s.width = wn := hs.1.trans h1w
    simp only [hsw]
    have := forLoop_invariant
      (fun x s' => GenInv t1 wn (fun z' x' => z' < z ∨ (z' = z ∧ x' < x)) s') wn
      (fun x t => setVertex t1.halfWidth t1.halfDepth z x t) s ?_ ?_
    · obtain ⟨a1, a2, a3, a4, a5, a6, a7, a8, a9, a10, a11⟩ := this
      refine ⟨a1, a2, a3, a4, a5, a6, a7, a8, a9, a10, ?_⟩
      intro z' x' hx' hz'
      apply a11 z' x' hx'
      rcases Nat.lt_succ_iff_lt_or_eq.mp hz' with h | h
      · exact Or.inl h
      · exact Or.inr ⟨h, hx'⟩
    · obtain ⟨a1, a2, a3, a4, a5, a6, a7, a8, a9, a10, a11⟩ := hs
      refine ⟨a1, a2, a3, a4, a5, a6, a7, a8, a9, a10, ?_⟩
      intro z' x' hx' hz'
      apply a11 z' x' hx'
      rcases hz' with h | h
      · exact h
      · exact absurd h.2 (Nat.not_lt_zero _)
    · intro x s' hx hs'
      obtain ⟨a1, a2, a3, a4, a5, a6, a7, a8, a9, a10, a11⟩ := hs'
      have hidx : ((z : Int) * s'.width + (x : Int)) = ((z * wn + x : Nat) : Int) := by
        rw [a1, h1w]; push_cast; ring
      refine ⟨a1, a2, a3, a4, a5, a6, a7, a8, a9, ?_, ?_⟩
      · simp only [setVertex, hidx, writeAt_natCast, List.length_set]; exact a10
      · intro z' x' hx' hz'
        simp only [setVertex, hidx, writeAt_natCast, a4, a5]
        by_cases hcase : z' = z ∧ x' = x
        · obtain ⟨rfl, rfl⟩ := hcase
          have hlt : z' * wn + x' < s'.positions.length := by
            rw [a10, h1len]; exact rowMajor_lt wn hn z' x' hz hx
          simp [List.getElem?_set, hlt]
        · have hne : z * wn + x ≠ z' * wn + x' := by
            intro heq
            exact hcase (rowMajor_inj wn z x z' x' hx hx' heq.symm)
          rw [List.getElem?_set_ne hne]
          apply a11 z' x' hx'
          rcases hz' with h | ⟨h1, h2⟩
          · exact Or.inl h
          · refine Or.inr ⟨h1, ?_⟩
            rcases Nat.lt_succ_iff_lt_or_eq.mp h2 with h | h
            · exact h
            · exact absurd ⟨h1, h⟩ hcase


theorem toInt_of_nonneg (f : R) (hf : 0 ≤ f) : toInt f = ⌊f⌋ := by
  simp [toInt, hf]

theorem clamp_mem (x b : R) (hb : 0 ≤ b) : 0 ≤ clamp x 0 b ∧ clamp x 0 b ≤ b :=
  ⟨le_min (le_max_right x 0) hb, min_le_right _ _⟩

theorem floor_clamp_mem (x : R) (n : Int) (hn : 0 ≤ n) :
    0 ≤ ⌊clamp x 0 (n : R)⌋ ∧ ⌊clamp x 0 (n : R)⌋ ≤ n := by
  have hb : (0 : R) ≤ (n : R) := by exact_mod_cast hn
  obtain ⟨h1, h2⟩ := clamp_mem x (n : R) hb
  refine ⟨Int.floor_nonneg.mpr h1, ?_⟩
  have h3 : ((⌊clamp x 0 (n : R)⌋ : Int) : R) ≤ (n : R) := le_trans (Int.floor_le _) h2
  exact_mod_cast h3

theorem readAt_rowMajor {α : Type} (v : List α) (w h x z : Int) (hlen : v.length = (w * h).toNat)
    (hx0 : 0 ≤ x) (hx1 : x < w) (hz0 : 0 ≤ z) (hz1 : z < h) :
    (0 ≤ z * w + x ∧ z * w + x < w * h) ∧ ∃ a, readAt v (z * w + x) = some a := by
  have hw : 0 ≤ w := by omega
  have h1 : 0 ≤ z * w := mul_nonneg hz0 hw
  have h2 : (z + 1) * w ≤ h * w := Int.mul_le_mul_of_nonneg_right (by omega) hw
  have h3 : z * w + x < w * h := by
    have : (z + 1) * w = z * w + w := by ring
    have : h * w = w * h := by ring
    omega
  refine ⟨⟨by omega, h3⟩, ?_⟩
  have h4 : (z * w + x).toNat < v.length := by rw [hlen]; omega
  refine ⟨v[(z * w + x).toNat], ?_⟩
  simp [readAt, show 0 ≤ z * w + x by omega, h4]

theorem IsGrid.read (t : Terrain R) (hg : IsGrid t) (i j : Int) (hi0 : 0 ≤ i) (hi1 : i < t.width)
    (hj0 : 0 ≤ j) (hj1 : j < t.height) :
    (0 ≤ j * t.width + i ∧ j * t.width + i < t.width * t.height) ∧
      ∃ p, readAt t.positions (j * t.width + i) = some p :=
  readAt_rowMajor t.positions t.width t.height i j hg.length_positions hi0 hi1 hj0 hj1

theorem floor_localX_mem (t : Terrain R) (hw : 1 ≤ t.width) (x : R) :
    0 ≤ ⌊t.localX x⌋ ∧ ⌊t.localX x⌋ < t.width := by
  have := floor_clamp_mem ((x + t.halfWidth) / t.horizontalScale) (t.width - 1) (by omega)
  unfold localX
  omega

theorem floor_localZ_mem (t : Terrain R) (hh : 1 ≤ t.height) (z : R) :
    0 ≤ ⌊t.localZ z⌋ ∧ ⌊t.localZ z⌋ < t.height := by
  have := floor_clamp_mem ((z + t.halfDepth) / t.horizontalScale) (t.height - 1) (by omega)
  unfold localZ
  omega

theorem toInt_localX (t : Terrain R) (hw : 1 ≤ t.width) (x : R) :
    toInt (t.localX x) = ⌊t.localX x⌋ :=
  toInt_of_nonneg _ (clamp_mem _ _ (by exact_mod_cast (show (0 : Int) ≤ t.width - 1 by omega))).1

theorem toInt_localZ (t : Terrain R) (hh : 1 ≤ t.height) (z : R) :
    toInt (t.localZ z) = ⌊t.localZ z⌋ :=
  toInt_of_nonneg _ (clamp_mem _ _ (by exact_mod_cast (show (0 : Int) ≤ t.height - 1 by omega))).1

/-- On a grid the four reads of `getHeightAtPosition` succeed and the result is
the nested `mix` of the four corner elevations. -/
theorem getHeightAtPosition_eq (t : Terrain R) (hg : IsGrid t) (x z : R) :
    ∃ p00 p10 p01 p11 : Vec3 R,
      readAt t.positions (⌊t.localZ z⌋ * t.width + ⌊t.localX x⌋) = some p00 ∧
      readAt t.positions (⌊t.localZ z⌋ * t.width + min (⌊t.localX x⌋ + 1) (t.width - 1))
        = some p10 ∧
      readAt t.positions (min (⌊t.localZ z⌋ + 1) (t.height - 1) * t.width + ⌊t.localX x⌋)
        = some p01 ∧
      readAt t.positions (min (⌊t.localZ z⌋ + 1) (t.height - 1) * t.width +
        min (⌊t.localX x⌋ + 1) (t.width - 1)) = some p11 ∧
      t.getHeightAtPosition x z =
        some (mix (mix p00.y p10.y (t.localX x - (⌊t.localX x⌋ : R)))
          (mix p01.y p11.y (t.localX x - (⌊t.localX x⌋ : R)))
          (t.localZ z - (⌊t.localZ z⌋ : R))) := by
  obtain ⟨hx0, hx1⟩ := floor_localX_mem t hg.width_pos x
  obtain ⟨hz0, hz1⟩ := floor_localZ_mem t hg.height_pos z
  have hx1' : 0 ≤ min (⌊t.localX x⌋ + 1) (t.width - 1) ∧
      min (⌊t.localX x⌋ + 1) (t.width - 1) < t.width := by
    constructor
    · exact le_min (by omega) (by omega)
    · exact lt_of_le_of_lt (min_le_right _ _) (by omega)
  have hz1' : 0 ≤ min (⌊t.localZ z⌋ + 1) (t.height - 1) ∧
      min (⌊t.localZ z⌋ + 1) (t.height - 1) < t.height := by
    constructor
    · exact le_min (by omega) (by omega)
    · exact lt_of_le_of_lt (min_le_right _ _) (by omega)
  obtain ⟨_, p00, h00⟩ := hg.read t _ _ hx0 hx1 hz0 hz1
  obtain ⟨_, p10, h10⟩ := hg.read t _ _ hx1'.1 hx1'.2 hz0 hz1
  obtain ⟨_, p01, h01⟩ := hg.read t _ _ hx0 hx1 hz1'.1 hz1'.2
  obtain ⟨_, p11, h11⟩ := hg.read t _ _ hx1'.1 hx1'.2 hz1'.1 hz1'.2
  refine ⟨p00, p10, p01, p11, h00, h10, h01, h11, ?_⟩
  unfold getHeightAtPosition
  simp only [toInt_localX t hg.width_pos, toInt_localZ t hg.height_pos, h00, h10, h01, h11]


theorem forLoop_toNat {σ : Type} (n : Int) (body : Int → σ → σ) (s : σ) :
    forLoop n body s = forLoop ((n.toNat : Nat) : Int) body s := by
  simp only [forLoop, Int.toNat_ofNat]

theorem scaleSample_frame (data : List Nat) (i : Int) (t0 t : Terrain R)
    (h : HeightsFrame t0 t) : HeightsFrame t0 (scaleSample data i t) := by
  unfold scaleSample
  simp only []
  split <;> exact h

theorem processHeights_frame (t : Terrain R) (data : List Nat) :
    HeightsFrame t (processHeights t data) := by
  unfold processHeights
  simp only []
  rw [forLoop_toNat]
  refine forLoop_invariant (fun _ s => HeightsFrame t s) _ _ _ ?_ ?_
  · exact ⟨rfl, rfl, rfl, rfl, rfl, rfl, rfl, rfl, rfl⟩
  · intro i a _ ha
    exact scaleSample_frame data i t a ha

/-- What `loadHeightmap` establishes for a decoded image with at least one
row and one column. -/
theorem loadHeightmap_grid (sqrt : R → R) (t0 : Terrain R) (img : Image)
    (hw : 1 ≤ img.width) (hh : 1 ≤ img.height) :
    (loadHeightmap sqrt t0 (some img)).2.width = img.width ∧
    (loadHeightmap sqrt t0 (some img)).2.height = img.height ∧
    (loadHeightmap sqrt t0 (some img)).2.horizontalScale = t0.horizontalScale ∧
    IsGrid (loadHeightmap sqrt t0 (some img)).2 ∧
    ∀ i j : Int, 0 ≤ i → i < img.width → 0 ≤ j → j < img.height →
      ∃ y : R, readAt (loadHeightmap sqrt t0 (some img)).2.positions (j * img.width + i) = some
        ⟨(i : R) * t0.horizontalScale - (loadHeightmap sqrt t0 (some img)).2.halfWidth, y,
         (j : R) * t0.horizontalScale - (loadHeightmap sqrt t0 (some img)).2.halfDepth⟩ := by
  obtain ⟨wn, hwn⟩ := Int.eq_ofNat_of_zero_le (show 0 ≤ img.width by omega)
  obtain ⟨hn, hhn⟩ := Int.eq_ofNat_of_zero_le (show 0 ≤ img.height by omega)
  generalize hA : processHeights { t0 with width := img.width, height := img.height } img.data = A
  have hF : HeightsFrame { t0 with width := img.width, height := img.height } A := by
    rw [← hA]; exact processHeights_frame _ _
  obtain ⟨f1, f2, -, f4, -⟩ := hF
  have hAw : A.width = wn := by rw [f1]; exact hwn
  have hAh : A.height = hn := by rw [f2]; exact hhn
  have hG := generatePositions_spec A wn hn hAw hAh
  have hres : (loadHeightmap sqrt t0 (some img)).2
      = setupMesh (calculateNormals sqrt (generatePositions A)) := by
    simp [loadHeightmap, hA]
  have hpos : (loadHeightmap sqrt t0 (some img)).2.positions = (generatePositions A).positions := by
    rw [hres]; rfl
  have hwid : (loadHeightmap sqrt t0 (some img)).2.width = (generatePositions A).width := by
    rw [hres]; rfl
  have hhei : (loadHeightmap sqrt t0 (some img)).2.height = (generatePositions A).height := by
    rw [hres]; rfl
  have hhs : (loadHeightmap sqrt t0 (some img)).2.horizontalScale
      = (generatePositions A).horizontalScale := by
    rw [hres]; rfl
  obtain ⟨g1, g2, -, g4, -, -, -, -, -, g10, g11⟩ := hG
  have rw1 : (resizeVertexData A).width = A.width := rfl
  have rw2 : (resizeVertexData A).height = A.height := rfl
  have rw3 : (resizeVertexData A).horizontalScale = A.horizontalScale := rfl
  have hlen : (resizeVertexData A).positions.length = (A.width * A.height).toNat := by
    simp [resizeVertexData, length_resize]
  have e1 : (loadHeightmap sqrt t0 (some img)).2.width = img.width := by
    rw [hwid, g1, rw1, f1]
  have e2 : (loadHeightmap sqrt t0 (some img)).2.height = img.height := by
    rw [hhei, g2, rw2, f2]
  have e3 : (loadHeightmap sqrt t0 (some img)).2.horizontalScale = t0.horizontalScale := by
    rw [hhs, g4, rw3, f4]
  have e4 : (loadHeightmap sqrt t0 (some img)).2.halfWidth = (resizeVertexData A).halfWidth := by
    unfold halfWidth; rw [e1, e3, rw1, rw3, f1, f4]
  have e5 : (loadHeightmap sqrt t0 (some img)).2.halfDepth = (resizeVertexData A).halfDepth := by
    unfold halfDepth; rw [e2, e3, rw2, rw3, f2, f4]
  refine ⟨e1, e2, e3, ⟨by rw [e1]; exact hw, by rw [e2]; exact hh, ?_⟩, ?_⟩
  · rw [hpos, g10, hlen, e1, e2, f1, f2]
  · intro i j hi0 hi1 hj0 hj1
    obtain ⟨x, hx⟩ := Int.eq_ofNat_of_zero_le hi0
    obtain ⟨z, hz⟩ := Int.eq_ofNat_of_zero_le hj0
    have hxw : x < wn := by omega
    have hzh : z < hn := by omega
    have := g11 z x hxw hzh
    refine ⟨(readAt (resizeVertexData A).heights ((z * wn + x : Nat) : Int)).getD 0, ?_⟩
    have hidx : j * img.width + i = ((z * wn + x : Nat) : Int) := by
      rw [hz, hx, hwn]; push_cast; ring
    rw [hpos, hidx, readAt_natCast, this, e4, e5, rw3, f4, hx, hz]
    simp

/-! ## The height query -/

/-- C1: on a loaded terrain with at least one row and column and positive
`horizontalScale`, `getHeightAtPosition x z` returns the bilinear interpolation
`(1-fz)*((1-fx)*h00 + fx*h10) + fz*((1-fx)*h01 + fx*h11)` of the four stored
corner elevations, with the clamped grid coordinates `gx, gz`, their floors
`x0, z0`, the neighbours `x1, z1` and the offsets `fx, fz` of the claim. -/
theorem getHeightAtPosition_bilinear (sqrt : R → R) (t0 : Terrain R) (img : Image) (x z : R)
    (hw : 1 ≤ img.width) (hh : 1 ≤ img.height) (hs : 0 < t0.horizontalScale) :
    let t := (loadHeightmap sqrt t0 (some img)).2
    let gx := clamp ((x + t.halfWidth) / t.horizontalScale) 0 ((t.width - 1 : Int) : R)
    let gz := clamp ((z + t.halfDepth) / t.horizontalScale) 0 ((t.height - 1 : Int) : R)
    let x0 : Int := ⌊gx⌋
    let z0 : Int := ⌊gz⌋
    let x1 : Int := min (x0 + 1) (t.width - 1)
    let z1 : Int := min (z0 + 1) (t.height - 1)
    let fx : R := gx - (x0 : R)
    let fz : R := gz - (z0 : R)
    ∃ h00 h10 h01 h11 : R,
      t.elevation x0 z0 = some h00 ∧ t.elevation x1 z0 = some h10 ∧
      t.elevation x0 z1 = some h01 ∧ t.elevation x1 z1 = some h11 ∧
      t.getHeightAtPosition x z =
        some ((1 - fz) * ((1 - fx) * h00 + fx * h10) + fz * ((1 - fx) * h01 + fx * h11)) := by
  intro t gx gz x0 z0 x1 z1 fx fz
  obtain ⟨-, -, -, hg, -⟩ := loadHeightmap_grid sqrt t0 img hw hh
  obtain ⟨p00, p10, p01, p11, e00, e10, e01, e11, e⟩ := getHeightAtPosition_eq t hg x z
  refine ⟨p00.y, p10.y, p01.y, p11.y, ?_, ?_, ?_, ?_, ?_⟩
  · show Option.map _ (readAt t.positions (⌊t.localZ z⌋ * t.width + ⌊t.localX x⌋)) = _
    rw [e00]; rfl
  · show Option.map _ (readAt t.positions
      (⌊t.localZ z⌋ * t.width + min (⌊t.localX x⌋ + 1) (t.width - 1))) = _
    rw [e10]; rfl
  · show Option.map _ (readAt t.positions
      (min (⌊t.localZ z⌋ + 1) (t.height - 1) * t.width + ⌊t.localX x⌋)) = _
    rw [e01]; rfl
  · show Option.map _ (readAt t.positions
      (min (⌊t.localZ z⌋ + 1) (t.height - 1) * t.width + min (⌊t.localX x⌋ + 1) (t.width - 1))) = _
    rw [e11]; rfl
  · rw [e]
    show some _ = some ((1 - (t.localZ z - (⌊t.localZ z⌋ : R))) *
      ((1 - (t.localX x - (⌊t.localX x⌋ : R))) * p00.y + (t.localX x - (⌊t.localX x⌋ : R)) * p10.y)
      + (t.localZ z - (⌊t.localZ z⌋ : R)) *
      ((1 - (t.localX x - (⌊t.localX x⌋ : R))) * p01.y + (t.localX x - (⌊t.localX x⌋ : R)) * p11.y))
    congr 1
    simp only [mix]
    ring

/-- The 2x2 grid with elevations `[0,0,0,10]` and `horizontalScale = 1`
satisfies the hypotheses of C1; its cell centre has grid coordinates
`(1/2, 1/2)` and the query there returns `5/2`. -/
theorem getHeightAtPosition_bilinear_witness :
    (1 ≤ cornerImage.width ∧ 1 ≤ cornerImage.height ∧
      0 < (Terrain.new.setHeightScale 255 : Terrain ℚ).horizontalScale) ∧
    (let t := cornerTerrain
     let gx := clamp ((0 + t.halfWidth) / t.horizontalScale) 0 ((t.width - 1 : Int) : ℚ)
     let gz := clamp ((0 + t.halfDepth) / t.horizontalScale) 0 ((t.height - 1 : Int) : ℚ)
     let x0 : Int := ⌊gx⌋
     let z0 : Int := ⌊gz⌋
     let x1 : Int := min (x0 + 1) (t.width - 1)
     let z1 : Int := min (z0 + 1) (t.height - 1)
     let fx : ℚ := gx - (x0 : ℚ)
     let fz : ℚ := gz - (z0 : ℚ)
     ∃ h00 h10 h01 h11 : ℚ,
      t.elevation x0 z0 = some h00 ∧ t.elevation x1 z0 = some h10 ∧
      t.elevation x0 z1 = some h01 ∧ t.elevation x1 z1 = some h11 ∧
      t.getHeightAtPosition 0 0 =
        some ((1 - fz) * ((1 - fx) * h00 + fx * h10) + fz * ((1 - fx) * h01 + fx * h11))) ∧
    cornerTerrain.localX 0 = 1 / 2 ∧ cornerTerrain.localZ 0 = 1 / 2 ∧
    cornerTerrain.getHeightAtPosition 0 0 = some (5 / 2) :=
  ⟨⟨by decide, by decide, by decide!⟩,
   getHeightAtPosition_bilinear ratSqrt (Terrain.new.setHeightScale 255) cornerImage 0 0
     (by decide) (by decide) (by decide!),
   by decide!, by decide!, by decide!⟩


theorem clamp_of_mem (g b : R) (h0 : 0 ≤ g) (h1 : g ≤ b) : clamp g 0 b = g := by
  simp [clamp, h0, h1]

theorem localX_grid (t : Terrain R) (hs : 0 < t.horizontalScale) (g : R) (h0 : 0 ≤ g)
    (h1 : g ≤ ((t.width - 1 : Int) : R)) :
    t.localX (g * t.horizontalScale - t.halfWidth) = g := by
  unfold localX
  have : (g * t.horizontalScale - t.halfWidth + t.halfWidth) / t.horizontalScale = g := by
    field_simp
  rw [this]
  exact clamp_of_mem g _ h0 h1

theorem localZ_grid (t : Terrain R) (hs : 0 < t.horizontalScale) (g : R) (h0 : 0 ≤ g)
    (h1 : g ≤ ((t.height - 1 : Int) : R)) :
    t.localZ (g * t.horizontalScale - t.halfDepth) = g := by
  unfold localZ
  have : (g * t.horizontalScale - t.halfDepth + t.halfDepth) / t.horizontalScale = g := by
    field_simp
  rw [this]
  exact clamp_of_mem g _ h0 h1

/-- The query at the world point with grid coordinates `(gx, gz)` inside the grid. -/
theorem getHeightAtPosition_grid (t : Terrain R) (hg : IsGrid t) (hs : 0 < t.horizontalScale)
    (gx gz : R) (hx0 : 0 ≤ gx) (hx1 : gx ≤ ((t.width - 1 : Int) : R))
    (hz0 : 0 ≤ gz) (hz1 : gz ≤ ((t.height - 1 : Int) : R)) :
    ∃ p00 p10 p01 p11 : Vec3 R,
      readAt t.positions (⌊gz⌋ * t.width + ⌊gx⌋) = some p00 ∧
      readAt t.positions (⌊gz⌋ * t.width + min (⌊gx⌋ + 1) (t.width - 1)) = some p10 ∧
      readAt t.positions (min (⌊gz⌋ + 1) (t.height - 1) * t.width + ⌊gx⌋) = some p01 ∧
      readAt t.positions (min (⌊gz⌋ + 1) (t.height - 1) * t.width +
        min (⌊gx⌋ + 1) (t.width - 1)) = some p11 ∧
      t.getHeightAtPosition (gx * t.horizontalScale - t.halfWidth)
          (gz * t.horizontalScale - t.halfDepth) =
        some (mix (mix p00.y p10.y (gx - (⌊gx⌋ : R))) (mix p01.y p11.y (gx - (⌊gx⌋ : R)))
          (gz - (⌊gz⌋ : R))) := by
  have := getHeightAtPosition_eq t hg (gx * t.horizontalScale - t.halfWidth)
    (gz * t.horizontalScale - t.halfDepth)
  rw [localX_grid t hs gx hx0 hx1, localZ_grid t hs gz hz0 hz1] at this
  exact this

theorem floor_add_half (i : Int) : ⌊((i : R) + 1 / 2)⌋ = i := by
  rw [Int.floor_eq_iff]
  constructor <;> linarith

/-- Vertices and midpoints in exact arithmetic, on any grid whose vertices sit at
`(i * s - halfWidth, _, j * s - halfDepth)`. -/
theorem getHeightAtPosition_vertices (t : Terrain R) (hg : IsGrid t)
    (hs : 0 < t.horizontalScale)
    (hpos : ∀ i j : Int, 0 ≤ i → i < t.width → 0 ≤ j → j < t.height →
      ∃ y : R, readAt t.positions (j * t.width + i) = some
        ⟨(i : R) * t.horizontalScale - t.halfWidth, y, (j : R) * t.horizontalScale - t.halfDepth⟩) :
    (∀ i j : Int, 0 ≤ i → i < t.width → 0 ≤ j → j < t.height →
      ∃ p : Vec3 R, readAt t.positions (j * t.width + i) = some p ∧
        t.getHeightAtPosition p.x p.z = some p.y) ∧
    (∀ i j : Int, 0 ≤ i → i + 1 < t.width → 0 ≤ j → j < t.height →
      ∃ p q : Vec3 R, readAt t.positions (j * t.width + i) = some p ∧
        readAt t.positions (j * t.width + (i + 1)) = some q ∧
        t.getHeightAtPosition ((p.x + q.x) / 2) ((p.z + q.z) / 2) = some ((p.y + q.y) / 2)) ∧
    (∀ i j : Int, 0 ≤ i → i < t.width → 0 ≤ j → j + 1 < t.height →
      ∃ p q : Vec3 R, readAt t.positions (j * t.width + i) = some p ∧
        readAt t.positions ((j + 1) * t.width + i) = some q ∧
        t.getHeightAtPosition ((p.x + q.x) / 2) ((p.z + q.z) / 2) = some ((p.y + q.y) / 2)) := by
  have cast_le : ∀ (a b : Int), a ≤ b → (a : R) ≤ (b : R) := fun a b h => by exact_mod_cast h
  refine ⟨?_, ?_, ?_⟩
  · intro i j hi0 hi1 hj0 hj1
    obtain ⟨y, hy⟩ := hpos i j hi0 hi1 hj0 hj1
    refine ⟨_, hy, ?_⟩
    obtain ⟨p00, p10, p01, p11, e00, -, -, -, e⟩ := getHeightAtPosition_grid t hg hs (i : R) (j : R)
      (by exact_mod_cast hi0) (cast_le _ _ (by omega)) (by exact_mod_cast hj0)
      (cast_le _ _ (by omega))
    simp only [Int.floor_intCast, sub_self] at e00 e
    rw [hy] at e00
    rw [e, ← Option.some.inj e00]
    simp [mix]
  · intro i j hi0 hi1 hj0 hj1
    obtain ⟨y, hy⟩ := hpos i j hi0 (by omega) hj0 hj1
    obtain ⟨y', hy'⟩ := hpos (i + 1) j (by omega) hi1 hj0 hj1
    refine ⟨_, _, hy, hy', ?_⟩
    obtain ⟨p00, p10, p01, p11, e00, e10, -, -, e⟩ := getHeightAtPosition_grid t hg hs
      ((i : R) + 1 / 2) (j : R)
      (by have := cast_le _ _ hi0; push_cast at this; linarith)
      (by have := cast_le _ _ (show i + 1 ≤ t.width - 1 by omega); push_cast at this ⊢; linarith)
      (by exact_mod_cast hj0) (cast_le _ _ (by omega))
    simp only [Int.floor_intCast, floor_add_half, sub_self,
      min_eq_left (show i + 1 ≤ t.width - 1 by omega)] at e00 e10 e
    rw [hy] at e00
    rw [hy'] at e10
    have hx : (((i : R) * t.horizontalScale - t.halfWidth)
        + (((i + 1 : Int) : R) * t.horizontalScale - t.halfWidth)) / 2
        = ((i : R) + 1 / 2) * t.horizontalScale - t.halfWidth := by push_cast; ring
    have hz : (((j : R) * t.horizontalScale - t.halfDepth)
        + ((j : R) * t.horizontalScale - t.halfDepth)) / 2
        = (j : R) * t.horizontalScale - t.halfDepth := by ring
    simp only [hx, hz]
    rw [e, ← Option.some.inj e00, ← Option.some.inj e10]
    simp only [mix]
    congr 1
    ring
  · intro i j hi0 hi1 hj0 hj1
    obtain ⟨y, hy⟩ := hpos i j hi0 hi1 hj0 (by omega)
    obtain ⟨y', hy'⟩ := hpos i (j + 1) hi0 hi1 (by omega) hj1
    refine ⟨_, _, hy, hy', ?_⟩
    obtain ⟨p00, p10, p01, p11, e00, -, e01, -, e⟩ := getHeightAtPosition_grid t hg hs
      (i : R) ((j : R) + 1 / 2)
      (by exact_mod_cast hi0) (cast_le _ _ (by omega))
      (by have := cast_le _ _ hj0; push_cast at this; linarith)
      (by have := cast_le _ _ (show j + 1 ≤ t.height - 1 by omega); push_cast at this ⊢; linarith)
    simp only [Int.floor_intCast, floor_add_half, sub_self,
      min_eq_left (show j + 1 ≤ t.height - 1 by omega)] at e00 e01 e
    rw [hy] at e00
    rw [hy'] at e01
    have hx : (((i : R) * t.horizontalScale - t.halfWidth)
        + ((i : R) * t.horizontalScale - t.halfWidth)) / 2
        = (i : R) * t.horizontalScale - t.halfWidth := by ring
    have hz : (((j : R) * t.horizontalScale - t.halfDepth)
        + (((j + 1 : Int) : R) * t.horizontalScale - t.halfDepth)) / 2
        = ((j : R) + 1 / 2) * t.horizontalScale - t.halfDepth := by push_cast; ring
    simp only [hx, hz]
    rw [e, ← Option.some.inj e00, ← Option.some.inj e01]
    simp only [mix]
    congr 1
    ring


theorem loadHeightmap_vertices (sqrt : R → R) (t0 t : Terrain R) (img : Image)
    (hw : 1 ≤ img.width) (hh : 1 ≤ img.height) (ht : t = (loadHeightmap sqrt t0 (some img)).2) :
    t.horizontalScale = t0.horizontalScale ∧ IsGrid t ∧
    ∀ i j : Int, 0 ≤ i → i < t.width → 0 ≤ j → j < t.height →
      ∃ y : R, readAt t.positions (j * t.width + i) = some
        ⟨(i : R) * t.horizontalScale - t.halfWidth, y,
         (j : R) * t.horizontalScale - t.halfDepth⟩ := by
  obtain ⟨e1, e2, e3, hg, hpos⟩ := loadHeightmap_grid sqrt t0 img hw hh
  rw [← ht] at e1 e2 e3 hg hpos
  refine ⟨e3, hg, ?_⟩
  intro i j hi0 hi1 hj0 hj1
  rw [e1, e3]
  exact hpos i j hi0 (by omega) hj0 (by omega)

/-- In exact arithmetic, on a loaded terrain with positive `horizontalScale`,
(a) the query at the world position of any grid vertex returns that vertex's
elevation, and (b) the query at the midpoint of two vertices adjacent along the
x axis, or along the z axis, returns the mean of their two elevations. -/
theorem getHeightAtPosition_vertex_midpoint (sqrt : R → R) (t0 : Terrain R) (img : Image)
    (hw : 1 ≤ img.width) (hh : 1 ≤ img.height) (hs : 0 < t0.horizontalScale) :
    let t := (loadHeightmap sqrt t0 (some img)).2
    (∀ i j : Int, 0 ≤ i → i < t.width → 0 ≤ j → j < t.height →
      ∃ p : Vec3 R, readAt t.positions (j * t.width + i) = some p ∧
        t.getHeightAtPosition p.x p.z = some p.y) ∧
    (∀ i j : Int, 0 ≤ i → i + 1 < t.width → 0 ≤ j → j < t.height →
      ∃ p q : Vec3 R, readAt t.positions (j * t.width + i) = some p ∧
        readAt t.positions (j * t.width + (i + 1)) = some q ∧
        t.getHeightAtPosition ((p.x + q.x) / 2) ((p.z + q.z) / 2) = some ((p.y + q.y) / 2)) ∧
    (∀ i j : Int, 0 ≤ i → i < t.width → 0 ≤ j → j + 1 < t.height →
      ∃ p q : Vec3 R, readAt t.positions (j * t.width + i) = some p ∧
        readAt t.positions ((j + 1) * t.width + i) = some q ∧
        t.getHeightAtPosition ((p.x + q.x) / 2) ((p.z + q.z) / 2) = some ((p.y + q.y) / 2)) := by
  intro t
  obtain ⟨e3, hg, hpos⟩ := loadHeightmap_vertices sqrt t0 t img hw hh rfl
  exact getHeightAtPosition_vertices t hg (by rw [e3]; exact hs) hpos

/-- The 2x2 example terrain in exact arithmetic: its vertex `(1,1)`
sits at `(1/2, 10, 1/2)`, the query there returns `10`, and the query at the
midpoint of the vertices `(0,1)` and `(1,1)` returns `5`. -/
theorem getHeightAtPosition_vertex_midpoint_witness :
    (1 ≤ cornerImage.width ∧ 1 ≤ cornerImage.height ∧
      0 < (Terrain.new.setHeightScale 255 : Terrain ℚ).horizontalScale) ∧
    (let t := cornerTerrain
    (∀ i j : Int, 0 ≤ i → i < t.width → 0 ≤ j → j < t.height →
      ∃ p : Vec3 ℚ, readAt t.positions (j * t.width + i) = some p ∧
        t.getHeightAtPosition p.x p.z = some p.y) ∧
    (∀ i j : Int, 0 ≤ i → i + 1 < t.width → 0 ≤ j → j < t.height →
      ∃ p q : Vec3 ℚ, readAt t.positions (j * t.width + i) = some p ∧
        readAt t.positions (j * t.width + (i + 1)) = some q ∧
        t.getHeightAtPosition ((p.x + q.x) / 2) ((p.z + q.z) / 2) = some ((p.y + q.y) / 2)) ∧
    (∀ i j : Int, 0 ≤ i → i < t.width → 0 ≤ j → j + 1 < t.height →
      ∃ p q : Vec3 ℚ, readAt t.positions (j * t.width + i) = some p ∧
        readAt t.positions ((j + 1) * t.width + i) = some q ∧
        t.getHeightAtPosition ((p.x + q.x) / 2) ((p.z + q.z) / 2) = some ((p.y + q.y) / 2))) ∧
    readAt cornerTerrain.positions (1 * cornerTerrain.width + 1) = some ⟨1 / 2, 10, 1 / 2⟩ ∧
    cornerTerrain.getHeightAtPosition (1 / 2) (1 / 2) = some 10 ∧
    cornerTerrain.getHeightAtPosition 0 (1 / 2) = some 5 :=
  ⟨⟨by decide, by decide, by decide!⟩,
   getHeightAtPosition_vertex_midpoint ratSqrt (Terrain.new.setHeightScale 255) cornerImage
     (by decide) (by decide) (by decide!),
   by decide!, by decide!, by decide!⟩

theorem getHeightAtPosition_congr (t : Terrain R) (x x' z z' : R)
    (hx : t.localX x = t.localX x') (hz : t.localZ z = t.localZ z') :
    t.getHeightAtPosition x z = t.getHeightAtPosition x' z' := by
  unfold getHeightAtPosition
  simp only [hx, hz]

theorem clamp_idem (a b : R) : clamp (clamp a 0 b) 0 b = clamp a 0 b := by
  unfold clamp
  rcases le_or_lt 0 b with hb | hb
  · have h1 : 0 ≤ min (max a 0) b := le_min (le_max_right _ _) hb
    rw [max_eq_left h1, min_eq_left (min_le_right _ _)]
  · have h1 : min (max a 0) b = b := min_eq_right (le_trans hb.le (le_max_right _ _))
    rw [h1, max_eq_right hb.le, min_eq_right hb.le]

theorem localX_clamp (t : Terrain R) (hs : 0 < t.horizontalScale) (x : R) :
    t.localX (clamp x (-(((t.width - 1 : Int) : R) * t.horizontalScale / 2))
      (((t.width - 1 : Int) : R) * t.horizontalScale / 2)) = t.localX x := by
  unfold localX halfWidth
  generalize ((t.width - 1 : Int) : R) = b
  generalize t.horizontalScale = s at hs
  have key : (clamp x (-(b * s / 2)) (b * s / 2) + b * s * (1 / 2)) / s
      = clamp ((x + b * s * (1 / 2)) / s) 0 b := by
    unfold clamp
    rw [← min_add_add_right, ← max_add_add_right, ← min_div_div_right hs.le,
      ← max_div_div_right hs.le]
    congr 2
    · field_simp
    · field_simp
  rw [key, clamp_idem]

theorem localZ_clamp (t : Terrain R) (hs : 0 < t.horizontalScale) (z : R) :
    t.localZ (clamp z (-(((t.height - 1 : Int) : R) * t.horizontalScale / 2))
      (((t.height - 1 : Int) : R) * t.horizontalScale / 2)) = t.localZ z := by
  unfold localZ halfDepth
  generalize ((t.height - 1 : Int) : R) = b
  generalize t.horizontalScale = s at hs
  have key : (clamp z (-(b * s / 2)) (b * s / 2) + b * s * (1 / 2)) / s
      = clamp ((z + b * s * (1 / 2)) / s) 0 b := by
    unfold clamp
    rw [← min_add_add_right, ← max_add_add_right, ← min_div_div_right hs.le,
      ← max_div_div_right hs.le]
    congr 2
    · field_simp
    · field_simp
  rw [key, clamp_idem]

/-- In exact arithmetic, on a loaded terrain with positive `horizontalScale`,
the query at any world point `(x, z)` succeeds and returns the same value as the query at
`(clamp x (-halfWidth) halfWidth, clamp z (-halfDepth) halfDepth)`, where
`halfWidth = (width-1)*horizontalScale/2` and `halfDepth = (height-1)*horizontalScale/2`. -/
theorem getHeightAtPosition_clamps (sqrt : R → R) (t0 : Terrain R) (img : Image) (x z : R)
    (hw : 1 ≤ img.width) (hh : 1 ≤ img.height) (hs : 0 < t0.horizontalScale) :
    let t := (loadHeightmap sqrt t0 (some img)).2
    let halfWidth : R := ((t.width - 1 : Int) : R) * t.horizontalScale / 2
    let halfDepth : R := ((t.height - 1 : Int) : R) * t.horizontalScale / 2
    ∃ v : R, t.getHeightAtPosition x z = some v ∧
      t.getHeightAtPosition (clamp x (-halfWidth) halfWidth) (clamp z (-halfDepth) halfDepth)
        = some v := by
  intro t halfWidth halfDepth
  obtain ⟨e3, hg, -⟩ := loadHeightmap_vertices sqrt t0 t img hw hh rfl
  have hs' : 0 < t.horizontalScale := by rw [e3]; exact hs
  obtain ⟨p00, p10, p01, p11, -, -, -, -, e⟩ := getHeightAtPosition_eq t hg x z
  refine ⟨_, e, ?_⟩
  rw [← e]
  exact getHeightAtPosition_congr t _ _ _ _ (localX_clamp t hs' x) (localZ_clamp t hs' z)

/-- The 2x2 example terrain in exact arithmetic: the query far
outside at `(1000, 1/4)` and the query at the boundary point `(1/2, 1/4)` both
return `15/2`. -/
theorem getHeightAtPosition_clamps_witness :
    (1 ≤ cornerImage.width ∧ 1 ≤ cornerImage.height ∧
      0 < (Terrain.new.setHeightScale 255 : Terrain ℚ).horizontalScale) ∧
    (let t := cornerTerrain
     let halfWidth : ℚ := ((t.width - 1 : Int) : ℚ) * t.horizontalScale / 2
     let halfDepth : ℚ := ((t.height - 1 : Int) : ℚ) * t.horizontalScale / 2
     ∃ v : ℚ, t.getHeightAtPosition 1000 (1 / 4) = some v ∧
      t.getHeightAtPosition (clamp 1000 (-halfWidth) halfWidth)
        (clamp (1 / 4) (-halfDepth) halfDepth) = some v) ∧
    cornerTerrain.getHeightAtPosition 1000 (1 / 4) = some (15 / 2) ∧
    cornerTerrain.getHeightAtPosition (1 / 2) (1 / 4) = some (15 / 2) :=
  ⟨⟨by decide, by decide, by decide!⟩,
   getHeightAtPosition_clamps ratSqrt (Terrain.new.setHeightScale 255) cornerImage 1000 (1 / 4)
     (by decide) (by decide) (by decide!),
   by decide!, by decide!⟩

/-- In exact arithmetic, on a loaded terrain with `width ≥ 1`, `height ≥ 1` and
positive `horizontalScale`, for every world point the four indices read by
`getHeightAtPosition` are `≥ 0` and `< width * height`, which is the size of
`positions`; the four reads succeed and the query returns a value. -/
theorem getHeightAtPosition_reads_in_range (sqrt : R → R) (t0 : Terrain R) (img : Image)
    (x z : R) (hw : 1 ≤ img.width) (hh : 1 ≤ img.height) (hs : 0 < t0.horizontalScale) :
    let t := (loadHeightmap sqrt t0 (some img)).2
    let x0 : Int := toInt (t.localX x)
    let z0 : Int := toInt (t.localZ z)
    let x1 : Int := min (x0 + 1) (t.width - 1)
    let z1 : Int := min (z0 + 1) (t.height - 1)
    1 ≤ t.width ∧ 1 ≤ t.height ∧ (t.positions.length : Int) = t.width * t.height ∧
    (0 ≤ z0 * t.width + x0 ∧ z0 * t.width + x0 < t.width * t.height) ∧
    (0 ≤ z0 * t.width + x1 ∧ z0 * t.width + x1 < t.width * t.height) ∧
    (0 ≤ z1 * t.width + x0 ∧ z1 * t.width + x0 < t.width * t.height) ∧
    (0 ≤ z1 * t.width + x1 ∧ z1 * t.width + x1 < t.width * t.height) ∧
    (readAt t.positions (z0 * t.width + x0)).isSome ∧
    (readAt t.positions (z0 * t.width + x1)).isSome ∧
    (readAt t.positions (z1 * t.width + x0)).isSome ∧
    (readAt t.positions (z1 * t.width + x1)).isSome ∧
    (t.getHeightAtPosition x z).isSome := by
  intro t x0 z0 x1 z1
  obtain ⟨-, hg, -⟩ := loadHeightmap_vertices sqrt t0 t img hw hh rfl
  have hx0 : x0 = ⌊t.localX x⌋ := toInt_localX t hg.width_pos x
  have hz0 : z0 = ⌊t.localZ z⌋ := toInt_localZ t hg.height_pos z
  obtain ⟨ax0, ax1⟩ := floor_localX_mem t hg.width_pos x
  obtain ⟨az0, az1⟩ := floor_localZ_mem t hg.height_pos z
  rw [← hx0] at ax0 ax1
  rw [← hz0] at az0 az1
  have bx : 0 ≤ x1 ∧ x1 < t.width :=
    ⟨le_min (by omega) (by have := hg.width_pos; omega),
     lt_of_le_of_lt (min_le_right _ _) (by omega)⟩
  have bz : 0 ≤ z1 ∧ z1 < t.height :=
    ⟨le_min (by omega) (by have := hg.height_pos; omega),
     lt_of_le_of_lt (min_le_right _ _) (by omega)⟩
  obtain ⟨r00, p00, h00⟩ := hg.read t x0 z0 ax0 ax1 az0 az1
  obtain ⟨r10, p10, h10⟩ := hg.read t x1 z0 bx.1 bx.2 az0 az1
  obtain ⟨r01, p01, h01⟩ := hg.read t x0 z1 ax0 ax1 bz.1 bz.2
  obtain ⟨r11, p11, h11⟩ := hg.read t x1 z1 bx.1 bx.2 bz.1 bz.2
  obtain ⟨_, _, _, _, -, -, -, -, e⟩ := getHeightAtPosition_eq t hg x z
  have hlen : (t.positions.length : Int) = t.width * t.height := by
    rw [hg.length_positions]
    have := hg.width_pos
    have := hg.height_pos
    exact Int.toNat_of_nonneg (mul_nonneg (by omega) (by omega))
  refine ⟨hg.width_pos, hg.height_pos, hlen, r00, r10, r01, r11, ?_, ?_, ?_, ?_, ?_⟩
  · rw [h00]; rfl
  · rw [h10]; rfl
  · rw [h01]; rfl
  · rw [h11]; rfl
  · rw [e]; rfl

/-- The 2x2 example terrain and the far-away point `(-1000, 1000)` in exact
arithmetic. -/
theorem getHeightAtPosition_reads_in_range_witness :
    (1 ≤ cornerImage.width ∧ 1 ≤ cornerImage.height ∧
      0 < (Terrain.new.setHeightScale 255 : Terrain ℚ).horizontalScale) ∧
    (let t := cornerTerrain
     let x0 : Int := toInt (t.localX (-1000))
     let z0 : Int := toInt (t.localZ 1000)
     let x1 : Int := min (x0 + 1) (t.width - 1)
     let z1 : Int := min (z0 + 1) (t.height - 1)
     1 ≤ t.width ∧ 1 ≤ t.height ∧ (t.positions.length : Int) = t.width * t.height ∧
     (0 ≤ z0 * t.width + x0 ∧ z0 * t.width + x0 < t.width * t.height) ∧
     (0 ≤ z0 * t.width + x1 ∧ z0 * t.width + x1 < t.width * t.height) ∧
     (0 ≤ z1 * t.width + x0 ∧ z1 * t.width + x0 < t.width * t.height) ∧
     (0 ≤ z1 * t.width + x1 ∧ z1 * t.width + x1 < t.width * t.height) ∧
     (readAt t.positions (z0 * t.width + x0)).isSome ∧
     (readAt t.positions (z0 * t.width + x1)).isSome ∧
     (readAt t.positions (z1 * t.width + x0)).isSome ∧
     (readAt t.positions (z1 * t.width + x1)).isSome ∧
     (t.getHeightAtPosition (-1000) 1000).isSome) :=
  ⟨⟨by decide, by decide, by decide!⟩,
   getHeightAtPosition_reads_in_range ratSqrt (Terrain.new.setHeightScale 255) cornerImage
     (-1000) 1000 (by decide) (by decide) (by decide!)⟩


/-! ## The index buffer -/


theorem cell_index_bounds (w h z x : Int) (hx0 : 0 ≤ x) (hx1 : x + 1 < w) (hz0 : 0 ≤ z)
    (hz1 : z + 1 < h) :
    0 ≤ z * w + x ∧ (z + 1) * w + x + 1 < w * h ∧ z * w + x + 1 ≤ (z + 1) * w + x := by
  have hw : 0 ≤ w := by omega
  have h1 : 0 ≤ z * w := mul_nonneg hz0 hw
  have h2 : (z + 2) * w ≤ h * w := Int.mul_le_mul_of_nonneg_right (by omega) hw
  have e1 : (z + 2) * w = z * w + 2 * w := by ring
  have e2 : (z + 1) * w = z * w + w := by ring
  have e3 : h * w = w * h := by ring
  refine ⟨by omega, by omega, by omega⟩

/-- C5: for grid dimensions `width, height ≥ 2` the index buffer built by
`setupMesh` has exactly `6 * (width - 1) * (height - 1)` entries and every
entry is a vertex index, `0 ≤ e < width * height`. -/
theorem setupMesh_indices (t : Terrain R) (hw : 2 ≤ t.width) (hh : 2 ≤ t.height) :
    ((setupMesh t).indices.length : Int) = 6 * (t.width - 1) * (t.height - 1) ∧
    ∀ e ∈ (setupMesh t).indices, 0 ≤ e ∧ e < t.width * t.height := by
  obtain ⟨wn, hwn⟩ := Int.eq_ofNat_of_zero_le (show 0 ≤ t.width - 1 by omega)
  obtain ⟨hn, hhn⟩ := Int.eq_ofNat_of_zero_le (show 0 ≤ t.height - 1 by omega)
  have key : ((setupMesh t).indices.length = 6 * (hn * wn)) ∧
      ∀ e ∈ (setupMesh t).indices, 0 ≤ e ∧ e < t.width * t.height := by
    unfold setupMesh
    simp only [hwn, hhn]
    refine forLoop_invariant (fun z (l : List Int) => l.length = 6 * (z * wn) ∧
      ∀ e ∈ l, 0 ≤ e ∧ e < t.width * t.height) hn _ [] ?_ ?_
    · simp
    · intro z l hz hl
      have := forLoop_invariant (fun x (l' : List Int) => l'.length = 6 * (z * wn + x) ∧
        ∀ e ∈ l', 0 ≤ e ∧ e < t.width * t.height) wn
        (fun x (indices : List Int) =>
          indices ++ [↑z * t.width + x] ++ [↑z * t.width + x + 1] ++ [(↑z + 1) * t.width + x]
            ++ [↑z * t.width + x + 1] ++ [(↑z + 1) * t.width + x + 1]
            ++ [(↑z + 1) * t.width + x]) l ?_ ?_
      · refine ⟨?_, this.2⟩
        rw [this.1]; ring
      · exact ⟨by rw [hl.1]; ring, hl.2⟩
      · intro x l' hx hl'
        obtain ⟨b1, b2, b3⟩ := cell_index_bounds t.width t.height z x (by omega) (by omega)
          (by omega) (by omega)
        refine ⟨?_, ?_⟩
        · simp only [List.length_append, List.length_singleton, hl'.1]; ring
        · intro e he
          simp only [List.mem_append, List.mem_singleton] at he
          rcases he with ((((((he | he) | he) | he) | he) | he) | he)
          · exact hl'.2 e he
          all_goals (subst he; constructor <;> omega)
  refine ⟨?_, key.2⟩
  rw [key.1, hwn, hhn]; push_cast; ring


/-- The 2x2 example terrain satisfies the hypotheses of C5; its index buffer is
the two triangles `[0, 1, 2, 1, 3, 2]`. -/
theorem setupMesh_indices_witness :
    (2 ≤ cornerTerrain.width ∧ 2 ≤ cornerTerrain.height) ∧
    (((setupMesh cornerTerrain).indices.length : Int)
        = 6 * (cornerTerrain.width - 1) * (cornerTerrain.height - 1) ∧
      ∀ e ∈ (setupMesh cornerTerrain).indices,
        0 ≤ e ∧ e < cornerTerrain.width * cornerTerrain.height) ∧
    (setupMesh cornerTerrain).indices = [0, 1, 2, 1, 3, 2] :=
  ⟨⟨by decide!, by decide!⟩, setupMesh_indices cornerTerrain (by decide!) (by decide!),
   by decide!⟩

end Terrain

/-! ## Vertex normals -/

namespace Glm

variable {R : Type} [LinearOrderedField R]

theorem IsSqrt.pos {sqrt : R → R} (h : IsSqrt sqrt) (x : R) (hx : 0 < x) : 0 < sqrt x := by
  obtain ⟨h1, h2⟩ := h x hx.le
  rcases h1.lt_or_eq with h3 | h3
  · exact h3
  · rw [← h3] at h2; simp at h2; exact absurd h2 (ne_of_lt hx)

theorem IsSqrt.one {sqrt : R → R} (h : IsSqrt sqrt) : sqrt 1 = 1 := by
  obtain ⟨h1, h2⟩ := h 1 zero_le_one
  have : (sqrt 1 - 1) * (sqrt 1 + 1) = 0 := by ring_nf; rw [sq, h2]; ring
  rcases mul_eq_zero.mp this with h3 | h3
  · linarith
  · linarith

theorem dot_self_pos_of_y_neg (c : Vec3 R) (hc : c.y < 0) : 0 < dot c c := by
  unfold dot
  nlinarith [mul_self_nonneg c.x, mul_self_nonneg c.z, mul_pos_of_neg_of_neg hc hc]

theorem normalize_y_neg {sqrt : R → R} (h : IsSqrt sqrt) (c : Vec3 R) (hc : c.y < 0) :
    (normalize sqrt c).y < 0 := by
  have hpos := h.pos _ (dot_self_pos_of_y_neg c hc)
  show c.y * (1 / sqrt (dot c c)) < 0
  exact mul_neg_of_neg_of_pos hc (one_div_pos.mpr hpos)

theorem length_normalize {sqrt : R → R} (h : IsSqrt sqrt) (c : Vec3 R) (hc : 0 < dot c c) :
    length sqrt (normalize sqrt c) = 1 := by
  have hpos := h.pos _ hc
  have hsq := (h _ hc.le).2
  have : dot (normalize sqrt c) (normalize sqrt c) = 1 := by
    show c.x * (1 / sqrt (dot c c)) * (c.x * (1 / sqrt (dot c c)))
      + c.y * (1 / sqrt (dot c c)) * (c.y * (1 / sqrt (dot c c)))
      + c.z * (1 / sqrt (dot c c)) * (c.z * (1 / sqrt (dot c c))) = 1
    have hne : sqrt (dot c c) ≠ 0 := ne_of_gt hpos
    field_simp
    have hd : dot c c = c.x * c.x + c.y * c.y + c.z * c.z := rfl
    rw [← hsq] at hd
    linarith
  unfold length
  rw [this, h.one]

end Glm

namespace Terrain

variable {R : Type} [LinearOrderedField R] [FloorRing R]

theorem length_addAt (v : List (Vec3 R)) (i : Int) (d : Vec3 R) :
    (addAt v i d).length = v.length := by
  unfold addAt
  split
  · unfold writeAt; split <;> simp
  · rfl

theorem addAt_getElem? (v : List (Vec3 R)) (i : Int) (d : Vec3 R) (k : Nat) (q : Vec3 R)
    (hq : (addAt v i d)[k]? = some q) :
    ∃ p, v[k]? = some p ∧ (q = p ∨ ((k : Int) = i ∧ q = p.add d)) := by
  unfold addAt at hq
  split at hq
  next a ha =>
    unfold readAt at ha
    split at ha
    next hi =>
      simp only [writeAt, hi, if_true, List.getElem?_set] at hq
      split at hq
      next heq =>
        split at hq
        · refine ⟨a, by rw [← heq]; exact ha, Or.inr ⟨by omega, ?_⟩⟩
          exact (Option.some.inj hq).symm
        · exact absurd hq (by simp)
      next => exact ⟨q, hq, Or.inl rfl⟩
    next => exact absurd ha (by simp)
  next => exact ⟨q, hq, Or.inl rfl⟩

theorem allNonpos_addAt {v : List (Vec3 R)} (hv : AllNonpos v) (i : Int) (d : Vec3 R)
    (hd : d.y ≤ 0) : AllNonpos (addAt v i d) := by
  intro k q hq
  obtain ⟨p, hp, h | ⟨-, h⟩⟩ := addAt_getElem? v i d k q hq
  · rw [h]; exact hv k p hp
  · rw [h]
    have := hv k p hp
    show p.y + d.y ≤ 0
    linarith

theorem readAt_addAt (v : List (Vec3 R)) (i j : Int) (d : Vec3 R) (p : Vec3 R)
    (hp : readAt v j = some p) :
    readAt (addAt v i d) j = some (if i = j then p.add d else p) := by
  have hj : 0 ≤ j := by
    by_contra hneg
    simp [readAt, hneg] at hp
  have hp' : v[j.toNat]? = some p := by simpa [readAt, hj] using hp
  obtain ⟨hlt, hget⟩ := List.getElem?_eq_some.mp hp'
  by_cases hij : i = j
  · subst hij
    simp only [addAt, hp, writeAt, hj, if_true, readAt, List.getElem?_set]
    simp [hlt, hget]
  · simp only [hij, if_false]
    unfold addAt
    split
    next a ha =>
      have hi : 0 ≤ i := by
        by_contra hneg
        simp [readAt, hneg] at ha
      have hne : i.toNat ≠ j.toNat := by omega
      simp only [writeAt, hi, if_true, readAt, hj, List.getElem?_set_ne hne]
      exact hp'
    next => exact hp

theorem negAt_addAt {v : List (Vec3 R)} {j : Int} (hv : NegAt v j) (i : Int) (d : Vec3 R)
    (hd : d.y ≤ 0) : NegAt (addAt v i d) j := by
  obtain ⟨p, hp, hneg⟩ := hv
  refine ⟨_, readAt_addAt v i j d p hp, ?_⟩
  split
  · show p.y + d.y < 0
    linarith
  · exact hneg

theorem negAt_addAt_self {v : List (Vec3 R)} (hv : AllNonpos v) (i : Int) (d : Vec3 R)
    (hd : d.y < 0) (hi0 : 0 ≤ i) (hi1 : i.toNat < v.length) : NegAt (addAt v i d) i := by
  have hp : readAt v i = some v[i.toNat] := by
    simp [readAt, hi0, hi1]
  refine ⟨_, readAt_addAt v i i d _ hp, ?_⟩
  have := hv i.toNat v[i.toNat] (by simp [hi1])
  simp only [if_true]
  show v[i.toNat].y + d.y < 0
  linarith

theorem accumulateCell_eq {sqrt : R → R} (hsq : IsSqrt sqrt) (t : Terrain R)
    (hs : 0 < t.horizontalScale) (hpos : OnGrid t) (z x : Int) (hx0 : 0 ≤ x)
    (hx1 : x + 1 < t.width) (hz0 : 0 ≤ z) (hz1 : z + 1 < t.height) (old : List (Vec3 R)) :
    ∃ n1 n2 : Vec3 R, n1.y < 0 ∧ n2.y < 0 ∧
      accumulateCell sqrt t.width t.positions z x old =
        addAt (addAt (addAt (addAt old (z * t.width + x) n1) (z * t.width + x + 1) (n1.add n2))
          ((z + 1) * t.width + x) (n1.add n2)) ((z + 1) * t.width + x + 1) n2 := by
  obtain ⟨y0, e0⟩ := hpos x z hx0 (by omega) hz0 (by omega)
  obtain ⟨y1, e1⟩ := hpos (x + 1) z (by omega) hx1 hz0 (by omega)
  obtain ⟨y2, e2⟩ := hpos x (z + 1) hx0 (by omega) (by omega) hz1
  obtain ⟨y3, e3⟩ := hpos (x + 1) (z + 1) (by omega) hx1 (by omega) hz1
  rw [← add_assoc] at e1 e3
  have hss : 0 < t.horizontalScale * t.horizontalScale := mul_pos hs hs
  unfold accumulateCell
  simp only [e0, e1, e2, e3, Option.getD_some]
  refine ⟨_, _, ?_, ?_, rfl⟩
  · apply normalize_y_neg hsq
    simp only [cross, Vec3.sub]
    push_cast
    nlinarith
  · apply normalize_y_neg hsq
    simp only [cross, Vec3.sub]
    push_cast
    nlinarith

theorem normInv_step {sqrt : R → R} (hsq : IsSqrt sqrt) (t : Terrain R)
    (hs : 0 < t.horizontalScale) (hpos : OnGrid t) (n wn1 : Nat)
    (hn : n = (t.width * t.height).toNat)
    (done : Nat → Nat → Prop) (z x : Nat) (hx1 : (x : Int) + 1 < t.width)
    (hz1 : (z : Int) + 1 < t.height) (v : List (Vec3 R)) (hv : NormInv t.width n wn1 done v) :
    NormInv t.width n wn1 (fun z' x' => done z' x' ∨ (z' = z ∧ x' = x))
      (accumulateCell sqrt t.width t.positions z x v) := by
  obtain ⟨n1, n2, hn1, hn2, heq⟩ := accumulateCell_eq hsq t hs hpos z x (by omega) hx1
    (by omega) hz1 v
  obtain ⟨hlen, hnp, hneg⟩ := hv
  have h12 : (n1.add n2).y < 0 := by show n1.y + n2.y < 0; linarith
  obtain ⟨b1, b2, b3⟩ := cell_index_bounds t.width t.height z x (by omega) hx1 (by omega) hz1
  have hN : (n : Int) = t.width * t.height := by
    rw [hn]; exact Int.toNat_of_nonneg (by nlinarith)
  rw [heq]
  -- the four successive updates
  have l1 := length_addAt v (↑z * t.width + ↑x) n1
  have p1 := allNonpos_addAt hnp (↑z * t.width + ↑x) n1 hn1.le
  have l2 := length_addAt (addAt v (↑z * t.width + ↑x) n1) (↑z * t.width + ↑x + 1) (n1.add n2)
  have p2 := allNonpos_addAt p1 (↑z * t.width + ↑x + 1) (n1.add n2) h12.le
  have l3 := length_addAt (addAt (addAt v (↑z * t.width + ↑x) n1) (↑z * t.width + ↑x + 1)
    (n1.add n2)) ((↑z + 1) * t.width + ↑x) (n1.add n2)
  have p3 := allNonpos_addAt p2 ((↑z + 1) * t.width + ↑x) (n1.add n2) h12.le
  have l4 := length_addAt (addAt (addAt (addAt v (↑z * t.width + ↑x) n1) (↑z * t.width + ↑x + 1)
    (n1.add n2)) ((↑z + 1) * t.width + ↑x) (n1.add n2)) ((↑z + 1) * t.width + ↑x + 1) n2
  have p4 := allNonpos_addAt p3 ((↑z + 1) * t.width + ↑x + 1) n2 hn2.le
  have keep : ∀ j, NegAt v j → NegAt (addAt (addAt (addAt (addAt v (↑z * t.width + ↑x) n1)
      (↑z * t.width + ↑x + 1) (n1.add n2)) ((↑z + 1) * t.width + ↑x) (n1.add n2))
      ((↑z + 1) * t.width + ↑x + 1) n2) j := fun j hj =>
    negAt_addAt (negAt_addAt (negAt_addAt (negAt_addAt hj _ _ hn1.le) _ _ h12.le) _ _ h12.le)
      _ _ hn2.le
  refine ⟨by rw [l4, l3, l2, l1, hlen], p4, ?_⟩
  intro z' x' hx' hd
  rcases hd with hd | ⟨rfl, rfl⟩
  · obtain ⟨a, b, c, d⟩ := hneg z' x' hx' hd
    exact ⟨keep _ a, keep _ b, keep _ c, keep _ d⟩
  · refine ⟨?_, ?_, ?_, ?_⟩
    · exact negAt_addAt (negAt_addAt (negAt_addAt
        (negAt_addAt_self hnp _ n1 hn1 (by omega) (by rw [hlen]; omega)) _ _ h12.le) _ _ h12.le)
        _ _ hn2.le
    · exact negAt_addAt (negAt_addAt
        (negAt_addAt_self p1 _ _ h12 (by omega) (by rw [l1, hlen]; omega)) _ _ h12.le) _ _ hn2.le
    · exact negAt_addAt
        (negAt_addAt_self p2 _ _ h12 (by omega) (by rw [l2, l1, hlen]; omega)) _ _ hn2.le
    · exact negAt_addAt_self p3 _ _ hn2 (by omega) (by rw [l3, l2, l1, hlen]; omega)

theorem normInv_mono (w : Int) (n wn1 : Nat) (done done' : Nat → Nat → Prop)
    (h : ∀ z x, x < wn1 → done' z x → done z x) (v : List (Vec3 R))
    (hv : NormInv w n wn1 done v) : NormInv w n wn1 done' v :=
  ⟨hv.1, hv.2.1, fun z x hx hd => hv.2.2 z x hx (h z x hx hd)⟩

/-- After the accumulation loop nest every corner of every cell points downward. -/
theorem accumulate_normInv {sqrt : R → R} (hsq : IsSqrt sqrt) (t : Terrain R)
    (hs : 0 < t.horizontalScale) (hpos : OnGrid t) (wn1 hn1 : Nat)
    (hw : t.width - 1 = wn1) (hh : t.height - 1 = hn1)
    (hlen : t.normals.length = (t.width * t.height).toNat) :
    NormInv t.width (t.width * t.height).toNat wn1 (fun z _ => z < hn1)
      (forLoop (t.height - 1) (fun z normals =>
        forLoop (t.width - 1) (fun x normals =>
          accumulateCell sqrt t.width t.positions z x normals) normals)
        (t.normals.map (fun _ => Vec3.zero))) := by
  rw [hh]
  refine forLoop_invariant
    (fun z v => NormInv t.width (t.width * t.height).toNat wn1 (fun z' _ => z' < z) v) hn1 _ _
    ?_ ?_
  · refine ⟨by simp [hlen], ?_, ?_⟩
    · intro k p hp
      rw [List.getElem?_map] at hp
      cases hk : t.normals[k]? with
      | none => rw [hk] at hp; exact absurd hp (by simp)
      | some a =>
        rw [hk] at hp
        rw [← Option.some.inj hp]
        exact le_refl _
    · intro z x _ hz
      exact absurd hz (Nat.not_lt_zero z)
  · intro z v hz hv
    rw [hw]
    have := forLoop_invariant
      (fun x v' => NormInv t.width (t.width * t.height).toNat wn1
        (fun z' x' => z' < z ∨ (z' = z ∧ x' < x)) v') wn1
      (fun x normals => accumulateCell sqrt t.width t.positions z x normals) v ?_ ?_
    · refine normInv_mono _ _ _ _ _ ?_ _ this
      intro z' x' hx' hz'
      rcases Nat.lt_succ_iff_lt_or_eq.mp hz' with h | h
      · exact Or.inl h
      · exact Or.inr ⟨h, hx'⟩
    · refine normInv_mono _ _ _ _ _ ?_ _ hv
      intro z' x' _ hz'
      rcases hz' with h | h
      · exact h
      · exact absurd h.2 (Nat.not_lt_zero _)
    · intro x v' hx hv'
      have := normInv_step hsq t hs hpos _ wn1 rfl _ z x (by omega) (by omega) v' hv'
      refine normInv_mono _ _ _ _ _ ?_ _ this
      intro z' x' _ hz'
      rcases hz' with h | ⟨h1, h2⟩
      · exact Or.inl (Or.inl h)
      · rcases Nat.lt_succ_iff_lt_or_eq.mp h2 with h | h
        · exact Or.inl (Or.inr ⟨h1, h⟩)
        · exact Or.inr ⟨h1, h⟩

/-- Every vertex of a grid with at least two rows and columns is a corner of a cell. -/
theorem vertex_is_corner (wn1 hn1 : Nat) (w : Int) (hw : w = (wn1 : Int) + 1) (k : Nat)
    (hk : k < (wn1 + 1) * (hn1 + 1)) (h1 : 1 ≤ wn1) (h2 : 1 ≤ hn1) :
    ∃ z x : Nat, x < wn1 ∧ z < hn1 ∧
      ((k : Int) = z * w + x ∨ (k : Int) = z * w + x + 1 ∨
       (k : Int) = (z + 1) * w + x ∨ (k : Int) = (z + 1) * w + x + 1) := by
  have hdm : (wn1 + 1) * (k / (wn1 + 1)) + k % (wn1 + 1) = k := Nat.div_add_mod k (wn1 + 1)
  have hi : k % (wn1 + 1) < wn1 + 1 := Nat.mod_lt _ (by omega)
  have hj : k / (wn1 + 1) < hn1 + 1 := by
    rw [Nat.div_lt_iff_lt_mul (by omega)]; rw [Nat.mul_comm]; exact hk
  generalize k % (wn1 + 1) = i at hdm hi
  generalize k / (wn1 + 1) = j at hdm hj
  have hkc : (k : Int) = j * w + i := by
    rw [hw, ← hdm]; push_cast; ring
  by_cases ci : i < wn1 <;> by_cases cj : j < hn1
  · exact ⟨j, i, ci, cj, Or.inl hkc⟩
  · refine ⟨j - 1, i, ci, by omega, Or.inr (Or.inr (Or.inl ?_))⟩
    have : ((j - 1 : Nat) : Int) + 1 = j := by omega
    rw [this]; exact hkc
  · refine ⟨j, i - 1, by omega, cj, Or.inr (Or.inl ?_)⟩
    have : ((i - 1 : Nat) : Int) + 1 = i := by omega
    rw [add_assoc, this]; exact hkc
  · refine ⟨j - 1, i - 1, by omega, by omega, Or.inr (Or.inr (Or.inr ?_))⟩
    have e1 : ((j - 1 : Nat) : Int) + 1 = j := by omega
    have e2 : ((i - 1 : Nat) : Int) + 1 = i := by omega
    rw [add_assoc, e1, e2]; exact hkc

theorem calculateNormals_unit_of_grid {sqrt : R → R} (hsq : IsSqrt sqrt) (t : Terrain R)
    (hs : 0 < t.horizontalScale) (hpos : OnGrid t) (hw : 2 ≤ t.width) (hh : 2 ≤ t.height)
    (hlen : t.normals.length = (t.width * t.height).toNat) :
    (calculateNormals sqrt t).normals.length = (t.width * t.height).toNat ∧
    ∀ n ∈ (calculateNormals sqrt t).normals, length sqrt n = 1 := by
  obtain ⟨wn1, hwn⟩ := Int.eq_ofNat_of_zero_le (show 0 ≤ t.width - 1 by omega)
  obtain ⟨hn1, hhn⟩ := Int.eq_ofNat_of_zero_le (show 0 ≤ t.height - 1 by omega)
  obtain ⟨alen, -, aneg⟩ := accumulate_normInv hsq t hs hpos wn1 hn1 hwn hhn hlen
  have hN : (t.width * t.height).toNat = (wn1 + 1) * (hn1 + 1) := by
    have e1 : t.width = ((wn1 + 1 : Nat) : Int) := by push_cast; omega
    have e2 : t.height = ((hn1 + 1 : Nat) : Int) := by push_cast; omega
    rw [e1, e2]; exact_mod_cast Int.toNat_ofNat ((wn1 + 1) * (hn1 + 1))
  unfold calculateNormals
  simp only []
  refine ⟨by rw [List.length_map]; exact alen, ?_⟩
  intro n hn
  rw [List.mem_map] at hn
  obtain ⟨a, ha, rfl⟩ := hn
  obtain ⟨k, hk⟩ := List.mem_iff_getElem?.mp ha
  obtain ⟨hklt, -⟩ := List.getElem?_eq_some.mp hk
  rw [alen, hN] at hklt
  obtain ⟨z, x, hx, hz, hcase⟩ := vertex_is_corner wn1 hn1 t.width (by omega) k hklt
    (by omega) (by omega)
  obtain ⟨c0, c1, c2, c3⟩ := aneg z x hx hz
  have fin : ∀ (A : List (Vec3 R)) (idx : Int), A[k]? = some a → NegAt A idx →
      (k : Int) = idx → length sqrt (normalize sqrt a) = 1 := by
    intro A idx hA hneg hidx
    obtain ⟨p, hp, hpy⟩ := hneg
    rw [← hidx, readAt_natCast, hA] at hp
    rw [Option.some.inj hp]
    exact length_normalize hsq p (dot_self_pos_of_y_neg p hpy)
  rcases hcase with h | h | h | h
  · exact fin _ _ hk c0 h
  · exact fin _ _ hk c1 h
  · exact fin _ _ hk c2 h
  · exact fin _ _ hk c3 h

theorem generatePositions_normals_length (A : Terrain R) (hw : 0 ≤ A.width) (hh : 0 ≤ A.height) :
    (generatePositions A).normals.length = (A.width * A.height).toNat := by
  obtain ⟨wn, hwn⟩ := Int.eq_ofNat_of_zero_le hw
  obtain ⟨hn, hhn⟩ := Int.eq_ofNat_of_zero_le hh
  obtain ⟨-, -, -, -, -, g6, -⟩ := generatePositions_spec A wn hn hwn hhn
  rw [g6]
  simp [resizeVertexData, length_resize]

/-- C6: with an exact square root (arithmetic over the reals), for every
elevation grid with `width, height ≥ 2` and positive `horizontalScale` the
terrain loaded by `loadHeightmap` has one normal per vertex and every normal
left by `calculateNormals` has Euclidean length exactly 1. -/
theorem calculateNormals_unit_length (sqrt : R → R) (hsq : IsSqrt sqrt) (t0 : Terrain R)
    (img : Image) (hw : 2 ≤ img.width) (hh : 2 ≤ img.height) (hs : 0 < t0.horizontalScale) :
    let t := (loadHeightmap sqrt t0 (some img)).2
    t.normals.length = (t.width * t.height).toNat ∧
    ∀ n ∈ t.normals, length sqrt n = 1 := by
  intro t
  obtain ⟨e3, hg, hpos⟩ := loadHeightmap_vertices sqrt t0 t img (by omega) (by omega) rfl
  obtain ⟨e1, e2, -⟩ := loadHeightmap_grid sqrt t0 img (by omega) (by omega)
  generalize hG : generatePositions
    (processHeights { t0 with width := img.width, height := img.height } img.data) = G
  have ht : t = setupMesh (calculateNormals sqrt G) := by rw [← hG]; rfl
  have hGw : G.width = img.width := by rw [← e1]; show G.width = t.width; rw [ht]; rfl
  have hGh : G.height = img.height := by rw [← e2]; show G.height = t.height; rw [ht]; rfl
  have hGs : 0 < G.horizontalScale := by
    have : t.horizontalScale = G.horizontalScale := by rw [ht]; rfl
    rw [← this, e3]; exact hs
  have hGpos : OnGrid G := by
    rw [ht] at hpos
    exact hpos
  have hGlen : G.normals.length = (G.width * G.height).toNat := by
    obtain ⟨f1, f2, -⟩ := processHeights_frame { t0 with width := img.width, height := img.height }
      img.data
    rw [← hG]
    have := generatePositions_normals_length
      (processHeights { t0 with width := img.width, height := img.height } img.data)
      (by rw [f1]; show 0 ≤ img.width; omega) (by rw [f2]; show 0 ≤ img.height; omega)
    rw [this]
    rw [hG, hGw, hGh, f1, f2]
  have key := calculateNormals_unit_of_grid hsq G hGs hGpos (by omega) (by omega) hGlen
  have hn : t.normals = (calculateNormals sqrt G).normals := by rw [ht]; rfl
  have hw' : t.width = G.width := by rw [ht]; rfl
  have hh' : t.height = G.height := by rw [ht]; rfl
  rw [hn, hw', hh']
  exact key

/-- Over `ℝ` with `Real.sqrt` the 2x2 example image satisfies the hypotheses of
C6; on the flat example terrain every normal is `(0, -1, 0)`. -/
theorem calculateNormals_unit_length_witness :
    (IsSqrt Real.sqrt ∧ 2 ≤ cornerImage.width ∧ 2 ≤ cornerImage.height ∧
      0 < (Terrain.new : Terrain ℝ).horizontalScale) ∧
    (let t := (loadHeightmap Real.sqrt (Terrain.new : Terrain ℝ) (some cornerImage)).2
     t.normals.length = (t.width * t.height).toNat ∧
     ∀ n ∈ t.normals, length Real.sqrt n = 1) ∧
    flatTerrain.normals = [⟨0, -1, 0⟩, ⟨0, -1, 0⟩, ⟨0, -1, 0⟩, ⟨0, -1, 0⟩] :=
  ⟨⟨fun x hx => ⟨Real.sqrt_nonneg x, Real.mul_self_sqrt hx⟩, by decide, by decide,
    show (0 : ℝ) < 1 from one_pos⟩,
   calculateNormals_unit_length Real.sqrt
     (fun x hx => ⟨Real.sqrt_nonneg x, Real.mul_self_sqrt hx⟩) Terrain.new cornerImage
     (by decide) (by decide) (show (0 : ℝ) < 1 from one_pos),
   by decide!⟩

end Terrain

/-! ## The path walker -/

/-- The rational square root used in the examples is non-negative. -/
theorem ratSqrt_nonneg (x : ℚ) : 0 ≤ ratSqrt x :=
  div_nonneg (Nat.cast_nonneg _) (Nat.cast_nonneg _)

namespace Hiker

variable {R : Type} [LinearOrderedField R] [FloorRing R]

theorem segInv_fold (sqrt : R → R) (h : Hiker R) (k : Nat) (hk : k + 1 ≤ h.pathPoints.length) :
    SegInv sqrt h.pathPoints k
      ((List.range' 1 k).foldl (fun acc i => addSegment sqrt i acc)
        { h with segmentDistances := [0], totalPathLength := 0 }) := by
  induction k with
  | zero =>
    refine ⟨rfl, rfl, rfl, rfl, ?_⟩
    intro i h1 h0
    omega
  | succ k ih =>
    obtain ⟨a1, a2, a3, a4, a5⟩ := ih (by omega)
    rw [List.range'_concat, List.foldl_append]
    simp only [List.foldl_cons, List.foldl_nil, one_mul]
    generalize (List.range' 1 k).foldl (fun acc i => addSegment sqrt i acc)
        { h with segmentDistances := [0], totalPathLength := 0 } = s at a1 a2 a3 a4 a5
    have hp0 : h.pathPoints[k]? = some (h.pathPoints.getD k Vec3.zero) := by
      rw [List.getD_eq_getElem?_getD, List.getElem?_eq_getElem (by omega)]; rfl
    have hp1 : h.pathPoints[k + 1]? = some (h.pathPoints.getD (k + 1) Vec3.zero) := by
      rw [List.getD_eq_getElem?_getD, List.getElem?_eq_getElem (by omega)]; rfl
    have hlen : (s.segmentDistances ++ [s.totalPathLength + distance sqrt
        (s.pathPoints.getD (1 + k - 1) Vec3.zero) (s.pathPoints.getD (1 + k) Vec3.zero)]).length
        = k + 1 + 1 := by simp [a2]
    refine ⟨a1, hlen, ?_, ?_, ?_⟩
    · show (s.segmentDistances ++ _)[0]? = some 0
      rw [List.getElem?_append_left (by omega)]; exact a3
    · show (s.segmentDistances ++ _)[k + 1]? = some _
      rw [List.getElem?_append_right (by omega), a2]
      simp [addSegment]
    · intro i h1 hi
      rcases Nat.lt_or_ge i (k + 1) with hlt | hge
      · obtain ⟨d0, d1, p0, p1, b1, b2, b3, b4, b5⟩ := a5 i h1 (by omega)
        refine ⟨d0, d1, p0, p1, ?_, ?_, b3, b4, b5⟩
        · show (s.segmentDistances ++ _)[i - 1]? = some d0
          rw [List.getElem?_append_left (by omega)]; exact b1
        · show (s.segmentDistances ++ _)[i]? = some d1
          rw [List.getElem?_append_left (by omega)]; exact b2
      · have hik : i = k + 1 := by omega
        subst hik
        refine ⟨s.totalPathLength, s.totalPathLength + Glm.length sqrt
          ((h.pathPoints.getD (k + 1) Vec3.zero).sub (h.pathPoints.getD k Vec3.zero)),
          h.pathPoints.getD k Vec3.zero, h.pathPoints.getD (k + 1) Vec3.zero,
          ?_, ?_, hp0, hp1, rfl⟩
        · show (s.segmentDistances ++ _)[k + 1 - 1]? = some _
          rw [List.getElem?_append_left (by omega)]; exact a4
        · show (s.segmentDistances ++ _)[k + 1]? = some _
          rw [List.getElem?_append_right (by omega), a2]
          have e1 : 1 + k - 1 = k := by omega
          have e2 : 1 + k = k + 1 := by omega
          simp [a1, distance, e1, e2]

theorem segInv_mono (sqrt : R → R) (hsq : ∀ x, 0 ≤ sqrt x) (points : List (Vec3 R)) (k : Nat)
    (s : Hiker R) (hs : SegInv sqrt points k s) (i j : Nat) (hij : i ≤ j) (hj : j ≤ k) :
    ∃ di dj : R, s.segmentDistances[i]? = some di ∧ s.segmentDistances[j]? = some dj ∧
      di ≤ dj := by
  obtain ⟨-, a2, -, -, a5⟩ := hs
  induction j with
  | zero =>
    have : i = 0 := by omega
    subst this
    have h0 : 0 < s.segmentDistances.length := by omega
    exact ⟨_, _, List.getElem?_eq_getElem h0, List.getElem?_eq_getElem h0, le_refl _⟩
  | succ j ih =>
    rcases Nat.lt_or_ge i (j + 1) with hlt | hge
    · obtain ⟨di, dj, e1, e2, e3⟩ := ih (by omega) (by omega)
      obtain ⟨d0, d1, p0, p1, b1, b2, -, -, b5⟩ := a5 (j + 1) (by omega) hj
      have : j + 1 - 1 = j := by omega
      rw [this, e2] at b1
      refine ⟨di, d1, e1, b2, ?_⟩
      rw [b5, ← Option.some.inj b1]
      have := hsq (dot (p1.sub p0) (p1.sub p0))
      unfold Glm.length
      linarith
    · have : i = j + 1 := by omega
      subst this
      have h0 : j + 1 < s.segmentDistances.length := by omega
      exact ⟨_, _, List.getElem?_eq_getElem h0, List.getElem?_eq_getElem h0, le_refl _⟩

/-- C7: for a non-empty list of waypoints and a non-negative square root,
`calculateSegmentDistances` leaves `segmentDistances` with the length of
`pathPoints`, first entry `0`, each later entry equal to its predecessor plus
the Euclidean length of `pathPoints[i] - pathPoints[i-1]`, hence non-decreasing,
and `totalPathLength` equal to the last entry. -/
theorem calculateSegmentDistances_spec (sqrt : R → R) (hsq : ∀ x, 0 ≤ sqrt x) (h : Hiker R)
    (hne : h.pathPoints ≠ []) :
    let h' := h.calculateSegmentDistances sqrt
    h'.pathPoints = h.pathPoints ∧
    h'.segmentDistances.length = h.pathPoints.length ∧
    h'.segmentDistances[0]? = some 0 ∧
    (∀ i : Nat, 1 ≤ i → i < h.pathPoints.length →
      ∃ (d0 d1 : R) (p0 p1 : Vec3 R),
        h'.segmentDistances[i - 1]? = some d0 ∧ h'.segmentDistances[i]? = some d1 ∧
        h.pathPoints[i - 1]? = some p0 ∧ h.pathPoints[i]? = some p1 ∧
        d1 = d0 + Glm.length sqrt (p1.sub p0)) ∧
    (∀ i j : Nat, i ≤ j → j < h.pathPoints.length →
      ∃ di dj : R, h'.segmentDistances[i]? = some di ∧ h'.segmentDistances[j]? = some dj ∧
        di ≤ dj) ∧
    h'.segmentDistances.getLast? = some h'.totalPathLength := by
  intro h'
  have hpos : 0 < h.pathPoints.length := List.length_pos.mpr hne
  have hinv : SegInv sqrt h.pathPoints (h.pathPoints.length - 1) h' :=
    segInv_fold sqrt h (h.pathPoints.length - 1) (by omega)
  obtain ⟨a1, a2, a3, a4, a5⟩ := hinv
  refine ⟨a1, by omega, a3, fun i h1 hi => a5 i h1 (by omega), ?_, ?_⟩
  · intro i j hij hj
    exact segInv_mono sqrt hsq _ _ h' ⟨a1, a2, a3, a4, a5⟩ i j hij (by omega)
  · rw [List.getLast?_eq_getElem?, a2]
    exact a4

/-- The three waypoints `(0,½,0), (10,½,0), (10,½,10)` satisfy the hypotheses
of C7 and give `segmentDistances = [0, 10, 20]` and `totalPathLength = 20`. -/
theorem calculateSegmentDistances_spec_witness :
    ((∀ x, 0 ≤ ratSqrt x) ∧ trackHiker.pathPoints ≠ []) ∧
    (let h' := trackHiker.calculateSegmentDistances ratSqrt
     h'.pathPoints = trackHiker.pathPoints ∧
     h'.segmentDistances.length = trackHiker.pathPoints.length ∧
     h'.segmentDistances[0]? = some 0 ∧
     (∀ i : Nat, 1 ≤ i → i < trackHiker.pathPoints.length →
       ∃ (d0 d1 : ℚ) (p0 p1 : Vec3 ℚ),
         h'.segmentDistances[i - 1]? = some d0 ∧ h'.segmentDistances[i]? = some d1 ∧
         trackHiker.pathPoints[i - 1]? = some p0 ∧ trackHiker.pathPoints[i]? = some p1 ∧
         d1 = d0 + Glm.length ratSqrt (p1.sub p0)) ∧
     (∀ i j : Nat, i ≤ j → j < trackHiker.pathPoints.length →
       ∃ di dj : ℚ, h'.segmentDistances[i]? = some di ∧ h'.segmentDistances[j]? = some dj ∧
         di ≤ dj) ∧
     h'.segmentDistances.getLast? = some h'.totalPathLength) ∧
    (trackHiker.calculateSegmentDistances ratSqrt).segmentDistances = [0, 10, 20] ∧
    (trackHiker.calculateSegmentDistances ratSqrt).totalPathLength = 20 :=
  ⟨⟨ratSqrt_nonneg, by decide!⟩,
   calculateSegmentDistances_spec ratSqrt ratSqrt_nonneg trackHiker (by decide!),
   by decide!, by decide!⟩

/-- What the cursor arithmetic of `updatePosition` does to a forward hiker that
the first addition keeps short of the end: the distance is added a second time. -/
theorem advanceDistance_forward (h : Hiker R) (deltaTime : R) (hf : h.movingForward = true)
    (hlt : h.currentDistance + h.speed * deltaTime < h.totalPathLength) :
    advanceDistance h deltaTime =
      if h.currentDistance + h.speed * deltaTime + h.speed * deltaTime ≥ h.totalPathLength then
        { h with currentDistance := h.totalPathLength, movingForward := false }
      else
        { h with currentDistance := h.currentDistance + h.speed * deltaTime + h.speed * deltaTime }
    := by
  unfold advanceDistance
  simp only [ge_iff_le, not_le.mpr hlt, if_false, hf, if_true]

/-- What the cursor arithmetic of `updatePosition` does to a backward hiker that
the first addition keeps short of the end: the subtraction cancels the
addition and the cursor stays where it was. -/
theorem advanceDistance_backward (h : Hiker R) (deltaTime : R) (hf : h.movingForward = false)
    (hlt : h.currentDistance + h.speed * deltaTime < h.totalPathLength) :
    advanceDistance h deltaTime =
      if h.currentDistance + h.speed * deltaTime - h.speed * deltaTime ≤ 0 then
        { h with currentDistance := 0, movingForward := true }
      else
        { h with currentDistance := h.currentDistance + h.speed * deltaTime - h.speed * deltaTime }
    := by
  unfold advanceDistance
  simp only [ge_iff_le, not_le.mpr hlt, if_false, hf, Bool.false_eq_true]

/-- A completed `updatePosition` leaves the cursor, the direction and the track
exactly as its cursor arithmetic computed them. -/
theorem updatePosition_cursor (h h' : Hiker R) (deltaTime : R) (terrain : Terrain R)
    (hu : updatePosition h deltaTime terrain = some h') :
    h'.currentDistance = (advanceDistance h deltaTime).currentDistance ∧
    h'.movingForward = (advanceDistance h deltaTime).movingForward ∧
    h'.totalPathLength = (advanceDistance h deltaTime).totalPathLength ∧
    h'.segmentDistances = (advanceDistance h deltaTime).segmentDistances ∧
    h'.pathPoints = (advanceDistance h deltaTime).pathPoints := by
  unfold updatePosition at hu
  simp only [] at hu
  split at hu
  · exact absurd hu (by simp)
  · split at hu
    · exact absurd hu (by simp)
    · split at hu
      · split at hu
        · split at hu
          · rw [← Option.some.inj hu]
            exact ⟨rfl, rfl, rfl, rfl, rfl⟩
          · exact absurd hu (by simp)
        · exact absurd hu (by simp)
      · exact absurd hu (by simp)

/-- Under the hypotheses of C8 with a positive step, no completed
`updatePosition` leaves the cursor at `c + d`. -/
theorem updatePosition_forward_ne (h h' : Hiker R) (deltaTime : R) (terrain : Terrain R)
    (hf : h.movingForward = true) (hd : 0 < h.speed * deltaTime)
    (hlt : h.currentDistance + h.speed * deltaTime < h.totalPathLength)
    (hu : updatePosition h deltaTime terrain = some h') :
    h'.currentDistance ≠ h.currentDistance + h.speed * deltaTime := by
  obtain ⟨e, -⟩ := updatePosition_cursor h h' deltaTime terrain hu
  rw [e, advanceDistance_forward h deltaTime hf hlt]
  split
  · show h.totalPathLength ≠ _
    exact ne_of_gt hlt
  · show h.currentDistance + h.speed * deltaTime + h.speed * deltaTime ≠ _
    intro hc
    linarith

/-- Under the hypotheses of C9 with a positive step that the first addition
keeps short of the end, a completed `updatePosition` of a backward hiker leaves
the cursor where it was or at 0, never at `c - d > 0`. -/
theorem updatePosition_backward_ne (h h' : Hiker R) (deltaTime : R) (terrain : Terrain R)
    (hf : h.movingForward = false) (hd : 0 < h.speed * deltaTime)
    (hpos : 0 < h.currentDistance - h.speed * deltaTime)
    (hlt : h.currentDistance + h.speed * deltaTime < h.totalPathLength)
    (hu : updatePosition h deltaTime terrain = some h') :
    h'.currentDistance = h.currentDistance ∧
    h'.currentDistance ≠ h.currentDistance - h.speed * deltaTime := by
  obtain ⟨e, -⟩ := updatePosition_cursor h h' deltaTime terrain hu
  rw [e, advanceDistance_backward h deltaTime hf hlt]
  have hc : ¬ (h.currentDistance + h.speed * deltaTime - h.speed * deltaTime ≤ 0) := by
    intro hle
    linarith
  rw [if_neg hc]
  constructor
  · show h.currentDistance + h.speed * deltaTime - h.speed * deltaTime = h.currentDistance
    ring
  · show h.currentDistance + h.speed * deltaTime - h.speed * deltaTime ≠ _
    intro hc'
    linarith

/-- C8 at its own example: the hiker loaded with the track
`(0,0,0), (10,0,0), (10,0,10)` over the flat terrain, reset, speed 5, is forward
at cursor 0 with `totalPathLength = 20`; one `updatePosition` of 3 s
(`0 + 15 < 20`) leaves `currentDistance = 20`, direction backward, segment 1
and position `(10, ½, 10)`, where the claim states 15, forward and `(10, ½, 5)`. -/
theorem updatePosition_forward_moves_twice :
    cornerHiker.map (fun h => (h.pathPoints, h.segmentDistances, h.totalPathLength,
        h.currentDistance, h.movingForward, h.speed))
      = some ([⟨0, 1 / 2, 0⟩, ⟨10, 1 / 2, 0⟩, ⟨10, 1 / 2, 10⟩], [0, 10, 20], 20, 0, true, 5) ∧
    (cornerHiker.bind (fun h => h.updatePosition 3 flatTerrain)).map
        (fun h => (h.currentDistance, h.movingForward, h.currentSegmentIndex, h.position))
      = some (20, false, 1, ⟨10, 1 / 2, 10⟩) := by
  constructor <;> decide!

/-- C9 at a concrete state: after one forward step of 1 s the example hiker is
at cursor 10; `moveBackward` for 1 s (`10 - 5 > 0`) leaves `currentDistance = 10`
with the direction backward, where the claim states `10 - 5 = 5`. -/
theorem moveBackward_stays_in_place :
    (cornerHiker.bind (fun h => h.updatePosition 1 flatTerrain)).map
        (fun h => (h.totalPathLength, h.currentDistance, h.movingForward, h.speed))
      = some (20, 10, true, 5) ∧
    ((cornerHiker.bind (fun h => h.updatePosition 1 flatTerrain)).bind
        (fun h => h.moveBackward 1)).map (fun h => (h.currentDistance, h.movingForward))
      = some (10, false) := by
  constructor <;> decide!

/-- C10 at concrete schedules for the example hiker (`totalPathLength = 20`,
speed 5, so the total time is 4 s): after the steps 2 s + 2 s the cursor is at 0
with the direction forward, where the claim states `currentDistance = 20`; after
the single step 4 s the cursor is at 20 and the direction is already backward,
and the next step leaves the direction forward, where the claim states backward. -/
theorem updatePosition_round_trip_misses_end :
    ((cornerHiker.bind (fun h => h.updatePosition 2 flatTerrain)).bind
        (fun h => h.updatePosition 2 flatTerrain)).map
        (fun h => (h.totalPathLength, h.speed, h.currentDistance, h.movingForward))
      = some (20, 5, 0, true) ∧
    (cornerHiker.bind (fun h => h.updatePosition 4 flatTerrain)).map
        (fun h => (h.currentDistance, h.movingForward)) = some (20, false) ∧
    ((cornerHiker.bind (fun h => h.updatePosition 4 flatTerrain)).bind
        (fun h => h.updatePosition 1 flatTerrain)).map
        (fun h => (h.currentDistance, h.movingForward)) = some (0, true) := by
  refine ⟨?_, ?_, ?_⟩ <;> decide!

end Hiker

/-! ## Heights and positions after loading -/

namespace Terrain

variable {R : Type} [LinearOrderedField R] [FloorRing R]

theorem scaleSample_inv (t0 : Terrain R) (data : List Nat) (k : Nat) (t : Terrain R)
    (hk : k < t0.heights.length) (h : HeightsInv t0 data k t) :
    HeightsInv t0 data (k + 1) (scaleSample data (k : Int) t) := by
  obtain ⟨hf, hlen, hval, hle, h0, hmax⟩ := h
  have hs : t.heightScale = t0.heightScale := hf.2.2.1
  have key : ∀ i : Nat, i < k + 1 →
      (t.heights.set k (sampleHeight data t0.heightScale k))[i]? =
        some (sampleHeight data t0.heightScale i) := by
    intro i hi
    by_cases hik : i = k
    · subst hik
      rw [List.getElem?_set_self (by omega)]
    · rw [List.getElem?_set_ne (by omega)]
      exact hval i (by omega)
  have hv : ((data.getD k 0 : Nat) : R) / 255 * t.heightScale
      = sampleHeight data t0.heightScale k := by rw [hs]; rfl
  unfold scaleSample
  simp only [Int.toNat_ofNat, writeAt_natCast, hv]
  split
  next hgt =>
    refine ⟨hf, by simp [hlen], key, ?_, ?_, Or.inr ⟨k, by omega, rfl⟩⟩
    · intro i hi
      rcases Nat.lt_succ_iff_lt_or_eq.mp hi with h | h
      · exact le_trans (hle i h) hgt.le
      · subst h; exact le_refl _
    · exact le_trans h0 hgt.le
  next hngt =>
    refine ⟨hf, by simp [hlen], key, ?_, h0, ?_⟩
    · intro i hi
      rcases Nat.lt_succ_iff_lt_or_eq.mp hi with h | h
      · exact hle i h
      · subst h; exact not_lt.mp hngt
    · rcases hmax with h | ⟨i, hi, h⟩
      · exact Or.inl h
      · exact Or.inr ⟨i, by omega, h⟩

theorem processHeights_inv (t : Terrain R) (data : List Nat) :
    HeightsInv { t with heights := resize t.heights (t.width * t.height).toNat 0, maxHeight := 0 }
      data (t.width * t.height).toNat (processHeights t data) := by
  unfold processHeights
  simp only []
  rw [forLoop_toNat]
  refine forLoop_invariant (fun k s => HeightsInv
    { t with heights := resize t.heights (t.width * t.height).toNat 0, maxHeight := 0 }
    data k s) _ _ _ ?_ ?_
  · refine ⟨⟨rfl, rfl, rfl, rfl, rfl, rfl, rfl, rfl, rfl⟩, rfl, ?_, ?_, le_refl _, Or.inl rfl⟩
    · intro i hi; exact absurd hi (Nat.not_lt_zero i)
    · intro i hi; exact absurd hi (Nat.not_lt_zero i)
  · intro k a hk ha
    exact scaleSample_inv _ data k a (by simpa [length_resize] using hk) ha

/-- Everything `loadHeightmap` leaves in the terrain for a `wn × hn` image. -/
theorem loadHeightmap_full (sqrt : R → R) (t0 : Terrain R) (img : Image) (wn hn : Nat)
    (hwn : img.width = wn) (hhn : img.height = hn) :
    (loadHeightmap sqrt t0 (some img)).2.width = wn ∧
    (loadHeightmap sqrt t0 (some img)).2.height = hn ∧
    (loadHeightmap sqrt t0 (some img)).2.horizontalScale = t0.horizontalScale ∧
    (loadHeightmap sqrt t0 (some img)).2.heightScale = t0.heightScale ∧
    (loadHeightmap sqrt t0 (some img)).2.positions.length = wn * hn ∧
    (loadHeightmap sqrt t0 (some img)).2.heights.length = wn * hn ∧
    (∀ z x : Nat, z < hn → x < wn →
      (loadHeightmap sqrt t0 (some img)).2.positions[z * wn + x]? = some
        ⟨(x : R) * t0.horizontalScale - (loadHeightmap sqrt t0 (some img)).2.halfWidth,
         sampleHeight img.data t0.heightScale (z * wn + x),
         (z : R) * t0.horizontalScale - (loadHeightmap sqrt t0 (some img)).2.halfDepth⟩) ∧
    (∀ i : Nat, i < wn * hn →
      (loadHeightmap sqrt t0 (some img)).2.heights[i]? =
        some (sampleHeight img.data t0.heightScale i)) ∧
    (∀ i : Nat, i < wn * hn →
      sampleHeight img.data t0.heightScale i ≤ (loadHeightmap sqrt t0 (some img)).2.maxHeight) ∧
    0 ≤ (loadHeightmap sqrt t0 (some img)).2.maxHeight ∧
    ((loadHeightmap sqrt t0 (some img)).2.maxHeight = 0 ∨
      ∃ i : Nat, i < wn * hn ∧
        (loadHeightmap sqrt t0 (some img)).2.maxHeight = sampleHeight img.data t0.heightScale i)
    := by
  have hN : (img.width * img.height).toNat = wn * hn := by
    rw [hwn, hhn]; exact_mod_cast Int.toNat_ofNat (wn * hn)
  have hinv := processHeights_inv { t0 with width := img.width, height := img.height } img.data
  generalize hA : processHeights { t0 with width := img.width, height := img.height } img.data = A
    at hinv
  obtain ⟨⟨f1, f2, f3, f4, -⟩, hlen, hval, hle, h0, hmax⟩ := hinv
  simp only [length_resize, hN] at hlen hval hle hmax
  change A.heightScale = t0.heightScale at f3
  change A.horizontalScale = t0.horizontalScale at f4
  change A.width = img.width at f1
  change A.height = img.height at f2
  have hG := generatePositions_spec A wn hn (by rw [f1]; exact hwn) (by rw [f2]; exact hhn)
  generalize hGe : generatePositions A = G at hG
  have ht : (loadHeightmap sqrt t0 (some img)).2 = setupMesh (calculateNormals sqrt G) := by
    rw [← hGe, ← hA]; rfl
  obtain ⟨g1, g2, g3, g4, g5, -, -, -, g9, g10, g11⟩ := hG
  change G.width = A.width at g1
  change G.height = A.height at g2
  change G.heightScale = A.heightScale at g3
  change G.horizontalScale = A.horizontalScale at g4
  change G.heights = A.heights at g5
  change G.maxHeight = A.maxHeight at g9
  have glen : G.positions.length = wn * hn := by
    rw [g10]; simp [resizeVertexData, length_resize, f1, f2, hN]
  have rhw : (resizeVertexData A).halfWidth = (setupMesh (calculateNormals sqrt G)).halfWidth := by
    show ((A.width - 1 : Int) : R) * A.horizontalScale * (1 / 2)
      = ((G.width - 1 : Int) : R) * G.horizontalScale * (1 / 2)
    rw [g1, g4]
  have rhd : (resizeVertexData A).halfDepth = (setupMesh (calculateNormals sqrt G)).halfDepth := by
    show ((A.height - 1 : Int) : R) * A.horizontalScale * (1 / 2)
      = ((G.height - 1 : Int) : R) * G.horizontalScale * (1 / 2)
    rw [g2, g4]
  rw [ht]
  refine ⟨?_, ?_, ?_, ?_, ?_, ?_, ?_, ?_, ?_, ?_, ?_⟩
  · show G.width = wn
    rw [g1, f1, hwn]
  · show G.height = hn
    rw [g2, f2, hhn]
  · show G.horizontalScale = _
    rw [g4, f4]
  · show G.heightScale = _
    rw [g3, f3]
  · exact glen
  · show G.heights.length = _
    rw [g5, hlen]
  · intro z x hz hx
    show G.positions[z * wn + x]? = _
    rw [g11 z x hx hz, ← rhw, ← rhd]
    have hlt : z * wn + x < wn * hn := rowMajor_lt wn hn z x hz hx
    have hh : (resizeVertexData A).heights = A.heights := rfl
    have hs : (resizeVertexData A).horizontalScale = t0.horizontalScale := f4
    rw [readAt_natCast, hh, hval _ hlt, hs]
    rfl
  · intro i hi
    show G.heights[i]? = _
    rw [g5]; exact hval i hi
  · intro i hi
    show _ ≤ G.maxHeight
    rw [g9]; exact hle i hi
  · show 0 ≤ G.maxHeight
    rw [g9]; exact h0
  · show G.maxHeight = 0 ∨ ∃ i, i < wn * hn ∧ G.maxHeight = _
    rw [g9]; exact hmax

theorem int_rowMajor_cast (w x z : Int) (wn : Nat) (hw : w = wn) (hx0 : 0 ≤ x) (hz0 : 0 ≤ z) :
    z * w + x = ((z.toNat * wn + x.toNat : Nat) : Int) ∧ (z * w + x).toNat = z.toNat * wn + x.toNat
    := by
  have h1 : z * w + x = ((z.toNat * wn + x.toNat : Nat) : Int) := by
    push_cast
    rw [Int.toNat_of_nonneg hx0, Int.toNat_of_nonneg hz0, hw]
  refine ⟨h1, ?_⟩
  rw [h1]; exact Int.toNat_ofNat _

/-- C20: after `loadHeightmap` on an image with at least one row and column,
for every grid cell `(x, z)` the vertex `positions[z*width+x]` is
`(x*horizontalScale - halfWidth, elevation, z*horizontalScale - halfDepth)`
with `halfWidth = (width-1)*horizontalScale/2`, `halfDepth = (height-1)*horizontalScale/2`
and the elevation stored in `heights[z*width+x]` (the scaled sample); column 0
lies at `x = -halfWidth`, column `width-1` at `+halfWidth`, row 0 at
`z = -halfDepth` and row `height-1` at `+halfDepth`. -/
theorem loadHeightmap_positions (sqrt : R → R) (t0 : Terrain R) (img : Image)
    (hw : 1 ≤ img.width) (hh : 1 ≤ img.height) :
    let t := (loadHeightmap sqrt t0 (some img)).2
    let halfWidth : R := ((t.width - 1 : Int) : R) * t.horizontalScale / 2
    let halfDepth : R := ((t.height - 1 : Int) : R) * t.horizontalScale / 2
    (∀ x z : Int, 0 ≤ x → x < t.width → 0 ≤ z → z < t.height →
      ∃ e : R, readAt t.heights (z * t.width + x) = some e ∧
        e = ((img.data.getD (z * t.width + x).toNat 0 : Nat) : R) / 255 * t.heightScale ∧
        readAt t.positions (z * t.width + x) = some
          ⟨(x : R) * t.horizontalScale - halfWidth, e, (z : R) * t.horizontalScale - halfDepth⟩) ∧
    (∀ z : Int, 0 ≤ z → z < t.height →
      ∃ p q : Vec3 R, readAt t.positions (z * t.width + 0) = some p ∧ p.x = -halfWidth ∧
        readAt t.positions (z * t.width + (t.width - 1)) = some q ∧ q.x = halfWidth) ∧
    (∀ x : Int, 0 ≤ x → x < t.width →
      ∃ p q : Vec3 R, readAt t.positions (0 * t.width + x) = some p ∧ p.z = -halfDepth ∧
        readAt t.positions ((t.height - 1) * t.width + x) = some q ∧ q.z = halfDepth) := by
  intro t halfWidth halfDepth
  obtain ⟨wn, hwn⟩ := Int.eq_ofNat_of_zero_le (show 0 ≤ img.width by omega)
  obtain ⟨hn, hhn⟩ := Int.eq_ofNat_of_zero_le (show 0 ≤ img.height by omega)
  obtain ⟨e1, e2, e3, e4, -, -, epos, ehei, -⟩ := loadHeightmap_full sqrt t0 img wn hn hwn hhn
  change t.width = wn at e1
  change t.height = hn at e2
  change t.horizontalScale = _ at e3
  change t.heightScale = _ at e4
  have hhw : t.halfWidth = halfWidth := by
    show ((t.width - 1 : Int) : R) * t.horizontalScale * (1 / 2) = _
    show _ = ((t.width - 1 : Int) : R) * t.horizontalScale / 2
    ring
  have hhd : t.halfDepth = halfDepth := by
    show ((t.height - 1 : Int) : R) * t.horizontalScale * (1 / 2) = _
    show _ = ((t.height - 1 : Int) : R) * t.horizontalScale / 2
    ring
  have main : ∀ x z : Int, 0 ≤ x → x < t.width → 0 ≤ z → z < t.height →
      ∃ e : R, readAt t.heights (z * t.width + x) = some e ∧
        e = ((img.data.getD (z * t.width + x).toNat 0 : Nat) : R) / 255 * t.heightScale ∧
        readAt t.positions (z * t.width + x) = some
          ⟨(x : R) * t.horizontalScale - halfWidth, e,
            (z : R) * t.horizontalScale - halfDepth⟩ := by
    intro x z hx0 hx1 hz0 hz1
    obtain ⟨c1, c2⟩ := int_rowMajor_cast t.width x z wn e1 hx0 hz0
    have hxn : x.toNat < wn := by omega
    have hzn : z.toNat < hn := by omega
    have hlt := rowMajor_lt wn hn z.toNat x.toNat hzn hxn
    refine ⟨sampleHeight img.data t0.heightScale (z.toNat * wn + x.toNat), ?_, ?_, ?_⟩
    · rw [c1, readAt_natCast]; exact ehei _ hlt
    · rw [c2, e4]; rfl
    · rw [c1, readAt_natCast, epos _ _ hzn hxn, hhw, hhd, e3]
      have hx : ((x.toNat : Nat) : R) = (x : R) := by
        have := Int.toNat_of_nonneg hx0
        exact_mod_cast congrArg (fun i : Int => (i : R)) this
      have hz : ((z.toNat : Nat) : R) = (z : R) := by
        have := Int.toNat_of_nonneg hz0
        exact_mod_cast congrArg (fun i : Int => (i : R)) this
      rw [hx, hz]
  refine ⟨main, ?_, ?_⟩
  · intro z hz0 hz1
    obtain ⟨ea, -, -, pa⟩ := main 0 z (le_refl 0) (by omega) hz0 hz1
    obtain ⟨eb, -, -, pb⟩ := main (t.width - 1) z (by omega) (by omega) hz0 hz1
    refine ⟨_, _, pa, ?_, pb, ?_⟩
    · show ((0 : Int) : R) * t.horizontalScale - halfWidth = -halfWidth
      simp
    · show ((t.width - 1 : Int) : R) * t.horizontalScale - halfWidth = halfWidth
      show ((t.width - 1 : Int) : R) * t.horizontalScale
        - ((t.width - 1 : Int) : R) * t.horizontalScale / 2
        = ((t.width - 1 : Int) : R) * t.horizontalScale / 2
      ring
  · intro x hx0 hx1
    obtain ⟨ea, -, -, pa⟩ := main x 0 hx0 hx1 (le_refl 0) (by omega)
    obtain ⟨eb, -, -, pb⟩ := main x (t.height - 1) hx0 hx1 (by omega) (by omega)
    refine ⟨_, _, pa, ?_, pb, ?_⟩
    · show ((0 : Int) : R) * t.horizontalScale - halfDepth = -halfDepth
      simp
    · show ((t.height - 1 : Int) : R) * t.horizontalScale - halfDepth = halfDepth
      show ((t.height - 1 : Int) : R) * t.horizontalScale
        - ((t.height - 1 : Int) : R) * t.horizontalScale / 2
        = ((t.height - 1 : Int) : R) * t.horizontalScale / 2
      ring

theorem sampleHeight_nonneg (data : List Nat) (heightScale : R) (hs : 0 ≤ heightScale) (i : Nat) :
    0 ≤ sampleHeight data heightScale i :=
  mul_nonneg (div_nonneg (Nat.cast_nonneg _) (by norm_num)) hs

/-- The 2x2 example image satisfies the hypotheses of C20; its four vertices
are `(∓½, _, ∓½)`. -/
theorem loadHeightmap_positions_witness :
    (1 ≤ cornerImage.width ∧ 1 ≤ cornerImage.height) ∧
    (let t := cornerTerrain
     let halfWidth : ℚ := ((t.width - 1 : Int) : ℚ) * t.horizontalScale / 2
     let halfDepth : ℚ := ((t.height - 1 : Int) : ℚ) * t.horizontalScale / 2
     (∀ x z : Int, 0 ≤ x → x < t.width → 0 ≤ z → z < t.height →
       ∃ e : ℚ, readAt t.heights (z * t.width + x) = some e ∧
         e = ((cornerImage.data.getD (z * t.width + x).toNat 0 : Nat) : ℚ) / 255 * t.heightScale ∧
         readAt t.positions (z * t.width + x) = some
           ⟨(x : ℚ) * t.horizontalScale - halfWidth, e, (z : ℚ) * t.horizontalScale - halfDepth⟩) ∧
     (∀ z : Int, 0 ≤ z → z < t.height →
       ∃ p q : Vec3 ℚ, readAt t.positions (z * t.width + 0) = some p ∧ p.x = -halfWidth ∧
         readAt t.positions (z * t.width + (t.width - 1)) = some q ∧ q.x = halfWidth) ∧
     (∀ x : Int, 0 ≤ x → x < t.width →
       ∃ p q : Vec3 ℚ, readAt t.positions (0 * t.width + x) = some p ∧ p.z = -halfDepth ∧
         readAt t.positions ((t.height - 1) * t.width + x) = some q ∧ q.z = halfDepth)) ∧
    cornerTerrain.positions =
      [⟨-1 / 2, 0, -1 / 2⟩, ⟨1 / 2, 0, -1 / 2⟩, ⟨-1 / 2, 0, 1 / 2⟩, ⟨1 / 2, 10, 1 / 2⟩] :=
  ⟨⟨by decide, by decide⟩,
   loadHeightmap_positions ratSqrt (Terrain.new.setHeightScale 255) cornerImage
     (by decide) (by decide),
   by decide!⟩

/-- C19 fails for a negative `heightScale`: on the 2x2 image of samples 255
loaded with `heightScale = -1` every vertex has elevation `-1` while
`maxHeight` is `0`, so no vertex attains `maxHeight`. -/
theorem loadHeightmap_maxHeight_negative_scale :
    sunkenTerrain.maxHeight = 0 ∧
    sunkenTerrain.positions.map (fun p => p.y) = [-1, -1, -1, -1] ∧
    ¬ (∃ p ∈ sunkenTerrain.positions, p.y = sunkenTerrain.maxHeight) := by
  refine ⟨?_, ?_, ?_⟩ <;> decide!

/-- C19, amended: after `loadHeightmap` on a non-empty `w*h` grid of samples
with a configured `heightScale ≥ 0`, each stored elevation equals
`sample/255*heightScale`, every vertex's `y` is `≤ maxHeight` and some vertex's
`y` equals `maxHeight`. -/
theorem loadHeightmap_maxHeight (sqrt : R → R) (t0 : Terrain R) (img : Image)
    (hw : 1 ≤ img.width) (hh : 1 ≤ img.height)
    (hdata : img.data.length = (img.width * img.height).toNat)
    (hscale : 0 ≤ t0.heightScale) :
    let t := (loadHeightmap sqrt t0 (some img)).2
    (∀ x z : Int, 0 ≤ x → x < t.width → 0 ≤ z → z < t.height →
      ∃ (s : Nat) (p : Vec3 R), img.data[(z * t.width + x).toNat]? = some s ∧
        readAt t.positions (z * t.width + x) = some p ∧
        p.y = (s : R) / 255 * t0.heightScale) ∧
    (∀ p ∈ t.positions, p.y ≤ t.maxHeight) ∧
    (∃ p ∈ t.positions, p.y = t.maxHeight) := by
  intro t
  obtain ⟨wn, hwn⟩ := Int.eq_ofNat_of_zero_le (show 0 ≤ img.width by omega)
  obtain ⟨hn, hhn⟩ := Int.eq_ofNat_of_zero_le (show 0 ≤ img.height by omega)
  have hN : (img.width * img.height).toNat = wn * hn := by
    rw [hwn, hhn]; exact_mod_cast Int.toNat_ofNat (wn * hn)
  obtain ⟨e1, e2, e3, e4, elen, -, epos, -, ele, e0, emax⟩ :=
    loadHeightmap_full sqrt t0 img wn hn hwn hhn
  change t.width = wn at e1
  change t.height = hn at e2
  change t.positions.length = _ at elen
  have hwpos : 0 < wn := by omega
  have hhpos : 0 < hn := by omega
  -- every stored vertex carries the height of its sample
  have hall : ∀ k : Nat, k < wn * hn → ∃ p : Vec3 R, t.positions[k]? = some p ∧
      p.y = sampleHeight img.data t0.heightScale k := by
    intro k hk
    have hx : k % wn < wn := Nat.mod_lt _ hwpos
    have hz : k / wn < hn := by
      rw [Nat.div_lt_iff_lt_mul hwpos]; rw [Nat.mul_comm]; exact hk
    have hkk : k / wn * wn + k % wn = k := Nat.div_add_mod' k wn
    have := epos (k / wn) (k % wn) hz hx
    rw [hkk] at this
    exact ⟨_, this, rfl⟩
  refine ⟨?_, ?_, ?_⟩
  · intro x z hx0 hx1 hz0 hz1
    obtain ⟨c1, c2⟩ := int_rowMajor_cast t.width x z wn e1 hx0 hz0
    have hlt := rowMajor_lt wn hn z.toNat x.toNat (by omega) (by omega)
    obtain ⟨p, hp, hy⟩ := hall _ hlt
    have hd : z.toNat * wn + x.toNat < img.data.length := by rw [hdata, hN]; exact hlt
    refine ⟨img.data[z.toNat * wn + x.toNat], p, ?_, ?_, ?_⟩
    · rw [c2]; exact List.getElem?_eq_getElem hd
    · rw [c1, readAt_natCast]; exact hp
    · rw [hy]
      unfold sampleHeight
      rw [List.getD_eq_getElem?_getD, List.getElem?_eq_getElem hd]
      rfl
  · intro p hp
    obtain ⟨k, hk⟩ := List.mem_iff_getElem?.mp hp
    obtain ⟨hklt, -⟩ := List.getElem?_eq_some.mp hk
    rw [elen] at hklt
    obtain ⟨q, hq, hy⟩ := hall k hklt
    rw [hk] at hq
    rw [Option.some.inj hq, hy]
    exact ele k hklt
  · rcases emax with h0 | ⟨i, hi, hmax⟩
    · have h1 : 0 < wn * hn := Nat.mul_pos hwpos hhpos
      obtain ⟨p, hp, hy⟩ := hall 0 h1
      refine ⟨p, List.mem_iff_getElem?.mpr ⟨0, hp⟩, ?_⟩
      have hle := ele 0 h1
      have hge := sampleHeight_nonneg img.data t0.heightScale hscale 0
      change _ ≤ t.maxHeight at hle
      change t.maxHeight = 0 at h0
      rw [hy, h0]
      rw [h0] at hle
      exact le_antisymm hle hge
    · obtain ⟨p, hp, hy⟩ := hall i hi
      refine ⟨p, List.mem_iff_getElem?.mpr ⟨i, hp⟩, ?_⟩
      rw [hy]; exact hmax.symm

/-- The 2x2 example image with `heightScale = 255` satisfies the hypotheses of
the amended C19; its `maxHeight` is `10`. -/
theorem loadHeightmap_maxHeight_witness :
    (1 ≤ cornerImage.width ∧ 1 ≤ cornerImage.height ∧
      cornerImage.data.length = (cornerImage.width * cornerImage.height).toNat ∧
      0 ≤ (Terrain.new.setHeightScale 255 : Terrain ℚ).heightScale) ∧
    (let t := cornerTerrain
     (∀ x z : Int, 0 ≤ x → x < t.width → 0 ≤ z → z < t.height →
       ∃ (s : Nat) (p : Vec3 ℚ), cornerImage.data[(z * t.width + x).toNat]? = some s ∧
         readAt t.positions (z * t.width + x) = some p ∧
         p.y = (s : ℚ) / 255 * (Terrain.new.setHeightScale 255 : Terrain ℚ).heightScale) ∧
     (∀ p ∈ t.positions, p.y ≤ t.maxHeight) ∧
     (∃ p ∈ t.positions, p.y = t.maxHeight)) ∧
    cornerTerrain.maxHeight = 10 :=
  ⟨⟨by decide, by decide, by decide, by decide!⟩,
   loadHeightmap_maxHeight ratSqrt (Terrain.new.setHeightScale 255) cornerImage
     (by decide) (by decide) (by decide) (by decide!),
   by decide!⟩

end Terrain

/-! ## Path validation -/

/-- In `Option`, `mapM` succeeds exactly with the list of the pointwise results. -/
theorem mapM_option_iff {α β : Type} (f : α → Option β) :
    ∀ (l : List α) (l' : List β),
      l.mapM f = some l' ↔ List.Forall₂ (fun a b => f a = some b) l l' := by
  intro l
  induction l with
  | nil =>
    intro l'
    simp only [List.mapM_nil, List.forall₂_nil_left_iff]
    constructor
    · intro h; exact (Option.some.inj h).symm
    · intro h; rw [h]; rfl
  | cons a l ih =>
    intro l'
    rw [List.mapM_cons]
    cases hfa : f a with
    | none =>
      simp only [Option.bind_eq_bind, Option.none_bind]
      constructor
      · intro h; exact absurd h (by simp)
      · intro h
        cases h with
        | cons h1 _ => rw [hfa] at h1; exact absurd h1 (by simp)
    | some b =>
      cases hl : l.mapM f with
      | none =>
        simp only [Option.bind_eq_bind, Option.some_bind, Option.none_bind]
        constructor
        · intro h; exact absurd h (by simp)
        · intro h
          cases h with
          | cons _ h2 =>
            rw [← ih] at h2
            rw [hl] at h2
            exact absurd h2 (by simp)
      | some bs =>
        simp only [Option.bind_eq_bind, Option.some_bind]
        constructor
        · intro h
          have : b :: bs = l' := Option.some.inj h
          rw [← this]
          exact List.Forall₂.cons hfa ((ih bs).mp hl)
        · intro h
          cases h with
          | cons h1 h2 =>
            rw [hfa] at h1
            rw [← ih, hl] at h2
            rw [← Option.some.inj h1, ← Option.some.inj h2]
            rfl

theorem mapM_option_total {α β : Type} (f : α → Option β) (l : List α)
    (hf : ∀ a ∈ l, ∃ b, f a = some b) : ∃ l', l.mapM f = some l' := by
  induction l with
  | nil => exact ⟨[], rfl⟩
  | cons a l ih =>
    obtain ⟨b, hb⟩ := hf a (List.mem_cons_self a l)
    obtain ⟨bs, hbs⟩ := ih (fun x hx => hf x (List.mem_cons_of_mem a hx))
    refine ⟨b :: bs, ?_⟩
    rw [mapM_option_iff]
    exact List.Forall₂.cons hb ((mapM_option_iff f l bs).mp hbs)

theorem forall₂_mem_right {α β : Type} (P : α → β → Prop) (l : List α) (l' : List β)
    (h : List.Forall₂ P l l') (b : β) (hb : b ∈ l') : ∃ a ∈ l, P a b := by
  induction h with
  | nil => exact absurd hb (List.not_mem_nil b)
  | cons hab _ ih =>
    rcases List.mem_cons.mp hb with rfl | hb'
    · exact ⟨_, List.mem_cons_self _ _, hab⟩
    · obtain ⟨a, ha, hP⟩ := ih hb'
      exact ⟨a, List.mem_cons_of_mem _ ha, hP⟩

theorem mapM_option_congr {α β : Type} (f g : α → Option β) :
    ∀ (l l' : List α), List.Forall₂ (fun a a' => f a = g a') l l' → l.mapM f = l'.mapM g := by
  intro l l' h
  induction h with
  | nil => rfl
  | cons hab _ ih => rw [List.mapM_cons, List.mapM_cons, hab, ih]

theorem forall₂_of_map_eq {α β : Type} (k : α → β) :
    ∀ (l l' : List α), l.map k = l'.map k → List.Forall₂ (fun a a' => k a = k a') l l' := by
  intro l
  induction l with
  | nil =>
    intro l' h
    cases l' with
    | nil => exact List.Forall₂.nil
    | cons _ _ => simp at h
  | cons a l ih =>
    intro l' h
    cases l' with
    | nil => simp at h
    | cons a' l' =>
      simp only [List.map_cons, List.cons.injEq] at h
      exact List.Forall₂.cons h.1 (ih l' h.2)

namespace Hiker

variable {R : Type} [LinearOrderedField R] [FloorRing R]

theorem validatePoint_eq_some (h : Hiker R) (terrain : Terrain R) (minX maxX minZ maxZ : R)
    (p q : Vec3 R) (hq : validatePoint h terrain minX maxX minZ maxZ p = some q) :
    q.x = clamp (p.x * h.horizontalScale) minX maxX ∧
    q.z = clamp (p.z * h.horizontalScale) minZ maxZ ∧
    ∃ ht : R, terrain.getHeightAtPosition q.x q.z = some ht ∧ q.y = ht + 1 / 2 := by
  unfold validatePoint at hq
  simp only [] at hq
  split at hq
  next ht hht =>
    have := Option.some.inj hq
    subst this
    exact ⟨rfl, rfl, ht, hht, rfl⟩
  next => exact absurd hq (by simp)

theorem validatePoint_total (h : Hiker R) (terrain : Terrain R) (hg : terrain.IsGrid)
    (minX maxX minZ maxZ : R) (p : Vec3 R) :
    ∃ q, validatePoint h terrain minX maxX minZ maxZ p = some q := by
  obtain ⟨_, _, _, _, -, -, -, -, e⟩ := Terrain.getHeightAtPosition_eq terrain hg
    (clamp (p.x * h.horizontalScale) minX maxX) (clamp (p.z * h.horizontalScale) minZ maxZ)
  unfold validatePoint
  simp only [e]
  exact ⟨_, rfl⟩

/-- What `validatePath` returns: an empty path is left alone, otherwise every
point is replaced by its validated point. -/
theorem validatePath_eq_some (h h' : Hiker R) (terrain : Terrain R)
    (hv : validatePath h terrain = some h') :
    (h.pathPoints = [] ∧ h' = h) ∨
    (h.pathPoints ≠ [] ∧ h' = { h with pathPoints := h'.pathPoints } ∧
      List.Forall₂ (fun p q => validatePoint h terrain
        (-((terrain.getWidth : R) * terrain.getHorizontalScale) * (1 / 2))
        ((terrain.getWidth : R) * terrain.getHorizontalScale * (1 / 2))
        (-((terrain.getHeight : R) * terrain.getHorizontalScale) * (1 / 2))
        ((terrain.getHeight : R) * terrain.getHorizontalScale * (1 / 2)) p = some q)
        h.pathPoints h'.pathPoints) := by
  unfold validatePath at hv
  split at hv
  next hemp =>
    left
    exact ⟨List.isEmpty_iff.mp hemp, (Option.some.inj hv).symm⟩
  next hne =>
    right
    simp only [] at hv
    split at hv
    next v hm =>
      have := Option.some.inj hv
      subst this
      refine ⟨fun hc => hne (by rw [hc]; rfl), rfl, ?_⟩
      exact (mapM_option_iff _ _ _).mp hm
    next => exact absurd hv (by simp)

theorem validatePath_total (h : Hiker R) (terrain : Terrain R) (hg : terrain.IsGrid) :
    ∃ h', validatePath h terrain = some h' := by
  unfold validatePath
  split
  · exact ⟨h, rfl⟩
  · simp only []
    obtain ⟨v, hv⟩ := mapM_option_total (validatePoint h terrain
        (-((terrain.getWidth : R) * terrain.getHorizontalScale) * (1 / 2))
        ((terrain.getWidth : R) * terrain.getHorizontalScale * (1 / 2))
        (-((terrain.getHeight : R) * terrain.getHorizontalScale) * (1 / 2))
        ((terrain.getHeight : R) * terrain.getHorizontalScale * (1 / 2))) h.pathPoints
      (fun p _ => validatePoint_total h terrain hg _ _ _ _ p)
    rw [hv]
    exact ⟨_, rfl⟩

theorem validatePoint_congr (h h2 : Hiker R) (hs : h2.horizontalScale = h.horizontalScale)
    (terrain : Terrain R) (minX maxX minZ maxZ : R) (p p' : Vec3 R)
    (hp : (p.x, p.z) = (p'.x, p'.z)) :
    validatePoint h2 terrain minX maxX minZ maxZ p = validatePoint h terrain minX maxX minZ maxZ p'
    := by
  have hx : p.x = p'.x := congrArg Prod.fst hp
  have hz : p.z = p'.z := congrArg Prod.snd hp
  unfold validatePoint
  rw [hs, hx, hz]

/-- C17: against a terrain grid `validatePath` completes, every validated
waypoint has `y = terrain.getHeightAtPosition(x, z) + 1/2` for its own validated
`(x, z)`, and a second path that differs from the first only in the `y`
components yields the same validated `pathPoints`, hence the same
`segmentDistances` and `totalPathLength`. -/
theorem validatePath_discards_elevation (sqrt : R → R) (terrain : Terrain R)
    (hg : terrain.IsGrid) (h : Hiker R) (points2 : List (Vec3 R))
    (hxz : points2.map (fun p => (p.x, p.z)) = h.pathPoints.map (fun p => (p.x, p.z))) :
    ∃ h1 h2 : Hiker R,
      validatePath h terrain = some h1 ∧
      validatePath { h with pathPoints := points2 } terrain = some h2 ∧
      (∀ p ∈ h1.pathPoints, ∃ ht : R,
        terrain.getHeightAtPosition p.x p.z = some ht ∧ p.y = ht + 1 / 2) ∧
      h2.pathPoints = h1.pathPoints ∧
      (calculateSegmentDistances sqrt h2).segmentDistances
        = (calculateSegmentDistances sqrt h1).segmentDistances ∧
      (calculateSegmentDistances sqrt h2).totalPathLength
        = (calculateSegmentDistances sqrt h1).totalPathLength := by
  obtain ⟨h1, hv1⟩ := validatePath_total h terrain hg
  have hy : ∀ p ∈ h1.pathPoints, ∃ ht : R,
      terrain.getHeightAtPosition p.x p.z = some ht ∧ p.y = ht + 1 / 2 := by
    intro p hp
    rcases validatePath_eq_some h h1 terrain hv1 with ⟨hemp, heq⟩ | ⟨-, -, hall⟩
    · rw [heq, hemp] at hp
      exact absurd hp (List.not_mem_nil p)
    · obtain ⟨a, -, ha⟩ := forall₂_mem_right _ _ _ hall p hp
      exact (validatePoint_eq_some h terrain _ _ _ _ a p ha).2.2
  have hv2 : validatePath { h with pathPoints := points2 } terrain = some h1 := by
    by_cases hemp : h.pathPoints = []
    · have h2emp : points2 = [] := by
        rw [hemp] at hxz
        exact List.map_eq_nil_iff.mp hxz
      have : ({ h with pathPoints := points2 } : Hiker R) = h := by
        rw [h2emp, ← hemp]
      rw [this]; exact hv1
    · have h2ne : points2 ≠ [] := by
        intro hc
        rw [hc] at hxz
        exact hemp (List.map_eq_nil_iff.mp hxz.symm)
      have e1 : h.pathPoints.isEmpty = false := by
        cases hp : h.pathPoints with
        | nil => exact absurd hp hemp
        | cons _ _ => rfl
      have e2 : points2.isEmpty = false := by
        cases hp : points2 with
        | nil => exact absurd hp h2ne
        | cons _ _ => rfl
      have hm := mapM_option_congr
        (validatePoint { h with pathPoints := points2 } terrain
          (-((terrain.getWidth : R) * terrain.getHorizontalScale) * (1 / 2))
          ((terrain.getWidth : R) * terrain.getHorizontalScale * (1 / 2))
          (-((terrain.getHeight : R) * terrain.getHorizontalScale) * (1 / 2))
          ((terrain.getHeight : R) * terrain.getHorizontalScale * (1 / 2)))
        (validatePoint h terrain
          (-((terrain.getWidth : R) * terrain.getHorizontalScale) * (1 / 2))
          ((terrain.getWidth : R) * terrain.getHorizontalScale * (1 / 2))
          (-((terrain.getHeight : R) * terrain.getHorizontalScale) * (1 / 2))
          ((terrain.getHeight : R) * terrain.getHorizontalScale * (1 / 2)))
        points2 h.pathPoints
        (List.Forall₂.imp (fun a b hab => validatePoint_congr h _ rfl terrain _ _ _ _ a b hab)
          (forall₂_of_map_eq (fun p : Vec3 R => (p.x, p.z)) points2 h.pathPoints hxz))
      unfold validatePath at hv1 ⊢
      simp only [e1, e2, Bool.false_eq_true, if_false] at hv1 ⊢
      rw [hm]
      exact hv1
  exact ⟨h1, h1, hv1, hv2, hy, rfl, rfl, rfl⟩

/-- The flat example terrain and two paths with the same `(x, z)` and other
elevations satisfy the hypotheses of C17; both validate to
`(0,½,0), (10,½,0), (10,½,10)`. -/
theorem validatePath_discards_elevation_witness :
    (flatTerrain.IsGrid ∧
      liftedPoints.map (fun p => (p.x, p.z)) = trackHiker.pathPoints.map (fun p => (p.x, p.z))) ∧
    (∃ h1 h2 : Hiker ℚ,
      validatePath trackHiker flatTerrain = some h1 ∧
      validatePath { trackHiker with pathPoints := liftedPoints } flatTerrain = some h2 ∧
      (∀ p ∈ h1.pathPoints, ∃ ht : ℚ,
        flatTerrain.getHeightAtPosition p.x p.z = some ht ∧ p.y = ht + 1 / 2) ∧
      h2.pathPoints = h1.pathPoints ∧
      (calculateSegmentDistances ratSqrt h2).segmentDistances
        = (calculateSegmentDistances ratSqrt h1).segmentDistances ∧
      (calculateSegmentDistances ratSqrt h2).totalPathLength
        = (calculateSegmentDistances ratSqrt h1).totalPathLength) ∧
    (validatePath { trackHiker with pathPoints := liftedPoints } flatTerrain).map
        (fun h => h.pathPoints) = some [⟨0, 1 / 2, 0⟩, ⟨10, 1 / 2, 0⟩, ⟨10, 1 / 2, 10⟩] :=
  ⟨⟨⟨by decide!, by decide!, by decide!⟩, by decide!⟩,
   validatePath_discards_elevation ratSqrt flatTerrain ⟨by decide!, by decide!, by decide!⟩
     trackHiker liftedPoints (by decide!),
   by decide!⟩

/-- The bounds that `validatePath` does enforce: every validated waypoint lies
within `± width * horizontalScale / 2` and `± height * horizontalScale / 2`. -/
theorem validatePath_clamp_bounds (h h' : Hiker R) (terrain : Terrain R)
    (hv : validatePath h terrain = some h') (hne : h.pathPoints ≠ [])
    (hW : 0 ≤ (terrain.width : R) * terrain.horizontalScale)
    (hD : 0 ≤ (terrain.height : R) * terrain.horizontalScale) :
    ∀ p ∈ h'.pathPoints,
      (-((terrain.width : R) * terrain.horizontalScale / 2) ≤ p.x ∧
        p.x ≤ (terrain.width : R) * terrain.horizontalScale / 2) ∧
      (-((terrain.height : R) * terrain.horizontalScale / 2) ≤ p.z ∧
        p.z ≤ (terrain.height : R) * terrain.horizontalScale / 2) := by
  intro p hp
  rcases validatePath_eq_some h h' terrain hv with ⟨hemp, -⟩ | ⟨-, -, hall⟩
  · exact absurd hemp hne
  · obtain ⟨a, -, ha⟩ := forall₂_mem_right _ _ _ hall p hp
    obtain ⟨hx, hz, -⟩ := validatePoint_eq_some h terrain _ _ _ _ a p ha
    rw [hx, hz]
    unfold clamp Terrain.getWidth Terrain.getHeight Terrain.getHorizontalScale
    refine ⟨⟨?_, ?_⟩, ?_, ?_⟩
    · exact le_min (le_trans (by linarith) (le_max_right _ _)) (by linarith)
    · exact le_trans (min_le_right _ _) (by linarith)
    · exact le_min (le_trans (by linarith) (le_max_right _ _)) (by linarith)
    · exact le_trans (min_le_right _ _) (by linarith)

/-- C16 at a concrete waypoint: the flat example mesh (`width = 2`,
`horizontalScale = 20`) has its vertices at `x = ±10`, so `halfWidth = 10`, and
`validatePath` leaves the waypoint `(15, 0, 0)` at `x = 15`, outside
`[-halfWidth, halfWidth]`. -/
theorem validatePath_outside_mesh :
    flatTerrain.width = 2 ∧ flatTerrain.horizontalScale = 20 ∧
    flatTerrain.positions.map (fun p => p.x) = [-10, 10, -10, 10] ∧
    ((flatTerrain.width - 1 : Int) : ℚ) * flatTerrain.horizontalScale / 2 = 10 ∧
    (validatePath strayHiker flatTerrain).map (fun h => h.pathPoints)
      = some [⟨15, 1 / 2, 0⟩] := by
  refine ⟨?_, ?_, ?_, ?_, ?_⟩ <;> decide!

end Hiker

/-! ## Path loading -/

/-- Related lists have the same length and related entries. -/
theorem forall₂_getElem? {α β : Type} (P : α → β → Prop) (l : List α) (l' : List β)
    (h : List.Forall₂ P l l') :
    l'.length = l.length ∧ ∀ (i : Nat) (a : α), l[i]? = some a → ∃ b, l'[i]? = some b ∧ P a b := by
  induction h with
  | nil => exact ⟨rfl, fun i a ha => absurd ha (by simp)⟩
  | cons hab _ ih =>
    refine ⟨by simp [ih.1], ?_⟩
    intro i a ha
    cases i with
    | zero =>
      simp only [List.getElem?_cons_zero] at ha ⊢
      rw [← Option.some.inj ha]
      exact ⟨_, rfl, hab⟩
    | succ i =>
      simp only [List.getElem?_cons_succ] at ha ⊢
      exact ih.2 i a ha

namespace Hiker

variable {R : Type} [LinearOrderedField R] [FloorRing R]

/-- The read loop yields one point per complete triple of the leading run of
numeric tokens, in order. -/
theorem readPoints_spec : ∀ (n : Nat) (tokens : List (Option R)), tokens.length ≤ n →
    (readPoints tokens).length = (tokens.takeWhile Option.isSome).length / 3 ∧
    ∀ i : Nat, i < (readPoints tokens).length →
      ∃ x y z : R, tokens[3 * i]? = some (some x) ∧ tokens[3 * i + 1]? = some (some y) ∧
        tokens[3 * i + 2]? = some (some z) ∧ (readPoints tokens)[i]? = some ⟨x, y, z⟩ := by
  intro n
  induction n with
  | zero =>
    intro tokens hlen
    have : tokens = [] := List.length_eq_zero.mp (Nat.le_zero.mp hlen)
    subst this
    refine ⟨by simp [readPoints], ?_⟩
    intro i hi
    simp [readPoints] at hi
  | succ n ih =>
    intro tokens hlen
    rcases tokens with _ | ⟨_ | x, _ | ⟨_ | y, _ | ⟨_ | z, rest⟩⟩⟩
    case cons.some.cons.some.cons.some =>
      obtain ⟨ih1, ih2⟩ := ih rest (by simp at hlen; omega)
      have hr : readPoints (some x :: some y :: some z :: rest) = ⟨x, y, z⟩ :: readPoints rest := by
        simp [readPoints]
      rw [hr]
      refine ⟨?_, ?_⟩
      · simp only [List.length_cons, List.takeWhile_cons, Option.isSome_some, if_true, ih1]
        omega
      · intro i hi
        cases i with
        | zero => exact ⟨x, y, z, by simp, by simp, by simp, by simp⟩
        | succ i =>
          obtain ⟨x', y', z', e1, e2, e3, e4⟩ := ih2 i (by simpa using hi)
          refine ⟨x', y', z', ?_, ?_, ?_, ?_⟩
          · have : 3 * (i + 1) = 3 * i + 1 + 1 + 1 := by ring
            rw [this]; simpa using e1
          · have : 3 * (i + 1) + 1 = 3 * i + 1 + 1 + 1 + 1 := by ring
            rw [this]; simpa using e2
          · have : 3 * (i + 1) + 2 = 3 * i + 2 + 1 + 1 + 1 := by ring
            rw [this]; simpa using e3
          · simpa using e4
    all_goals
      refine ⟨by simp [readPoints], ?_⟩
      intro i hi
      simp [readPoints] at hi

theorem calculateSegmentDistances_pathPoints (sqrt : R → R) (h : Hiker R) :
    (calculateSegmentDistances sqrt h).pathPoints = h.pathPoints := by
  by_cases hne : h.pathPoints = []
  · unfold calculateSegmentDistances
    simp [hne]
  · have hpos : 0 < h.pathPoints.length := List.length_pos.mpr hne
    exact (segInv_fold sqrt h (h.pathPoints.length - 1) (by omega)).1

/-- Over a terrain grid, `loadPathData` returns `false` when the file cannot be
opened, and for an opened file with `k` leading successful extractions it
returns `false` exactly when `k < 3`; otherwise it returns `true` with `k / 3`
path points, the `i`-th being the validated `i`-th triple of extracted values, with
`currentDistance = 0`, `currentSegmentIndex = 0` and `position = pathPoints[0]`. -/
theorem loadPathData_spec (sqrt : R → R) (h0 : Hiker R) (terrain : Terrain R)
    (hg : terrain.IsGrid) :
    loadPathData sqrt h0 none terrain = some (false, h0) ∧
    ∀ tokens : List (Option R),
      ∃ (ok : Bool) (h : Hiker R),
        loadPathData sqrt h0 (some tokens) terrain = some (ok, h) ∧
        (ok = false ↔ (tokens.takeWhile Option.isSome).length < 3) ∧
        (ok = true →
          h.pathPoints.length = (tokens.takeWhile Option.isSome).length / 3 ∧
          h.currentDistance = 0 ∧ h.currentSegmentIndex = 0 ∧
          h.pathPoints.head? = some h.position ∧
          ∀ i : Nat, i < h.pathPoints.length →
            ∃ (x y z : R) (q : Vec3 R),
              tokens[3 * i]? = some (some x) ∧ tokens[3 * i + 1]? = some (some y) ∧
              tokens[3 * i + 2]? = some (some z) ∧ h.pathPoints[i]? = some q ∧
              validatePoint h0 terrain
                (-((terrain.getWidth : R) * terrain.getHorizontalScale) * (1 / 2))
                ((terrain.getWidth : R) * terrain.getHorizontalScale * (1 / 2))
                (-((terrain.getHeight : R) * terrain.getHorizontalScale) * (1 / 2))
                ((terrain.getHeight : R) * terrain.getHorizontalScale * (1 / 2))
                ⟨x, y, z⟩ = some q) := by
  refine ⟨rfl, ?_⟩
  intro tokens
  obtain ⟨hlen, hpts⟩ := readPoints_spec tokens.length tokens (le_refl _)
  by_cases hemp : readPoints tokens = []
  · refine ⟨false, { h0 with pathPoints := readPoints tokens }, ?_, ?_, ?_⟩
    · unfold loadPathData
      simp [hemp]
    · rw [hemp] at hlen
      simp only [List.length_nil] at hlen
      constructor
      · intro _; omega
      · intro _; rfl
    · intro hc; exact absurd hc (by simp)
  · obtain ⟨h2, hv⟩ := validatePath_total { h0 with pathPoints := readPoints tokens } terrain hg
    have hne : ({ h0 with pathPoints := readPoints tokens } : Hiker R).pathPoints ≠ [] := hemp
    rcases validatePath_eq_some _ h2 terrain hv with ⟨hc, -⟩ | ⟨-, -, hall⟩
    · exact absurd hc hne
    · obtain ⟨vlen, vget⟩ := forall₂_getElem? _ _ _ hall
      change h2.pathPoints.length = (readPoints tokens).length at vlen
      have hcp := calculateSegmentDistances_pathPoints sqrt h2
      have hpos : 0 < (readPoints tokens).length := List.length_pos.mpr hemp
      have h2pos : 0 < h2.pathPoints.length := by omega
      obtain ⟨p0, hp0⟩ : ∃ p0, (calculateSegmentDistances sqrt h2).pathPoints.head? = some p0 := by
        rw [hcp]
        cases hh : h2.pathPoints with
        | nil => rw [hh] at h2pos; exact absurd h2pos (by simp)
        | cons a _ => exact ⟨a, rfl⟩
      have hemp' : (readPoints tokens).isEmpty = false := by
        cases hh : readPoints tokens with
        | nil => exact absurd hh hemp
        | cons _ _ => rfl
      refine ⟨true, { calculateSegmentDistances sqrt h2 with
        position := p0, currentDistance := 0, currentSegmentIndex := 0 }, ?_, ?_, ?_⟩
      · unfold loadPathData
        simp only [hemp', Bool.false_eq_true, if_false, hv, hp0]
      · constructor
        · intro hc; exact absurd hc (by simp)
        · intro hc; omega
      · intro _
        refine ⟨?_, rfl, rfl, hp0, ?_⟩
        · show (calculateSegmentDistances sqrt h2).pathPoints.length = _
          rw [hcp, vlen, hlen]
        · intro i hi
          change i < (calculateSegmentDistances sqrt h2).pathPoints.length at hi
          rw [hcp, vlen] at hi
          obtain ⟨x, y, z, e1, e2, e3, e4⟩ := hpts i hi
          obtain ⟨q, hq, hval⟩ := vget i ⟨x, y, z⟩ e4
          refine ⟨x, y, z, q, e1, e2, e3, ?_, hval⟩
          show (calculateSegmentDistances sqrt h2).pathPoints[i]? = some q
          rw [hcp]; exact hq

/-- Over the flat example terrain the extraction results of `1 2 3 4 5 x 6` load
the single point `(1, ½, 3)` and those of `1 2 x 3` load nothing. -/
theorem loadPathData_spec_witness :
    flatTerrain.IsGrid ∧
    (loadPathData ratSqrt (Hiker.new : Hiker ℚ) none flatTerrain = some (false, Hiker.new) ∧
     ∀ tokens : List (Option ℚ),
      ∃ (ok : Bool) (h : Hiker ℚ),
        loadPathData ratSqrt Hiker.new (some tokens) flatTerrain = some (ok, h) ∧
        (ok = false ↔ (tokens.takeWhile Option.isSome).length < 3) ∧
        (ok = true →
          h.pathPoints.length = (tokens.takeWhile Option.isSome).length / 3 ∧
          h.currentDistance = 0 ∧ h.currentSegmentIndex = 0 ∧
          h.pathPoints.head? = some h.position ∧
          ∀ i : Nat, i < h.pathPoints.length →
            ∃ (x y z : ℚ) (q : Vec3 ℚ),
              tokens[3 * i]? = some (some x) ∧ tokens[3 * i + 1]? = some (some y) ∧
              tokens[3 * i + 2]? = some (some z) ∧ h.pathPoints[i]? = some q ∧
              validatePoint (Hiker.new : Hiker ℚ) flatTerrain
                (-((flatTerrain.getWidth : ℚ) * flatTerrain.getHorizontalScale) * (1 / 2))
                ((flatTerrain.getWidth : ℚ) * flatTerrain.getHorizontalScale * (1 / 2))
                (-((flatTerrain.getHeight : ℚ) * flatTerrain.getHorizontalScale) * (1 / 2))
                ((flatTerrain.getHeight : ℚ) * flatTerrain.getHorizontalScale * (1 / 2))
                ⟨x, y, z⟩ = some q)) ∧
    (loadPathData ratSqrt (Hiker.new : Hiker ℚ)
        (some [some 1, some 2, some 3, some 4, some 5, none, some 6]) flatTerrain).map
        (fun r => (r.1, r.2.pathPoints, r.2.position)) = some (true, [⟨1, 1 / 2, 3⟩], ⟨1, 1 / 2, 3⟩) ∧
    (loadPathData ratSqrt (Hiker.new : Hiker ℚ) (some [some 1, some 2, none, some 3]) flatTerrain).map
        (fun r => (r.1, r.2.pathPoints)) = some (false, []) :=
  ⟨⟨by decide!, by decide!, by decide!⟩,
   loadPathData_spec ratSqrt Hiker.new flatTerrain ⟨by decide!, by decide!, by decide!⟩,
   by decide!, by decide!⟩

end Hiker

/-! ## The segment search -/

namespace Hiker

variable {R : Type} [LinearOrderedField R] [FloorRing R]

/-- The parts of a completed `updatePosition`: the cursor arithmetic, the two
searches, the four reads, the quotient and the height query. -/
theorem updatePosition_parts (h h' : Hiker R) (deltaTime : R) (terrain : Terrain R)
    (hu : updatePosition h deltaTime terrain = some h') :
    ∃ (i1 i2 : Int) (d0 d1 t ht : R) (p0 p1 : Vec3 R),
      searchForward (advanceDistance h deltaTime).segmentDistances
        (advanceDistance h deltaTime).currentDistance
        ((advanceDistance h deltaTime).segmentDistances.length + 1)
        (advanceDistance h deltaTime).currentSegmentIndex = some i1 ∧
      searchBackward (advanceDistance h deltaTime).segmentDistances
        (advanceDistance h deltaTime).currentDistance (i1.toNat + 1) i1 = some i2 ∧
      readAt (advanceDistance h deltaTime).segmentDistances i2 = some d0 ∧
      readAt (advanceDistance h deltaTime).segmentDistances (i2 + 1) = some d1 ∧
      readAt (advanceDistance h deltaTime).pathPoints i2 = some p0 ∧
      readAt (advanceDistance h deltaTime).pathPoints (i2 + 1) = some p1 ∧
      fdiv ((advanceDistance h deltaTime).currentDistance - d0) (d1 - d0) = some t ∧
      terrain.getHeightAtPosition (mixVec p0 p1 t).x (mixVec p0 p1 t).z = some ht ∧
      h' = { advanceDistance h deltaTime with
        currentSegmentIndex := i2,
        position := ⟨(mixVec p0 p1 t).x, ht + 1 / 2, (mixVec p0 p1 t).z⟩ } := by
  unfold updatePosition at hu
  simp only [] at hu
  split at hu
  · exact absurd hu (by simp)
  next i1 hi1 =>
    split at hu
    · exact absurd hu (by simp)
    next i2 hi2 =>
      split at hu
      next d0 d1 p0 p1 hd0 hd1 hp0 hp1 =>
        split at hu
        next t ht' =>
          split at hu
          next ht hht =>
            exact ⟨i1, i2, d0, d1, t, ht, p0, p1, hi1, hi2, hd0, hd1, hp0, hp1, ht', hht,
              (Option.some.inj hu).symm⟩
          · exact absurd hu (by simp)
        · exact absurd hu (by simp)
      · exact absurd hu (by simp)

/-- The converse of `updatePosition_parts`. -/
theorem updatePosition_of_parts (h : Hiker R) (deltaTime : R) (terrain : Terrain R)
    (i1 i2 : Int) (d0 d1 t ht : R) (p0 p1 : Vec3 R)
    (hi1 : searchForward (advanceDistance h deltaTime).segmentDistances
        (advanceDistance h deltaTime).currentDistance
        ((advanceDistance h deltaTime).segmentDistances.length + 1)
        (advanceDistance h deltaTime).currentSegmentIndex = some i1)
    (hi2 : searchBackward (advanceDistance h deltaTime).segmentDistances
        (advanceDistance h deltaTime).currentDistance (i1.toNat + 1) i1 = some i2)
    (hd0 : readAt (advanceDistance h deltaTime).segmentDistances i2 = some d0)
    (hd1 : readAt (advanceDistance h deltaTime).segmentDistances (i2 + 1) = some d1)
    (hp0 : readAt (advanceDistance h deltaTime).pathPoints i2 = some p0)
    (hp1 : readAt (advanceDistance h deltaTime).pathPoints (i2 + 1) = some p1)
    (ht' : fdiv ((advanceDistance h deltaTime).currentDistance - d0) (d1 - d0) = some t)
    (hht : terrain.getHeightAtPosition (mixVec p0 p1 t).x (mixVec p0 p1 t).z = some ht) :
    updatePosition h deltaTime terrain = some { advanceDistance h deltaTime with
        currentSegmentIndex := i2,
        position := ⟨(mixVec p0 p1 t).x, ht + 1 / 2, (mixVec p0 p1 t).z⟩ } := by
  unfold updatePosition
  simp only [hi1, hi2, hd0, hd1, hp0, hp1, ht', hht]

theorem sizeMinusOne_of_pos (n : Nat) (hn : 0 < n) : sizeMinusOne n = (n : Int) - 1 := by
  unfold sizeMinusOne
  rw [if_neg (by omega)]

theorem readAt_isSome {α : Type} (v : List α) (i : Int) (h0 : 0 ≤ i) (h1 : i < v.length) :
    ∃ a, readAt v i = some a := by
  have : i.toNat < v.length := by omega
  exact ⟨v[i.toNat], by simp [readAt, h0, this]⟩

theorem readAt_range {α : Type} (v : List α) (i : Int) (a : α) (h : readAt v i = some a) :
    0 ≤ i ∧ i < v.length := by
  unfold readAt at h
  split at h
  next h0 =>
    obtain ⟨hlt, -⟩ := List.getElem?_eq_some.mp h
    omega
  next => exact absurd h (by simp)

/-- The forward search from a valid segment with the cursor not beyond the last
entry stops at a valid segment whose end is not before the cursor. -/
theorem searchForward_spec (seg : List R) (cur total : R) (hlen : 2 ≤ seg.length)
    (hlast : readAt seg ((seg.length : Int) - 1) = some total) (hcur : cur ≤ total) :
    ∀ (fuel : Nat) (index res : Int), searchForward seg cur fuel index = some res →
      0 ≤ index → index ≤ (seg.length : Int) - 2 →
      index ≤ res ∧ res ≤ (seg.length : Int) - 2 ∧
      ∃ d, readAt seg (res + 1) = some d ∧ cur ≤ d := by
  intro fuel
  induction fuel with
  | zero => intro index res h; exact absurd h (by simp [searchForward])
  | succ fuel ih =>
    intro index res h h0 h1
    unfold searchForward at h
    rw [sizeMinusOne_of_pos _ (by omega)] at h
    rw [if_pos (by omega)] at h
    split at h
    next d hd =>
      split at h
      next hgt =>
        have hne : index + 1 ≠ (seg.length : Int) - 1 := by
          intro hc
          rw [hc, hlast] at hd
          rw [Option.some.inj hd] at hcur
          exact absurd hgt (not_lt.mpr hcur)
        obtain ⟨a, b, c⟩ := ih (index + 1) res h (by omega) (by omega)
        exact ⟨by omega, b, c⟩
      next hle =>
        have := Option.some.inj h
        subst this
        exact ⟨le_refl _, h1, d, hd, not_lt.mp hle⟩
    next => exact absurd h (by simp)

/-- The backward search stops at a segment whose start is not after the cursor;
if it moved, the end of that segment is after the cursor. -/
theorem searchBackward_spec (seg : List R) (cur : R) :
    ∀ (fuel : Nat) (index res : Int), searchBackward seg cur fuel index = some res →
      0 ≤ index →
      0 ≤ res ∧ res ≤ index ∧
      (res = 0 ∨ ∃ d, readAt seg res = some d ∧ d ≤ cur) ∧
      (res = index ∨ ∃ d, readAt seg (res + 1) = some d ∧ cur < d) := by
  intro fuel
  induction fuel with
  | zero => intro index res h; exact absurd h (by simp [searchBackward])
  | succ fuel ih =>
    intro index res h h0
    unfold searchBackward at h
    split at h
    next hpos =>
      split at h
      next d hd =>
        split at h
        next hlt =>
          obtain ⟨a, b, c, e⟩ := ih (index - 1) res h (by omega)
          refine ⟨a, by omega, c, Or.inr ?_⟩
          rcases e with e | e
          · rw [e]
            have : index - 1 + 1 = index := by omega
            rw [this]
            exact ⟨d, hd, hlt⟩
          · exact e
        next hge =>
          have := Option.some.inj h
          subst this
          exact ⟨h0, le_refl _, Or.inr ⟨d, hd, not_lt.mp hge⟩, Or.inl rfl⟩
      next => exact absurd h (by simp)
    next hnpos =>
      have := Option.some.inj h
      subst this
      exact ⟨h0, le_refl _, Or.inl (by omega), Or.inl rfl⟩

/-- With the fuel that `updatePosition` gives it, the forward search completes. -/
theorem searchForward_total (seg : List R) (cur : R) (hlen : 1 ≤ seg.length) :
    ∀ (fuel : Nat) (index : Int), 0 ≤ index → index ≤ (seg.length : Int) - 1 →
      (seg.length : Int) - index ≤ fuel →
      ∃ res, searchForward seg cur fuel index = some res := by
  intro fuel
  induction fuel with
  | zero => intro index h0 h1 hf; omega
  | succ fuel ih =>
    intro index h0 h1 hf
    unfold searchForward
    rw [sizeMinusOne_of_pos _ (by omega)]
    split
    next hlt =>
      obtain ⟨d, hd⟩ := readAt_isSome seg (index + 1) (by omega) (by omega)
      rw [hd]
      simp only []
      split
      · exact ih (index + 1) (by omega) (by omega) (by push_cast at hf ⊢; omega)
      · exact ⟨index, rfl⟩
    next => exact ⟨index, rfl⟩

/-- With the fuel that `updatePosition` gives it, the backward search completes. -/
theorem searchBackward_total (seg : List R) (cur : R) :
    ∀ (fuel : Nat) (index : Int), 0 ≤ index → index < (seg.length : Int) →
      index + 1 ≤ fuel →
      ∃ res, searchBackward seg cur fuel index = some res := by
  intro fuel
  induction fuel with
  | zero => intro index h0 h1 hf; omega
  | succ fuel ih =>
    intro index h0 h1 hf
    unfold searchBackward
    split
    next hpos =>
      obtain ⟨d, hd⟩ := readAt_isSome seg index h0 h1
      rw [hd]
      simp only []
      split
      · exact ih (index - 1) (by omega) (by omega) (by push_cast at hf ⊢; omega)
      · exact ⟨index, rfl⟩
    next => exact ⟨index, rfl⟩

/-- The cursor arithmetic touches only the cursor, the direction and the
segment index, which it keeps or resets to 0. -/
theorem advanceDistance_frame (h : Hiker R) (deltaTime : R) :
    (advanceDistance h deltaTime).totalPathLength = h.totalPathLength ∧
    (advanceDistance h deltaTime).segmentDistances = h.segmentDistances ∧
    (advanceDistance h deltaTime).pathPoints = h.pathPoints ∧
    ((advanceDistance h deltaTime).currentSegmentIndex = h.currentSegmentIndex ∨
      (advanceDistance h deltaTime).currentSegmentIndex = 0) := by
  unfold advanceDistance
  simp only []
  split_ifs <;> exact ⟨rfl, rfl, rfl, by first | exact Or.inl rfl | exact Or.inr rfl⟩

/-- The cursor arithmetic keeps the cursor within `[0, totalPathLength]`. -/
theorem advanceDistance_range (h : Hiker R) (deltaTime : R)
    (hcur : 0 ≤ h.currentDistance ∧ h.currentDistance ≤ h.totalPathLength)
    (hd : 0 ≤ h.speed * deltaTime) :
    0 ≤ (advanceDistance h deltaTime).currentDistance ∧
    (advanceDistance h deltaTime).currentDistance ≤ h.totalPathLength := by
  obtain ⟨h0, h1⟩ := hcur
  have ht : 0 ≤ h.totalPathLength := le_trans h0 h1
  unfold advanceDistance
  simp only [ge_iff_le]
  split_ifs
  all_goals (try dsimp only at *)
  all_goals first
    | exact ⟨ht, le_refl _⟩
    | exact ⟨le_refl _, ht⟩
    | (constructor <;> linarith)

/-- What a loaded track provides: one cumulative distance per waypoint, the
first being 0 and the last being `totalPathLength`. -/
theorem trackLoaded_facts (sqrt : R → R) (h : Hiker R) (hload : TrackLoaded sqrt h)
    (hn : 1 ≤ h.pathPoints.length) :
    h.segmentDistances.length = h.pathPoints.length ∧
    readAt h.segmentDistances 0 = some 0 ∧
    readAt h.segmentDistances ((h.segmentDistances.length : Int) - 1) = some h.totalPathLength := by
  obtain ⟨a1, a2, a3, a4, -⟩ := segInv_fold sqrt h (h.pathPoints.length - 1) (by omega)
  change (calculateSegmentDistances sqrt h).segmentDistances.length = _ at a2
  change (calculateSegmentDistances sqrt h).segmentDistances[0]? = _ at a3
  change (calculateSegmentDistances sqrt h).segmentDistances[h.pathPoints.length - 1]? =
    some (calculateSegmentDistances sqrt h).totalPathLength at a4
  rw [← hload.1] at a2 a3 a4
  rw [← hload.2] at a4
  have hl : h.segmentDistances.length = h.pathPoints.length := by omega
  refine ⟨hl, ?_, ?_⟩
  · show readAt h.segmentDistances ((0 : Nat) : Int) = _
    rw [Terrain.readAt_natCast]; exact a3
  · have : (h.segmentDistances.length : Int) - 1 = ((h.pathPoints.length - 1 : Nat) : Int) := by
      omega
    rw [this, Terrain.readAt_natCast]; exact a4

/-- The two searches of `updatePosition` on the advanced state always complete
and end in a valid segment that contains the cursor. -/
theorem search_located (sqrt : R → R) (h : Hiker R) (deltaTime : R)
    (hn : 2 ≤ h.pathPoints.length) (hload : TrackLoaded sqrt h)
    (hidx : 0 ≤ h.currentSegmentIndex ∧
      h.currentSegmentIndex ≤ (h.pathPoints.length : Int) - 2)
    (hcur : 0 ≤ h.currentDistance ∧ h.currentDistance ≤ h.totalPathLength)
    (hd : 0 ≤ h.speed * deltaTime) :
    ∃ (i1 i2 : Int) (d0 d1 : R),
      searchForward (advanceDistance h deltaTime).segmentDistances
        (advanceDistance h deltaTime).currentDistance
        ((advanceDistance h deltaTime).segmentDistances.length + 1)
        (advanceDistance h deltaTime).currentSegmentIndex = some i1 ∧
      searchBackward (advanceDistance h deltaTime).segmentDistances
        (advanceDistance h deltaTime).currentDistance (i1.toNat + 1) i1 = some i2 ∧
      0 ≤ i2 ∧ i2 ≤ (h.pathPoints.length : Int) - 2 ∧
      readAt h.segmentDistances i2 = some d0 ∧ readAt h.segmentDistances (i2 + 1) = some d1 ∧
      d0 ≤ (advanceDistance h deltaTime).currentDistance ∧
      (advanceDistance h deltaTime).currentDistance ≤ d1 := by
  obtain ⟨f1, f2, f3, f4⟩ := advanceDistance_frame h deltaTime
  obtain ⟨r0, r1⟩ := advanceDistance_range h deltaTime hcur hd
  obtain ⟨l1, l2, l3⟩ := trackLoaded_facts sqrt h hload (by omega)
  rw [f2]
  generalize (advanceDistance h deltaTime).currentDistance = cur at r0 r1
  generalize (advanceDistance h deltaTime).currentSegmentIndex = idx at f4
  have hidx' : 0 ≤ idx ∧ idx ≤ (h.segmentDistances.length : Int) - 2 := by
    rcases f4 with e | e <;> rw [e] <;> omega
  obtain ⟨i1, hi1⟩ := searchForward_total h.segmentDistances cur (by omega)
    (h.segmentDistances.length + 1) idx hidx'.1 (by omega) (by push_cast; omega)
  obtain ⟨a1, a2, d1, hd1, hle1⟩ := searchForward_spec h.segmentDistances cur h.totalPathLength
    (by omega) l3 r1 _ idx i1 hi1 hidx'.1 hidx'.2
  obtain ⟨i2, hi2⟩ := searchBackward_total h.segmentDistances cur (i1.toNat + 1) i1
    (by omega) (by omega) (by push_cast; omega)
  obtain ⟨b1, b2, b3, b4⟩ := searchBackward_spec h.segmentDistances cur _ i1 i2 hi2 (by omega)
  obtain ⟨d0, hd0⟩ := readAt_isSome h.segmentDistances i2 b1 (by omega)
  obtain ⟨d1', hd1'⟩ := readAt_isSome h.segmentDistances (i2 + 1) (by omega) (by omega)
  refine ⟨i1, i2, d0, d1', hi1, hi2, b1, by omega, hd0, hd1', ?_, ?_⟩
  · rcases b3 with e | ⟨d, hd, hle⟩
    · rw [e, l2] at hd0
      rw [← Option.some.inj hd0]; exact r0
    · rw [hd] at hd0
      rw [← Option.some.inj hd0]; exact hle
  · rcases b4 with e | ⟨d, hd, hlt⟩
    · rw [e, hd1] at hd1'
      rw [← Option.some.inj hd1']; exact hle1
    · rw [hd] at hd1'
      rw [← Option.some.inj hd1']; exact hlt.le

/-- On a loaded track without zero-length segments, from a valid state and over
a terrain grid, `updatePosition` completes. -/
theorem updatePosition_total (sqrt : R → R) (h : Hiker R) (deltaTime : R) (terrain : Terrain R)
    (hn : 2 ≤ h.pathPoints.length) (hload : TrackLoaded sqrt h)
    (hidx : 0 ≤ h.currentSegmentIndex ∧
      h.currentSegmentIndex ≤ (h.pathPoints.length : Int) - 2)
    (hcur : 0 ≤ h.currentDistance ∧ h.currentDistance ≤ h.totalPathLength)
    (hd : 0 ≤ h.speed * deltaTime) (hg : terrain.IsGrid) (hnz : NoZeroSegment h) :
    ∃ h', updatePosition h deltaTime terrain = some h' := by
  obtain ⟨i1, i2, d0, d1, hi1, hi2, b0, b1, hd0, hd1, -, -⟩ :=
    search_located sqrt h deltaTime hn hload hidx hcur hd
  obtain ⟨-, f2, f3, -⟩ := advanceDistance_frame h deltaTime
  obtain ⟨p0, hp0⟩ := readAt_isSome h.pathPoints i2 b0 (by omega)
  obtain ⟨p1, hp1⟩ := readAt_isSome h.pathPoints (i2 + 1) (by omega) (by omega)
  have hne : d1 - d0 ≠ 0 := sub_ne_zero.mpr (hnz i2 d0 d1 hd0 hd1).symm
  have hdiv : fdiv ((advanceDistance h deltaTime).currentDistance - d0) (d1 - d0)
      = some (((advanceDistance h deltaTime).currentDistance - d0) / (d1 - d0)) := by
    unfold fdiv; rw [if_neg hne]
  obtain ⟨_, _, _, _, -, -, -, -, e⟩ := Terrain.getHeightAtPosition_eq terrain hg
    (mixVec p0 p1 (((advanceDistance h deltaTime).currentDistance - d0) / (d1 - d0))).x
    (mixVec p0 p1 (((advanceDistance h deltaTime).currentDistance - d0) / (d1 - d0))).z
  exact ⟨_, updatePosition_of_parts h deltaTime terrain i1 i2 d0 d1 _ _ p0 p1 hi1 hi2
    (by rw [f2]; exact hd0) (by rw [f2]; exact hd1) (by rw [f3]; exact hp0)
    (by rw [f3]; exact hp1) hdiv e⟩

/-- C11: on a loaded track with `n ≥ 2` points, from any state with
`currentSegmentIndex` in `[0, n-2]` and `currentDistance` in `[0, totalPathLength]`
and for `speed * deltaTime ≥ 0`, the two search loops of `updatePosition`
complete and leave `0 ≤ currentSegmentIndex ≤ n-2` with
`segmentDistances[index] ≤ currentDistance ≤ segmentDistances[index+1]`; every
completed `updatePosition` ends in such a state, and the step completes over a
terrain grid when no segment of the track has zero length. -/
theorem updatePosition_segment_invariant (sqrt : R → R) (h : Hiker R) (deltaTime : R)
    (terrain : Terrain R) (hn : 2 ≤ h.pathPoints.length) (hload : TrackLoaded sqrt h)
    (hidx : 0 ≤ h.currentSegmentIndex ∧
      h.currentSegmentIndex ≤ (h.pathPoints.length : Int) - 2)
    (hcur : 0 ≤ h.currentDistance ∧ h.currentDistance ≤ h.totalPathLength)
    (hd : 0 ≤ h.speed * deltaTime) (hg : terrain.IsGrid) :
    (∃ i1 i2 : Int,
      searchForward (advanceDistance h deltaTime).segmentDistances
        (advanceDistance h deltaTime).currentDistance
        ((advanceDistance h deltaTime).segmentDistances.length + 1)
        (advanceDistance h deltaTime).currentSegmentIndex = some i1 ∧
      searchBackward (advanceDistance h deltaTime).segmentDistances
        (advanceDistance h deltaTime).currentDistance (i1.toNat + 1) i1 = some i2 ∧
      SegmentInvariant { advanceDistance h deltaTime with currentSegmentIndex := i2 }) ∧
    (∀ h' : Hiker R, updatePosition h deltaTime terrain = some h' → SegmentInvariant h') ∧
    (NoZeroSegment h → ∃ h' : Hiker R, updatePosition h deltaTime terrain = some h') := by
  obtain ⟨i1, i2, d0, d1, hi1, hi2, b0, b1, hd0, hd1, hle0, hle1⟩ :=
    search_located sqrt h deltaTime hn hload hidx hcur hd
  obtain ⟨-, f2, f3, -⟩ := advanceDistance_frame h deltaTime
  have hinv : SegmentInvariant { advanceDistance h deltaTime with currentSegmentIndex := i2 } := by
    refine ⟨b0, ?_, d0, d1, ?_, ?_, hle0, hle1⟩
    · show i2 ≤ ((advanceDistance h deltaTime).pathPoints.length : Int) - 2
      rw [f3]; exact b1
    · show readAt (advanceDistance h deltaTime).segmentDistances i2 = some d0
      rw [f2]; exact hd0
    · show readAt (advanceDistance h deltaTime).segmentDistances (i2 + 1) = some d1
      rw [f2]; exact hd1
  refine ⟨⟨i1, i2, hi1, hi2, hinv⟩, ?_, fun hnz =>
    updatePosition_total sqrt h deltaTime terrain hn hload hidx hcur hd hg hnz⟩
  intro h' hu
  obtain ⟨j1, j2, e0, e1, t, ht, p0, p1, hj1, hj2, -, -, -, -, -, -, heq⟩ :=
    updatePosition_parts h h' deltaTime terrain hu
  rw [hi1] at hj1
  have e1' : j1 = i1 := (Option.some.inj hj1).symm
  subst e1'
  rw [hi2] at hj2
  have e2' : j2 = i2 := (Option.some.inj hj2).symm
  subst e2'
  subst heq
  exact hinv

/-- The example hiker (track `[0, 10, 20]`, reset) with a step of 1 s over the
flat terrain satisfies the hypotheses of C11; the step ends at cursor 10 in
segment 0. -/
theorem updatePosition_segment_invariant_witness :
    (2 ≤ loadedHiker.pathPoints.length ∧ TrackLoaded ratSqrt loadedHiker ∧
      (0 ≤ loadedHiker.currentSegmentIndex ∧
        loadedHiker.currentSegmentIndex ≤ (loadedHiker.pathPoints.length : Int) - 2) ∧
      (0 ≤ loadedHiker.currentDistance ∧
        loadedHiker.currentDistance ≤ loadedHiker.totalPathLength) ∧
      0 ≤ loadedHiker.speed * 1 ∧ flatTerrain.IsGrid) ∧
    ((∃ i1 i2 : Int,
      searchForward (advanceDistance loadedHiker 1).segmentDistances
        (advanceDistance loadedHiker 1).currentDistance
        ((advanceDistance loadedHiker 1).segmentDistances.length + 1)
        (advanceDistance loadedHiker 1).currentSegmentIndex = some i1 ∧
      searchBackward (advanceDistance loadedHiker 1).segmentDistances
        (advanceDistance loadedHiker 1).currentDistance (i1.toNat + 1) i1 = some i2 ∧
      SegmentInvariant { advanceDistance loadedHiker 1 with currentSegmentIndex := i2 }) ∧
    (∀ h' : Hiker ℚ, updatePosition loadedHiker 1 flatTerrain = some h' → SegmentInvariant h') ∧
    (NoZeroSegment loadedHiker →
      ∃ h' : Hiker ℚ, updatePosition loadedHiker 1 flatTerrain = some h')) ∧
    (updatePosition loadedHiker 1 flatTerrain).map
        (fun h => (h.segmentDistances, h.currentDistance, h.currentSegmentIndex))
      = some ([0, 10, 20], 10, 0) :=
  ⟨⟨by decide!, ⟨by decide!, by decide!⟩, ⟨by decide!, by decide!⟩, ⟨by decide!, by decide!⟩,
    by decide!, ⟨by decide!, by decide!, by decide!⟩⟩,
   updatePosition_segment_invariant ratSqrt loadedHiker 1 flatTerrain (by decide!)
     ⟨by decide!, by decide!⟩ ⟨by decide!, by decide!⟩ ⟨by decide!, by decide!⟩ (by decide!)
     ⟨by decide!, by decide!, by decide!⟩,
   by decide!⟩

end Hiker

/-! ## The cursor range -/

namespace Hiker

variable {R : Type} [LinearOrderedField R] [FloorRing R]

/-- The total length computed by `calculateSegmentDistances` is non-negative. -/
theorem calculateSegmentDistances_total_nonneg (sqrt : R → R) (hsq : ∀ x, 0 ≤ sqrt x)
    (h : Hiker R) : 0 ≤ (calculateSegmentDistances sqrt h).totalPathLength := by
  by_cases hne : h.pathPoints = []
  · unfold calculateSegmentDistances
    simp [hne]
  · have hpos : 0 < h.pathPoints.length := List.length_pos.mpr hne
    have hinv := segInv_fold sqrt h (h.pathPoints.length - 1) (by omega)
    obtain ⟨d0, d1, e0, e1, hle⟩ := segInv_mono sqrt hsq _ _ _ hinv 0 (h.pathPoints.length - 1)
      (Nat.zero_le _) (le_refl _)
    obtain ⟨-, -, a3, a4, -⟩ := hinv
    rw [a3] at e0
    rw [a4] at e1
    rw [← Option.some.inj e0, ← Option.some.inj e1] at hle
    exact hle

theorem updatePosition_range (h h' : Hiker R) (deltaTime : R) (terrain : Terrain R)
    (hcur : CursorInRange h) (hd : 0 ≤ h.speed * deltaTime)
    (hu : updatePosition h deltaTime terrain = some h') : CursorInRange h' := by
  obtain ⟨e1, -, e3, -⟩ := updatePosition_cursor h h' deltaTime terrain hu
  obtain ⟨f1, -⟩ := advanceDistance_frame h deltaTime
  obtain ⟨r0, r1⟩ := advanceDistance_range h deltaTime hcur hd
  unfold CursorInRange
  rw [e1, e3, f1]
  exact ⟨r0, r1⟩

/-- C12: `0 ≤ currentDistance ≤ totalPathLength` holds in the state that a
successful `loadPathData` leaves, and from a state where it holds and with
`speed * deltaTime ≥ 0` it holds after the cursor arithmetic of `updatePosition`,
after every completed `updatePosition`, `moveForward` and `moveBackward`, and
after `resetPath`; `updatePosition` completes on a loaded track of at least two
points over a terrain grid when no segment has zero length. -/
theorem cursor_range_invariant (sqrt : R → R) (hsq : ∀ x, 0 ≤ sqrt x) (h : Hiker R)
    (deltaTime : R) (hcur : CursorInRange h) (hd : 0 ≤ h.speed * deltaTime) :
    (∀ (h0 hl : Hiker R) (file : Option (List (Option R))) (terrain : Terrain R),
      loadPathData sqrt h0 file terrain = some (true, hl) → CursorInRange hl) ∧
    CursorInRange (advanceDistance h deltaTime) ∧
    (∀ (terrain : Terrain R) (h' : Hiker R),
      updatePosition h deltaTime terrain = some h' → CursorInRange h') ∧
    (∀ h' : Hiker R, moveForward h deltaTime = some h' → CursorInRange h') ∧
    (∀ h' : Hiker R, moveBackward h deltaTime = some h' → CursorInRange h') ∧
    CursorInRange (resetPath h) ∧
    (∀ terrain : Terrain R, 2 ≤ h.pathPoints.length → TrackLoaded sqrt h →
      (0 ≤ h.currentSegmentIndex ∧ h.currentSegmentIndex ≤ (h.pathPoints.length : Int) - 2) →
      terrain.IsGrid → NoZeroSegment h →
      ∃ h' : Hiker R, updatePosition h deltaTime terrain = some h') := by
  refine ⟨?_, ?_, ?_, ?_, ?_, ?_, fun terrain hn hload hidx hg hnz =>
    updatePosition_total sqrt h deltaTime terrain hn hload hidx hcur hd hg hnz⟩
  · intro h0 hl file terrain hload
    unfold loadPathData at hload
    split at hload
    · exact absurd (congrArg Prod.fst (Option.some.inj hload)) (by simp)
    next tokens =>
      simp only [] at hload
      split at hload
      · exact absurd (congrArg Prod.fst (Option.some.inj hload)) (by simp)
      · split at hload
        · exact absurd hload (by simp)
        next h2 hv =>
          split at hload
          · exact absurd hload (by simp)
          next p0 hp0 =>
            have := congrArg Prod.snd (Option.some.inj hload)
            simp only [] at this
            subst this
            exact ⟨le_refl _, calculateSegmentDistances_total_nonneg sqrt hsq h2⟩
  · obtain ⟨f1, -⟩ := advanceDistance_frame h deltaTime
    obtain ⟨r0, r1⟩ := advanceDistance_range h deltaTime hcur hd
    unfold CursorInRange
    rw [f1]; exact ⟨r0, r1⟩
  · intro terrain h' hu
    exact updatePosition_range h h' deltaTime terrain hcur hd hu
  · intro h' hm
    unfold moveForward at hm
    simp only [] at hm
    split at hm
    next terrain _ =>
      exact updatePosition_range { h with movingForward := true } h' deltaTime terrain hcur hd hm
    next =>
      rw [← Option.some.inj hm]; exact hcur
  · intro h' hm
    unfold moveBackward at hm
    simp only [] at hm
    split at hm
    next terrain _ =>
      exact updatePosition_range { h with movingForward := false } h' deltaTime terrain hcur hd hm
    next =>
      rw [← Option.some.inj hm]; exact hcur
  · have ht : 0 ≤ h.totalPathLength := le_trans hcur.1 hcur.2
    unfold resetPath
    simp only []
    split <;> exact ⟨le_refl _, ht⟩

/-- The hiker loaded with `(0,0,0), (10,0,0), (10,0,10)` over the flat terrain
satisfies the hypotheses of C12 for `deltaTime = 3`: a forward step ends at
distance 20 of 20 and a backward step at distance 0. -/
theorem cursor_range_invariant_witness :
    ((∀ x, 0 ≤ ratSqrt x) ∧ CursorInRange loadedHiker ∧ 0 ≤ loadedHiker.speed * 3) ∧
    ((∀ (h0 hl : Hiker ℚ) (file : Option (List (Option ℚ))) (terrain : Terrain ℚ),
      loadPathData ratSqrt h0 file terrain = some (true, hl) → CursorInRange hl) ∧
    CursorInRange (advanceDistance loadedHiker 3) ∧
    (∀ (terrain : Terrain ℚ) (h' : Hiker ℚ),
      updatePosition loadedHiker 3 terrain = some h' → CursorInRange h') ∧
    (∀ h' : Hiker ℚ, moveForward loadedHiker 3 = some h' → CursorInRange h') ∧
    (∀ h' : Hiker ℚ, moveBackward loadedHiker 3 = some h' → CursorInRange h') ∧
    CursorInRange (resetPath loadedHiker) ∧
    (∀ terrain : Terrain ℚ, 2 ≤ loadedHiker.pathPoints.length → TrackLoaded ratSqrt loadedHiker →
      (0 ≤ loadedHiker.currentSegmentIndex ∧
        loadedHiker.currentSegmentIndex ≤ (loadedHiker.pathPoints.length : Int) - 2) →
      terrain.IsGrid → NoZeroSegment loadedHiker →
      ∃ h' : Hiker ℚ, updatePosition loadedHiker 3 terrain = some h')) ∧
    (updatePosition loadedHiker 3 flatTerrain).map
        (fun h => (h.currentDistance, h.totalPathLength)) = some (20, 20) ∧
    (moveBackward loadedHiker 3).map
        (fun h => (h.currentDistance, h.totalPathLength)) = some (0, 20) :=
  ⟨⟨ratSqrt_nonneg, ⟨by decide!, by decide!⟩, by decide!⟩,
   cursor_range_invariant ratSqrt ratSqrt_nonneg loadedHiker 3 ⟨by decide!, by decide!⟩
     (by decide!),
   by decide!, by decide!⟩

end Hiker

/-! ## The position of the hiker -/

theorem readAt_map_eq {α β : Type} (k : α → β) (l l' : List α) (hm : l'.map k = l.map k)
    (i : Int) (a : α) (ha : readAt l i = some a) :
    ∃ a', readAt l' i = some a' ∧ k a' = k a := by
  unfold readAt at ha ⊢
  split at ha
  next h0 =>
    rw [if_pos h0]
    have h1 : (l.map k)[i.toNat]? = some (k a) := by rw [List.getElem?_map, ha]; rfl
    rw [← hm, List.getElem?_map] at h1
    cases h2 : l'[i.toNat]? with
    | none => rw [h2] at h1; exact absurd h1 (by simp)
    | some a' =>
      rw [h2] at h1
      exact ⟨a', rfl, Option.some.inj h1⟩
  next => exact absurd ha (by simp)

namespace Hiker

variable {R : Type} [LinearOrderedField R] [FloorRing R]

theorem advanceDistance_pathPoints (h : Hiker R) (deltaTime : R) (points2 : List (Vec3 R)) :
    advanceDistance { h with pathPoints := points2 } deltaTime
      = { advanceDistance h deltaTime with pathPoints := points2 } := by
  unfold advanceDistance
  simp only []
  split_ifs <;> rfl

/-- Replacing the waypoints by others with the same `(x, z)` does not change
the position that a completed `updatePosition` computes. -/
theorem updatePosition_points_congr (h h' : Hiker R) (deltaTime : R) (terrain : Terrain R)
    (points2 : List (Vec3 R))
    (hxz : points2.map (fun p => (p.x, p.z)) = h.pathPoints.map (fun p => (p.x, p.z)))
    (hu : updatePosition h deltaTime terrain = some h') :
    ∃ h2 : Hiker R, updatePosition { h with pathPoints := points2 } deltaTime terrain = some h2 ∧
      h2.position = h'.position := by
  obtain ⟨i1, i2, d0, d1, t, ht, p0, p1, hi1, hi2, hd0, hd1, hp0, hp1, ht', hht, heq⟩ :=
    updatePosition_parts h h' deltaTime terrain hu
  obtain ⟨-, -, f3, -⟩ := advanceDistance_frame h deltaTime
  rw [f3] at hp0 hp1
  obtain ⟨q0, hq0, e0⟩ := readAt_map_eq (fun p : Vec3 R => (p.x, p.z)) h.pathPoints points2 hxz
    i2 p0 hp0
  obtain ⟨q1, hq1, e1⟩ := readAt_map_eq (fun p : Vec3 R => (p.x, p.z)) h.pathPoints points2 hxz
    (i2 + 1) p1 hp1
  have e0x : q0.x = p0.x := congrArg Prod.fst e0
  have e0z : q0.z = p0.z := congrArg Prod.snd e0
  have e1x : q1.x = p1.x := congrArg Prod.fst e1
  have e1z : q1.z = p1.z := congrArg Prod.snd e1
  have hx : (mixVec q0 q1 t).x = (mixVec p0 p1 t).x := by
    show q0.x * (1 - t) + q1.x * t = p0.x * (1 - t) + p1.x * t
    rw [e0x, e1x]
  have hz : (mixVec q0 q1 t).z = (mixVec p0 p1 t).z := by
    show q0.z * (1 - t) + q1.z * t = p0.z * (1 - t) + p1.z * t
    rw [e0z, e1z]
  have key := updatePosition_of_parts { h with pathPoints := points2 } deltaTime terrain
    i1 i2 d0 d1 t ht q0 q1
  rw [advanceDistance_pathPoints] at key
  have res := key hi1 hi2 hd0 hd1 hq0 hq1 ht' (by rw [hx, hz]; exact hht)
  refine ⟨_, res, ?_⟩
  rw [heq]
  show (⟨(mixVec q0 q1 t).x, ht + 1 / 2, (mixVec q0 q1 t).z⟩ : Vec3 R)
    = ⟨(mixVec p0 p1 t).x, ht + 1 / 2, (mixVec p0 p1 t).z⟩
  rw [hx, hz]

/-- Where the step completes: on a loaded track of at least two points, every
completed `updatePosition` leaves `position.x` and `position.z` equal to the linear
interpolation of `pathPoints[currentSegmentIndex]` and
`pathPoints[currentSegmentIndex + 1]` at
`t = (currentDistance - segmentDistances[i]) / (segmentDistances[i+1] - segmentDistances[i])`
and `position.y` equal to `getHeightAtPosition(position.x, position.z) + 0.5`;
the position is the same for any other waypoint elevations; and the step
completes over a terrain grid when no segment has zero length. -/
theorem updatePosition_reprojection (sqrt : R → R) (h : Hiker R) (deltaTime : R)
    (terrain : Terrain R) (hn : 2 ≤ h.pathPoints.length) (hload : TrackLoaded sqrt h)
    (hidx : 0 ≤ h.currentSegmentIndex ∧
      h.currentSegmentIndex ≤ (h.pathPoints.length : Int) - 2)
    (hcur : CursorInRange h) (hd : 0 ≤ h.speed * deltaTime) (hg : terrain.IsGrid) :
    (∀ h' : Hiker R, updatePosition h deltaTime terrain = some h' →
      ∃ (d0 d1 ht : R) (p0 p1 : Vec3 R),
        readAt h'.segmentDistances h'.currentSegmentIndex = some d0 ∧
        readAt h'.segmentDistances (h'.currentSegmentIndex + 1) = some d1 ∧
        readAt h'.pathPoints h'.currentSegmentIndex = some p0 ∧
        readAt h'.pathPoints (h'.currentSegmentIndex + 1) = some p1 ∧
        d1 - d0 ≠ 0 ∧
        h'.position.x = mix p0.x p1.x ((h'.currentDistance - d0) / (d1 - d0)) ∧
        h'.position.z = mix p0.z p1.z ((h'.currentDistance - d0) / (d1 - d0)) ∧
        terrain.getHeightAtPosition h'.position.x h'.position.z = some ht ∧
        h'.position.y = ht + 1 / 2) ∧
    (∀ points2 : List (Vec3 R),
      points2.map (fun p => (p.x, p.z)) = h.pathPoints.map (fun p => (p.x, p.z)) →
      (updatePosition { h with pathPoints := points2 } deltaTime terrain).map
          (fun r => r.position)
        = (updatePosition h deltaTime terrain).map (fun r => r.position)) ∧
    (NoZeroSegment h → ∃ h' : Hiker R, updatePosition h deltaTime terrain = some h') := by
  refine ⟨?_, ?_, fun hnz =>
    updatePosition_total sqrt h deltaTime terrain hn hload hidx hcur hd hg hnz⟩
  · intro h' hu
    obtain ⟨i1, i2, d0, d1, t, ht, p0, p1, -, -, hd0, hd1, hp0, hp1, ht', hht, heq⟩ :=
      updatePosition_parts h h' deltaTime terrain hu
    have hne : d1 - d0 ≠ 0 := by
      intro hc
      unfold fdiv at ht'
      rw [if_pos hc] at ht'
      exact absurd ht' (by simp)
    have htv : t = ((advanceDistance h deltaTime).currentDistance - d0) / (d1 - d0) := by
      unfold fdiv at ht'
      rw [if_neg hne] at ht'
      exact (Option.some.inj ht').symm
    subst heq
    refine ⟨d0, d1, ht, p0, p1, hd0, hd1, hp0, hp1, hne, ?_, ?_, hht, rfl⟩
    · show p0.x * (1 - t) + p1.x * t = _
      rw [htv]; rfl
    · show p0.z * (1 - t) + p1.z * t = _
      rw [htv]; rfl
  · intro points2 hxz
    cases hu : updatePosition h deltaTime terrain with
    | some h' =>
      obtain ⟨h2, hu2, hpos⟩ := updatePosition_points_congr h h' deltaTime terrain points2 hxz hu
      rw [hu2]
      show some h2.position = some h'.position
      rw [hpos]
    | none =>
      cases hu2 : updatePosition { h with pathPoints := points2 } deltaTime terrain with
      | none => rfl
      | some h2 =>
        obtain ⟨h3, hu3, -⟩ := updatePosition_points_congr { h with pathPoints := points2 } h2
          deltaTime terrain h.pathPoints hxz.symm hu2
        have hback : ({ ({ h with pathPoints := points2 } : Hiker R) with
            pathPoints := h.pathPoints } : Hiker R) = h := rfl
        rw [hback, hu] at hu3
        exact absurd hu3 (by simp)

/-- The hiker loaded with `(0,0,0), (10,0,0), (10,0,10)` over the flat terrain
completes the step of `deltaTime = 3/2`: the step ends at distance
15 in segment 1 at `(10, 1/2, 5)`, also with the elevations 7, -3 and 100. -/
theorem updatePosition_reprojection_witness :
    (2 ≤ loadedHiker.pathPoints.length ∧ TrackLoaded ratSqrt loadedHiker ∧
      (0 ≤ loadedHiker.currentSegmentIndex ∧
        loadedHiker.currentSegmentIndex ≤ (loadedHiker.pathPoints.length : Int) - 2) ∧
      CursorInRange loadedHiker ∧ 0 ≤ loadedHiker.speed * (3 / 2) ∧ flatTerrain.IsGrid) ∧
    ((∀ h' : Hiker ℚ, updatePosition loadedHiker (3 / 2) flatTerrain = some h' →
      ∃ (d0 d1 ht : ℚ) (p0 p1 : Vec3 ℚ),
        readAt h'.segmentDistances h'.currentSegmentIndex = some d0 ∧
        readAt h'.segmentDistances (h'.currentSegmentIndex + 1) = some d1 ∧
        readAt h'.pathPoints h'.currentSegmentIndex = some p0 ∧
        readAt h'.pathPoints (h'.currentSegmentIndex + 1) = some p1 ∧
        d1 - d0 ≠ 0 ∧
        h'.position.x = mix p0.x p1.x ((h'.currentDistance - d0) / (d1 - d0)) ∧
        h'.position.z = mix p0.z p1.z ((h'.currentDistance - d0) / (d1 - d0)) ∧
        flatTerrain.getHeightAtPosition h'.position.x h'.position.z = some ht ∧
        h'.position.y = ht + 1 / 2) ∧
    (∀ points2 : List (Vec3 ℚ),
      points2.map (fun p => (p.x, p.z)) = loadedHiker.pathPoints.map (fun p => (p.x, p.z)) →
      (updatePosition { loadedHiker with pathPoints := points2 } (3 / 2) flatTerrain).map
          (fun r => r.position)
        = (updatePosition loadedHiker (3 / 2) flatTerrain).map (fun r => r.position)) ∧
    (NoZeroSegment loadedHiker →
      ∃ h' : Hiker ℚ, updatePosition loadedHiker (3 / 2) flatTerrain = some h')) ∧
    (updatePosition loadedHiker (3 / 2) flatTerrain).map
        (fun h => (h.currentDistance, h.currentSegmentIndex, h.position))
      = some (15, 1, ⟨10, 1 / 2, 5⟩) ∧
    (updatePosition { loadedHiker with pathPoints := liftedPoints } (3 / 2) flatTerrain).map
        (fun h => h.position) = some ⟨10, 1 / 2, 5⟩ :=
  ⟨⟨by decide!, ⟨by decide!, by decide!⟩, ⟨by decide!, by decide!⟩, ⟨by decide!, by decide!⟩,
    by decide!, ⟨by decide!, by decide!, by decide!⟩⟩,
   updatePosition_reprojection ratSqrt loadedHiker (3 / 2) flatTerrain (by decide!)
     ⟨by decide!, by decide!⟩ ⟨by decide!, by decide!⟩ ⟨by decide!, by decide!⟩ (by decide!)
     ⟨by decide!, by decide!, by decide!⟩,
   by decide!, by decide!⟩

end Hiker

/-! ## Degenerate tracks -/

namespace Hiker

variable {R : Type} [LinearOrderedField R] [FloorRing R]

/-- With a single cumulative distance there is no entry after the one that the
searches stop at: the read of `segmentDistances[index + 1]` is out of range,
whatever the time step and the terrain are. -/
theorem updatePosition_short_track (h : Hiker R) (deltaTime : R) (terrain : Terrain R)
    (hs : h.segmentDistances.length = 1) : updatePosition h deltaTime terrain = none := by
  cases hu : updatePosition h deltaTime terrain with
  | none => rfl
  | some h' =>
    obtain ⟨i1, i2, d0, d1, t, ht, p0, p1, -, -, hd0, hd1, -⟩ :=
      updatePosition_parts h h' deltaTime terrain hu
    obtain ⟨-, f2, -⟩ := advanceDistance_frame h deltaTime
    rw [f2] at hd0 hd1
    have r0 := readAt_range _ _ _ hd0
    have r1 := readAt_range _ _ _ hd1
    omega

/-- At the start of a track of positive length a forward step of zero time
leaves the cursor arithmetic without effect. -/
theorem advanceDistance_zero_at_start (r : Hiker R) (hc : r.currentDistance = 0)
    (hm : r.movingForward = true) (hT : 0 < r.totalPathLength) : advanceDistance r 0 = r := by
  obtain ⟨a, b, c, d, e, f, g, m, i, j, k⟩ := r
  simp only at hc hm hT
  subst hc hm
  unfold advanceDistance
  simp [not_le.mpr hT]

/-- After `resetPath` a step of zero time leaves the cursor at distance 0 in
segment 0 and the position at the first waypoint, re-projected onto the
terrain, when the first segment has positive length. -/
theorem resetPath_updatePosition_zero (h : Hiker R) (terrain : Terrain R) (d1 : R)
    (p0 p1 : Vec3 R) (hd0 : readAt h.segmentDistances 0 = some 0)
    (hd1 : readAt h.segmentDistances 1 = some d1) (hpos : 0 < d1)
    (htot : 0 < h.totalPathLength) (hp0 : readAt h.pathPoints 0 = some p0)
    (hp1 : readAt h.pathPoints 1 = some p1) (hg : terrain.IsGrid) :
    ∃ (h' : Hiker R) (ht : R), updatePosition (resetPath h) 0 terrain = some h' ∧
      terrain.getHeightAtPosition p0.x p0.z = some ht ∧
      h'.position = ⟨p0.x, ht + 1 / 2, p0.z⟩ ∧
      h'.currentDistance = 0 ∧ h'.currentSegmentIndex = 0 := by
  have hlen : 2 ≤ h.segmentDistances.length := by
    have := (readAt_range _ _ _ hd1).2
    omega
  have hc : (resetPath h).currentDistance = 0 := by
    unfold resetPath
    simp only []
    split <;> rfl
  have hi : (resetPath h).currentSegmentIndex = 0 := by
    unfold resetPath
    simp only []
    split <;> rfl
  have hm : (resetPath h).movingForward = true := by
    unfold resetPath
    simp only []
    split <;> rfl
  have htot' : (resetPath h).totalPathLength = h.totalPathLength := by
    unfold resetPath
    simp only []
    split <;> rfl
  have hsd : (resetPath h).segmentDistances = h.segmentDistances := by
    unfold resetPath
    simp only []
    split <;> rfl
  have hpp : (resetPath h).pathPoints = h.pathPoints := by
    unfold resetPath
    simp only []
    split <;> rfl
  have hadv : advanceDistance (resetPath h) 0 = resetPath h :=
    advanceDistance_zero_at_start _ hc hm (by rw [htot']; exact htot)
  obtain ⟨_, _, _, _, -, -, -, -, e⟩ := Terrain.getHeightAtPosition_eq terrain hg p0.x p0.z
  generalize (mix (mix _ _ _) (mix _ _ _) _ : R) = th at e
  have hmx : (mixVec p0 p1 (0 : R)).x = p0.x := by
    show p0.x * (1 - 0) + p1.x * 0 = p0.x
    ring
  have hmz : (mixVec p0 p1 (0 : R)).z = p0.z := by
    show p0.z * (1 - 0) + p1.z * 0 = p0.z
    ring
  have key := updatePosition_of_parts (resetPath h) 0 terrain 0 0 0 d1 0 th p0 p1
  rw [hadv, hc, hi, hsd, hpp] at key
  have res := key
    (by
      unfold searchForward
      rw [sizeMinusOne_of_pos _ (by omega), if_pos (by omega)]
      rw [zero_add, hd1]
      simp only [gt_iff_lt, not_lt.mpr (le_of_lt hpos), if_false])
    (by
      show searchBackward h.segmentDistances 0 1 0 = some 0
      unfold searchBackward
      simp)
    hd0 (by rw [zero_add]; exact hd1) hp0 (by rw [zero_add]; exact hp1)
    (by
      show fdiv ((0 : R) - 0) (d1 - 0) = some 0
      unfold fdiv
      rw [if_neg (by rw [sub_zero]; exact ne_of_gt hpos)]
      simp)
    (by rw [hmx, hmz]; exact e)
  refine ⟨_, _, res, e, ?_, hc, rfl⟩
  show (⟨(mixVec p0 p1 (0 : R)).x, _, (mixVec p0 p1 (0 : R)).z⟩ : Vec3 R) = _
  rw [hmx, hmz]

/-- C14: a hiker loaded with the single waypoint `(5, 0, 5)` over the flat
terrain has `segmentDistances = [0]` and `totalPathLength = 0`; in
`updatePosition` both searches stop at index 0 and the reads of
`segmentDistances[1]` and `pathPoints[1]` are out of range, so that no step, for
any time step and terrain, completes with a position. -/
theorem updatePosition_single_point_reads_past_end :
    singleLoad.map (fun r => (r.1, r.2.pathPoints, r.2.segmentDistances, r.2.totalPathLength))
      = some (true, [⟨5, 1 / 2, 5⟩], [0], 0) ∧
    singleLoad.map (fun r => (r.2.currentDistance, r.2.currentSegmentIndex, r.2.position))
      = some (0, 0, ⟨5, 1 / 2, 5⟩) ∧
    searchForward (advanceDistance singleHiker 1).segmentDistances
      (advanceDistance singleHiker 1).currentDistance
      ((advanceDistance singleHiker 1).segmentDistances.length + 1)
      (advanceDistance singleHiker 1).currentSegmentIndex = some 0 ∧
    searchBackward (advanceDistance singleHiker 1).segmentDistances
      (advanceDistance singleHiker 1).currentDistance 1 0 = some 0 ∧
    readAt (advanceDistance singleHiker 1).segmentDistances (0 + 1) = none ∧
    readAt (advanceDistance singleHiker 1).pathPoints (0 + 1) = none ∧
    ∀ (deltaTime : ℚ) (terrain : Terrain ℚ), updatePosition singleHiker deltaTime terrain = none :=
  ⟨by decide!, by decide!, by decide!, by decide!, by decide!, by decide!,
   fun deltaTime terrain => updatePosition_short_track singleHiker deltaTime terrain (by decide!)⟩

/-- C15: a hiker loaded with `(0,0,0), (0,0,0), (10,0,0)` over the flat terrain
has `segmentDistances = [0, 0, 10]`; after `resetPath`, `updatePosition` with
`deltaTime = 0` stays in segment 0, whose length is 0, and divides `0` by `0`:
the step does not complete with a position.  On the track
`(0,0,0), (10,0,0), (10,0,10)` the same two calls leave the position at
`pathPoints[0]`, the distance 0 and the segment 0. -/
theorem resetPath_updatePosition_zero_divides_by_zero :
    stalledLoad.map (fun r => (r.1, r.2.pathPoints, r.2.segmentDistances, r.2.totalPathLength))
      = some (true, [⟨0, 1 / 2, 0⟩, ⟨0, 1 / 2, 0⟩, ⟨10, 1 / 2, 0⟩], [0, 0, 10], 10) ∧
    (advanceDistance (resetPath stalledHiker) 0).currentDistance = 0 ∧
    searchForward (advanceDistance (resetPath stalledHiker) 0).segmentDistances 0 4 0 = some 0 ∧
    searchBackward (advanceDistance (resetPath stalledHiker) 0).segmentDistances 0 1 0
      = some 0 ∧
    readAt (advanceDistance (resetPath stalledHiker) 0).segmentDistances 0 = some 0 ∧
    readAt (advanceDistance (resetPath stalledHiker) 0).segmentDistances (0 + 1) = some 0 ∧
    fdiv ((0 : ℚ) - 0) (0 - 0) = none ∧
    updatePosition (resetPath stalledHiker) 0 flatTerrain = none ∧
    (updatePosition (resetPath loadedHiker) 0 flatTerrain).map
        (fun h => (h.position, h.currentDistance, h.currentSegmentIndex))
      = some (⟨0, 1 / 2, 0⟩, 0, 0) ∧
    readAt loadedHiker.pathPoints 0 = some ⟨0, 1 / 2, 0⟩ :=
  ⟨by decide!, by decide!, by decide!, by decide!, by decide!, by decide!, by decide!,
   Option.isNone_iff_eq_none.mp (by decide!), by decide!, by decide!⟩

end Hiker

/-! ## The animated character -/

namespace AnimatedCharacter

variable {R : Type} [LinearOrderedField R] [FloorRing R]

theorem toSizeT_of_nonneg (i : Int) (h : 0 ≤ i) : toSizeT i = i := by
  unfold toSizeT
  rw [if_pos h]

/-- What the progress arithmetic does on a valid segment: below 1 the progress
grows and the segment stays; from 1 on the progress restarts at 0 in the next
segment, which is segment 0 after the last one. -/
theorem advanceProgress_spec (c : AnimatedCharacter R) (deltaTime : R)
    (hn : 2 ≤ c.pathPoints.length)
    (hidx : 0 ≤ c.currentPathIndex ∧ c.currentPathIndex ≤ (c.pathPoints.length : Int) - 2) :
    (advanceProgress c deltaTime).movingForward = c.movingForward ∧
    (advanceProgress c deltaTime).pathPoints = c.pathPoints ∧
    (1 ≤ c.progress + c.movementSpeed * deltaTime →
      (advanceProgress c deltaTime).progress = 0 ∧
      (c.currentPathIndex = (c.pathPoints.length : Int) - 2 →
        (advanceProgress c deltaTime).currentPathIndex = 0) ∧
      (c.currentPathIndex < (c.pathPoints.length : Int) - 2 →
        (advanceProgress c deltaTime).currentPathIndex = c.currentPathIndex + 1)) ∧
    (c.progress + c.movementSpeed * deltaTime < 1 →
      (advanceProgress c deltaTime).progress = c.progress + c.movementSpeed * deltaTime ∧
      (advanceProgress c deltaTime).currentPathIndex = c.currentPathIndex) := by
  obtain ⟨h0, h1⟩ := hidx
  have hs : Hiker.sizeMinusOne c.pathPoints.length = (c.pathPoints.length : Int) - 1 :=
    Hiker.sizeMinusOne_of_pos _ (by omega)
  have ht : toSizeT (c.currentPathIndex + 1) = c.currentPathIndex + 1 :=
    toSizeT_of_nonneg _ (by omega)
  unfold advanceProgress
  simp only [ge_iff_le, hs, ht]
  by_cases hp : 1 ≤ c.progress + c.movementSpeed * deltaTime
  · rw [if_pos hp]
    by_cases hl : (c.pathPoints.length : Int) - 1 ≤ c.currentPathIndex + 1
    · rw [if_pos hl]
      refine ⟨rfl, rfl, fun _ => ⟨rfl, fun _ => rfl, fun h => ?_⟩, fun h => ?_⟩
      · omega
      · exact absurd hp (not_le.mpr h)
    · rw [if_neg hl]
      refine ⟨rfl, rfl, fun _ => ⟨rfl, fun h => ?_, fun _ => rfl⟩, fun h => ?_⟩
      · omega
      · exact absurd hp (not_le.mpr h)
  · rw [if_neg hp]
    exact ⟨rfl, rfl, fun h => absurd h hp, fun _ => ⟨rfl, rfl⟩⟩

/-- On a valid segment `updatePosition` reads the two ends of the segment,
interpolates them at the new progress and puts the result 2 above the terrain. -/
theorem updatePosition_segment_ends (c c' : AnimatedCharacter R) (deltaTime : R) (terrain : Terrain R)
    (hn : 2 ≤ c.pathPoints.length)
    (hidx : 0 ≤ c.currentPathIndex ∧ c.currentPathIndex ≤ (c.pathPoints.length : Int) - 2)
    (hu : updatePosition c deltaTime terrain = some c') :
    ∃ (start endPoint : Vec3 R) (ht : R),
      readAt c.pathPoints c.currentPathIndex = some start ∧
      readAt c.pathPoints (c.currentPathIndex + 1) = some endPoint ∧
      terrain.getHeightAtPosition
        (mixVec start endPoint (advanceProgress c deltaTime).progress).x
        (mixVec start endPoint (advanceProgress c deltaTime).progress).z = some ht ∧
      c'.characterPosition =
        ⟨(mixVec start endPoint (advanceProgress c deltaTime).progress).x, ht + 2,
         (mixVec start endPoint (advanceProgress c deltaTime).progress).z⟩ ∧
      c'.progress = (advanceProgress c deltaTime).progress ∧
      c'.currentPathIndex = (advanceProgress c deltaTime).currentPathIndex ∧
      c'.movingForward = (advanceProgress c deltaTime).movingForward ∧
      c'.pathPoints = (advanceProgress c deltaTime).pathPoints := by
  obtain ⟨h0, h1⟩ := hidx
  have hs : Hiker.sizeMinusOne c.pathPoints.length = (c.pathPoints.length : Int) - 1 :=
    Hiker.sizeMinusOne_of_pos _ (by omega)
  have ht : toSizeT c.currentPathIndex = c.currentPathIndex := toSizeT_of_nonneg _ h0
  have hne : ¬ (c.pathPoints.isEmpty = true ∨
      toSizeT c.currentPathIndex ≥ Hiker.sizeMinusOne c.pathPoints.length) := by
    rw [hs, ht, List.isEmpty_iff]
    rintro (h | h)
    · rw [h] at hn; simp at hn
    · omega
  unfold updatePosition at hu
  rw [if_neg hne] at hu
  split at hu
  next start endPoint hs0 hs1 =>
    simp only [] at hu
    split at hu
    next th hth =>
      have := Option.some.inj hu
      subst this
      exact ⟨start, endPoint, th, hs0, hs1, hth, rfl, rfl, rfl, rfl, rfl⟩
    next => exact absurd hu (by simp)
  next => exact absurd hu (by simp)

/-- On a valid segment and over a terrain grid `updatePosition` completes. -/
theorem updatePosition_completes (c : AnimatedCharacter R) (deltaTime : R) (terrain : Terrain R)
    (hn : 2 ≤ c.pathPoints.length)
    (hidx : 0 ≤ c.currentPathIndex ∧ c.currentPathIndex ≤ (c.pathPoints.length : Int) - 2)
    (hg : terrain.IsGrid) : ∃ c', updatePosition c deltaTime terrain = some c' := by
  obtain ⟨h0, h1⟩ := hidx
  have hs : Hiker.sizeMinusOne c.pathPoints.length = (c.pathPoints.length : Int) - 1 :=
    Hiker.sizeMinusOne_of_pos _ (by omega)
  have ht : toSizeT c.currentPathIndex = c.currentPathIndex := toSizeT_of_nonneg _ h0
  have hne : ¬ (c.pathPoints.isEmpty = true ∨
      toSizeT c.currentPathIndex ≥ Hiker.sizeMinusOne c.pathPoints.length) := by
    rw [hs, ht, List.isEmpty_iff]
    rintro (h | h)
    · rw [h] at hn; simp at hn
    · omega
  obtain ⟨start, hs0⟩ := Hiker.readAt_isSome c.pathPoints c.currentPathIndex h0 (by omega)
  obtain ⟨endPoint, hs1⟩ := Hiker.readAt_isSome c.pathPoints (c.currentPathIndex + 1)
    (by omega) (by omega)
  obtain ⟨_, _, _, _, -, -, -, -, e⟩ := Terrain.getHeightAtPosition_eq terrain hg
    (mixVec start endPoint (advanceProgress c deltaTime).progress).x
    (mixVec start endPoint (advanceProgress c deltaTime).progress).z
  unfold updatePosition
  rw [if_neg hne, hs0, hs1]
  simp only []
  rw [e]
  exact ⟨_, rfl⟩

/-- C21: for a character with `n ≥ 2` path points and `currentPathIndex` in
`[0, n-2]`, `updatePosition` completes over a terrain grid, never changes
`movingForward`, and a step with `progress + movementSpeed * deltaTime ≥ 1`
restarts `progress` at 0 in the next segment, which after the last segment
(`currentPathIndex = n-2`) is segment 0; a step below 1 stays in the segment
with the larger progress. -/
theorem updatePosition_loop_policy (c : AnimatedCharacter R) (deltaTime : R)
    (terrain : Terrain R) (hn : 2 ≤ c.pathPoints.length)
    (hidx : 0 ≤ c.currentPathIndex ∧ c.currentPathIndex ≤ (c.pathPoints.length : Int) - 2) :
    (terrain.IsGrid → ∃ c', updatePosition c deltaTime terrain = some c') ∧
    ∀ c' : AnimatedCharacter R, updatePosition c deltaTime terrain = some c' →
      c'.movingForward = c.movingForward ∧ c'.pathPoints = c.pathPoints ∧
      (1 ≤ c.progress + c.movementSpeed * deltaTime →
        c'.progress = 0 ∧
        (c.currentPathIndex = (c.pathPoints.length : Int) - 2 → c'.currentPathIndex = 0) ∧
        (c.currentPathIndex < (c.pathPoints.length : Int) - 2 →
          c'.currentPathIndex = c.currentPathIndex + 1)) ∧
      (c.progress + c.movementSpeed * deltaTime < 1 →
        c'.progress = c.progress + c.movementSpeed * deltaTime ∧
        c'.currentPathIndex = c.currentPathIndex) := by
  refine ⟨fun hg => updatePosition_completes c deltaTime terrain hn hidx hg, ?_⟩
  intro c' hu
  obtain ⟨_, _, _, -, -, -, -, e1, e2, e3, e4⟩ :=
    updatePosition_segment_ends c c' deltaTime terrain hn hidx hu
  obtain ⟨a1, a2, a3, a4⟩ := advanceProgress_spec c deltaTime hn hidx
  rw [e1, e2, e3, e4]
  exact ⟨a1, a2, a3, a4⟩

/-- The character loaded with `(0,½,0), (10,½,0), (10,½,10)` and moved to its
last segment satisfies the hypotheses of C21: a step of 1/5 s (progress 1) over
the flat terrain wraps to segment 0 with progress 0 and the direction kept. -/
theorem updatePosition_loop_policy_witness :
    (2 ≤ (moveForward loadedCharacter 1).pathPoints.length ∧
      0 ≤ (moveForward loadedCharacter 1).currentPathIndex ∧
      (moveForward loadedCharacter 1).currentPathIndex
        ≤ ((moveForward loadedCharacter 1).pathPoints.length : Int) - 2) ∧
    ((flatTerrain.IsGrid →
        ∃ c', updatePosition (moveForward loadedCharacter 1) (1 / 5) flatTerrain = some c') ∧
      ∀ c' : AnimatedCharacter ℚ,
        updatePosition (moveForward loadedCharacter 1) (1 / 5) flatTerrain = some c' →
        c'.movingForward = (moveForward loadedCharacter 1).movingForward ∧
        c'.pathPoints = (moveForward loadedCharacter 1).pathPoints ∧
        (1 ≤ (moveForward loadedCharacter 1).progress
            + (moveForward loadedCharacter 1).movementSpeed * (1 / 5) →
          c'.progress = 0 ∧
          ((moveForward loadedCharacter 1).currentPathIndex
              = ((moveForward loadedCharacter 1).pathPoints.length : Int) - 2 →
            c'.currentPathIndex = 0) ∧
          ((moveForward loadedCharacter 1).currentPathIndex
              < ((moveForward loadedCharacter 1).pathPoints.length : Int) - 2 →
            c'.currentPathIndex = (moveForward loadedCharacter 1).currentPathIndex + 1)) ∧
        ((moveForward loadedCharacter 1).progress
            + (moveForward loadedCharacter 1).movementSpeed * (1 / 5) < 1 →
          c'.progress = (moveForward loadedCharacter 1).progress
            + (moveForward loadedCharacter 1).movementSpeed * (1 / 5) ∧
          c'.currentPathIndex = (moveForward loadedCharacter 1).currentPathIndex)) ∧
    (moveForward loadedCharacter 1).currentPathIndex = 1 ∧
    (updatePosition (moveForward loadedCharacter 1) (1 / 5) flatTerrain).map
        (fun c => (c.currentPathIndex, c.progress, c.movingForward)) = some (0, 0, true) :=
  ⟨⟨by decide!, by decide!, by decide!⟩,
   updatePosition_loop_policy (moveForward loadedCharacter 1) (1 / 5) flatTerrain (by decide!)
     ⟨by decide!, by decide!⟩,
   by decide!, by decide!⟩

/-- C29: for a character with `n ≥ 2` path points and `currentPathIndex = k` in
`[0, n-2]`, a completed `updatePosition` with
`progress + movementSpeed * deltaTime ≥ 1` leaves the horizontal position at
that of `pathPoints[k]`, the start of the segment just completed, with
`y = terrain.getHeightAtPosition(x, z) + 2`; over a terrain grid the step
completes. -/
theorem updatePosition_completed_segment_start (c : AnimatedCharacter R) (deltaTime : R)
    (terrain : Terrain R) (hn : 2 ≤ c.pathPoints.length)
    (hidx : 0 ≤ c.currentPathIndex ∧ c.currentPathIndex ≤ (c.pathPoints.length : Int) - 2)
    (hp : 1 ≤ c.progress + c.movementSpeed * deltaTime) :
    (terrain.IsGrid → ∃ c', updatePosition c deltaTime terrain = some c') ∧
    ∀ c' : AnimatedCharacter R, updatePosition c deltaTime terrain = some c' →
      ∃ (pk : Vec3 R) (ht : R), readAt c.pathPoints c.currentPathIndex = some pk ∧
        c'.characterPosition.x = pk.x ∧ c'.characterPosition.z = pk.z ∧
        terrain.getHeightAtPosition c'.characterPosition.x c'.characterPosition.z = some ht ∧
        c'.characterPosition.y = ht + 2 := by
  refine ⟨fun hg => updatePosition_completes c deltaTime terrain hn hidx hg, ?_⟩
  intro c' hu
  obtain ⟨start, endPoint, ht, hs0, -, hth, epos, -⟩ :=
    updatePosition_segment_ends c c' deltaTime terrain hn hidx hu
  obtain ⟨-, -, a3, -⟩ := advanceProgress_spec c deltaTime hn hidx
  rw [(a3 hp).1] at hth epos
  have hx : (mixVec start endPoint (0 : R)).x = start.x := by
    show start.x * (1 - 0) + endPoint.x * 0 = start.x
    ring
  have hz : (mixVec start endPoint (0 : R)).z = start.z := by
    show start.z * (1 - 0) + endPoint.z * 0 = start.z
    ring
  rw [hx, hz] at hth epos
  refine ⟨start, ht, hs0, ?_, ?_, ?_, ?_⟩
  · rw [epos]
  · rw [epos]
  · rw [epos]; exact hth
  · rw [epos]

/-- The character loaded with `(0,½,0), (10,½,0), (10,½,10)` satisfies the
hypotheses of C29 for `deltaTime = 1/5`: the step ends in segment 1, whose
start is `(10, ·, 0)`, with the position at `(0, 2, 0)`, the start of segment 0. -/
theorem updatePosition_completed_segment_start_witness :
    (2 ≤ loadedCharacter.pathPoints.length ∧
      (0 ≤ loadedCharacter.currentPathIndex ∧
        loadedCharacter.currentPathIndex ≤ (loadedCharacter.pathPoints.length : Int) - 2) ∧
      1 ≤ loadedCharacter.progress + loadedCharacter.movementSpeed * (1 / 5)) ∧
    ((flatTerrain.IsGrid → ∃ c', updatePosition loadedCharacter (1 / 5) flatTerrain = some c') ∧
      ∀ c' : AnimatedCharacter ℚ, updatePosition loadedCharacter (1 / 5) flatTerrain = some c' →
        ∃ (pk : Vec3 ℚ) (ht : ℚ),
          readAt loadedCharacter.pathPoints loadedCharacter.currentPathIndex = some pk ∧
          c'.characterPosition.x = pk.x ∧ c'.characterPosition.z = pk.z ∧
          flatTerrain.getHeightAtPosition c'.characterPosition.x c'.characterPosition.z
            = some ht ∧
          c'.characterPosition.y = ht + 2) ∧
    (updatePosition loadedCharacter (1 / 5) flatTerrain).map
        (fun c => (c.currentPathIndex, c.characterPosition)) = some (1, ⟨0, 2, 0⟩) ∧
    readAt loadedCharacter.pathPoints 1 = some ⟨10, 1 / 2, 0⟩ :=
  ⟨⟨by decide!, ⟨by decide!, by decide!⟩, by decide!⟩,
   updatePosition_completed_segment_start loadedCharacter (1 / 5) flatTerrain (by decide!)
     ⟨by decide!, by decide!⟩ (by decide!),
   by decide!, by decide!⟩

/-- C25 fails for `moveForward`: on the character loaded with the three points
`(0,½,0), (10,½,0), (10,½,10)` (`n = 3`), two calls of `moveForward(1)` take
`currentPathIndex` from 0 to 1 and then to `2 = n-1`, outside `[0, n-2]`. -/
theorem moveForward_reaches_last_point :
    loadedCharacter.pathPoints.length = 3 ∧ loadedCharacter.currentPathIndex = 0 ∧
    (moveForward loadedCharacter 1).currentPathIndex = 1 ∧
    (moveForward (moveForward loadedCharacter 1) 1).currentPathIndex = 2 ∧
    ¬ ((moveForward (moveForward loadedCharacter 1) 1).currentPathIndex
      ≤ ((moveForward (moveForward loadedCharacter 1) 1).pathPoints.length : Int) - 2) := by
  refine ⟨?_, ?_, ?_, ?_, ?_⟩ <;> decide!

/-- C25, amended: for `n ≥ 2` path points `loadPathData` on a new character
leaves `currentPathIndex = 0`, and from `0 ≤ currentPathIndex ≤ n-1` every
operation keeps the path and ends with `0 ≤ currentPathIndex ≤ n-1`;
`updatePosition` (which completes over a terrain grid), `moveBackward` and
`resetHike` also keep `currentPathIndex ≤ n-2`, and `moveForward` advances the
index by at most one. -/
theorem currentPathIndex_range (sqrt : R → R) (c : AnimatedCharacter R) (deltaTime : R)
    (hn : 2 ≤ c.pathPoints.length)
    (hidx : 0 ≤ c.currentPathIndex ∧ c.currentPathIndex ≤ (c.pathPoints.length : Int) - 1) :
    (∀ path : List (Vec3 R), 2 ≤ path.length →
      (loadPathData sqrt new path).pathPoints = path ∧
      (loadPathData sqrt new path).currentPathIndex = 0) ∧
    (∀ terrain : Terrain R, terrain.IsGrid →
      ∃ c', updatePosition c deltaTime terrain = some c') ∧
    (∀ (terrain : Terrain R) (c' : AnimatedCharacter R),
      updatePosition c deltaTime terrain = some c' →
      c'.pathPoints = c.pathPoints ∧ 0 ≤ c'.currentPathIndex ∧
      c'.currentPathIndex ≤ (c.pathPoints.length : Int) - 1 ∧
      (c.currentPathIndex ≤ (c.pathPoints.length : Int) - 2 →
        c'.currentPathIndex ≤ (c.pathPoints.length : Int) - 2)) ∧
    ((moveForward c deltaTime).pathPoints = c.pathPoints ∧
      0 ≤ (moveForward c deltaTime).currentPathIndex ∧
      (moveForward c deltaTime).currentPathIndex ≤ (c.pathPoints.length : Int) - 1 ∧
      (moveForward c deltaTime).currentPathIndex ≤ c.currentPathIndex + 1) ∧
    ((moveBackward c deltaTime).pathPoints = c.pathPoints ∧
      0 ≤ (moveBackward c deltaTime).currentPathIndex ∧
      (moveBackward c deltaTime).currentPathIndex ≤ c.currentPathIndex) ∧
    ((resetHike c).pathPoints = c.pathPoints ∧ (resetHike c).currentPathIndex = 0) := by
  obtain ⟨h0, h1⟩ := hidx
  have hs : Hiker.sizeMinusOne c.pathPoints.length = (c.pathPoints.length : Int) - 1 :=
    Hiker.sizeMinusOne_of_pos _ (by omega)
  have ht : toSizeT c.currentPathIndex = c.currentPathIndex := toSizeT_of_nonneg _ h0
  refine ⟨?_, ?_, ?_, ?_, ?_, ⟨rfl, rfl⟩⟩
  · intro path hp
    unfold loadPathData
    simp only []
    split <;> exact ⟨rfl, rfl⟩
  · intro terrain hg
    by_cases hl : c.currentPathIndex ≤ (c.pathPoints.length : Int) - 2
    · exact updatePosition_completes c deltaTime terrain hn ⟨h0, hl⟩ hg
    · refine ⟨c, ?_⟩
      unfold updatePosition
      rw [if_pos (Or.inr (by rw [hs, ht]; omega))]
  · intro terrain c' hu
    by_cases hl : c.currentPathIndex ≤ (c.pathPoints.length : Int) - 2
    · obtain ⟨_, _, _, -, -, -, -, -, e2, -, e4⟩ :=
        updatePosition_segment_ends c c' deltaTime terrain hn ⟨h0, hl⟩ hu
      obtain ⟨-, a2, a3, a4⟩ := advanceProgress_spec c deltaTime hn ⟨h0, hl⟩
      rw [e2, e4]
      refine ⟨a2, ?_⟩
      rcases le_or_lt 1 (c.progress + c.movementSpeed * deltaTime) with hp | hp
      · obtain ⟨-, b1, b2⟩ := a3 hp
        rcases eq_or_lt_of_le hl with he | hlt
        · rw [b1 he]; omega
        · rw [b2 hlt]; omega
      · rw [(a4 hp).2]; omega
    · unfold updatePosition at hu
      rw [if_pos (Or.inr (by rw [hs, ht]; omega))] at hu
      have := Option.some.inj hu
      subst this
      exact ⟨rfl, h0, h1, fun h => h⟩
  · unfold moveForward
    rw [hs, ht]
    simp only [ge_iff_le]
    split_ifs with a b
    · exact ⟨rfl, by show 0 ≤ c.currentPathIndex + 1; omega,
        by show c.currentPathIndex + 1 ≤ _; omega, le_refl _⟩
    · exact ⟨rfl, h0, h1, by show c.currentPathIndex ≤ _; omega⟩
    · exact ⟨rfl, h0, h1, by omega⟩
  · unfold moveBackward
    simp only [gt_iff_lt]
    split_ifs with a b
    · exact ⟨rfl, by show 0 ≤ c.currentPathIndex - 1; omega,
        by show c.currentPathIndex - 1 ≤ _; omega⟩
    · exact ⟨rfl, h0, le_refl _⟩
    · exact ⟨rfl, h0, le_refl _⟩

/-- The character loaded with `(0,½,0), (10,½,0), (10,½,10)` and moved to its
last point satisfies the hypotheses of the amended C25 for `deltaTime = 1`:
there `updatePosition` and `moveForward` leave the index at 2 and
`moveBackward` returns to 1. -/
theorem currentPathIndex_range_witness :
    (2 ≤ (moveForward (moveForward loadedCharacter 1) 1).pathPoints.length ∧
      0 ≤ (moveForward (moveForward loadedCharacter 1) 1).currentPathIndex ∧
      (moveForward (moveForward loadedCharacter 1) 1).currentPathIndex
        ≤ ((moveForward (moveForward loadedCharacter 1) 1).pathPoints.length : Int) - 1) ∧
    ((∀ path : List (Vec3 ℚ), 2 ≤ path.length →
      (loadPathData ratSqrt new path).pathPoints = path ∧
      (loadPathData ratSqrt new path).currentPathIndex = 0) ∧
    (∀ terrain : Terrain ℚ, terrain.IsGrid →
      ∃ c', updatePosition (moveForward (moveForward loadedCharacter 1) 1) 1 terrain
        = some c') ∧
    (∀ (terrain : Terrain ℚ) (c' : AnimatedCharacter ℚ),
      updatePosition (moveForward (moveForward loadedCharacter 1) 1) 1 terrain = some c' →
      c'.pathPoints = (moveForward (moveForward loadedCharacter 1) 1).pathPoints ∧
      0 ≤ c'.currentPathIndex ∧
      c'.currentPathIndex
        ≤ ((moveForward (moveForward loadedCharacter 1) 1).pathPoints.length : Int) - 1 ∧
      ((moveForward (moveForward loadedCharacter 1) 1).currentPathIndex
          ≤ ((moveForward (moveForward loadedCharacter 1) 1).pathPoints.length : Int) - 2 →
        c'.currentPathIndex
          ≤ ((moveForward (moveForward loadedCharacter 1) 1).pathPoints.length : Int) - 2)) ∧
    ((moveForward (moveForward (moveForward loadedCharacter 1) 1) 1).pathPoints
        = (moveForward (moveForward loadedCharacter 1) 1).pathPoints ∧
      0 ≤ (moveForward (moveForward (moveForward loadedCharacter 1) 1) 1).currentPathIndex ∧
      (moveForward (moveForward (moveForward loadedCharacter 1) 1) 1).currentPathIndex
        ≤ ((moveForward (moveForward loadedCharacter 1) 1).pathPoints.length : Int) - 1 ∧
      (moveForward (moveForward (moveForward loadedCharacter 1) 1) 1).currentPathIndex
        ≤ (moveForward (moveForward loadedCharacter 1) 1).currentPathIndex + 1) ∧
    ((moveBackward (moveForward (moveForward loadedCharacter 1) 1) 1).pathPoints
        = (moveForward (moveForward loadedCharacter 1) 1).pathPoints ∧
      0 ≤ (moveBackward (moveForward (moveForward loadedCharacter 1) 1) 1).currentPathIndex ∧
      (moveBackward (moveForward (moveForward loadedCharacter 1) 1) 1).currentPathIndex
        ≤ (moveForward (moveForward loadedCharacter 1) 1).currentPathIndex) ∧
    ((resetHike (moveForward (moveForward loadedCharacter 1) 1)).pathPoints
        = (moveForward (moveForward loadedCharacter 1) 1).pathPoints ∧
      (resetHike (moveForward (moveForward loadedCharacter 1) 1)).currentPathIndex = 0)) ∧
    (updatePosition (moveForward (moveForward loadedCharacter 1) 1) 1 flatTerrain).map
        (fun c => c.currentPathIndex) = some 2 ∧
    (moveForward (moveForward (moveForward loadedCharacter 1) 1) 1).currentPathIndex = 2 ∧
    (moveBackward (moveForward (moveForward loadedCharacter 1) 1) 1).currentPathIndex = 1 :=
  ⟨⟨by decide!, by decide!, by decide!⟩,
   currentPathIndex_range ratSqrt (moveForward (moveForward loadedCharacter 1) 1) 1
     (by decide!) ⟨by decide!, by decide!⟩,
   by decide!, by decide!, by decide!⟩

end AnimatedCharacter

/-! ## The two path lengths -/

/-- The sum that a loop `for i = k+1 … k+n: length += f(l[i-1], l[i])` computes
when `l[k …]` holds the points `p :: rest`: the start value plus the sum of `f`
over the consecutive pairs. -/
theorem foldl_consecutive_shift {α β : Type} [AddCommMonoid β] (f : α → α → β) (d : α)
    (l : List α) :
    ∀ (rest : List α) (p : α) (acc : β) (k : Nat),
      (∀ j : Nat, j ≤ rest.length → l.getD (k + j) d = (p :: rest).getD j d) →
      (List.range' (k + 1) rest.length).foldl (fun len i =>
        len + f (l.getD (i - 1) d) (l.getD i d)) acc
      = acc + (List.zipWith f (p :: rest) rest).sum := by
  intro rest
  induction rest with
  | nil => intro p acc k _; simp
  | cons q rest ih =>
    intro p acc k hl
    have h0 : l.getD k d = p := by simpa using hl 0 (by simp)
    have h1 : l.getD (k + 1) d = q := by simpa using hl 1 (by simp)
    rw [List.length_cons, List.range'_succ, List.foldl_cons]
    have := ih q (acc + f (l.getD (k + 1 - 1) d) (l.getD (k + 1) d)) (k + 1) (by
      intro j hj
      have := hl (j + 1) (by simp; omega)
      rw [show k + 1 + j = k + (j + 1) by omega, this]
      simp)
    rw [this, Nat.add_sub_cancel, h0, h1]
    simp [add_assoc]

/-- The loop `for i = 1 … n-1: length += f(p[i-1], p[i])` sums `f` over the
consecutive pairs of the points. -/
theorem foldl_consecutive {α β : Type} [AddCommMonoid β] (f : α → α → β) (d : α)
    (points : List α) (acc : β) :
    (List.range' 1 (points.length - 1)).foldl (fun len i =>
      len + f (points.getD (i - 1) d) (points.getD i d)) acc
    = acc + (List.zipWith f points points.tail).sum := by
  cases points with
  | nil => simp
  | cons p rest =>
    have := foldl_consecutive_shift f d (p :: rest) rest p acc 0 (by intro j _; simp)
    simpa using this

namespace Hiker

variable {R : Type} [LinearOrderedField R] [FloorRing R]

/-- The loop of `calculateSegmentDistances` adds up `totalPathLength` like a
plain running sum of the segment lengths. -/
theorem foldl_addSegment_total (sqrt : R → R) (l : List Nat) :
    ∀ h : Hiker R,
      (l.foldl (fun acc i => addSegment sqrt i acc) h).totalPathLength
        = l.foldl (fun len i => len + distance sqrt (h.pathPoints.getD (i - 1) Vec3.zero)
            (h.pathPoints.getD i Vec3.zero)) h.totalPathLength ∧
      (l.foldl (fun acc i => addSegment sqrt i acc) h).pathPoints = h.pathPoints := by
  induction l with
  | nil => intro h; exact ⟨rfl, rfl⟩
  | cons i l ih =>
    intro h
    rw [List.foldl_cons, List.foldl_cons]
    obtain ⟨e1, e2⟩ := ih (addSegment sqrt i h)
    rw [e1, e2]
    exact ⟨rfl, rfl⟩

end Hiker

namespace AnimatedCharacter

variable {R : Type} [LinearOrderedField R] [FloorRing R]

/-- C30: on the same waypoints `AnimatedCharacter::calculatePathLength` returns
the `totalPathLength` that `Hiker::calculateSegmentDistances` computes, both
being the sum of the Euclidean distances of consecutive waypoints, which is 0
for fewer than two points. -/
theorem calculatePathLength_eq_totalPathLength (sqrt : R → R) (c : AnimatedCharacter R)
    (h : Hiker R) (hp : c.pathPoints = h.pathPoints) :
    calculatePathLength sqrt c = (Hiker.calculateSegmentDistances sqrt h).totalPathLength ∧
    calculatePathLength sqrt c
      = (List.zipWith (distance sqrt) c.pathPoints c.pathPoints.tail).sum ∧
    (c.pathPoints.length < 2 → calculatePathLength sqrt c = 0) := by
  have hsum : calculatePathLength sqrt c
      = (List.zipWith (distance sqrt) c.pathPoints c.pathPoints.tail).sum := by
    unfold calculatePathLength
    rw [foldl_consecutive (distance sqrt) Vec3.zero c.pathPoints 0, zero_add]
  refine ⟨?_, hsum, ?_⟩
  · unfold Hiker.calculateSegmentDistances
    simp only []
    rw [(Hiker.foldl_addSegment_total sqrt _ _).1, ← hp]
    rfl
  · intro hlt
    rw [hsum]
    match hc : c.pathPoints, hlt with
    | [], _ => simp
    | [p], _ => simp

/-- The character and the hiker loaded with `(0,½,0), (10,½,0), (10,½,10)` hold
the same waypoints, as C30 asks; both lengths are `10 + 10 = 20`. -/
theorem calculatePathLength_eq_totalPathLength_witness :
    loadedCharacter.pathPoints = loadedHiker.pathPoints ∧
    (calculatePathLength ratSqrt loadedCharacter
        = (Hiker.calculateSegmentDistances ratSqrt loadedHiker).totalPathLength ∧
      calculatePathLength ratSqrt loadedCharacter
        = (List.zipWith (distance ratSqrt) loadedCharacter.pathPoints
            loadedCharacter.pathPoints.tail).sum ∧
      (loadedCharacter.pathPoints.length < 2 → calculatePathLength ratSqrt loadedCharacter = 0)) ∧
    calculatePathLength ratSqrt loadedCharacter = 20 ∧
    (Hiker.calculateSegmentDistances ratSqrt loadedHiker).totalPathLength = 20 ∧
    calculatePathLength ratSqrt (new : AnimatedCharacter ℚ) = 0 :=
  ⟨by decide!,
   calculatePathLength_eq_totalPathLength ratSqrt loadedCharacter loadedHiker (by decide!),
   by decide!, by decide!, by decide!⟩

end AnimatedCharacter

/-! ## The interpolation factor and the turn at the end -/

namespace Hiker

variable {R : Type} [LinearOrderedField R] [FloorRing R]

/-- With the cursor at distance 0 in segment 0, both searches stay in segment 0
when the first cumulative distance is not negative. -/
theorem search_at_start (seg : List R) (d1 : R) (hd1 : readAt seg 1 = some d1)
    (hnn : 0 ≤ d1) :
    searchForward seg 0 (seg.length + 1) 0 = some 0 ∧
    searchBackward seg 0 ((0 : Int).toNat + 1) 0 = some 0 := by
  have hlen : 2 ≤ seg.length := by
    have := (readAt_range _ _ _ hd1).2
    omega
  constructor
  · unfold searchForward
    rw [sizeMinusOne_of_pos _ (by omega), if_pos (by omega), zero_add, hd1]
    simp only [gt_iff_lt, not_lt.mpr hnn, if_false]
  · show searchBackward seg 0 1 0 = some 0
    unfold searchBackward
    simp

/-- The second cumulative distance of a loaded track is not negative. -/
theorem trackLoaded_first_nonneg (sqrt : R → R) (hsq : ∀ x, 0 ≤ sqrt x) (h : Hiker R)
    (hload : TrackLoaded sqrt h) (hn : 2 ≤ h.pathPoints.length) :
    ∃ d1 : R, readAt h.segmentDistances 1 = some d1 ∧ 0 ≤ d1 := by
  have hinv := segInv_fold sqrt h (h.pathPoints.length - 1) (by omega)
  obtain ⟨di, dj, e0, e1, hle⟩ := segInv_mono sqrt hsq _ _ _ hinv 0 1 (by omega) (by omega)
  obtain ⟨-, -, a3, -⟩ := hinv
  rw [a3] at e0
  have hdi : di = 0 := (Option.some.inj e0).symm
  change (calculateSegmentDistances sqrt h).segmentDistances[1]? = some dj at e1
  rw [← hload.1] at e1
  refine ⟨dj, ?_, by rw [← hdi]; exact hle⟩
  show readAt h.segmentDistances ((1 : Nat) : Int) = _
  rw [Terrain.readAt_natCast]; exact e1

/-- The interpolation factor of a completed step on a loaded track lies in
`[0, 1]`, and the segment it was computed on has a non-zero length. -/
theorem updatePosition_factor_range (sqrt : R → R) (h h' : Hiker R) (deltaTime : R)
    (terrain : Terrain R) (hn : 2 ≤ h.pathPoints.length) (hload : TrackLoaded sqrt h)
    (hidx : 0 ≤ h.currentSegmentIndex ∧
      h.currentSegmentIndex ≤ (h.pathPoints.length : Int) - 2)
    (hcur : 0 ≤ h.currentDistance ∧ h.currentDistance ≤ h.totalPathLength)
    (hd : 0 ≤ h.speed * deltaTime) (hu : updatePosition h deltaTime terrain = some h') :
    ∃ d0 d1 t : R, readAt h'.segmentDistances h'.currentSegmentIndex = some d0 ∧
      readAt h'.segmentDistances (h'.currentSegmentIndex + 1) = some d1 ∧ d1 - d0 ≠ 0 ∧
      fdiv (h'.currentDistance - d0) (d1 - d0) = some t ∧ 0 ≤ t ∧ t ≤ 1 := by
  obtain ⟨i1, i2, d0, d1, t, ht, p0, p1, hi1, hi2, hd0, hd1, -, -, ht', -, heq⟩ :=
    updatePosition_parts h h' deltaTime terrain hu
  obtain ⟨j1, j2, e0, e1, hj1, hj2, -, -, he0, he1, hle0, hle1⟩ :=
    search_located sqrt h deltaTime hn hload hidx hcur hd
  obtain ⟨-, f2, -⟩ := advanceDistance_frame h deltaTime
  rw [hi1] at hj1
  have := Option.some.inj hj1
  subst this
  rw [hi2] at hj2
  have := Option.some.inj hj2
  subst this
  rw [f2] at hd0 hd1
  rw [hd0] at he0
  rw [hd1] at he1
  have := Option.some.inj he0
  subst this
  have := Option.some.inj he1
  subst this
  have hne : d1 - d0 ≠ 0 := by
    intro hc
    unfold fdiv at ht'
    rw [if_pos hc] at ht'
    exact absurd ht' (by simp)
  have hpos : 0 < d1 - d0 := lt_of_le_of_ne (by linarith) (Ne.symm hne)
  have htv : t = ((advanceDistance h deltaTime).currentDistance - d0) / (d1 - d0) := by
    unfold fdiv at ht'
    rw [if_neg hne] at ht'
    exact (Option.some.inj ht').symm
  subst heq
  refine ⟨d0, d1, t, ?_, ?_, hne, ht', ?_, ?_⟩
  · show readAt (advanceDistance h deltaTime).segmentDistances i2 = _
    rw [f2]; exact hd0
  · show readAt (advanceDistance h deltaTime).segmentDistances (i2 + 1) = _
    rw [f2]; exact hd1
  · rw [htv]; exact div_nonneg (by linarith) (le_of_lt hpos)
  · rw [htv, div_le_one hpos]; linarith

/-- At the end of the track and facing backward, the cursor arithmetic of
`updatePosition` sends the cursor to distance 0 in segment 0, facing forward. -/
theorem advanceDistance_from_end (h : Hiker R) (deltaTime : R)
    (hend : h.currentDistance = h.totalPathLength) (hback : h.movingForward = false)
    (hd : 0 ≤ h.speed * deltaTime) :
    (advanceDistance h deltaTime).currentDistance = 0 ∧
    (advanceDistance h deltaTime).movingForward = true ∧
    (advanceDistance h deltaTime).currentSegmentIndex = 0 := by
  have h1 : h.totalPathLength ≤ h.currentDistance + h.speed * deltaTime := by
    rw [hend]; linarith
  have h2 : (0 : R) - h.speed * deltaTime ≤ 0 := by linarith
  unfold advanceDistance
  simp only [ge_iff_le, h1, if_true, hback, Bool.false_eq_true, if_false, h2, and_self]

/-- C22: the hiker loaded with `(0,0,0), (0,0,0), (10,0,0)` over the flat
terrain (`segmentDistances = [0, 0, 10]`) walks to the end of its track with a
first step of 2 s; in a second step of 2 s the cursor returns to distance 0 in
segment 0, whose length is `0 - 0 = 0`, and the factor `t = (0 - 0) / 0` is a
division by zero: the step does not complete with a position. -/
theorem updatePosition_divides_by_zero_segment :
    stalledHiker.segmentDistances = [0, 0, 10] ∧
    (2 ≤ stalledHiker.pathPoints.length ∧ TrackLoaded ratSqrt stalledHiker) ∧
    (updatePosition stalledHiker 2 flatTerrain).map
        (fun h => (h.currentDistance, h.movingForward, h.currentSegmentIndex))
      = some (10, false, 1) ∧
    (updatePosition stalledHiker 2 flatTerrain).map (fun h => h.segmentDistances)
      = some turnedHiker.segmentDistances ∧
    ((advanceDistance turnedHiker 2).currentDistance = 0 ∧
      (advanceDistance turnedHiker 2).currentSegmentIndex = 0) ∧
    searchForward turnedHiker.segmentDistances 0 4 0 = some 0 ∧
    searchBackward turnedHiker.segmentDistances 0 1 0 = some 0 ∧
    readAt turnedHiker.segmentDistances 0 = some 0 ∧
    readAt turnedHiker.segmentDistances (0 + 1) = some 0 ∧
    fdiv ((0 : ℚ) - 0) (0 - 0) = none ∧
    updatePosition turnedHiker 2 flatTerrain = none :=
  ⟨by decide!, ⟨by decide!, by decide!, by decide!⟩, by decide!, by decide!,
   ⟨by decide!, by decide!⟩, by decide!, by decide!, by decide!, by decide!, by decide!,
   Option.isNone_iff_eq_none.mp (by decide!)⟩

/-- C26: on a loaded track of at least two points with `totalPathLength > 0`,
from `currentDistance = totalPathLength` with the direction backward and for
`speed * deltaTime ≥ 0`, the cursor arithmetic of `updatePosition` sets
`currentDistance` to 0 and the direction to forward, every completed
`updatePosition` ends at distance 0 in segment 0 facing forward with the
horizontal position of `pathPoints[0]`, and the step completes over a terrain
grid when no segment has zero length. -/
theorem updatePosition_jumps_to_start (sqrt : R → R) (hsq : ∀ x, 0 ≤ sqrt x) (h : Hiker R)
    (deltaTime : R) (terrain : Terrain R) (hn : 2 ≤ h.pathPoints.length)
    (hload : TrackLoaded sqrt h)
    (hidx : 0 ≤ h.currentSegmentIndex ∧
      h.currentSegmentIndex ≤ (h.pathPoints.length : Int) - 2)
    (hend : h.currentDistance = h.totalPathLength) (hback : h.movingForward = false)
    (htot : 0 < h.totalPathLength) (hd : 0 ≤ h.speed * deltaTime) :
    ((advanceDistance h deltaTime).currentDistance = 0 ∧
      (advanceDistance h deltaTime).movingForward = true) ∧
    (∀ h' : Hiker R, updatePosition h deltaTime terrain = some h' →
      h'.currentDistance = 0 ∧ h'.movingForward = true ∧ h'.currentSegmentIndex = 0 ∧
      ∃ p0 : Vec3 R, readAt h.pathPoints 0 = some p0 ∧
        h'.position.x = p0.x ∧ h'.position.z = p0.z) ∧
    (terrain.IsGrid → NoZeroSegment h →
      ∃ h' : Hiker R, updatePosition h deltaTime terrain = some h') := by
  obtain ⟨a1, a2, a3⟩ := advanceDistance_from_end h deltaTime hend hback hd
  refine ⟨⟨a1, a2⟩, ?_, fun hg hnz => updatePosition_total sqrt h deltaTime terrain hn hload
    hidx ⟨by rw [hend]; exact le_of_lt htot, le_of_eq hend⟩ hd hg hnz⟩
  intro h' hu
  obtain ⟨i1, i2, d0, d1, t, ht, p0, p1, hi1, hi2, hd0, hd1, hp0, -, ht', -, heq⟩ :=
    updatePosition_parts h h' deltaTime terrain hu
  obtain ⟨-, f2, f3, -⟩ := advanceDistance_frame h deltaTime
  obtain ⟨e1, hr1, hnn⟩ := trackLoaded_first_nonneg sqrt hsq h hload hn
  obtain ⟨-, l2, -⟩ := trackLoaded_facts sqrt h hload (by omega)
  obtain ⟨s1, s2⟩ := search_at_start h.segmentDistances e1 hr1 hnn
  rw [a1, a3, f2] at hi1
  rw [s1] at hi1
  have := Option.some.inj hi1
  subst this
  rw [a1, f2, s2] at hi2
  have := Option.some.inj hi2
  subst this
  rw [f2] at hd0
  rw [l2] at hd0
  have := Option.some.inj hd0
  subst this
  rw [a1, sub_self, sub_zero] at ht'
  have ht0 : t = 0 := by
    unfold fdiv at ht'
    split at ht'
    · exact absurd ht' (by simp)
    · rw [← Option.some.inj ht', zero_div]
  rw [f3] at hp0
  subst heq
  refine ⟨a1, a2, rfl, p0, hp0, ?_, ?_⟩
  · show p0.x * (1 - t) + p1.x * t = p0.x
    rw [ht0]; ring
  · show p0.z * (1 - t) + p1.z * t = p0.z
    rw [ht0]; ring

/-- The example hiker at the end of its track (`currentDistance = 20`, facing
backward) satisfies the hypotheses of C26 for `deltaTime = 1`: the step ends at
distance 0, facing forward, at `(0, 1/2, 0)`. -/
theorem updatePosition_jumps_to_start_witness :
    ((∀ x, 0 ≤ ratSqrt x) ∧ 2 ≤ endHiker.pathPoints.length ∧ TrackLoaded ratSqrt endHiker ∧
      (0 ≤ endHiker.currentSegmentIndex ∧
        endHiker.currentSegmentIndex ≤ (endHiker.pathPoints.length : Int) - 2) ∧
      endHiker.currentDistance = endHiker.totalPathLength ∧ endHiker.movingForward = false ∧
      0 < endHiker.totalPathLength ∧ 0 ≤ endHiker.speed * 1) ∧
    (((advanceDistance endHiker 1).currentDistance = 0 ∧
      (advanceDistance endHiker 1).movingForward = true) ∧
    (∀ h' : Hiker ℚ, updatePosition endHiker 1 flatTerrain = some h' →
      h'.currentDistance = 0 ∧ h'.movingForward = true ∧ h'.currentSegmentIndex = 0 ∧
      ∃ p0 : Vec3 ℚ, readAt endHiker.pathPoints 0 = some p0 ∧
        h'.position.x = p0.x ∧ h'.position.z = p0.z) ∧
    (flatTerrain.IsGrid → NoZeroSegment endHiker →
      ∃ h' : Hiker ℚ, updatePosition endHiker 1 flatTerrain = some h')) ∧
    (endHiker.currentDistance, endHiker.currentSegmentIndex) = (20, 1) ∧
    (updatePosition endHiker 1 flatTerrain).map
        (fun h => (h.currentDistance, h.movingForward, h.currentSegmentIndex, h.position))
      = some (0, true, 0, ⟨0, 1 / 2, 0⟩) :=
  ⟨⟨ratSqrt_nonneg, by decide!, ⟨by decide!, by decide!⟩, ⟨by decide!, by decide!⟩,
    by decide!, by decide!, by decide!, by decide!⟩,
   updatePosition_jumps_to_start ratSqrt ratSqrt_nonneg endHiker 1 flatTerrain (by decide!)
     ⟨by decide!, by decide!⟩ ⟨by decide!, by decide!⟩ (by decide!) (by decide!) (by decide!)
     (by decide!),
   by decide!, by decide!⟩

end Hiker

/-! ## The triangles of the index buffer -/

theorem drop_take_append_old {α : Type} (l s : List α) (o n : Nat) (h : o + n ≤ l.length) :
    ((l ++ s).drop o).take n = (l.drop o).take n := by
  rw [List.drop_append_of_le_length (by omega), List.take_append_of_le_length]
  rw [List.length_drop]; omega

theorem drop_take_append_new {α : Type} (l s : List α) :
    ((l ++ s).drop l.length).take s.length = s := by
  rw [List.drop_left, List.take_length]

theorem getElem?_of_drop_take {α : Type} (l s : List α) (o n : Nat)
    (h : (l.drop o).take n = s) (k : Nat) (hk : k < n) : l[o + k]? = s[k]? := by
  rw [← h, List.getElem?_take, if_pos hk, List.getElem?_drop]

theorem rowMajor_succ_le (w z z' x' : Nat) (hx' : x' < w) (hz : z' < z) :
    z' * w + x' + 1 ≤ z * w := by
  have := Nat.mul_le_mul_right w (Nat.succ_le_of_lt hz)
  rw [Nat.succ_mul] at this
  omega

namespace Terrain

variable {R : Type} [LinearOrderedField R] [FloorRing R]

/-- The index buffer after the loop nest of `setupMesh`, cell by cell: the six
entries of the cell in row `z` and column `x` start at `6 * (z * wn + x)`. -/
theorem setupMesh_cells (t : Terrain R) (wn hn : Nat) (hw : t.width - 1 = wn)
    (hh : t.height - 1 = hn) :
    (setupMesh t).indices.length = 6 * (hn * wn) ∧
    ∀ z x : Nat, x < wn → z < hn →
      (((setupMesh t).indices.drop (6 * (z * wn + x))).take 6 : List Int) =
        [(z : Int) * t.width + x, (z : Int) * t.width + x + 1, ((z : Int) + 1) * t.width + x,
         (z : Int) * t.width + x + 1, ((z : Int) + 1) * t.width + x + 1,
         ((z : Int) + 1) * t.width + x] := by
  unfold setupMesh
  simp only [hw, hh]
  refine forLoop_invariant (fun zz (l : List Int) => l.length = 6 * (zz * wn) ∧
    ∀ z x : Nat, x < wn → z < zz → ((l.drop (6 * (z * wn + x))).take 6 : List Int) =
      [(z : Int) * t.width + x, (z : Int) * t.width + x + 1, ((z : Int) + 1) * t.width + x,
       (z : Int) * t.width + x + 1, ((z : Int) + 1) * t.width + x + 1,
       ((z : Int) + 1) * t.width + x]) hn _ [] ?_ ?_
  · exact ⟨by simp, fun z x _ hz => absurd hz (Nat.not_lt_zero z)⟩
  · intro zz l hzz hl
    have := forLoop_invariant (fun xx (l' : List Int) => l'.length = 6 * (zz * wn + xx) ∧
      ∀ z x : Nat, x < wn → (z < zz ∨ (z = zz ∧ x < xx)) →
        ((l'.drop (6 * (z * wn + x))).take 6 : List Int) =
        [(z : Int) * t.width + x, (z : Int) * t.width + x + 1, ((z : Int) + 1) * t.width + x,
         (z : Int) * t.width + x + 1, ((z : Int) + 1) * t.width + x + 1,
         ((z : Int) + 1) * t.width + x]) wn
      (fun x (indices : List Int) =>
        indices ++ [↑zz * t.width + x] ++ [↑zz * t.width + x + 1] ++ [(↑zz + 1) * t.width + x]
          ++ [↑zz * t.width + x + 1] ++ [(↑zz + 1) * t.width + x + 1]
          ++ [(↑zz + 1) * t.width + x]) l ?_ ?_
    · refine ⟨by rw [this.1]; ring, ?_⟩
      intro z x hx hz
      refine this.2 z x hx ?_
      rcases Nat.lt_succ_iff_lt_or_eq.mp hz with h | h
      · exact Or.inl h
      · exact Or.inr ⟨h, hx⟩
    · refine ⟨by rw [hl.1]; ring, ?_⟩
      intro z x hx hz
      rcases hz with h | ⟨-, h⟩
      · exact hl.2 z x hx h
      · exact absurd h (Nat.not_lt_zero x)
    · intro xx l' hxx hl'
      simp only [List.append_assoc, List.singleton_append, List.cons_append, List.nil_append]
      refine ⟨by simp only [List.length_append, List.length_cons, List.length_nil, hl'.1]; ring,
        ?_⟩
      intro z x hx hz
      by_cases hnew : z = zz ∧ x = xx
      · obtain ⟨rfl, rfl⟩ := hnew
        have := drop_take_append_new l' [(z : Int) * t.width + (x : Int),
          ↑z * t.width + (x : Int) + 1, (↑z + 1) * t.width + (x : Int),
          ↑z * t.width + (x : Int) + 1, (↑z + 1) * t.width + (x : Int) + 1,
          (↑z + 1) * t.width + (x : Int)]
        rw [hl'.1] at this
        exact this
      · have hold : z < zz ∨ (z = zz ∧ x < xx) := by
          rcases hz with h | ⟨h1, h2⟩
          · exact Or.inl h
          · refine Or.inr ⟨h1, ?_⟩
            rcases Nat.lt_succ_iff_lt_or_eq.mp h2 with h | h
            · exact h
            · exact absurd ⟨h1, h⟩ hnew
        rw [drop_take_append_old, hl'.2 z x hx hold]
        rw [hl'.1]
        rcases hold with h | ⟨h1, h2⟩
        · have := rowMajor_succ_le wn zz z x hx h
          omega
        · subst h1
          omega

/-- C24: for grid dimensions `width, height ≥ 2` and every cell `(x, z)` with
`0 ≤ x < width-1` and `0 ≤ z < height-1`, the six entries of the index buffer
of `setupMesh` starting at offset `6 * (z * (width-1) + x)` are
`i0, i1, i2, i1, i3, i2` with `i0 = z*width+x`, `i1 = z*width+x+1`,
`i2 = (z+1)*width+x`, `i3 = (z+1)*width+x+1`. -/
theorem setupMesh_triangles (t : Terrain R) (hw : 2 ≤ t.width) (hh : 2 ≤ t.height)
    (x z : Int) (hx0 : 0 ≤ x) (hx1 : x < t.width - 1) (hz0 : 0 ≤ z) (hz1 : z < t.height - 1) :
    ((setupMesh t).indices.drop (6 * (z * (t.width - 1) + x)).toNat).take 6 =
      [z * t.width + x, z * t.width + x + 1, (z + 1) * t.width + x,
       z * t.width + x + 1, (z + 1) * t.width + x + 1, (z + 1) * t.width + x] ∧
    ∀ k : Nat, k < 6 →
      readAt (setupMesh t).indices (6 * (z * (t.width - 1) + x) + k) =
        [z * t.width + x, z * t.width + x + 1, (z + 1) * t.width + x,
         z * t.width + x + 1, (z + 1) * t.width + x + 1, (z + 1) * t.width + x][k]? := by
  obtain ⟨wn, hwn⟩ := Int.eq_ofNat_of_zero_le (show 0 ≤ t.width - 1 by omega)
  obtain ⟨hn, hhn⟩ := Int.eq_ofNat_of_zero_le (show 0 ≤ t.height - 1 by omega)
  obtain ⟨xn, rfl⟩ := Int.eq_ofNat_of_zero_le hx0
  obtain ⟨zn, rfl⟩ := Int.eq_ofNat_of_zero_le hz0
  obtain ⟨-, hcells⟩ := setupMesh_cells t wn hn hwn hhn
  have hcell := hcells zn xn (by omega) (by omega)
  have hoff : (6 * ((zn : Int) * (t.width - 1) + (xn : Int))) = ((6 * (zn * wn + xn) : Nat) : Int) := by
    rw [hwn]; push_cast; ring
  refine ⟨?_, ?_⟩
  · rw [hoff, Int.toNat_ofNat]; exact hcell
  · intro k hk
    rw [hoff]
    have : (((6 * (zn * wn + xn) : Nat) : Int) + (k : Int)) = ((6 * (zn * wn + xn) + k : Nat) : Int) := by
      push_cast; ring
    rw [this, readAt_natCast]
    exact getElem?_of_drop_take _ _ _ 6 hcell k hk

/-- The 3x3 example terrain and its cell `(1, 1)` satisfy the hypotheses of
C24: the six entries from offset `6 * (1 * 2 + 1) = 18` are `4, 5, 7, 5, 8, 7`. -/
theorem setupMesh_triangles_witness :
    (2 ≤ peakTerrain.width ∧ 2 ≤ peakTerrain.height ∧ (0 : Int) ≤ 1 ∧
      (1 : Int) < peakTerrain.width - 1 ∧ (0 : Int) ≤ 1 ∧ (1 : Int) < peakTerrain.height - 1) ∧
    (((setupMesh peakTerrain).indices.drop (6 * (1 * (peakTerrain.width - 1) + 1)).toNat).take 6 =
      [1 * peakTerrain.width + 1, 1 * peakTerrain.width + 1 + 1,
       (1 + 1) * peakTerrain.width + 1, 1 * peakTerrain.width + 1 + 1,
       (1 + 1) * peakTerrain.width + 1 + 1, (1 + 1) * peakTerrain.width + 1] ∧
    ∀ k : Nat, k < 6 →
      readAt (setupMesh peakTerrain).indices (6 * (1 * (peakTerrain.width - 1) + 1) + k) =
        [1 * peakTerrain.width + 1, 1 * peakTerrain.width + 1 + 1,
         (1 + 1) * peakTerrain.width + 1, 1 * peakTerrain.width + 1 + 1,
         (1 + 1) * peakTerrain.width + 1 + 1, (1 + 1) * peakTerrain.width + 1][k]?) ∧
    peakTerrain.indices =
      [0, 1, 3, 1, 4, 3, 1, 2, 4, 2, 5, 4, 3, 4, 6, 4, 7, 6, 4, 5, 7, 5, 8, 7] :=
  ⟨⟨by decide!, by decide!, by decide!, by decide!, by decide!, by decide!⟩,
   setupMesh_triangles peakTerrain (by decide!) (by decide!) 1 1 (by decide!) (by decide!)
     (by decide!) (by decide!),
   by decide!⟩

end Terrain

/-! ## Bounds of the height query -/

namespace Glm

variable {R : Type} [LinearOrderedField R]

/-- A linear interpolation with a weight in `[0, 1]` lies between its ends. -/
theorem mix_mem (x y a lo hi : R) (h0 : 0 ≤ a) (h1 : a ≤ 1) (hx : lo ≤ x ∧ x ≤ hi)
    (hy : lo ≤ y ∧ y ≤ hi) : lo ≤ mix x y a ∧ mix x y a ≤ hi := by
  unfold mix
  have h2 : 0 ≤ 1 - a := by linarith
  constructor
  · nlinarith [mul_nonneg h2 (sub_nonneg.mpr hx.1), mul_nonneg h0 (sub_nonneg.mpr hy.1)]
  · nlinarith [mul_nonneg h2 (sub_nonneg.mpr hx.2), mul_nonneg h0 (sub_nonneg.mpr hy.2)]

end Glm

namespace Terrain

variable {R : Type} [LinearOrderedField R] [FloorRing R]

/-- Every vertex of a loaded terrain has an elevation of at most `maxHeight`,
and a non-negative one when `heightScale ≥ 0`. -/
theorem loadHeightmap_elevation_bounds (sqrt : R → R) (t0 : Terrain R) (img : Image)
    (hw : 1 ≤ img.width) (hh : 1 ≤ img.height) :
    ∀ p ∈ (loadHeightmap sqrt t0 (some img)).2.positions,
      p.y ≤ (loadHeightmap sqrt t0 (some img)).2.maxHeight ∧ (0 ≤ t0.heightScale → 0 ≤ p.y) := by
  obtain ⟨wn, hwn⟩ := Int.eq_ofNat_of_zero_le (show 0 ≤ img.width by omega)
  obtain ⟨hn, hhn⟩ := Int.eq_ofNat_of_zero_le (show 0 ≤ img.height by omega)
  obtain ⟨-, -, -, -, elen, -, epos, -, ele, -, -⟩ :=
    loadHeightmap_full sqrt t0 img wn hn hwn hhn
  have hwpos : 0 < wn := by omega
  intro p hp
  obtain ⟨k, hk⟩ := List.mem_iff_getElem?.mp hp
  obtain ⟨hklt, -⟩ := List.getElem?_eq_some.mp hk
  rw [elen] at hklt
  have hx : k % wn < wn := Nat.mod_lt _ hwpos
  have hz : k / wn < hn := by
    rw [Nat.div_lt_iff_lt_mul hwpos]; rw [Nat.mul_comm]; exact hklt
  have hkk : k / wn * wn + k % wn = k := Nat.div_add_mod' k wn
  have := epos (k / wn) (k % wn) hz hx
  rw [hkk, hk] at this
  have hy : p.y = sampleHeight img.data t0.heightScale k := by
    rw [Option.some.inj this]
  rw [hy]
  exact ⟨ele k hklt, fun hs => sampleHeight_nonneg img.data t0.heightScale hs k⟩

theorem mem_of_readAt {α : Type} (v : List α) (i : Int) (a : α) (h : readAt v i = some a) :
    a ∈ v := by
  unfold readAt at h
  split at h
  · exact List.mem_iff_getElem?.mpr ⟨_, h⟩
  · exact absurd h (by simp)

/-- In exact arithmetic, on a loaded terrain with positive `horizontalScale`,
for every world point `(x, z)` the query `getHeightAtPosition(x, z)` returns a value between
the minimum and the maximum of the four corner elevations it reads, the
fractional offsets `fx, fz` lying in `[0, 1)`; with `heightScale ≥ 0` the value
lies in `[0, maxHeight]`. -/
theorem getHeightAtPosition_bounds (sqrt : R → R) (t0 : Terrain R) (img : Image)
    (hw : 1 ≤ img.width) (hh : 1 ≤ img.height) (hs : 0 < t0.horizontalScale) (x z : R) :
    let t := (loadHeightmap sqrt t0 (some img)).2
    let x0 := toInt (t.localX x)
    let z0 := toInt (t.localZ z)
    let x1 := min (x0 + 1) (t.width - 1)
    let z1 := min (z0 + 1) (t.height - 1)
    ∃ (p00 p10 p01 p11 : Vec3 R) (r : R),
      readAt t.positions (z0 * t.width + x0) = some p00 ∧
      readAt t.positions (z0 * t.width + x1) = some p10 ∧
      readAt t.positions (z1 * t.width + x0) = some p01 ∧
      readAt t.positions (z1 * t.width + x1) = some p11 ∧
      t.getHeightAtPosition x z = some r ∧
      (0 ≤ t.localX x - (x0 : R) ∧ t.localX x - (x0 : R) < 1) ∧
      (0 ≤ t.localZ z - (z0 : R) ∧ t.localZ z - (z0 : R) < 1) ∧
      min (min p00.y p10.y) (min p01.y p11.y) ≤ r ∧
      r ≤ max (max p00.y p10.y) (max p01.y p11.y) ∧
      (0 ≤ t0.heightScale → 0 ≤ r ∧ r ≤ t.maxHeight) := by
  intro t x0 z0 x1 z1
  obtain ⟨-, -, -, hg, -⟩ := loadHeightmap_grid sqrt t0 img hw hh
  change IsGrid t at hg
  have hbound := loadHeightmap_elevation_bounds sqrt t0 img hw hh
  change ∀ p ∈ t.positions, p.y ≤ t.maxHeight ∧ (0 ≤ t0.heightScale → 0 ≤ p.y) at hbound
  obtain ⟨p00, p10, p01, p11, r00, r10, r01, r11, e⟩ := getHeightAtPosition_eq t hg x z
  have ex : x0 = ⌊t.localX x⌋ := toInt_localX t hg.width_pos x
  have ez : z0 = ⌊t.localZ z⌋ := toInt_localZ t hg.height_pos z
  have hfx : 0 ≤ t.localX x - (⌊t.localX x⌋ : R) ∧ t.localX x - (⌊t.localX x⌋ : R) < 1 :=
    ⟨sub_nonneg.mpr (Int.floor_le _), by linarith [Int.lt_floor_add_one (t.localX x)]⟩
  have hfz : 0 ≤ t.localZ z - (⌊t.localZ z⌋ : R) ∧ t.localZ z - (⌊t.localZ z⌋ : R) < 1 :=
    ⟨sub_nonneg.mpr (Int.floor_le _), by linarith [Int.lt_floor_add_one (t.localZ z)]⟩
  have key : ∀ lo hi : R, (lo ≤ p00.y ∧ p00.y ≤ hi) → (lo ≤ p10.y ∧ p10.y ≤ hi) →
      (lo ≤ p01.y ∧ p01.y ≤ hi) → (lo ≤ p11.y ∧ p11.y ≤ hi) →
      lo ≤ mix (mix p00.y p10.y (t.localX x - (⌊t.localX x⌋ : R)))
          (mix p01.y p11.y (t.localX x - (⌊t.localX x⌋ : R)))
          (t.localZ z - (⌊t.localZ z⌋ : R)) ∧
      mix (mix p00.y p10.y (t.localX x - (⌊t.localX x⌋ : R)))
          (mix p01.y p11.y (t.localX x - (⌊t.localX x⌋ : R)))
          (t.localZ z - (⌊t.localZ z⌋ : R)) ≤ hi := by
    intro lo hi a b c d
    exact mix_mem _ _ _ lo hi hfz.1 (le_of_lt hfz.2)
      (mix_mem _ _ _ lo hi hfx.1 (le_of_lt hfx.2) a b)
      (mix_mem _ _ _ lo hi hfx.1 (le_of_lt hfx.2) c d)
  show ∃ (p00 p10 p01 p11 : Vec3 R) (r : R),
      readAt t.positions (z0 * t.width + x0) = some p00 ∧
      readAt t.positions (z0 * t.width + min (x0 + 1) (t.width - 1)) = some p10 ∧
      readAt t.positions (min (z0 + 1) (t.height - 1) * t.width + x0) = some p01 ∧
      readAt t.positions (min (z0 + 1) (t.height - 1) * t.width + min (x0 + 1) (t.width - 1))
        = some p11 ∧
      t.getHeightAtPosition x z = some r ∧
      (0 ≤ t.localX x - (x0 : R) ∧ t.localX x - (x0 : R) < 1) ∧
      (0 ≤ t.localZ z - (z0 : R) ∧ t.localZ z - (z0 : R) < 1) ∧
      min (min p00.y p10.y) (min p01.y p11.y) ≤ r ∧
      r ≤ max (max p00.y p10.y) (max p01.y p11.y) ∧
      (0 ≤ t0.heightScale → 0 ≤ r ∧ r ≤ t.maxHeight)
  rw [ex, ez]
  have hmm := key (min (min p00.y p10.y) (min p01.y p11.y))
    (max (max p00.y p10.y) (max p01.y p11.y))
    ⟨le_trans (min_le_left _ _) (min_le_left _ _), le_trans (le_max_left _ _) (le_max_left _ _)⟩
    ⟨le_trans (min_le_left _ _) (min_le_right _ _), le_trans (le_max_right _ _) (le_max_left _ _)⟩
    ⟨le_trans (min_le_right _ _) (min_le_left _ _), le_trans (le_max_left _ _) (le_max_right _ _)⟩
    ⟨le_trans (min_le_right _ _) (min_le_right _ _),
      le_trans (le_max_right _ _) (le_max_right _ _)⟩
  refine ⟨p00, p10, p01, p11, _, r00, r10, r01, r11, e, hfx, hfz, hmm.1, hmm.2, ?_⟩
  intro hscale
  have b00 := hbound p00 (mem_of_readAt _ _ _ r00)
  have b10 := hbound p10 (mem_of_readAt _ _ _ r10)
  have b01 := hbound p01 (mem_of_readAt _ _ _ r01)
  have b11 := hbound p11 (mem_of_readAt _ _ _ r11)
  exact key 0 t.maxHeight ⟨b00.2 hscale, b00.1⟩ ⟨b10.2 hscale, b10.1⟩ ⟨b01.2 hscale, b01.1⟩
    ⟨b11.2 hscale, b11.1⟩

/-- The 2x2 example image (elevations `0, 0, 0, 10`) and the cell centre
`(0, 0)` in exact arithmetic: the query returns `5/2`, between the
corner elevations 0 and 10 and within `[0, maxHeight] = [0, 10]`. -/
theorem getHeightAtPosition_bounds_witness :
    (1 ≤ cornerImage.width ∧ 1 ≤ cornerImage.height ∧
      0 < (Terrain.new.setHeightScale 255 : Terrain ℚ).horizontalScale) ∧
    (let t := (loadHeightmap ratSqrt (Terrain.new.setHeightScale 255) (some cornerImage)).2
     let x0 := toInt (t.localX 0)
     let z0 := toInt (t.localZ 0)
     let x1 := min (x0 + 1) (t.width - 1)
     let z1 := min (z0 + 1) (t.height - 1)
     ∃ (p00 p10 p01 p11 : Vec3 ℚ) (r : ℚ),
       readAt t.positions (z0 * t.width + x0) = some p00 ∧
       readAt t.positions (z0 * t.width + x1) = some p10 ∧
       readAt t.positions (z1 * t.width + x0) = some p01 ∧
       readAt t.positions (z1 * t.width + x1) = some p11 ∧
       t.getHeightAtPosition 0 0 = some r ∧
       (0 ≤ t.localX 0 - (x0 : ℚ) ∧ t.localX 0 - (x0 : ℚ) < 1) ∧
       (0 ≤ t.localZ 0 - (z0 : ℚ) ∧ t.localZ 0 - (z0 : ℚ) < 1) ∧
       min (min p00.y p10.y) (min p01.y p11.y) ≤ r ∧
       r ≤ max (max p00.y p10.y) (max p01.y p11.y) ∧
       (0 ≤ (Terrain.new.setHeightScale 255 : Terrain ℚ).heightScale →
         0 ≤ r ∧ r ≤ t.maxHeight)) ∧
    cornerTerrain.getHeightAtPosition 0 0 = some (5 / 2) ∧
    cornerTerrain.positions.map (fun p => p.y) = [0, 0, 0, 10] ∧
    cornerTerrain.maxHeight = 10 :=
  ⟨⟨by decide, by decide, by decide!⟩,
   getHeightAtPosition_bounds ratSqrt (Terrain.new.setHeightScale 255) cornerImage (by decide)
     (by decide) (by decide!) 0 0,
   by decide!, by decide!, by decide!⟩

end Terrain

/-! ## Face normals and their accumulation -/

namespace Glm

variable {R : Type} [LinearOrderedField R]

theorem vec3_add_assoc (a b c : Vec3 R) : (a.add b).add c = a.add (b.add c) := by
  show (⟨a.x + b.x + c.x, a.y + b.y + c.y, a.z + b.z + c.z⟩ : Vec3 R)
    = ⟨a.x + (b.x + c.x), a.y + (b.y + c.y), a.z + (b.z + c.z)⟩
  rw [add_assoc, add_assoc, add_assoc]

end Glm

namespace Terrain

variable {R : Type} [LinearOrderedField R] [FloorRing R]

/-- The normalisation loop of `calculateNormals` runs over the accumulated
normals. -/
theorem calculateNormals_normals (sqrt : R → R) (t : Terrain R) :
    (calculateNormals sqrt t).normals = (accumulatedNormals sqrt t).map (normalize sqrt) := rfl

/-- One cell of the accumulation, seen from the entry of a vertex `i`: it
receives the unit face normal of each of the two triangles it is a corner of. -/
theorem accumulateCell_read (sqrt : R → R) (width : Int) (positions : List (Vec3 R))
    (z x i : Int) (hw : 2 ≤ width) (v : List (Vec3 R)) (a : Vec3 R)
    (ha : readAt v i = some a) :
    readAt (accumulateCell sqrt width positions z x v) i
      = some (incidentCell (normalize sqrt) width positions i z x a) := by
  have e2 : (z + 1) * width = z * width + width := by ring
  unfold accumulateCell incidentCell
  simp only []
  have s1 := readAt_addAt v (z * width + x) i
    (normalize sqrt (faceNormal1 width positions z x)) a ha
  have s2 := readAt_addAt _ (z * width + x + 1) i
    ((normalize sqrt (faceNormal1 width positions z x)).add
      (normalize sqrt (faceNormal2 width positions z x))) _ s1
  have s3 := readAt_addAt _ ((z + 1) * width + x) i
    ((normalize sqrt (faceNormal1 width positions z x)).add
      (normalize sqrt (faceNormal2 width positions z x))) _ s2
  have s4 := readAt_addAt _ ((z + 1) * width + x + 1) i
    (normalize sqrt (faceNormal2 width positions z x)) _ s3
  refine s4.trans (congrArg some ?_)
  by_cases c0 : i = z * width + x
  · have n1 : ¬ z * width + x + 1 = i := by omega
    have n2 : ¬ (z + 1) * width + x = i := by omega
    have n3 : ¬ (z + 1) * width + x + 1 = i := by omega
    have m1 : ¬ (i = z * width + x + 1 ∨ i = (z + 1) * width + x + 1 ∨ i = (z + 1) * width + x) := by
      omega
    rw [if_neg n3, if_neg n2, if_neg n1, if_pos c0.symm, if_pos (Or.inl c0), if_neg m1]
  · by_cases c1 : i = z * width + x + 1
    · have n0 : ¬ z * width + x = i := by omega
      have n2 : ¬ (z + 1) * width + x = i := by omega
      have n3 : ¬ (z + 1) * width + x + 1 = i := by omega
      rw [if_neg n3, if_neg n2, if_pos c1.symm, if_neg n0, if_pos (Or.inr (Or.inl c1)),
        if_pos (Or.inl c1), vec3_add_assoc]
    · by_cases c2 : i = (z + 1) * width + x
      · have n0 : ¬ z * width + x = i := by omega
        have n1 : ¬ z * width + x + 1 = i := by omega
        have n3 : ¬ (z + 1) * width + x + 1 = i := by omega
        rw [if_neg n3, if_pos c2.symm, if_neg n1, if_neg n0, if_pos (Or.inr (Or.inr c2)),
          if_pos (Or.inr (Or.inr c2)), vec3_add_assoc]
      · by_cases c3 : i = (z + 1) * width + x + 1
        · have n0 : ¬ z * width + x = i := by omega
          have n1 : ¬ z * width + x + 1 = i := by omega
          have n2 : ¬ (z + 1) * width + x = i := by omega
          have m0 : ¬ (i = z * width + x ∨ i = z * width + x + 1 ∨ i = (z + 1) * width + x) := by
            omega
          rw [if_pos c3.symm, if_neg n2, if_neg n1, if_neg n0, if_neg m0,
            if_pos (Or.inr (Or.inl c3))]
        · have n0 : ¬ z * width + x = i := fun h => c0 h.symm
          have n1 : ¬ z * width + x + 1 = i := fun h => c1 h.symm
          have n2 : ¬ (z + 1) * width + x = i := fun h => c2 h.symm
          have n3 : ¬ (z + 1) * width + x + 1 = i := fun h => c3 h.symm
          have m0 : ¬ (i = z * width + x ∨ i = z * width + x + 1 ∨ i = (z + 1) * width + x) := by
            rintro (h | h | h)
            · exact c0 h
            · exact c1 h
            · exact c2 h
          have m1 : ¬ (i = z * width + x + 1 ∨ i = (z + 1) * width + x + 1 ∨
              i = (z + 1) * width + x) := by
            rintro (h | h | h)
            · exact c1 h
            · exact c3 h
            · exact c2 h
          rw [if_neg n3, if_neg n2, if_neg n1, if_neg n0, if_neg m0, if_neg m1]

/-- After the accumulation loops the entry of every vertex holds the sum of the
unit face normals of the triangles incident to it. -/
theorem accumulatedNormals_spec (sqrt : R → R) (t : Terrain R) (hw : 2 ≤ t.width)
    (hh : 2 ≤ t.height) (i : Int) (hi0 : 0 ≤ i) (hi1 : i.toNat < t.normals.length) :
    readAt (accumulatedNormals sqrt t) i = some (incidentSum (normalize sqrt) t i) := by
  obtain ⟨wn, hwn⟩ := Int.eq_ofNat_of_zero_le (show 0 ≤ t.width - 1 by omega)
  obtain ⟨hn, hhn⟩ := Int.eq_ofNat_of_zero_le (show 0 ≤ t.height - 1 by omega)
  unfold accumulatedNormals incidentSum
  rw [hwn, hhn]
  refine forLoop_invariant (fun zz (v : List (Vec3 R)) =>
    readAt v i = some (forLoop (zz : Int) (fun z acc =>
      forLoop (wn : Int) (fun x acc =>
        incidentCell (normalize sqrt) t.width t.positions i z x acc) acc) Vec3.zero)) hn _ _ ?_ ?_
  · show readAt (t.normals.map (fun _ => Vec3.zero)) i = some Vec3.zero
    unfold readAt
    rw [if_pos hi0, List.getElem?_map, List.getElem?_eq_getElem hi1]
    rfl
  · intro zz v hzz hv
    rw [forLoop_natCast_succ]
    generalize forLoop (zz : Int) (fun z acc =>
      forLoop (wn : Int) (fun x acc =>
        incidentCell (normalize sqrt) t.width t.positions i z x acc) acc) Vec3.zero = s0 at hv
    refine forLoop_invariant (fun xx (v' : List (Vec3 R)) =>
      readAt v' i = some (forLoop (xx : Int) (fun x acc =>
        incidentCell (normalize sqrt) t.width t.positions i zz x acc) s0)) wn _ _ ?_ ?_
    · exact hv
    · intro xx v' hxx hv'
      rw [forLoop_natCast_succ]
      exact accumulateCell_read sqrt t.width t.positions zz xx i hw v' _ hv'

/-- The stages of `loadHeightmap`: the terrain it returns is `setupMesh` of
`calculateNormals` of a terrain `G` whose vertices sit on the grid and which has
one normal slot per vertex. -/
theorem loadHeightmap_stages (sqrt : R → R) (t0 : Terrain R) (img : Image)
    (hw : 1 ≤ img.width) (hh : 1 ≤ img.height) :
    ∃ G : Terrain R, (loadHeightmap sqrt t0 (some img)).2 = setupMesh (calculateNormals sqrt G) ∧
      G.width = img.width ∧ G.height = img.height ∧
      G.horizontalScale = t0.horizontalScale ∧ OnGrid G ∧
      G.normals.length = (G.width * G.height).toNat := by
  obtain ⟨e3, hg, hpos⟩ := loadHeightmap_vertices sqrt t0 _ img hw hh rfl
  obtain ⟨e1, e2, -⟩ := loadHeightmap_grid sqrt t0 img hw hh
  generalize hG : generatePositions
    (processHeights { t0 with width := img.width, height := img.height } img.data) = G
  have ht : (loadHeightmap sqrt t0 (some img)).2 = setupMesh (calculateNormals sqrt G) := by
    rw [← hG]; rfl
  rw [ht] at e1 e2 e3 hpos
  have hGw : G.width = img.width := e1
  have hGh : G.height = img.height := e2
  refine ⟨G, ht, hGw, hGh, e3, hpos, ?_⟩
  obtain ⟨f1, f2, -⟩ := processHeights_frame { t0 with width := img.width, height := img.height }
    img.data
  rw [← hG]
  have := generatePositions_normals_length
    (processHeights { t0 with width := img.width, height := img.height } img.data)
    (by rw [f1]; show 0 ≤ img.width; omega) (by rw [f2]; show 0 ≤ img.height; omega)
  rw [this]
  rw [hG, hGw, hGh, f1, f2]

theorem readAt_map {α β : Type} (f : α → β) (v : List α) (i : Int) :
    readAt (v.map f) i = (readAt v i).map f := by
  unfold readAt
  split
  · rw [List.getElem?_map]
  · rfl

/-- C23, amended: for every elevation grid with `width, height ≥ 2`, each
vertex normal left by `calculateNormals` is the normalisation of the sum of the
normalised (unit-length) cross-product face normals of the triangles incident
to that vertex: face normals are normalised before they are accumulated. -/
theorem calculateNormals_sums_unit_face_normals (sqrt : R → R) (t0 : Terrain R) (img : Image)
    (hw : 2 ≤ img.width) (hh : 2 ≤ img.height) :
    let t := (loadHeightmap sqrt t0 (some img)).2
    ∀ i : Int, 0 ≤ i → i < t.width * t.height →
      readAt t.normals i = some (normalize sqrt (incidentSum (normalize sqrt) t i)) := by
  intro t i hi0 hi1
  obtain ⟨G, ht, hGw, hGh, -, -, hlen⟩ := loadHeightmap_stages sqrt t0 img (by omega) (by omega)
  change t = _ at ht
  have hn : t.normals = (accumulatedNormals sqrt G).map (normalize sqrt) := by rw [ht]; rfl
  have hsum : incidentSum (normalize sqrt) t i = incidentSum (normalize sqrt) G i := by
    rw [ht]; rfl
  have hwh : t.width * t.height = G.width * G.height := by rw [ht]; rfl
  rw [hn, hsum, readAt_map,
    accumulatedNormals_spec sqrt G (by omega) (by omega) i hi0 (by rw [hlen]; omega)]
  rfl

/-- C23 fails on the 2x2 grid with elevations `16, 24, 25, 9` and spacing 12:
its triangles have the face normals `(96, -144, 108)` of length 204 and
`(-192, -144, -180)` of length 300, both meeting at vertex 1; the code leaves
the normal `(-12/85, -84/85, -1/17)` there, the normalised sum of the two unit
normals, while the normalised sum of the un-normalised face normals is
`(-4/13, -12/13, -3/13)`. -/
theorem calculateNormals_not_area_weighted :
    (2 ≤ slopeTerrain.width ∧ 2 ≤ slopeTerrain.height) ∧
    slopeTerrain.positions = [⟨-6, 16, -6⟩, ⟨6, 24, -6⟩, ⟨-6, 25, 6⟩, ⟨6, 9, 6⟩] ∧
    faceNormal1 slopeTerrain.width slopeTerrain.positions 0 0 = ⟨96, -144, 108⟩ ∧
    faceNormal2 slopeTerrain.width slopeTerrain.positions 0 0 = ⟨-192, -144, -180⟩ ∧
    (ratSqrt (dot (⟨96, -144, 108⟩ : Vec3 ℚ) ⟨96, -144, 108⟩) = 204 ∧
      ratSqrt (dot (⟨-192, -144, -180⟩ : Vec3 ℚ) ⟨-192, -144, -180⟩) = 300) ∧
    incidentSum id slopeTerrain 1 = ⟨-96, -288, -72⟩ ∧
    ratSqrt (dot (⟨-96, -288, -72⟩ : Vec3 ℚ) ⟨-96, -288, -72⟩) = 312 ∧
    normalize ratSqrt (incidentSum id slopeTerrain 1) = ⟨-4 / 13, -12 / 13, -3 / 13⟩ ∧
    readAt slopeTerrain.normals 1 = some ⟨-12 / 85, -84 / 85, -1 / 17⟩ ∧
    readAt slopeTerrain.normals 1 ≠ some (normalize ratSqrt (incidentSum id slopeTerrain 1)) := by
  refine ⟨⟨?_, ?_⟩, ?_, ?_, ?_, ⟨?_, ?_⟩, ?_, ?_, ?_, ?_, ?_⟩ <;> decide!

/-- The 2x2 example grid with elevations `16, 24, 25, 9` satisfies the
hypotheses of the amended C23; at vertex 1 the sum of the two unit face normals
is `(-72/425, -504/425, -6/85)` and the normal is `(-12/85, -84/85, -1/17)`. -/
theorem calculateNormals_sums_unit_face_normals_witness :
    (2 ≤ slopeImage.width ∧ 2 ≤ slopeImage.height) ∧
    (let t := (loadHeightmap ratSqrt ((Terrain.new.setHeightScale 255).setHorizontalScale 12)
        (some slopeImage)).2
     ∀ i : Int, 0 ≤ i → i < t.width * t.height →
       readAt t.normals i = some (normalize ratSqrt (incidentSum (normalize ratSqrt) t i))) ∧
    incidentSum (normalize ratSqrt) slopeTerrain 1 = ⟨-72 / 425, -504 / 425, -6 / 85⟩ ∧
    readAt slopeTerrain.normals 1 = some ⟨-12 / 85, -84 / 85, -1 / 17⟩ :=
  ⟨⟨by decide, by decide⟩,
   calculateNormals_sums_unit_face_normals ratSqrt
     ((Terrain.new.setHeightScale 255).setHorizontalScale 12) slopeImage (by decide) (by decide),
   by decide!, by decide!⟩

theorem length_accumulateCell (sqrt : R → R) (width : Int) (positions : List (Vec3 R))
    (z x : Int) (v : List (Vec3 R)) :
    (accumulateCell sqrt width positions z x v).length = v.length := by
  unfold accumulateCell
  simp only [length_addAt]

theorem length_accumulatedNormals (sqrt : R → R) (t : Terrain R) :
    (accumulatedNormals sqrt t).length = t.normals.length := by
  unfold accumulatedNormals
  rw [forLoop_toNat]
  refine forLoop_invariant (fun _ (v : List (Vec3 R)) => v.length = t.normals.length) _ _ _
    (by simp) ?_
  intro zz v _ hv
  rw [forLoop_toNat]
  refine forLoop_invariant (fun _ (v' : List (Vec3 R)) => v'.length = t.normals.length) _ _ _
    hv ?_
  intro xx v' _ hv'
  rw [length_accumulateCell]; exact hv'

/-- The accumulation depends on the grid and on the number of normal slots
only. -/
theorem accumulatedNormals_congr (sqrt : R → R) (t G : Terrain R) (hw : t.width = G.width)
    (hh : t.height = G.height) (hp : t.positions = G.positions)
    (hl : t.normals.length = G.normals.length) :
    accumulatedNormals sqrt t = accumulatedNormals sqrt G := by
  have hz : t.normals.map (fun _ => (Vec3.zero : Vec3 R))
      = G.normals.map (fun _ => (Vec3.zero : Vec3 R)) := by
    apply List.ext_getElem?
    intro n
    rw [List.getElem?_map, List.getElem?_map]
    by_cases hn : n < t.normals.length
    · rw [List.getElem?_eq_getElem hn, List.getElem?_eq_getElem (by omega)]; rfl
    · rw [List.getElem?_eq_none (by omega), List.getElem?_eq_none (by omega)]
  unfold accumulatedNormals
  rw [hw, hh, hp, hz]

/-- On a grid with positive spacing both face normals of a cell have the `y`
component `-(horizontalScale²)`. -/
theorem faceNormal_y (t : Terrain R) (hpos : OnGrid t) (z x : Int) (hx0 : 0 ≤ x)
    (hx1 : x + 1 < t.width) (hz0 : 0 ≤ z) (hz1 : z + 1 < t.height) :
    (faceNormal1 t.width t.positions z x).y = -(t.horizontalScale * t.horizontalScale) ∧
    (faceNormal2 t.width t.positions z x).y = -(t.horizontalScale * t.horizontalScale) := by
  obtain ⟨y0, e0⟩ := hpos x z hx0 (by omega) hz0 (by omega)
  obtain ⟨y1, e1⟩ := hpos (x + 1) z (by omega) hx1 hz0 (by omega)
  obtain ⟨y2, e2⟩ := hpos x (z + 1) hx0 (by omega) (by omega) hz1
  obtain ⟨y3, e3⟩ := hpos (x + 1) (z + 1) (by omega) hx1 (by omega) hz1
  rw [← add_assoc] at e1 e3
  unfold faceNormal1 faceNormal2
  simp only [e0, e1, e2, e3, Option.getD_some]
  constructor
  · simp only [cross, Vec3.sub]
    push_cast
    ring
  · simp only [cross, Vec3.sub]
    push_cast
    ring

/-- After the accumulation loops every vertex of a grid with at least two rows
and columns holds a vector with a strictly negative `y` component. -/
theorem accumulatedNormals_neg {sqrt : R → R} (hsq : IsSqrt sqrt) (t : Terrain R)
    (hs : 0 < t.horizontalScale) (hpos : OnGrid t) (hw : 2 ≤ t.width) (hh : 2 ≤ t.height)
    (hlen : t.normals.length = (t.width * t.height).toNat) (i : Int) (hi0 : 0 ≤ i)
    (hi1 : i < t.width * t.height) : NegAt (accumulatedNormals sqrt t) i := by
  obtain ⟨wn1, hwn⟩ := Int.eq_ofNat_of_zero_le (show 0 ≤ t.width - 1 by omega)
  obtain ⟨hn1, hhn⟩ := Int.eq_ofNat_of_zero_le (show 0 ≤ t.height - 1 by omega)
  obtain ⟨-, -, aneg⟩ := accumulate_normInv hsq t hs hpos wn1 hn1 hwn hhn hlen
  change ∀ z x : Nat, x < wn1 → z < hn1 →
    NegAt (accumulatedNormals sqrt t) (z * t.width + x) ∧
    NegAt (accumulatedNormals sqrt t) (z * t.width + x + 1) ∧
    NegAt (accumulatedNormals sqrt t) ((z + 1) * t.width + x) ∧
    NegAt (accumulatedNormals sqrt t) ((z + 1) * t.width + x + 1) at aneg
  have e1 : t.width = ((wn1 + 1 : Nat) : Int) := by push_cast; omega
  have e2 : t.height = ((hn1 + 1 : Nat) : Int) := by push_cast; omega
  obtain ⟨k, rfl⟩ := Int.eq_ofNat_of_zero_le hi0
  have hk : k < (wn1 + 1) * (hn1 + 1) := by
    rw [e1, e2] at hi1
    exact_mod_cast hi1
  obtain ⟨z, x, hx, hz, hcase⟩ := vertex_is_corner wn1 hn1 t.width (by omega) k hk
    (by omega) (by omega)
  obtain ⟨c0, c1, c2, c3⟩ := aneg z x hx hz
  rcases hcase with h | h | h | h
  · rw [h]; exact c0
  · rw [h]; exact c1
  · rw [h]; exact c2
  · rw [h]; exact c3

/-- C27: with an exact square root, for every elevation grid with
`width, height ≥ 2` and `horizontalScale > 0`, both triangle face normals of
every cell computed in `calculateNormals` have a strictly negative `y`
component, before and after their normalisation, and every accumulated vertex
normal is non-zero with a strictly negative `y` component, as is the final
normal of the vertex. -/
theorem calculateNormals_point_downward (sqrt : R → R) (hsq : IsSqrt sqrt) (t0 : Terrain R)
    (img : Image) (hw : 2 ≤ img.width) (hh : 2 ≤ img.height) (hs : 0 < t0.horizontalScale) :
    let t := (loadHeightmap sqrt t0 (some img)).2
    (∀ x z : Int, 0 ≤ x → x < t.width - 1 → 0 ≤ z → z < t.height - 1 →
      (faceNormal1 t.width t.positions z x).y < 0 ∧
      (faceNormal2 t.width t.positions z x).y < 0 ∧
      (normalize sqrt (faceNormal1 t.width t.positions z x)).y < 0 ∧
      (normalize sqrt (faceNormal2 t.width t.positions z x)).y < 0) ∧
    ∀ i : Int, 0 ≤ i → i < t.width * t.height →
      ∃ a n : Vec3 R, readAt (accumulatedNormals sqrt t) i = some a ∧ a.y < 0 ∧
        a ≠ Vec3.zero ∧ readAt t.normals i = some n ∧ n = normalize sqrt a ∧ n.y < 0 := by
  intro t
  obtain ⟨G, ht, hGw, hGh, hGs, hGpos, hlen⟩ :=
    loadHeightmap_stages sqrt t0 img (by omega) (by omega)
  change t = _ at ht
  have hn : t.normals = (accumulatedNormals sqrt G).map (normalize sqrt) := by rw [ht]; rfl
  have hw' : t.width = G.width := by rw [ht]; rfl
  have hh' : t.height = G.height := by rw [ht]; rfl
  have hp' : t.positions = G.positions := by rw [ht]; rfl
  have hacc : accumulatedNormals sqrt t = accumulatedNormals sqrt G :=
    accumulatedNormals_congr sqrt t G hw' hh' hp'
      (by rw [hn, List.length_map, length_accumulatedNormals])
  have hss : 0 < G.horizontalScale * G.horizontalScale := by
    rw [hGs]; exact mul_pos hs hs
  refine ⟨?_, ?_⟩
  · intro x z hx0 hx1 hz0 hz1
    rw [hw', hp']
    obtain ⟨f1, f2⟩ := faceNormal_y G hGpos z x hx0 (by omega) hz0 (by omega)
    have g1 : (faceNormal1 G.width G.positions z x).y < 0 := by rw [f1]; linarith
    have g2 : (faceNormal2 G.width G.positions z x).y < 0 := by rw [f2]; linarith
    exact ⟨g1, g2, normalize_y_neg hsq _ g1, normalize_y_neg hsq _ g2⟩
  · intro i hi0 hi1
    rw [hw', hh'] at hi1
    obtain ⟨a, ha, hay⟩ := accumulatedNormals_neg hsq G (by rw [hGs]; exact hs) hGpos
      (by omega) (by omega) hlen i hi0 hi1
    refine ⟨a, normalize sqrt a, by rw [hacc]; exact ha, hay, ?_, ?_, rfl,
      normalize_y_neg hsq a hay⟩
    · intro h0
      rw [h0] at hay
      exact lt_irrefl (0 : R) hay
    · rw [hn, readAt_map, ha]; rfl

/-- Over `ℝ` with `Real.sqrt` the 2x2 example image with elevations
`16, 24, 25, 9` and spacing 12 satisfies the hypotheses of C27; evaluated over
`ℚ`, its face normals are `(96, -144, 108)` and `(-192, -144, -180)` and its
accumulated normals have the `y` components `-12/17, -504/425, -504/425, -12/25`. -/
theorem calculateNormals_point_downward_witness :
    (IsSqrt Real.sqrt ∧ 2 ≤ slopeImage.width ∧ 2 ≤ slopeImage.height ∧
      0 < ((Terrain.new.setHeightScale 255).setHorizontalScale 12 : Terrain ℝ).horizontalScale) ∧
    (let t := (loadHeightmap Real.sqrt
        ((Terrain.new.setHeightScale 255).setHorizontalScale 12 : Terrain ℝ) (some slopeImage)).2
     (∀ x z : Int, 0 ≤ x → x < t.width - 1 → 0 ≤ z → z < t.height - 1 →
       (faceNormal1 t.width t.positions z x).y < 0 ∧
       (faceNormal2 t.width t.positions z x).y < 0 ∧
       (normalize Real.sqrt (faceNormal1 t.width t.positions z x)).y < 0 ∧
       (normalize Real.sqrt (faceNormal2 t.width t.positions z x)).y < 0) ∧
     ∀ i : Int, 0 ≤ i → i < t.width * t.height →
       ∃ a n : Vec3 ℝ, readAt (accumulatedNormals Real.sqrt t) i = some a ∧ a.y < 0 ∧
         a ≠ Vec3.zero ∧ readAt t.normals i = some n ∧ n = normalize Real.sqrt a ∧ n.y < 0) ∧
    faceNormal1 slopeTerrain.width slopeTerrain.positions 0 0 = ⟨96, -144, 108⟩ ∧
    faceNormal2 slopeTerrain.width slopeTerrain.positions 0 0 = ⟨-192, -144, -180⟩ ∧
    (accumulatedNormals ratSqrt slopeTerrain).map (fun a => a.y)
      = [-12 / 17, -504 / 425, -504 / 425, -12 / 25] ∧
    slopeTerrain.normals.map (fun n => n.y) = [-12 / 17, -84 / 85, -84 / 85, -12 / 25] :=
  ⟨⟨fun x hx => ⟨Real.sqrt_nonneg x, Real.mul_self_sqrt hx⟩, by decide, by decide,
    show (0 : ℝ) < 12 by norm_num⟩,
   calculateNormals_point_downward Real.sqrt
     (fun x hx => ⟨Real.sqrt_nonneg x, Real.mul_self_sqrt hx⟩)
     ((Terrain.new.setHeightScale 255).setHorizontalScale 12) slopeImage
     (by decide) (by decide) (show (0 : ℝ) < 12 by norm_num),
   by decide!, by decide!, by decide!, by decide!⟩

end Terrain

/-! ## Rounding to binary32 -/

theorem bitLength_zero (fuel : Nat) : bitLength fuel 0 = 0 := by
  cases fuel <;> simp [bitLength]

theorem bitLength_spec (fuel n : Nat) (h : n ≤ fuel) (hn : n ≠ 0) :
    2 ^ (bitLength fuel n - 1) ≤ n ∧ n < 2 ^ bitLength fuel n ∧ 1 ≤ bitLength fuel n := by
  induction fuel generalizing n with
  | zero => omega
  | succ f ih =>
    unfold bitLength
    rw [if_neg hn]
    by_cases h2 : n / 2 = 0
    · have h1 : n = 1 := by omega
      subst h1
      simp [bitLength_zero]
    · obtain ⟨a, b, c⟩ := ih (n / 2) (by omega) h2
      refine ⟨?_, ?_, by omega⟩
      · have e : bitLength f (n / 2) + 1 - 1 = (bitLength f (n / 2) - 1) + 1 := by omega
        rw [e, pow_succ]
        omega
      · rw [pow_succ]
        omega

theorem abs_eq_natAbs_div (q : ℚ) : |q| = (q.num.natAbs : ℚ) / (q.den : ℚ) := by
  conv_lhs => rw [← Rat.num_div_den q]
  rw [abs_div, Nat.abs_cast, Nat.cast_natAbs, Int.cast_abs]

theorem two_zpow_sub (a b : ℕ) : (2 : ℚ) ^ ((a : ℤ) - (b : ℤ)) = 2 ^ a / 2 ^ b := by
  rw [zpow_sub₀ (two_ne_zero), zpow_natCast, zpow_natCast]

theorem ilog2_spec (q : ℚ) (hq : q ≠ 0) :
    (2 : ℚ) ^ ilog2 q ≤ |q| ∧ |q| < 2 ^ (ilog2 q + 1) := by
  have hn : q.num.natAbs ≠ 0 := by
    rw [Ne, Int.natAbs_eq_zero]
    exact Rat.num_ne_zero.mpr hq
  have hd : q.den ≠ 0 := q.den_nz
  obtain ⟨n1, n2, n3⟩ := bitLength_spec q.num.natAbs q.num.natAbs le_rfl hn
  obtain ⟨d1, d2, d3⟩ := bitLength_spec q.den q.den le_rfl hd
  have hdpos : (0 : ℚ) < (q.den : ℚ) := by exact_mod_cast Nat.pos_of_ne_zero hd
  have n1q : (2 : ℚ) ^ (bitLength q.num.natAbs q.num.natAbs - 1) ≤ (q.num.natAbs : ℚ) := by
    exact_mod_cast n1
  have n2q : (q.num.natAbs : ℚ) < (2 : ℚ) ^ bitLength q.num.natAbs q.num.natAbs := by
    exact_mod_cast n2
  have d1q : (2 : ℚ) ^ (bitLength q.den q.den - 1) ≤ (q.den : ℚ) := by exact_mod_cast d1
  have d2q : (q.den : ℚ) < (2 : ℚ) ^ bitLength q.den q.den := by exact_mod_cast d2
  have habs := abs_eq_natAbs_div q
  unfold ilog2
  simp only []
  split_ifs with hc
  · refine ⟨hc, ?_⟩
    have e : ((bitLength q.num.natAbs q.num.natAbs : ℤ) - (bitLength q.den q.den : ℤ) + 1)
        = ((bitLength q.num.natAbs q.num.natAbs : ℕ) : ℤ)
          - ((bitLength q.den q.den - 1 : ℕ) : ℤ) := by
      rw [Nat.cast_sub d3]
      push_cast
      ring
    rw [e, two_zpow_sub, habs, div_lt_div_iff₀ hdpos (by positivity)]
    calc (q.num.natAbs : ℚ) * 2 ^ (bitLength q.den q.den - 1)
        < 2 ^ bitLength q.num.natAbs q.num.natAbs * 2 ^ (bitLength q.den q.den - 1) := by
          apply mul_lt_mul_of_pos_right n2q (by positivity)
      _ ≤ 2 ^ bitLength q.num.natAbs q.num.natAbs * (q.den : ℚ) := by
          apply mul_le_mul_of_nonneg_left d1q (by positivity)
  · refine ⟨?_, ?_⟩
    · have e : ((bitLength q.num.natAbs q.num.natAbs : ℤ) - (bitLength q.den q.den : ℤ) - 1)
          = ((bitLength q.num.natAbs q.num.natAbs - 1 : ℕ) : ℤ)
            - ((bitLength q.den q.den : ℕ) : ℤ) := by
        rw [Nat.cast_sub n3]
        push_cast
        ring
      rw [e, two_zpow_sub, habs, div_le_div_iff₀ (by positivity) hdpos]
      calc (2 : ℚ) ^ (bitLength q.num.natAbs q.num.natAbs - 1) * (q.den : ℚ)
          ≤ (q.num.natAbs : ℚ) * (q.den : ℚ) := by
            apply mul_le_mul_of_nonneg_right n1q (le_of_lt hdpos)
        _ ≤ (q.num.natAbs : ℚ) * 2 ^ bitLength q.den q.den := by
            apply mul_le_mul_of_nonneg_left (le_of_lt d2q) (by positivity)
    · rw [sub_add_cancel]
      exact not_le.mp hc

theorem ilog2_le_of_lt (q : ℚ) (hq : q ≠ 0) (e : ℤ) (h : |q| < 2 ^ (e + 1)) : ilog2 q ≤ e := by
  have h1 := lt_of_le_of_lt (ilog2_spec q hq).1 h
  have h2 := (zpow_lt_zpow_iff_right₀ (by norm_num : (1 : ℚ) < 2)).mp h1
  omega

theorem le_ilog2_of_le (q : ℚ) (hq : q ≠ 0) (e : ℤ) (h : 2 ^ e ≤ |q|) : e ≤ ilog2 q := by
  have h1 := lt_of_le_of_lt h (ilog2_spec q hq).2
  have h2 := (zpow_lt_zpow_iff_right₀ (by norm_num : (1 : ℚ) < 2)).mp h1
  omega

theorem roundEven_cases (q : ℚ) :
    (roundEven q = ⌊q⌋ ∧ q - ⌊q⌋ ≤ 1 / 2) ∨ (roundEven q = ⌊q⌋ + 1 ∧ 1 / 2 ≤ q - ⌊q⌋) := by
  unfold roundEven
  split_ifs with h1 h2 h3
  · exact Or.inl ⟨rfl, le_of_lt h1⟩
  · exact Or.inr ⟨rfl, le_of_lt h2⟩
  · exact Or.inl ⟨rfl, not_lt.mp h2⟩
  · exact Or.inr ⟨rfl, not_lt.mp h1⟩

theorem le_roundEven (q : ℚ) (n : ℤ) (h : (n : ℚ) ≤ q) : n ≤ roundEven q := by
  have hf : n ≤ ⌊q⌋ := Int.le_floor.mpr h
  rcases roundEven_cases q with ⟨e, -⟩ | ⟨e, -⟩ <;> omega

theorem roundEven_le (q : ℚ) (n : ℤ) (h : q ≤ (n : ℚ)) : roundEven q ≤ n := by
  rcases roundEven_cases q with ⟨e, -⟩ | ⟨e, hh⟩
  · rw [e]
    exact_mod_cast le_trans (Int.floor_le q) h
  · rw [e]
    have h1 : ((⌊q⌋ : ℤ) : ℚ) < (n : ℚ) := by linarith
    have h2 : ⌊q⌋ < n := by exact_mod_cast h1
    omega

theorem roundEven_intCast (n : ℤ) : roundEven (n : ℚ) = n := by
  unfold roundEven
  rw [Int.floor_intCast, sub_self, if_pos (by norm_num)]

theorem roundEven_mono (x y : ℚ) (h : x ≤ y) : roundEven x ≤ roundEven y := by
  have hf : ⌊x⌋ ≤ ⌊y⌋ := Int.floor_mono h
  rcases lt_or_eq_of_le hf with hlt | heq
  · have h1 : roundEven x ≤ ⌊x⌋ + 1 := by
      rcases roundEven_cases x with ⟨e, -⟩ | ⟨e, -⟩ <;> omega
    have h2 : ⌊y⌋ ≤ roundEven y := by
      rcases roundEven_cases y with ⟨e, -⟩ | ⟨e, -⟩ <;> omega
    omega
  · unfold roundEven
    rw [heq]
    have hxy : x - (⌊y⌋ : ℚ) ≤ y - (⌊y⌋ : ℚ) := by linarith
    split_ifs <;> first | omega | (exfalso; linarith)

theorem roundEven_neg (q : ℚ) : roundEven (-q) = -roundEven q := by
  by_cases hz : q - ⌊q⌋ = 0
  · have hq : q = ((⌊q⌋ : ℤ) : ℚ) := by linarith
    have hn : -q = (((-⌊q⌋ : ℤ)) : ℚ) := by
      push_cast
      linarith
    rw [hn, roundEven_intCast]
    conv_rhs => rw [hq, roundEven_intCast]
  · have h0 : 0 < q - ⌊q⌋ := lt_of_le_of_ne (by linarith [Int.floor_le q]) (Ne.symm hz)
    have h1 : q - ⌊q⌋ < 1 := by linarith [Int.lt_floor_add_one q]
    have hfl : ⌊-q⌋ = -⌊q⌋ - 1 := by
      rw [Int.floor_eq_iff]
      push_cast
      constructor <;> linarith
    unfold roundEven
    rw [hfl]
    push_cast
    split_ifs <;> first | omega | (exfalso; linarith)

theorem quantum_ge (q : ℚ) : -149 ≤ quantum q := le_max_right _ _

theorem ilog2_le_quantum (q : ℚ) : ilog2 q - 23 ≤ quantum q := le_max_left _ _

theorem two_zpow_pos (k : ℤ) : (0 : ℚ) < 2 ^ k := zpow_pos (by norm_num) k

theorem round32_zero : round32 0 = 0 := by
  unfold round32
  rw [zero_div, show ((0 : ℚ)) = ((0 : ℤ) : ℚ) by norm_num, roundEven_intCast]
  simp

/-- A multiple of its own unit in the last place is a `float`. -/
theorem round32_of_multiple (q : ℚ) (j : ℤ) (h : q = (j : ℚ) * 2 ^ quantum q) :
    round32 q = q := by
  have hd : q / 2 ^ quantum q = (j : ℚ) := by
    rw [div_eq_iff (ne_of_gt (two_zpow_pos _))]
    exact h
  unfold round32
  rw [hd, roundEven_intCast]
  exact h.symm

theorem abs_lt_of_mantissa (m k : ℤ) (e : ℕ) (hm : |m| < 2 ^ e) :
    |(m : ℚ) * 2 ^ k| < 2 ^ (k + e) := by
  rw [abs_mul, abs_of_pos (two_zpow_pos k), add_comm, zpow_add₀ (two_ne_zero), zpow_natCast]
  apply mul_lt_mul_of_pos_right _ (two_zpow_pos k)
  have : ((|m| : ℤ) : ℚ) < ((2 ^ e : ℤ) : ℚ) := by exact_mod_cast hm
  rw [Int.cast_abs] at this
  simpa using this

theorem quantum_le_of_mantissa (m k : ℤ) (hm0 : m ≠ 0) (hm : |m| < 2 ^ 24) (hk : -149 ≤ k) :
    quantum ((m : ℚ) * 2 ^ k) ≤ k := by
  have hq : (m : ℚ) * 2 ^ k ≠ 0 :=
    mul_ne_zero (by exact_mod_cast hm0) (ne_of_gt (two_zpow_pos k))
  have h1 := abs_lt_of_mantissa m k 24 hm
  have h2 : ilog2 ((m : ℚ) * 2 ^ k) ≤ k + 23 := by
    apply ilog2_le_of_lt _ hq
    have e : k + 23 + 1 = k + ((24 : ℕ) : ℤ) := by push_cast; ring
    rw [e]
    exact h1
  unfold quantum
  exact max_le (by omega) hk

theorem round32_of_mantissa_lt (m k : ℤ) (hm : |m| < 2 ^ 24) (hk : -149 ≤ k) :
    round32 ((m : ℚ) * 2 ^ k) = (m : ℚ) * 2 ^ k := by
  by_cases hm0 : m = 0
  · subst hm0
    simp [round32_zero]
  · have hle := quantum_le_of_mantissa m k hm0 hm hk
    apply round32_of_multiple _ (m * 2 ^ (k - quantum ((m : ℚ) * 2 ^ k)).toNat)
    have e : (k - quantum ((m : ℚ) * 2 ^ k)) = ((k - quantum ((m : ℚ) * 2 ^ k)).toNat : ℤ) := by
      rw [Int.toNat_of_nonneg (by omega)]
    have e2 : (2 : ℚ) ^ k
        = 2 ^ (k - quantum ((m : ℚ) * 2 ^ k)) * 2 ^ quantum ((m : ℚ) * 2 ^ k) := by
      rw [← zpow_add₀ (two_ne_zero)]
      congr 1
      ring
    conv_lhs => rw [e2]
    push_cast
    rw [← zpow_natCast, ← e]
    ring

/-- Every `m · 2ᵏ` with at most 24 significant bits and `k ≥ -149` is a `float`. -/
theorem round32_of_mantissa (m k : ℤ) (hm : |m| ≤ 2 ^ 24) (hk : -149 ≤ k) :
    round32 ((m : ℚ) * 2 ^ k) = (m : ℚ) * 2 ^ k := by
  rcases lt_or_eq_of_le hm with hlt | heq
  · exact round32_of_mantissa_lt m k hlt hk
  · have hcases : m = 2 ^ 24 ∨ m = -2 ^ 24 := by
      rcases abs_cases m with ⟨e, -⟩ | ⟨e, -⟩ <;> [left; right] <;> omega
    have key : ∀ s : ℤ, |s| < 2 ^ 24 → (m : ℚ) = (s : ℚ) * 2 →
        round32 ((m : ℚ) * 2 ^ k) = (m : ℚ) * 2 ^ k := by
      intro s hs e
      have e2 : (m : ℚ) * 2 ^ k = (s : ℚ) * 2 ^ (k + 1) := by
        rw [e, zpow_add₀ (two_ne_zero), zpow_one]
        ring
      rw [e2]
      exact round32_of_mantissa_lt s (k + 1) hs (by omega)
    rcases hcases with e | e
    · exact key (2 ^ 23) (by norm_num) (by rw [e]; norm_num)
    · exact key (-2 ^ 23) (by norm_num) (by rw [e]; norm_num)

/-- Every result of the rounding has at most 24 significant bits. -/
theorem round32_mantissa (q : ℚ) :
    ∃ m : ℤ, |m| ≤ 2 ^ 24 ∧ round32 q = (m : ℚ) * 2 ^ quantum q := by
  refine ⟨roundEven (q / 2 ^ quantum q), ?_, rfl⟩
  have hb : |q| ≤ 2 ^ 24 * 2 ^ quantum q := by
    by_cases hq : q = 0
    · subst hq
      rw [abs_zero]
      exact le_of_lt (mul_pos (by norm_num) (two_zpow_pos _))
    · have h1 := (ilog2_spec q hq).2
      have h2 : (2 : ℚ) ^ (ilog2 q + 1) ≤ 2 ^ (quantum q + 24) :=
        zpow_le_zpow_right₀ (by norm_num) (by have := ilog2_le_quantum q; omega)
      have h3 : (2 : ℚ) ^ (quantum q + 24) = 2 ^ 24 * 2 ^ quantum q := by
        rw [add_comm, zpow_add₀ (two_ne_zero)]
        norm_num
      linarith
  have hpos := two_zpow_pos (quantum q)
  obtain ⟨h1, h2⟩ := abs_le.mp hb
  rw [abs_le]
  constructor
  · apply le_roundEven
    rw [le_div_iff₀ hpos]
    push_cast
    linarith
  · apply roundEven_le
    rw [div_le_iff₀ hpos]
    push_cast
    linarith

theorem round32_idem (q : ℚ) : round32 (round32 q) = round32 q := by
  obtain ⟨m, hm, e⟩ := round32_mantissa q
  rw [e]
  exact round32_of_mantissa m _ hm (quantum_ge q)

theorem round32_intCast (n : ℤ) (hn : |n| ≤ 2 ^ 24) : round32 (n : ℚ) = n := by
  have := round32_of_mantissa n 0 hn (by norm_num)
  simpa using this

theorem round32_halves (n : ℤ) (hn : |n| ≤ 2 ^ 24) : round32 ((n : ℚ) / 2) = (n : ℚ) / 2 := by
  have h := round32_of_mantissa n (-1) hn (by norm_num)
  have e : (n : ℚ) * 2 ^ (-1 : ℤ) = (n : ℚ) / 2 := by
    rw [zpow_neg, zpow_one]
    rfl
  rwa [e] at h

theorem ilog2_neg (q : ℚ) : ilog2 (-q) = ilog2 q := by
  unfold ilog2
  simp only [Rat.neg_num, Rat.neg_den, Int.natAbs_neg, abs_neg]

theorem quantum_neg (q : ℚ) : quantum (-q) = quantum q := by
  unfold quantum
  rw [ilog2_neg]

theorem round32_neg (q : ℚ) : round32 (-q) = -round32 q := by
  unfold round32
  rw [quantum_neg, neg_div, roundEven_neg]
  push_cast
  ring

theorem round32_nonneg (q : ℚ) (h : 0 ≤ q) : 0 ≤ round32 q := by
  unfold round32
  apply mul_nonneg _ (le_of_lt (two_zpow_pos _))
  have : (0 : ℤ) ≤ roundEven (q / 2 ^ quantum q) :=
    le_roundEven _ 0 (by
      push_cast
      exact div_nonneg h (le_of_lt (two_zpow_pos _)))
  exact_mod_cast this

theorem round32_nonpos (q : ℚ) (h : q ≤ 0) : round32 q ≤ 0 := by
  have := round32_nonneg (-q) (by linarith)
  rw [round32_neg] at this
  linarith

theorem round32_mono_pos (x y : ℚ) (hx : 0 < x) (h : x ≤ y) : round32 x ≤ round32 y := by
  have hy : 0 < y := lt_of_lt_of_le hx h
  have hx0 : x ≠ 0 := ne_of_gt hx
  have hy0 : y ≠ 0 := ne_of_gt hy
  have hlog : ilog2 x ≤ ilog2 y := by
    apply le_ilog2_of_le y hy0
    rw [abs_of_pos hy]
    have := (ilog2_spec x hx0).1
    rw [abs_of_pos hx] at this
    linarith
  have hq : quantum x ≤ quantum y := by
    unfold quantum
    exact max_le_max (by omega) le_rfl
  rcases lt_or_eq_of_le hq with hlt | heq
  · -- a power of two separates the two results
    have hky : quantum y = ilog2 y - 23 := by
      have h1 := quantum_ge x
      unfold quantum at hlt ⊢
      rcases max_cases (ilog2 y - 23) (-149) with ⟨e, -⟩ | ⟨e, -⟩
      · exact e
      · rw [e] at hlt
        have := le_max_right (ilog2 x - 23) (-149)
        omega
    have hB : (2 : ℚ) ^ (quantum y + 23) ≤ round32 y := by
      have h1 : (2 : ℚ) ^ ilog2 y ≤ y := by
        have := (ilog2_spec y hy0).1
        rwa [abs_of_pos hy] at this
      have h2 : ((2 ^ 23 : ℤ) : ℚ) ≤ y / 2 ^ quantum y := by
        rw [le_div_iff₀ (two_zpow_pos _)]
        have e : (2 : ℚ) ^ ilog2 y = 2 ^ 23 * 2 ^ quantum y := by
          rw [hky, show ilog2 y = 23 + (ilog2 y - 23) by ring, zpow_add₀ (two_ne_zero)]
          norm_num
        push_cast
        linarith
      have h3 := le_roundEven _ _ h2
      have h4 : ((2 ^ 23 : ℤ) : ℚ) ≤ (roundEven (y / 2 ^ quantum y) : ℚ) := by exact_mod_cast h3
      unfold round32
      rw [add_comm, zpow_add₀ (two_ne_zero)]
      have := mul_le_mul_of_nonneg_right h4 (le_of_lt (two_zpow_pos (quantum y)))
      push_cast at this
      norm_num at this ⊢
      exact this
    have hA : round32 x ≤ (2 : ℚ) ^ (quantum x + 24) := by
      have h1 : x < (2 : ℚ) ^ (ilog2 x + 1) := by
        have := (ilog2_spec x hx0).2
        rwa [abs_of_pos hx] at this
      have h1' : (2 : ℚ) ^ (ilog2 x + 1) ≤ 2 ^ (quantum x + 24) :=
        zpow_le_zpow_right₀ (by norm_num) (by have := ilog2_le_quantum x; omega)
      have e : (2 : ℚ) ^ (quantum x + 24) = 2 ^ 24 * 2 ^ quantum x := by
        rw [add_comm, zpow_add₀ (two_ne_zero)]
        norm_num
      have h2 : x / 2 ^ quantum x ≤ ((2 ^ 24 : ℤ) : ℚ) := by
        rw [div_le_iff₀ (two_zpow_pos _)]
        push_cast
        linarith
      have h3 := roundEven_le _ _ h2
      have h4 : (roundEven (x / 2 ^ quantum x) : ℚ) ≤ ((2 ^ 24 : ℤ) : ℚ) := by exact_mod_cast h3
      unfold round32
      rw [e]
      have := mul_le_mul_of_nonneg_right h4 (le_of_lt (two_zpow_pos (quantum x)))
      push_cast at this
      exact this
    have hAB : (2 : ℚ) ^ (quantum x + 24) ≤ 2 ^ (quantum y + 23) :=
      zpow_le_zpow_right₀ (by norm_num) (by omega)
    linarith
  · unfold round32
    rw [heq]
    apply mul_le_mul_of_nonneg_right _ (le_of_lt (two_zpow_pos _))
    have : roundEven (x / 2 ^ quantum y) ≤ roundEven (y / 2 ^ quantum y) :=
      roundEven_mono _ _ (div_le_div_of_nonneg_right h (le_of_lt (two_zpow_pos _)))
    exact_mod_cast this

theorem round32_mono (x y : ℚ) (h : x ≤ y) : round32 x ≤ round32 y := by
  rcases lt_trichotomy 0 x with hx | hx | hx
  · exact round32_mono_pos x y hx h
  · subst hx
    rw [round32_zero]
    exact round32_nonneg y h
  · rcases le_or_lt 0 y with hy | hy
    · exact le_trans (round32_nonpos x (le_of_lt hx)) (round32_nonneg y hy)
    · have := round32_mono_pos (-y) (-x) (by linarith) (by linarith)
      rw [round32_neg, round32_neg] at this
      linarith

theorem round32_fixed (x : ℚ) (h : round32 x = x) :
    ∃ m k : ℤ, |m| ≤ 2 ^ 24 ∧ -149 ≤ k ∧ x = (m : ℚ) * 2 ^ k := by
  obtain ⟨m, hm, e⟩ := round32_mantissa x
  exact ⟨m, quantum x, hm, quantum_ge x, by rw [← e, h]⟩

/-- The fractional part of a non-negative `float` is a `float`. -/
theorem round32_fract (x : ℚ) (hx : 0 ≤ x) (h : round32 x = x) :
    round32 (x - ⌊x⌋) = x - ⌊x⌋ := by
  obtain ⟨m, k, hm, hk, e⟩ := round32_fixed x h
  have hm0 : 0 ≤ m := by
    by_contra hneg
    have h1 : (m : ℚ) < 0 := by exact_mod_cast not_le.mp hneg
    have := mul_neg_of_neg_of_pos h1 (two_zpow_pos k)
    linarith
  rcases le_or_lt 0 k with hk0 | hk0
  · have e2 : x = ((m * 2 ^ k.toNat : ℤ) : ℚ) := by
      rw [e]
      push_cast
      rw [← zpow_natCast, Int.toNat_of_nonneg hk0]
    have e3 : x - ⌊x⌋ = 0 := by
      rw [e2, Int.floor_intCast]
      ring
    rw [e3, round32_zero]
  · have hD : (2 : ℚ) ^ k = 1 / ((2 ^ (-k).toNat : ℕ) : ℚ) := by
      have : k = -(((-k).toNat : ℕ) : ℤ) := by
        rw [Int.toNat_of_nonneg (by omega)]
        ring
      conv_lhs => rw [this]
      rw [zpow_neg, zpow_natCast]
      push_cast
      ring
    have e2 : x = (m : ℚ) / ((2 ^ (-k).toNat : ℕ) : ℚ) := by
      rw [e, hD]
      ring
    have hfl : ⌊x⌋ = m / ((2 ^ (-k).toNat : ℕ) : ℤ) := by
      rw [e2]
      exact Rat.floor_intCast_div_natCast m _
    have hDpos : (0 : ℚ) < ((2 ^ (-k).toNat : ℕ) : ℚ) := by positivity
    have e3 : x - ⌊x⌋ = ((m % ((2 ^ (-k).toNat : ℕ) : ℤ) : ℤ) : ℚ) * 2 ^ k := by
      rw [hfl, hD, e2]
      have hdm := Int.emod_add_ediv m ((2 ^ (-k).toNat : ℕ) : ℤ)
      have hdm' : ((m % ((2 ^ (-k).toNat : ℕ) : ℤ) : ℤ) : ℚ)
          + (((2 ^ (-k).toNat : ℕ) : ℤ) : ℚ) * ((m / ((2 ^ (-k).toNat : ℕ) : ℤ) : ℤ) : ℚ)
          = (m : ℚ) := by exact_mod_cast hdm
      field_simp
      push_cast at hdm' ⊢
      linarith
    rw [e3]
    apply round32_of_mantissa _ _ _ hk
    have hDi : (0 : ℤ) < ((2 ^ (-k).toNat : ℕ) : ℤ) := by positivity
    have h1 := Int.emod_nonneg m (ne_of_gt hDi)
    have h2 : m % ((2 ^ (-k).toNat : ℕ) : ℤ) ≤ m := by
      have hdm := Int.emod_add_ediv m ((2 ^ (-k).toNat : ℕ) : ℤ)
      have hq := mul_nonneg (le_of_lt hDi) (Int.ediv_nonneg hm0 (le_of_lt hDi))
      linarith
    rw [abs_of_nonneg h1]
    rw [abs_of_nonneg hm0] at hm
    omega

/-! ## The height query in float arithmetic -/

/-- The binary32 rounding has the properties of `Fp.IsRounding`. -/
theorem round32_isRounding : Fp.IsRounding round32 :=
  ⟨round32_mono, round32_idem, fun n hn => round32_intCast n hn, round32_halves, round32_fract⟩

namespace Nan

variable {R : Type} [LinearOrderedField R] [FloorRing R]

theorem clamp_some (x lo hi : R) :
    clamp (some x) (some lo) (some hi) = some (Glm.clamp x lo hi) := by
  unfold clamp Nan.max Nan.min lt Glm.clamp
  by_cases h1 : x < lo
  · rw [max_eq_right (le_of_lt h1)]
    by_cases h2 : hi < lo
    · simp [h1, h2, min_eq_right (le_of_lt h2)]
    · simp [h1, h2, min_eq_left (not_lt.mp h2)]
  · rw [max_eq_left (not_lt.mp h1)]
    by_cases h2 : hi < x
    · simp [h1, h2, min_eq_right (le_of_lt h2)]
    · simp [h1, h2, min_eq_left (not_lt.mp h2)]

/-- A NaN passes through `glm::clamp`: both comparisons with it are false. -/
theorem clamp_nan (lo hi : Option R) : clamp (none : Option R) lo hi = none := by
  unfold clamp Nan.max Nan.min lt
  cases lo <;> cases hi <;> rfl

end Nan

namespace Fp

variable {R : Type} [LinearOrderedField R] [FloorRing R]

/-- Exact arithmetic is the rounding that changes nothing. -/
theorem isRounding_id : IsRounding (id : R → R) :=
  ⟨fun _ _ h => h, fun _ => rfl, fun _ _ => rfl, fun _ _ => rfl, fun _ _ _ => rfl⟩

theorem IsRounding.fixes_zero {rnd : R → R} (hr : IsRounding rnd) : rnd 0 = 0 := by
  have := hr.int 0 (by norm_num)
  simpa using this

theorem IsRounding.fixes_one {rnd : R → R} (hr : IsRounding rnd) : rnd 1 = 1 := by
  have := hr.int 1 (by norm_num)
  simpa using this

theorem IsRounding.half {rnd : R → R} (hr : IsRounding rnd) : rnd (1 / 2) = 1 / 2 := by
  have := hr.halves 1 (by norm_num)
  simpa using this

theorem IsRounding.nonneg {rnd : R → R} (hr : IsRounding rnd) (x : R) (h : 0 ≤ x) :
    0 ≤ rnd x := by
  have := hr.mono 0 x h
  rwa [hr.fixes_zero] at this

theorem IsRounding.index {rnd : R → R} (hr : IsRounding rnd) (n : Int) (h0 : 0 ≤ n)
    (h1 : n ≤ 2 ^ 24) : rnd (n : R) = (n : R) :=
  hr.int n (abs_le.mpr ⟨by omega, h1⟩)

theorem gridX_some (rnd : R → R) (t : Terrain R) (hs : t.horizontalScale ≠ 0) (x : R) :
    gridX rnd t (some x) = some (rnd (rnd (x + halfWidth rnd t) / t.horizontalScale)) := by
  unfold gridX fdiv
  simp [hs]

theorem gridZ_some (rnd : R → R) (t : Terrain R) (hs : t.horizontalScale ≠ 0) (z : R) :
    gridZ rnd t (some z) = some (rnd (rnd (z + halfDepth rnd t) / t.horizontalScale)) := by
  unfold gridZ fdiv
  simp [hs]

theorem localX_of_grid {rnd : R → R} (hr : IsRounding rnd) (t : Terrain R) (hw : 1 ≤ t.width)
    (hw2 : t.width ≤ 2 ^ 24) (x : Option R) (g : R) (hg : gridX rnd t x = some g) :
    localX rnd t x = some (Glm.clamp g 0 ((t.width - 1 : Int) : R)) := by
  unfold localX
  rw [hg, hr.index _ (by omega) (by omega), Nan.clamp_some]

theorem localZ_of_grid {rnd : R → R} (hr : IsRounding rnd) (t : Terrain R) (hh : 1 ≤ t.height)
    (hh2 : t.height ≤ 2 ^ 24) (z : Option R) (g : R) (hg : gridZ rnd t z = some g) :
    localZ rnd t z = some (Glm.clamp g 0 ((t.height - 1 : Int) : R)) := by
  unfold localZ
  rw [hg, hr.index _ (by omega) (by omega), Nan.clamp_some]

theorem gridX_of_localX (rnd : R → R) (t : Terrain R) (x : Option R) (lx : R)
    (h : localX rnd t x = some lx) : ∃ g : R, gridX rnd t x = some g := by
  cases hg : gridX rnd t x with
  | some g => exact ⟨g, rfl⟩
  | none =>
    unfold localX at h
    rw [hg, Nan.clamp_nan] at h
    exact absurd h (by simp)

theorem gridZ_of_localZ (rnd : R → R) (t : Terrain R) (z : Option R) (lz : R)
    (h : localZ rnd t z = some lz) : ∃ g : R, gridZ rnd t z = some g := by
  cases hg : gridZ rnd t z with
  | some g => exact ⟨g, rfl⟩
  | none =>
    unfold localZ at h
    rw [hg, Nan.clamp_nan] at h
    exact absurd h (by simp)

theorem gridX_is_float {rnd : R → R} (hr : IsRounding rnd) (t : Terrain R) (x : Option R) (g : R)
    (h : gridX rnd t x = some g) : rnd g = g := by
  unfold gridX at h
  cases x with
  | none => exact absurd h (by simp)
  | some x =>
    simp only [Option.some_bind] at h
    cases hd : fdiv (rnd (x + halfWidth rnd t)) t.horizontalScale with
    | none => rw [hd] at h; exact absurd h (by simp)
    | some d =>
      rw [hd] at h
      simp only [Option.map_some', Option.some.injEq] at h
      rw [← h, hr.idem]

theorem gridZ_is_float {rnd : R → R} (hr : IsRounding rnd) (t : Terrain R) (z : Option R) (g : R)
    (h : gridZ rnd t z = some g) : rnd g = g := by
  unfold gridZ at h
  cases z with
  | none => exact absurd h (by simp)
  | some z =>
    simp only [Option.some_bind] at h
    cases hd : fdiv (rnd (z + halfDepth rnd t)) t.horizontalScale with
    | none => rw [hd] at h; exact absurd h (by simp)
    | some d =>
      rw [hd] at h
      simp only [Option.map_some', Option.some.injEq] at h
      rw [← h, hr.idem]

theorem clamp_is_float {rnd : R → R} (hr : IsRounding rnd) (g : R) (n : Int) (h0 : 0 ≤ n)
    (h1 : n ≤ 2 ^ 24) (hg : rnd g = g) : rnd (Glm.clamp g 0 (n : R)) = Glm.clamp g 0 (n : R) := by
  unfold Glm.clamp
  rcases min_choice (Max.max g 0) (n : R) with e | e
  · rw [e]
    rcases max_choice g 0 with e2 | e2
    · rw [e2, hg]
    · rw [e2, hr.fixes_zero]
  · rw [e, hr.index n h0 h1]

/-- The clamped grid column of a query is a `float` in `[0, width - 1]`. -/
theorem localX_mem {rnd : R → R} (hr : IsRounding rnd) (t : Terrain R) (hw : 1 ≤ t.width)
    (hw2 : t.width ≤ 2 ^ 24) (x : Option R) (lx : R) (h : localX rnd t x = some lx) :
    0 ≤ lx ∧ lx ≤ ((t.width - 1 : Int) : R) ∧ rnd lx = lx ∧
      0 ≤ ⌊lx⌋ ∧ ⌊lx⌋ < t.width := by
  obtain ⟨g, hg⟩ := gridX_of_localX rnd t x lx h
  rw [localX_of_grid hr t hw hw2 x g hg] at h
  have e := Option.some.inj h
  subst e
  have hb : (0 : R) ≤ ((t.width - 1 : Int) : R) := by exact_mod_cast (show (0 : Int) ≤ t.width - 1 by omega)
  obtain ⟨a, b⟩ := Terrain.clamp_mem g _ hb
  obtain ⟨c, d⟩ := Terrain.floor_clamp_mem g (t.width - 1) (by omega)
  exact ⟨a, b, clamp_is_float hr g _ (by omega) (by omega) (gridX_is_float hr t x g hg), c,
    by omega⟩

/-- The clamped grid row of a query is a `float` in `[0, height - 1]`. -/
theorem localZ_mem {rnd : R → R} (hr : IsRounding rnd) (t : Terrain R) (hh : 1 ≤ t.height)
    (hh2 : t.height ≤ 2 ^ 24) (z : Option R) (lz : R) (h : localZ rnd t z = some lz) :
    0 ≤ lz ∧ lz ≤ ((t.height - 1 : Int) : R) ∧ rnd lz = lz ∧
      0 ≤ ⌊lz⌋ ∧ ⌊lz⌋ < t.height := by
  obtain ⟨g, hg⟩ := gridZ_of_localZ rnd t z lz h
  rw [localZ_of_grid hr t hh hh2 z g hg] at h
  have e := Option.some.inj h
  subst e
  have hb : (0 : R) ≤ ((t.height - 1 : Int) : R) := by exact_mod_cast (show (0 : Int) ≤ t.height - 1 by omega)
  obtain ⟨a, b⟩ := Terrain.clamp_mem g _ hb
  obtain ⟨c, d⟩ := Terrain.floor_clamp_mem g (t.height - 1) (by omega)
  exact ⟨a, b, clamp_is_float hr g _ (by omega) (by omega) (gridZ_is_float hr t z g hg), c,
    by omega⟩

/-- The fractional offset of a clamped grid coordinate is computed exactly and
lies in `[0, 1)`. -/
theorem offset_eq {rnd : R → R} (hr : IsRounding rnd) (l : R) (h0 : 0 ≤ l) (hf : rnd l = l)
    (hn : ⌊l⌋ ≤ 2 ^ 24) :
    rnd (l - rnd ((⌊l⌋ : Int) : R)) = l - ((⌊l⌋ : Int) : R) ∧
      0 ≤ l - ((⌊l⌋ : Int) : R) ∧ l - ((⌊l⌋ : Int) : R) < 1 := by
  rw [hr.index _ (Int.floor_nonneg.mpr h0) hn, hr.fract l h0 hf]
  exact ⟨rfl, by linarith [Int.floor_le l], by linarith [Int.lt_floor_add_one l]⟩

/-- On a grid, a query whose clamped grid coordinates are `lx` and `lz` reads
its four corners in range and returns their nested `mix` at the offsets
`lx - ⌊lx⌋` and `lz - ⌊lz⌋`. -/
theorem getHeightAtPosition_corners {rnd : R → R} (hr : IsRounding rnd) (t : Terrain R)
    (hg : t.IsGrid) (hw2 : t.width ≤ 2 ^ 24) (hh2 : t.height ≤ 2 ^ 24) (x z : Option R)
    (lx lz : R) (hx : localX rnd t x = some lx) (hz : localZ rnd t z = some lz) :
    ∃ p00 p10 p01 p11 : Vec3 R,
      readAt t.positions (⌊lz⌋ * t.width + ⌊lx⌋) = some p00 ∧
      readAt t.positions (⌊lz⌋ * t.width + Min.min (⌊lx⌋ + 1) (t.width - 1)) = some p10 ∧
      readAt t.positions (Min.min (⌊lz⌋ + 1) (t.height - 1) * t.width + ⌊lx⌋) = some p01 ∧
      readAt t.positions (Min.min (⌊lz⌋ + 1) (t.height - 1) * t.width +
        Min.min (⌊lx⌋ + 1) (t.width - 1)) = some p11 ∧
      getHeightAtPosition rnd t x z =
        some (mix rnd (mix rnd p00.y p10.y (lx - ((⌊lx⌋ : Int) : R)))
          (mix rnd p01.y p11.y (lx - ((⌊lx⌋ : Int) : R))) (lz - ((⌊lz⌋ : Int) : R))) := by
  obtain ⟨hx0, -, hxf, hfx0, hfx1⟩ := localX_mem hr t hg.width_pos hw2 x lx hx
  obtain ⟨hz0, -, hzf, hfz0, hfz1⟩ := localZ_mem hr t hg.height_pos hh2 z lz hz
  have hx1' : 0 ≤ Min.min (⌊lx⌋ + 1) (t.width - 1) ∧ Min.min (⌊lx⌋ + 1) (t.width - 1) < t.width :=
    ⟨le_min (by omega) (by omega), lt_of_le_of_lt (min_le_right _ _) (by omega)⟩
  have hz1' : 0 ≤ Min.min (⌊lz⌋ + 1) (t.height - 1) ∧
      Min.min (⌊lz⌋ + 1) (t.height - 1) < t.height :=
    ⟨le_min (by omega) (by omega), lt_of_le_of_lt (min_le_right _ _) (by omega)⟩
  obtain ⟨_, p00, h00⟩ := hg.read t _ _ hfx0 hfx1 hfz0 hfz1
  obtain ⟨_, p10, h10⟩ := hg.read t _ _ hx1'.1 hx1'.2 hfz0 hfz1
  obtain ⟨_, p01, h01⟩ := hg.read t _ _ hfx0 hfx1 hz1'.1 hz1'.2
  obtain ⟨_, p11, h11⟩ := hg.read t _ _ hx1'.1 hx1'.2 hz1'.1 hz1'.2
  refine ⟨p00, p10, p01, p11, h00, h10, h01, h11, ?_⟩
  have ox := (offset_eq hr lx hx0 hxf (by omega)).1
  have oz := (offset_eq hr lz hz0 hzf (by omega)).1
  unfold getHeightAtPosition
  simp only [hx, hz, Nan.toInt, Option.map_some', Terrain.toInt_of_nonneg _ hx0,
    Terrain.toInt_of_nonneg _ hz0, h00, h10, h01, h11, ox, oz]

/-- A query at a point that is not NaN, on a terrain with a non-zero grid
spacing, has clamped grid coordinates. -/
theorem localX_total {rnd : R → R} (hr : IsRounding rnd) (t : Terrain R) (hw : 1 ≤ t.width)
    (hw2 : t.width ≤ 2 ^ 24) (hs : t.horizontalScale ≠ 0) (x : R) :
    ∃ lx : R, localX rnd t (some x) = some lx :=
  ⟨_, localX_of_grid hr t hw hw2 _ _ (gridX_some rnd t hs x)⟩

theorem localZ_total {rnd : R → R} (hr : IsRounding rnd) (t : Terrain R) (hh : 1 ≤ t.height)
    (hh2 : t.height ≤ 2 ^ 24) (hs : t.horizontalScale ≠ 0) (z : R) :
    ∃ lz : R, localZ rnd t (some z) = some lz :=
  ⟨_, localZ_of_grid hr t hh hh2 _ _ (gridZ_some rnd t hs z)⟩

/-- A NaN coordinate leaves the query without a defined result: the clamp lets
the NaN through and the cast of NaN to `int` is undefined. -/
theorem getHeightAtPosition_nan_x (rnd : R → R) (t : Terrain R) (z : Option R) :
    getHeightAtPosition rnd t none z = none := by
  have h : localX rnd t none = none := by
    unfold localX gridX
    exact Nan.clamp_nan _ _
  unfold getHeightAtPosition
  simp only [h, Nan.toInt, Option.map_none']

theorem getHeightAtPosition_nan_z (rnd : R → R) (t : Terrain R) (x : Option R) :
    getHeightAtPosition rnd t x none = none := by
  have h : localZ rnd t none = none := by
    unfold localZ gridZ
    exact Nan.clamp_nan _ _
  unfold getHeightAtPosition
  cases hx : localX rnd t x <;> simp only [h, Nan.toInt, Option.map_none', Option.map_some']

/-- With the identity for the rounding the query is the one of exact
arithmetic. -/
theorem getHeightAtPosition_id (t : Terrain R) (hg : t.IsGrid) (hw2 : t.width ≤ 2 ^ 24)
    (hh2 : t.height ≤ 2 ^ 24) (hs : t.horizontalScale ≠ 0) (x z : R) :
    getHeightAtPosition id t (some x) (some z) = t.getHeightAtPosition x z := by
  have hx : localX id t (some x) = some (t.localX x) :=
    localX_of_grid isRounding_id t hg.width_pos hw2 _ _ (gridX_some id t hs x)
  have hz : localZ id t (some z) = some (t.localZ z) :=
    localZ_of_grid isRounding_id t hg.height_pos hh2 _ _ (gridZ_some id t hs z)
  obtain ⟨p00, p10, p01, p11, h00, h10, h01, h11, e⟩ :=
    getHeightAtPosition_corners isRounding_id t hg hw2 hh2 _ _ _ _ hx hz
  obtain ⟨q00, q10, q01, q11, k00, k10, k01, k11, e2⟩ := Terrain.getHeightAtPosition_eq t hg x z
  rw [h00] at k00
  rw [h10] at k10
  rw [h01] at k01
  rw [h11] at k11
  cases k00
  cases k10
  cases k01
  cases k11
  rw [e, e2]
  rfl

end Fp

/-! ## Grid points in float arithmetic -/

namespace Fp

variable {R : Type} [LinearOrderedField R] [FloorRing R]

/-- With the weight 0 a `mix` of `float`s returns its first end. -/
theorem mix_zero {rnd : R → R} (hr : IsRounding rnd) (a b : R) (ha : rnd a = a) :
    mix rnd a b 0 = a := by
  unfold mix
  rw [sub_zero, hr.fixes_one, mul_one, mul_zero, hr.fixes_zero, add_zero, ha, ha]

/-- With the weight `0.5` a `mix` adds the two halves. -/
theorem mix_half {rnd : R → R} (hr : IsRounding rnd) (a b : R) :
    mix rnd a b (1 / 2) = rnd (rnd (a * (1 / 2)) + rnd (b * (1 / 2))) := by
  unfold mix
  rw [show (1 : R) - 1 / 2 = 1 / 2 by norm_num, hr.half]

theorem mix_is_float {rnd : R → R} (hr : IsRounding rnd) (a b w : R) :
    rnd (mix rnd a b w) = mix rnd a b w := by
  unfold mix
  rw [hr.idem]

theorem floor_intCast_add_half (i : Int) : ⌊((i : R) + 1 / 2)⌋ = i := by
  rw [Int.floor_eq_iff]
  constructor <;> linarith

/-- The clamped grid column of a query whose grid column is computed as the
integer `i` of a column. -/
theorem localX_of_column {rnd : R → R} (hr : IsRounding rnd) (t : Terrain R) (hw2 : t.width ≤ 2 ^ 24)
    (x : Option R) (i : Int) (hi0 : 0 ≤ i) (hi1 : i < t.width)
    (h : gridX rnd t x = some (i : R)) : localX rnd t x = some (i : R) := by
  rw [localX_of_grid hr t (by omega) hw2 x _ h]
  congr 1
  apply Terrain.clamp_of_mem
  · exact_mod_cast hi0
  · exact_mod_cast (show i ≤ t.width - 1 by omega)

theorem localZ_of_row {rnd : R → R} (hr : IsRounding rnd) (t : Terrain R) (hh2 : t.height ≤ 2 ^ 24)
    (z : Option R) (j : Int) (hj0 : 0 ≤ j) (hj1 : j < t.height)
    (h : gridZ rnd t z = some (j : R)) : localZ rnd t z = some (j : R) := by
  rw [localZ_of_grid hr t (by omega) hh2 z _ h]
  congr 1
  apply Terrain.clamp_of_mem
  · exact_mod_cast hj0
  · exact_mod_cast (show j ≤ t.height - 1 by omega)

theorem localX_of_half_column {rnd : R → R} (hr : IsRounding rnd) (t : Terrain R)
    (hw2 : t.width ≤ 2 ^ 24) (x : Option R) (i : Int) (hi0 : 0 ≤ i) (hi1 : i + 1 < t.width)
    (h : gridX rnd t x = some ((i : R) + 1 / 2)) : localX rnd t x = some ((i : R) + 1 / 2) := by
  rw [localX_of_grid hr t (by omega) hw2 x _ h]
  congr 1
  apply Terrain.clamp_of_mem
  · have : (0 : R) ≤ (i : R) := by exact_mod_cast hi0
    linarith
  · have : (i : R) + 1 ≤ ((t.width - 1 : Int) : R) := by exact_mod_cast (show i + 1 ≤ t.width - 1 by omega)
    linarith

theorem localZ_of_half_row {rnd : R → R} (hr : IsRounding rnd) (t : Terrain R)
    (hh2 : t.height ≤ 2 ^ 24) (z : Option R) (j : Int) (hj0 : 0 ≤ j) (hj1 : j + 1 < t.height)
    (h : gridZ rnd t z = some ((j : R) + 1 / 2)) : localZ rnd t z = some ((j : R) + 1 / 2) := by
  rw [localZ_of_grid hr t (by omega) hh2 z _ h]
  congr 1
  apply Terrain.clamp_of_mem
  · have : (0 : R) ≤ (j : R) := by exact_mod_cast hj0
    linarith
  · have : (j : R) + 1 ≤ ((t.height - 1 : Int) : R) := by exact_mod_cast (show j + 1 ≤ t.height - 1 by omega)
    linarith

/-- On a grid whose elevations are `float`s: a query whose grid coordinates are
computed as the integers `(i, j)` of a vertex returns the elevation of that
vertex, and a query whose grid coordinates are computed as the midpoint of two
vertices adjacent along one axis returns the sum of the two halved elevations. -/
theorem getHeightAtPosition_grid_points {rnd : R → R} (hr : IsRounding rnd) (t : Terrain R)
    (hg : t.IsGrid) (hw2 : t.width ≤ 2 ^ 24) (hh2 : t.height ≤ 2 ^ 24)
    (hfl : FloatElevations rnd t) :
    (∀ (i j : Int) (x z : Option R), 0 ≤ i → i < t.width → 0 ≤ j → j < t.height →
      gridX rnd t x = some (i : R) → gridZ rnd t z = some (j : R) →
      getHeightAtPosition rnd t x z = t.elevation i j) ∧
    (∀ (i j : Int) (x z : Option R), 0 ≤ i → i + 1 < t.width → 0 ≤ j → j < t.height →
      gridX rnd t x = some ((i : R) + 1 / 2) → gridZ rnd t z = some (j : R) →
      ∃ a b : R, t.elevation i j = some a ∧ t.elevation (i + 1) j = some b ∧
        getHeightAtPosition rnd t x z = some (rnd (rnd (a * (1 / 2)) + rnd (b * (1 / 2))))) ∧
    (∀ (i j : Int) (x z : Option R), 0 ≤ i → i < t.width → 0 ≤ j → j + 1 < t.height →
      gridX rnd t x = some (i : R) → gridZ rnd t z = some ((j : R) + 1 / 2) →
      ∃ a b : R, t.elevation i j = some a ∧ t.elevation i (j + 1) = some b ∧
        getHeightAtPosition rnd t x z = some (rnd (rnd (a * (1 / 2)) + rnd (b * (1 / 2))))) := by
  refine ⟨?_, ?_, ?_⟩
  · intro i j x z hi0 hi1 hj0 hj1 hx hz
    have lx := localX_of_column hr t hw2 x i hi0 hi1 hx
    have lz := localZ_of_row hr t hh2 z j hj0 hj1 hz
    obtain ⟨p00, p10, p01, p11, h00, h10, h01, h11, e⟩ :=
      getHeightAtPosition_corners hr t hg hw2 hh2 x z _ _ lx lz
    simp only [Int.floor_intCast, sub_self] at h00 h10 h01 h11 e
    rw [e, mix_zero hr _ _ (hfl _ (Terrain.mem_of_readAt _ _ _ h00)), mix_zero hr _ _ (hfl _ (Terrain.mem_of_readAt _ _ _ h01)),
      mix_zero hr _ _ (hfl _ (Terrain.mem_of_readAt _ _ _ h00))]
    unfold Terrain.elevation
    rw [h00]
    rfl
  · intro i j x z hi0 hi1 hj0 hj1 hx hz
    have lx := localX_of_half_column hr t hw2 x i hi0 hi1 hx
    have lz := localZ_of_row hr t hh2 z j hj0 hj1 hz
    obtain ⟨p00, p10, p01, p11, h00, h10, h01, h11, e⟩ :=
      getHeightAtPosition_corners hr t hg hw2 hh2 x z _ _ lx lz
    simp only [Int.floor_intCast, sub_self, floor_intCast_add_half, add_sub_cancel_left,
      min_eq_left (show i + 1 ≤ t.width - 1 by omega)] at h00 h10 h01 h11 e
    refine ⟨p00.y, p10.y, ?_, ?_, ?_⟩
    · unfold Terrain.elevation
      rw [h00]
      rfl
    · unfold Terrain.elevation
      rw [h10]
      rfl
    · rw [e, mix_zero hr _ _ (mix_is_float hr _ _ _), mix_half hr]
  · intro i j x z hi0 hi1 hj0 hj1 hx hz
    have lx := localX_of_column hr t hw2 x i hi0 hi1 hx
    have lz := localZ_of_half_row hr t hh2 z j hj0 hj1 hz
    obtain ⟨p00, p10, p01, p11, h00, h10, h01, h11, e⟩ :=
      getHeightAtPosition_corners hr t hg hw2 hh2 x z _ _ lx lz
    simp only [Int.floor_intCast, sub_self, floor_intCast_add_half, add_sub_cancel_left,
      min_eq_left (show j + 1 ≤ t.height - 1 by omega)] at h00 h10 h01 h11 e
    refine ⟨p00.y, p01.y, ?_, ?_, ?_⟩
    · unfold Terrain.elevation
      rw [h00]
      rfl
    · unfold Terrain.elevation
      rw [h01]
      rfl
    · rw [e, mix_zero hr _ _ (hfl _ (Terrain.mem_of_readAt _ _ _ h00)), mix_zero hr _ _ (hfl _ (Terrain.mem_of_readAt _ _ _ h01)), mix_half hr]

end Fp

/-! ## Saturation and bounds in float arithmetic -/

namespace Fp

variable {R : Type} [LinearOrderedField R] [FloorRing R]

theorem halfWidth_nonneg {rnd : R → R} (hr : IsRounding rnd) (t : Terrain R) (hw : 1 ≤ t.width)
    (hs : 0 ≤ t.horizontalScale) : 0 ≤ halfWidth rnd t := by
  unfold halfWidth
  have h1 : (0 : R) ≤ ((t.width - 1 : Int) : R) := by exact_mod_cast (show (0 : Int) ≤ t.width - 1 by omega)
  exact hr.nonneg _ (mul_nonneg (hr.nonneg _ (mul_nonneg (hr.nonneg _ h1) hs)) (by norm_num))

theorem halfDepth_nonneg {rnd : R → R} (hr : IsRounding rnd) (t : Terrain R) (hh : 1 ≤ t.height)
    (hs : 0 ≤ t.horizontalScale) : 0 ≤ halfDepth rnd t := by
  unfold halfDepth
  have h1 : (0 : R) ≤ ((t.height - 1 : Int) : R) := by exact_mod_cast (show (0 : Int) ≤ t.height - 1 by omega)
  exact hr.nonneg _ (mul_nonneg (hr.nonneg _ (mul_nonneg (hr.nonneg _ h1) hs)) (by norm_num))

theorem clamp_mono (a b lo hi : R) (h : a ≤ b) : Glm.clamp a lo hi ≤ Glm.clamp b lo hi :=
  min_le_min (max_le_max h le_rfl) le_rfl

/-- The clamped grid column grows with the world coordinate. -/
theorem localX_mono {rnd : R → R} (hr : IsRounding rnd) (t : Terrain R) (hw : 1 ≤ t.width)
    (hw2 : t.width ≤ 2 ^ 24) (hs : 0 < t.horizontalScale) (x x' l l' : R) (h : x ≤ x')
    (hl : localX rnd t (some x) = some l) (hl' : localX rnd t (some x') = some l') : l ≤ l' := by
  rw [localX_of_grid hr t hw hw2 _ _ (gridX_some rnd t (ne_of_gt hs) x)] at hl
  rw [localX_of_grid hr t hw hw2 _ _ (gridX_some rnd t (ne_of_gt hs) x')] at hl'
  rw [← Option.some.inj hl, ← Option.some.inj hl']
  apply clamp_mono
  apply hr.mono
  apply div_le_div_of_nonneg_right _ (le_of_lt hs)
  apply hr.mono
  linarith

/-- The clamped grid row grows with the world coordinate. -/
theorem localZ_mono {rnd : R → R} (hr : IsRounding rnd) (t : Terrain R) (hh : 1 ≤ t.height)
    (hh2 : t.height ≤ 2 ^ 24) (hs : 0 < t.horizontalScale) (z z' l l' : R) (h : z ≤ z')
    (hl : localZ rnd t (some z) = some l) (hl' : localZ rnd t (some z') = some l') : l ≤ l' := by
  rw [localZ_of_grid hr t hh hh2 _ _ (gridZ_some rnd t (ne_of_gt hs) z)] at hl
  rw [localZ_of_grid hr t hh hh2 _ _ (gridZ_some rnd t (ne_of_gt hs) z')] at hl'
  rw [← Option.some.inj hl, ← Option.some.inj hl']
  apply clamp_mono
  apply hr.mono
  apply div_le_div_of_nonneg_right _ (le_of_lt hs)
  apply hr.mono
  linarith

theorem localX_saturates_high {rnd : R → R} (hr : IsRounding rnd) (t : Terrain R)
    (hw : 1 ≤ t.width) (hw2 : t.width ≤ 2 ^ 24) (hs : 0 < t.horizontalScale) (x x' : R)
    (h : x ≤ x') (hl : localX rnd t (some x) = some ((t.width - 1 : Int) : R)) :
    localX rnd t (some x') = some ((t.width - 1 : Int) : R) := by
  obtain ⟨l', hl'⟩ := localX_total hr t hw hw2 (ne_of_gt hs) x'
  have h1 := localX_mono hr t hw hw2 hs x x' _ _ h hl hl'
  have h2 := (localX_mem hr t hw hw2 _ _ hl').2.1
  rw [hl', le_antisymm h2 h1]

theorem localX_saturates_low {rnd : R → R} (hr : IsRounding rnd) (t : Terrain R)
    (hw : 1 ≤ t.width) (hw2 : t.width ≤ 2 ^ 24) (hs : 0 < t.horizontalScale) (x x' : R)
    (h : x' ≤ x) (hl : localX rnd t (some x) = some 0) : localX rnd t (some x') = some 0 := by
  obtain ⟨l', hl'⟩ := localX_total hr t hw hw2 (ne_of_gt hs) x'
  have h1 := localX_mono hr t hw hw2 hs x' x _ _ h hl' hl
  have h2 := (localX_mem hr t hw hw2 _ _ hl').1
  rw [hl', le_antisymm h1 h2]

theorem localZ_saturates_high {rnd : R → R} (hr : IsRounding rnd) (t : Terrain R)
    (hh : 1 ≤ t.height) (hh2 : t.height ≤ 2 ^ 24) (hs : 0 < t.horizontalScale) (z z' : R)
    (h : z ≤ z') (hl : localZ rnd t (some z) = some ((t.height - 1 : Int) : R)) :
    localZ rnd t (some z') = some ((t.height - 1 : Int) : R) := by
  obtain ⟨l', hl'⟩ := localZ_total hr t hh hh2 (ne_of_gt hs) z'
  have h1 := localZ_mono hr t hh hh2 hs z z' _ _ h hl hl'
  have h2 := (localZ_mem hr t hh hh2 _ _ hl').2.1
  rw [hl', le_antisymm h2 h1]

theorem localZ_saturates_low {rnd : R → R} (hr : IsRounding rnd) (t : Terrain R)
    (hh : 1 ≤ t.height) (hh2 : t.height ≤ 2 ^ 24) (hs : 0 < t.horizontalScale) (z z' : R)
    (h : z' ≤ z) (hl : localZ rnd t (some z) = some 0) : localZ rnd t (some z') = some 0 := by
  obtain ⟨l', hl'⟩ := localZ_total hr t hh hh2 (ne_of_gt hs) z'
  have h1 := localZ_mono hr t hh hh2 hs z' z _ _ h hl' hl
  have h2 := (localZ_mem hr t hh hh2 _ _ hl').1
  rw [hl', le_antisymm h1 h2]

/-- The query depends on the point through its clamped grid coordinates only. -/
theorem getHeightAtPosition_of_local (rnd : R → R) (t : Terrain R) (x x' z z' : Option R)
    (hx : localX rnd t x = localX rnd t x') (hz : localZ rnd t z = localZ rnd t z') :
    getHeightAtPosition rnd t x z = getHeightAtPosition rnd t x' z' := by
  unfold getHeightAtPosition
  rw [hx, hz]

/-- When the boundary coordinate `halfWidth` is mapped onto the last column and
`-halfWidth` onto column 0, clamping the world coordinate to
`[-halfWidth, halfWidth]` leaves the clamped grid column unchanged. -/
theorem localX_clamp_of_boundary {rnd : R → R} (hr : IsRounding rnd) (t : Terrain R)
    (hw : 1 ≤ t.width) (hw2 : t.width ≤ 2 ^ 24) (hs : 0 < t.horizontalScale)
    (hhi : localX rnd t (some (halfWidth rnd t)) = some ((t.width - 1 : Int) : R))
    (hlo : localX rnd t (some (-halfWidth rnd t)) = some 0) (x : R) :
    localX rnd t (some (Glm.clamp x (-halfWidth rnd t) (halfWidth rnd t)))
      = localX rnd t (some x) := by
  have h0 := halfWidth_nonneg hr t hw (le_of_lt hs)
  unfold Glm.clamp
  rcases le_total x (-halfWidth rnd t) with h1 | h1
  · rw [max_eq_right h1, min_eq_left (by linarith), hlo,
      localX_saturates_low hr t hw hw2 hs _ x h1 hlo]
  · rw [max_eq_left h1]
    rcases le_total x (halfWidth rnd t) with h2 | h2
    · rw [min_eq_left h2]
    · rw [min_eq_right h2, hhi, localX_saturates_high hr t hw hw2 hs _ x h2 hhi]

theorem localZ_clamp_of_boundary {rnd : R → R} (hr : IsRounding rnd) (t : Terrain R)
    (hh : 1 ≤ t.height) (hh2 : t.height ≤ 2 ^ 24) (hs : 0 < t.horizontalScale)
    (hhi : localZ rnd t (some (halfDepth rnd t)) = some ((t.height - 1 : Int) : R))
    (hlo : localZ rnd t (some (-halfDepth rnd t)) = some 0) (z : R) :
    localZ rnd t (some (Glm.clamp z (-halfDepth rnd t) (halfDepth rnd t)))
      = localZ rnd t (some z) := by
  have h0 := halfDepth_nonneg hr t hh (le_of_lt hs)
  unfold Glm.clamp
  rcases le_total z (-halfDepth rnd t) with h1 | h1
  · rw [max_eq_right h1, min_eq_left (by linarith), hlo,
      localZ_saturates_low hr t hh hh2 hs _ z h1 hlo]
  · rw [max_eq_left h1]
    rcases le_total z (halfDepth rnd t) with h2 | h2
    · rw [min_eq_left h2]
    · rw [min_eq_right h2, hhi, localZ_saturates_high hr t hh hh2 hs _ z h2 hhi]

end Fp

/-! ## Unit grid spacing in float arithmetic -/

namespace Fp

variable {R : Type} [LinearOrderedField R] [FloorRing R]

/-- With the grid spacing 1 the value `halfWidth = (width - 1) * 0.5f` is exact. -/
theorem halfWidth_unit {rnd : R → R} (hr : IsRounding rnd) (t : Terrain R) (hw : 1 ≤ t.width)
    (hw2 : t.width ≤ 2 ^ 24) (hs : t.horizontalScale = 1) :
    halfWidth rnd t = ((t.width - 1 : Int) : R) / 2 := by
  unfold halfWidth
  rw [hs, mul_one, hr.idem, hr.index _ (by omega) (by omega), mul_one_div]
  exact hr.halves _ (abs_le.mpr ⟨by omega, by omega⟩)

theorem halfDepth_unit {rnd : R → R} (hr : IsRounding rnd) (t : Terrain R) (hh : 1 ≤ t.height)
    (hh2 : t.height ≤ 2 ^ 24) (hs : t.horizontalScale = 1) :
    halfDepth rnd t = ((t.height - 1 : Int) : R) / 2 := by
  unfold halfDepth
  rw [hs, mul_one, hr.idem, hr.index _ (by omega) (by omega), mul_one_div]
  exact hr.halves _ (abs_le.mpr ⟨by omega, by omega⟩)

/-- The coordinate `i * 1 - (n - 1) / 2` that the loader stores for the column or
row `i` of `n` is exact, and adding `(n - 1) / 2` to it gives `i` back. -/
theorem vertex_coordinate_unit {rnd : R → R} (hr : IsRounding rnd) (n i : Int) (hn : n ≤ 2 ^ 24)
    (hi0 : 0 ≤ i) (hi1 : i < n) :
    rnd (rnd (rnd (i : R) * 1) - ((n - 1 : Int) : R) / 2) = (i : R) - ((n - 1 : Int) : R) / 2 := by
  have hi : rnd (i : R) = i := hr.index i hi0 (by omega)
  rw [mul_one, hr.idem, hi]
  have h := hr.halves (2 * i - (n - 1)) (abs_le.mpr ⟨by omega, by omega⟩)
  have e : (((2 * i - (n - 1) : Int)) : R) / 2 = (i : R) - ((n - 1 : Int) : R) / 2 := by
    push_cast
    ring
  rwa [e] at h

/-- With the grid spacing 1 the stored `x` of column `i` has the grid column `i`. -/
theorem gridX_vertex_unit {rnd : R → R} (hr : IsRounding rnd) (t : Terrain R) (hw : 1 ≤ t.width)
    (hw2 : t.width ≤ 2 ^ 24) (hs : t.horizontalScale = 1) (i : Int) (hi0 : 0 ≤ i)
    (hi1 : i < t.width) :
    gridX rnd t (some (rnd (rnd (rnd (i : R) * t.horizontalScale) - halfWidth rnd t)))
      = some (i : R) := by
  rw [gridX_some rnd t (by rw [hs]; exact one_ne_zero), halfWidth_unit hr t hw hw2 hs, hs,
    vertex_coordinate_unit hr t.width i hw2 hi0 hi1, sub_add_cancel, div_one, hr.idem,
    hr.index i hi0 (by omega)]

theorem gridZ_vertex_unit {rnd : R → R} (hr : IsRounding rnd) (t : Terrain R) (hh : 1 ≤ t.height)
    (hh2 : t.height ≤ 2 ^ 24) (hs : t.horizontalScale = 1) (j : Int) (hj0 : 0 ≤ j)
    (hj1 : j < t.height) :
    gridZ rnd t (some (rnd (rnd (rnd (j : R) * t.horizontalScale) - halfDepth rnd t)))
      = some (j : R) := by
  rw [gridZ_some rnd t (by rw [hs]; exact one_ne_zero), halfDepth_unit hr t hh hh2 hs, hs,
    vertex_coordinate_unit hr t.height j hh2 hj0 hj1, sub_add_cancel, div_one, hr.idem,
    hr.index j hj0 (by omega)]

/-- With the grid spacing 1 the boundary coordinates `±halfWidth` are mapped onto
the last and the first column. -/
theorem localX_boundary_unit {rnd : R → R} (hr : IsRounding rnd) (t : Terrain R)
    (hw : 1 ≤ t.width) (hw2 : t.width ≤ 2 ^ 24) (hs : t.horizontalScale = 1) :
    localX rnd t (some (halfWidth rnd t)) = some ((t.width - 1 : Int) : R) ∧
      localX rnd t (some (-halfWidth rnd t)) = some 0 := by
  have hne : t.horizontalScale ≠ 0 := by rw [hs]; exact one_ne_zero
  have hb : (0 : R) ≤ ((t.width - 1 : Int) : R) := by
    exact_mod_cast (show (0 : Int) ≤ t.width - 1 by omega)
  constructor
  · rw [localX_of_grid hr t hw hw2 _ _ (gridX_some rnd t hne _), halfWidth_unit hr t hw hw2 hs,
      hs, add_halves, hr.index _ (by omega) (by omega), div_one, hr.index _ (by omega) (by omega),
      Terrain.clamp_of_mem _ _ hb le_rfl]
  · rw [localX_of_grid hr t hw hw2 _ _ (gridX_some rnd t hne _), neg_add_cancel, hr.fixes_zero,
      zero_div, hr.fixes_zero, Terrain.clamp_of_mem _ _ le_rfl hb]

theorem localZ_boundary_unit {rnd : R → R} (hr : IsRounding rnd) (t : Terrain R)
    (hh : 1 ≤ t.height) (hh2 : t.height ≤ 2 ^ 24) (hs : t.horizontalScale = 1) :
    localZ rnd t (some (halfDepth rnd t)) = some ((t.height - 1 : Int) : R) ∧
      localZ rnd t (some (-halfDepth rnd t)) = some 0 := by
  have hne : t.horizontalScale ≠ 0 := by rw [hs]; exact one_ne_zero
  have hb : (0 : R) ≤ ((t.height - 1 : Int) : R) := by
    exact_mod_cast (show (0 : Int) ≤ t.height - 1 by omega)
  constructor
  · rw [localZ_of_grid hr t hh hh2 _ _ (gridZ_some rnd t hne _), halfDepth_unit hr t hh hh2 hs,
      hs, add_halves, hr.index _ (by omega) (by omega), div_one, hr.index _ (by omega) (by omega),
      Terrain.clamp_of_mem _ _ hb le_rfl]
  · rw [localZ_of_grid hr t hh hh2 _ _ (gridZ_some rnd t hne _), neg_add_cancel, hr.fixes_zero,
      zero_div, hr.fixes_zero, Terrain.clamp_of_mem _ _ le_rfl hb]

/-- With the grid spacing 1 the midpoint of the stored `x` of the columns `i` and
`i + 1` has the grid column `i + 0.5`. -/
theorem gridX_midpoint_unit {rnd : R → R} (hr : IsRounding rnd) (t : Terrain R)
    (hw : 1 ≤ t.width) (hw2 : t.width ≤ 2 ^ 23) (hs : t.horizontalScale = 1) (i : Int)
    (hi0 : 0 ≤ i) (hi1 : i + 1 < t.width) :
    gridX rnd t (some ((rnd (rnd (rnd (i : R) * t.horizontalScale) - halfWidth rnd t)
      + rnd (rnd (rnd ((i + 1 : Int) : R) * t.horizontalScale) - halfWidth rnd t)) / 2))
      = some ((i : R) + 1 / 2) := by
  have e : ((i : R) - ((t.width - 1 : Int) : R) / 2
      + (((i + 1 : Int) : R) - ((t.width - 1 : Int) : R) / 2)) / 2 + ((t.width - 1 : Int) : R) / 2
      = ((2 * i + 1 : Int) : R) / 2 := by
    push_cast
    ring
  have e2 : ((2 * i + 1 : Int) : R) / 2 = (i : R) + 1 / 2 := by
    push_cast
    ring
  have h := hr.halves (2 * i + 1) (abs_le.mpr ⟨by omega, by omega⟩)
  rw [gridX_some rnd t (by rw [hs]; exact one_ne_zero), halfWidth_unit hr t hw (by omega) hs, hs,
    vertex_coordinate_unit hr t.width i (by omega) hi0 (by omega),
    vertex_coordinate_unit hr t.width (i + 1) (by omega) (by omega) hi1, e, h, div_one, h, e2]

theorem gridZ_midpoint_unit {rnd : R → R} (hr : IsRounding rnd) (t : Terrain R)
    (hh : 1 ≤ t.height) (hh2 : t.height ≤ 2 ^ 23) (hs : t.horizontalScale = 1) (j : Int)
    (hj0 : 0 ≤ j) (hj1 : j + 1 < t.height) :
    gridZ rnd t (some ((rnd (rnd (rnd (j : R) * t.horizontalScale) - halfDepth rnd t)
      + rnd (rnd (rnd ((j + 1 : Int) : R) * t.horizontalScale) - halfDepth rnd t)) / 2))
      = some ((j : R) + 1 / 2) := by
  have e : ((j : R) - ((t.height - 1 : Int) : R) / 2
      + (((j + 1 : Int) : R) - ((t.height - 1 : Int) : R) / 2)) / 2
        + ((t.height - 1 : Int) : R) / 2
      = ((2 * j + 1 : Int) : R) / 2 := by
    push_cast
    ring
  have e2 : ((2 * j + 1 : Int) : R) / 2 = (j : R) + 1 / 2 := by
    push_cast
    ring
  have h := hr.halves (2 * j + 1) (abs_le.mpr ⟨by omega, by omega⟩)
  rw [gridZ_some rnd t (by rw [hs]; exact one_ne_zero), halfDepth_unit hr t hh (by omega) hs, hs,
    vertex_coordinate_unit hr t.height j (by omega) hj0 (by omega),
    vertex_coordinate_unit hr t.height (j + 1) (by omega) (by omega) hj1, e, h, div_one, h, e2]

end Fp

/-! ## The loader in float arithmetic -/

namespace Fp

variable {R : Type} [LinearOrderedField R] [FloorRing R]

theorem scaleSample_heightsInv (rnd : R → R) (t0 : Terrain R) (data : List Nat) (k : Nat)
    (t : Terrain R) (hk : k < t0.heights.length) (h : HeightsInv rnd t0 data k t) :
    HeightsInv rnd t0 data (k + 1) (scaleSample rnd data (k : Int) t) := by
  obtain ⟨hf, hlen, hval, hle, h0⟩ := h
  have hs : t.heightScale = t0.heightScale := hf.2.2.1
  have key : ∀ i : Nat, i < k + 1 →
      (t.heights.set k (sampleHeight rnd data t0.heightScale k))[i]? =
        some (sampleHeight rnd data t0.heightScale i) := by
    intro i hi
    by_cases hik : i = k
    · subst hik
      rw [List.getElem?_set_self (by omega)]
    · rw [List.getElem?_set_ne (by omega)]
      exact hval i (by omega)
  have hv : rnd (rnd (rnd ((data.getD k 0 : Nat) : R) / 255) * t.heightScale)
      = sampleHeight rnd data t0.heightScale k := by rw [hs]; rfl
  unfold scaleSample
  simp only [Int.toNat_ofNat, Terrain.writeAt_natCast, hv]
  split
  next hgt =>
    refine ⟨hf, by simp [hlen], key, ?_, ?_⟩
    · intro i hi
      rcases Nat.lt_succ_iff_lt_or_eq.mp hi with h | h
      · exact le_trans (hle i h) hgt.le
      · subst h; exact le_refl _
    · exact le_trans h0 hgt.le
  next hngt =>
    refine ⟨hf, by simp [hlen], key, ?_, h0⟩
    · intro i hi
      rcases Nat.lt_succ_iff_lt_or_eq.mp hi with h | h
      · exact hle i h
      · subst h; exact not_lt.mp hngt

theorem processHeights_heightsInv (rnd : R → R) (t : Terrain R) (data : List Nat) :
    HeightsInv rnd
      { t with heights := Terrain.resize t.heights (t.width * t.height).toNat 0, maxHeight := 0 }
      data (t.width * t.height).toNat (processHeights rnd t data) := by
  unfold processHeights
  simp only []
  rw [Terrain.forLoop_toNat]
  refine Terrain.forLoop_invariant (fun k s => HeightsInv rnd
    { t with heights := Terrain.resize t.heights (t.width * t.height).toNat 0, maxHeight := 0 }
    data k s) _ _ _ ?_ ?_
  · refine ⟨⟨rfl, rfl, rfl, rfl, rfl, rfl, rfl, rfl, rfl⟩, rfl, ?_, ?_, le_refl _⟩
    · intro i hi; exact absurd hi (Nat.not_lt_zero i)
    · intro i hi; exact absurd hi (Nat.not_lt_zero i)
  · intro k a hk ha
    exact scaleSample_heightsInv rnd _ data k a (by simpa [Terrain.length_resize] using hk) ha

theorem generatePositions_genInv (rnd : R → R) (t : Terrain R) (wn hn : Nat)
    (hw : t.width = wn) (hh : t.height = hn) :
    GenInv rnd (Terrain.resizeVertexData t) wn (fun z _ => z < hn) (generatePositions rnd t) := by
  have hN : (t.width * t.height).toNat = wn * hn := by
    rw [hw, hh]; exact_mod_cast Int.toNat_ofNat (wn * hn)
  unfold generatePositions
  simp only []
  generalize ht1 : Terrain.resizeVertexData t = t1
  have h1w : t1.width = wn := by rw [← ht1]; exact hw
  have h1h : t1.height = hn := by rw [← ht1]; exact hh
  have h1len : t1.positions.length = wn * hn := by
    rw [← ht1]; simp [Terrain.resizeVertexData, Terrain.length_resize, hN]
  rw [h1h]
  refine Terrain.forLoop_invariant (fun z s => GenInv rnd t1 wn (fun z' _ => z' < z) s) hn _ t1
    ?_ ?_
  · refine ⟨rfl, rfl, rfl, rfl, rfl, rfl, rfl, rfl, rfl, rfl, ?_⟩
    intro z x _ hz; exact absurd hz (Nat.not_lt_zero z)
  · intro z s hz hs
    have hsw : s.width = wn := hs.1.trans h1w
    simp only [hsw]
    have := Terrain.forLoop_invariant
      (fun x s' => GenInv rnd t1 wn (fun z' x' => z' < z ∨ (z' = z ∧ x' < x)) s') wn
      (fun x t => setVertex rnd (halfWidth rnd t1) (halfDepth rnd t1) z x t) s ?_ ?_
    · obtain ⟨a1, a2, a3, a4, a5, a6, a7, a8, a9, a10, a11⟩ := this
      refine ⟨a1, a2, a3, a4, a5, a6, a7, a8, a9, a10, ?_⟩
      intro z' x' hx' hz'
      apply a11 z' x' hx'
      rcases Nat.lt_succ_iff_lt_or_eq.mp hz' with h | h
      · exact Or.inl h
      · exact Or.inr ⟨h, hx'⟩
    · obtain ⟨a1, a2, a3, a4, a5, a6, a7, a8, a9, a10, a11⟩ := hs
      refine ⟨a1, a2, a3, a4, a5, a6, a7, a8, a9, a10, ?_⟩
      intro z' x' hx' hz'
      apply a11 z' x' hx'
      rcases hz' with h | h
      · exact h
      · exact absurd h.2 (Nat.not_lt_zero _)
    · intro x s' hx hs'
      obtain ⟨a1, a2, a3, a4, a5, a6, a7, a8, a9, a10, a11⟩ := hs'
      have hidx : ((z : Int) * s'.width + (x : Int)) = ((z * wn + x : Nat) : Int) := by
        rw [a1, h1w]; push_cast; ring
      refine ⟨a1, a2, a3, a4, a5, a6, a7, a8, a9, ?_, ?_⟩
      · simp only [setVertex, hidx, Terrain.writeAt_natCast, List.length_set]; exact a10
      · intro z' x' hx' hz'
        simp only [setVertex, hidx, Terrain.writeAt_natCast, a4, a5]
        by_cases hcase : z' = z ∧ x' = x
        · obtain ⟨rfl, rfl⟩ := hcase
          have hlt : z' * wn + x' < s'.positions.length := by
            rw [a10, h1len]; exact Terrain.rowMajor_lt wn hn z' x' hz hx
          simp [List.getElem?_set, hlt]
        · have hne : z * wn + x ≠ z' * wn + x' := by
            intro heq
            exact hcase (Terrain.rowMajor_inj wn z x z' x' hx hx' heq.symm)
          rw [List.getElem?_set_ne hne]
          apply a11 z' x' hx'
          rcases hz' with h | ⟨h1, h2⟩
          · exact Or.inl h
          · refine Or.inr ⟨h1, ?_⟩
            rcases Nat.lt_succ_iff_lt_or_eq.mp h2 with h | h
            · exact h
            · exact absurd ⟨h1, h⟩ hcase

/-- Everything `loadHeightmap` in `float` arithmetic leaves in the terrain for a
`wn × hn` image. -/
theorem loadHeightmap_members (rnd : R → R) (sqrt : R → R) (t0 : Terrain R)
    (img : Terrain.Image) (wn hn : Nat) (hwn : img.width = wn) (hhn : img.height = hn) :
    (loadHeightmap rnd sqrt t0 (some img)).2.width = wn ∧
    (loadHeightmap rnd sqrt t0 (some img)).2.height = hn ∧
    (loadHeightmap rnd sqrt t0 (some img)).2.horizontalScale = t0.horizontalScale ∧
    (loadHeightmap rnd sqrt t0 (some img)).2.heightScale = t0.heightScale ∧
    (loadHeightmap rnd sqrt t0 (some img)).2.positions.length = wn * hn ∧
    (∀ z x : Nat, z < hn → x < wn →
      (loadHeightmap rnd sqrt t0 (some img)).2.positions[z * wn + x]? = some
        ⟨rnd (rnd (rnd (x : R) * t0.horizontalScale)
            - halfWidth rnd (loadHeightmap rnd sqrt t0 (some img)).2),
         sampleHeight rnd img.data t0.heightScale (z * wn + x),
         rnd (rnd (rnd (z : R) * t0.horizontalScale)
            - halfDepth rnd (loadHeightmap rnd sqrt t0 (some img)).2)⟩) ∧
    (∀ i : Nat, i < wn * hn →
      sampleHeight rnd img.data t0.heightScale i
        ≤ (loadHeightmap rnd sqrt t0 (some img)).2.maxHeight) ∧
    0 ≤ (loadHeightmap rnd sqrt t0 (some img)).2.maxHeight := by
  have hN : (img.width * img.height).toNat = wn * hn := by
    rw [hwn, hhn]; exact_mod_cast Int.toNat_ofNat (wn * hn)
  have hinv := processHeights_heightsInv rnd
    { t0 with width := img.width, height := img.height } img.data
  generalize hA : processHeights rnd { t0 with width := img.width, height := img.height }
    img.data = A at hinv
  obtain ⟨⟨f1, f2, f3, f4, -⟩, hlen, hval, hle, h0⟩ := hinv
  simp only [Terrain.length_resize, hN] at hlen hval hle
  change A.heightScale = t0.heightScale at f3
  change A.horizontalScale = t0.horizontalScale at f4
  change A.width = img.width at f1
  change A.height = img.height at f2
  have hG := generatePositions_genInv rnd A wn hn (by rw [f1]; exact hwn) (by rw [f2]; exact hhn)
  generalize hGe : generatePositions rnd A = G at hG
  have ht : (loadHeightmap rnd sqrt t0 (some img)).2
      = Terrain.setupMesh (calculateNormals rnd sqrt G) := by
    rw [← hGe, ← hA]; rfl
  obtain ⟨g1, g2, g3, g4, g5, -, -, -, g9, g10, g11⟩ := hG
  change G.width = A.width at g1
  change G.height = A.height at g2
  change G.heightScale = A.heightScale at g3
  change G.horizontalScale = A.horizontalScale at g4
  change G.heights = A.heights at g5
  change G.maxHeight = A.maxHeight at g9
  have glen : G.positions.length = wn * hn := by
    rw [g10]; simp [Terrain.resizeVertexData, Terrain.length_resize, f1, f2, hN]
  have rhw : halfWidth rnd (Terrain.resizeVertexData A)
      = halfWidth rnd (Terrain.setupMesh (calculateNormals rnd sqrt G)) := by
    show rnd (rnd (rnd ((A.width - 1 : Int) : R) * A.horizontalScale) * (1 / 2))
      = rnd (rnd (rnd ((G.width - 1 : Int) : R) * G.horizontalScale) * (1 / 2))
    rw [g1, g4]
  have rhd : halfDepth rnd (Terrain.resizeVertexData A)
      = halfDepth rnd (Terrain.setupMesh (calculateNormals rnd sqrt G)) := by
    show rnd (rnd (rnd ((A.height - 1 : Int) : R) * A.horizontalScale) * (1 / 2))
      = rnd (rnd (rnd ((G.height - 1 : Int) : R) * G.horizontalScale) * (1 / 2))
    rw [g2, g4]
  rw [ht]
  refine ⟨?_, ?_, ?_, ?_, ?_, ?_, ?_, ?_⟩
  · show G.width = wn
    rw [g1, f1, hwn]
  · show G.height = hn
    rw [g2, f2, hhn]
  · show G.horizontalScale = _
    rw [g4, f4]
  · show G.heightScale = _
    rw [g3, f3]
  · exact glen
  · intro z x hz hx
    show G.positions[z * wn + x]? = _
    rw [g11 z x hx hz, ← rhw, ← rhd]
    have hlt : z * wn + x < wn * hn := Terrain.rowMajor_lt wn hn z x hz hx
    have hh : (Terrain.resizeVertexData A).heights = A.heights := rfl
    have hs : (Terrain.resizeVertexData A).horizontalScale = t0.horizontalScale := f4
    rw [Terrain.readAt_natCast, hh, hval _ hlt, hs]
    rfl
  · intro i hi
    show _ ≤ G.maxHeight
    rw [g9]; exact hle i hi
  · show 0 ≤ G.maxHeight
    rw [g9]; exact h0

theorem sampleHeight_rounded_nonneg {rnd : R → R} (hr : IsRounding rnd) (data : List Nat)
    (heightScale : R) (hs : 0 ≤ heightScale) (i : Nat) :
    0 ≤ sampleHeight rnd data heightScale i := by
  unfold sampleHeight
  exact hr.nonneg _ (mul_nonneg (hr.nonneg _ (div_nonneg (hr.nonneg _ (Nat.cast_nonneg _))
    (by norm_num))) hs)

/-- A terrain loaded in `float` arithmetic from an image with at least one row
and one column is a grid; its elevations are `float`s of at most `maxHeight`,
and non-negative ones when `heightScale ≥ 0`. -/
theorem loadHeightmap_elevations {rnd : R → R} (hr : IsRounding rnd) (sqrt : R → R)
    (t0 : Terrain R) (img : Terrain.Image) (hw : 1 ≤ img.width) (hh : 1 ≤ img.height) :
    (loadHeightmap rnd sqrt t0 (some img)).2.width = img.width ∧
    (loadHeightmap rnd sqrt t0 (some img)).2.height = img.height ∧
    (loadHeightmap rnd sqrt t0 (some img)).2.horizontalScale = t0.horizontalScale ∧
    (loadHeightmap rnd sqrt t0 (some img)).2.IsGrid ∧
    FloatElevations rnd (loadHeightmap rnd sqrt t0 (some img)).2 ∧
    ∀ p ∈ (loadHeightmap rnd sqrt t0 (some img)).2.positions,
      p.y ≤ (loadHeightmap rnd sqrt t0 (some img)).2.maxHeight ∧
      (0 ≤ t0.heightScale → 0 ≤ p.y) := by
  obtain ⟨wn, hwn⟩ := Int.eq_ofNat_of_zero_le (show 0 ≤ img.width by omega)
  obtain ⟨hn, hhn⟩ := Int.eq_ofNat_of_zero_le (show 0 ≤ img.height by omega)
  obtain ⟨ew, eh, es, -, elen, epos, ele, -⟩ := loadHeightmap_members rnd sqrt t0 img wn hn hwn hhn
  have hwpos : 0 < wn := by omega
  have key : ∀ p ∈ (loadHeightmap rnd sqrt t0 (some img)).2.positions,
      ∃ k : Nat, k < wn * hn ∧ p.y = sampleHeight rnd img.data t0.heightScale k := by
    intro p hp
    obtain ⟨k, hk⟩ := List.mem_iff_getElem?.mp hp
    obtain ⟨hklt, -⟩ := List.getElem?_eq_some.mp hk
    rw [elen] at hklt
    have hx : k % wn < wn := Nat.mod_lt _ hwpos
    have hz : k / wn < hn := by
      rw [Nat.div_lt_iff_lt_mul hwpos]; rw [Nat.mul_comm]; exact hklt
    have hkk : k / wn * wn + k % wn = k := Nat.div_add_mod' k wn
    have := epos (k / wn) (k % wn) hz hx
    rw [hkk, hk] at this
    exact ⟨k, hklt, by rw [Option.some.inj this]⟩
  refine ⟨by rw [ew, hwn], by rw [eh, hhn], es, ⟨by rw [ew]; omega, by rw [eh]; omega, ?_⟩, ?_, ?_⟩
  · rw [elen, ew, eh]
    exact_mod_cast (Int.toNat_ofNat (wn * hn)).symm
  · intro p hp
    obtain ⟨k, -, e⟩ := key p hp
    rw [e]
    unfold sampleHeight
    rw [hr.idem]
  · intro p hp
    obtain ⟨k, hk, e⟩ := key p hp
    rw [e]
    exact ⟨ele k hk, fun hs => sampleHeight_rounded_nonneg hr _ _ hs k⟩

/-- The vertex that `loadHeightmap` in `float` arithmetic stores for the column
`i` and the row `j` of the image. -/
theorem loadHeightmap_vertex (rnd : R → R) (sqrt : R → R) (t0 : Terrain R)
    (img : Terrain.Image) (i j : Int) (hi0 : 0 ≤ i) (hi1 : i < img.width) (hj0 : 0 ≤ j)
    (hj1 : j < img.height) :
    ∃ y : R, readAt (loadHeightmap rnd sqrt t0 (some img)).2.positions (j * img.width + i) = some
      ⟨rnd (rnd (rnd (i : R) * t0.horizontalScale)
          - halfWidth rnd (loadHeightmap rnd sqrt t0 (some img)).2), y,
       rnd (rnd (rnd (j : R) * t0.horizontalScale)
          - halfDepth rnd (loadHeightmap rnd sqrt t0 (some img)).2)⟩ := by
  obtain ⟨wn, hwn⟩ := Int.eq_ofNat_of_zero_le (show 0 ≤ img.width by omega)
  obtain ⟨hn, hhn⟩ := Int.eq_ofNat_of_zero_le (show 0 ≤ img.height by omega)
  obtain ⟨-, -, -, -, -, epos, -, -⟩ := loadHeightmap_members rnd sqrt t0 img wn hn hwn hhn
  obtain ⟨x, hx⟩ := Int.eq_ofNat_of_zero_le hi0
  obtain ⟨z, hz⟩ := Int.eq_ofNat_of_zero_le hj0
  have hidx : j * img.width + i = ((z * wn + x : Nat) : Int) := by
    rw [hz, hx, hwn]; push_cast; ring
  refine ⟨sampleHeight rnd img.data t0.heightScale (z * wn + x), ?_⟩
  rw [hidx, Terrain.readAt_natCast, epos z x (by omega) (by omega), hx, hz]
  simp only [Int.cast_natCast]

/-- With the grid spacing 1, on a terrain loaded in `float` arithmetic the query
at the stored position of a vertex returns the elevation of that vertex. -/
theorem getHeightAtPosition_vertex_unit {rnd : R → R} (hr : IsRounding rnd) (sqrt : R → R)
    (t0 : Terrain R) (img : Terrain.Image) (hw : 1 ≤ img.width) (hw2 : img.width ≤ 2 ^ 24)
    (hh : 1 ≤ img.height) (hh2 : img.height ≤ 2 ^ 24) (hs : t0.horizontalScale = 1)
    (i j : Int) (hi0 : 0 ≤ i) (hi1 : i < (loadHeightmap rnd sqrt t0 (some img)).2.width)
    (hj0 : 0 ≤ j) (hj1 : j < (loadHeightmap rnd sqrt t0 (some img)).2.height) :
    ∃ p : Vec3 R,
      readAt (loadHeightmap rnd sqrt t0 (some img)).2.positions
        (j * (loadHeightmap rnd sqrt t0 (some img)).2.width + i) = some p ∧
      getHeightAtPosition rnd (loadHeightmap rnd sqrt t0 (some img)).2 (some p.x) (some p.z)
        = some p.y := by
  obtain ⟨ew, eh, es, hg, hfl, -⟩ := loadHeightmap_elevations hr sqrt t0 img hw hh
  rw [ew] at hi1
  rw [eh] at hj1
  obtain ⟨y, hy⟩ := loadHeightmap_vertex rnd sqrt t0 img i j hi0 hi1 hj0 hj1
  have hw2' : (loadHeightmap rnd sqrt t0 (some img)).2.width ≤ 2 ^ 24 := by rw [ew]; exact hw2
  have hh2' : (loadHeightmap rnd sqrt t0 (some img)).2.height ≤ 2 ^ 24 := by rw [eh]; exact hh2
  have hs' : (loadHeightmap rnd sqrt t0 (some img)).2.horizontalScale = 1 := by rw [es]; exact hs
  have gx := gridX_vertex_unit hr _ hg.width_pos hw2' hs' i hi0 (by rw [ew]; exact hi1)
  have gz := gridZ_vertex_unit hr _ hg.height_pos hh2' hs' j hj0 (by rw [eh]; exact hj1)
  rw [es] at gx gz
  refine ⟨_, by rw [ew]; exact hy, ?_⟩
  rw [(getHeightAtPosition_grid_points hr _ hg hw2' hh2' hfl).1 i j _ _ hi0
    (by rw [ew]; exact hi1) hj0 (by rw [eh]; exact hj1) gx gz]
  unfold Terrain.elevation
  rw [ew, hy]
  rfl

/-- With the grid spacing 1, on a terrain loaded in `float` arithmetic the query
at the midpoint of the stored positions of two vertices adjacent along the x
axis returns the sum of their two halved elevations. -/
theorem getHeightAtPosition_midpoint_x_unit {rnd : R → R} (hr : IsRounding rnd) (sqrt : R → R)
    (t0 : Terrain R) (img : Terrain.Image) (hw : 1 ≤ img.width) (hw2 : img.width ≤ 2 ^ 23)
    (hh : 1 ≤ img.height) (hh2 : img.height ≤ 2 ^ 23) (hs : t0.horizontalScale = 1)
    (i j : Int) (hi0 : 0 ≤ i) (hi1 : i + 1 < (loadHeightmap rnd sqrt t0 (some img)).2.width)
    (hj0 : 0 ≤ j) (hj1 : j < (loadHeightmap rnd sqrt t0 (some img)).2.height) :
    ∃ p q : Vec3 R,
      readAt (loadHeightmap rnd sqrt t0 (some img)).2.positions
        (j * (loadHeightmap rnd sqrt t0 (some img)).2.width + i) = some p ∧
      readAt (loadHeightmap rnd sqrt t0 (some img)).2.positions
        (j * (loadHeightmap rnd sqrt t0 (some img)).2.width + (i + 1)) = some q ∧
      getHeightAtPosition rnd (loadHeightmap rnd sqrt t0 (some img)).2
          (some ((p.x + q.x) / 2)) (some p.z)
        = some (rnd (rnd (p.y * (1 / 2)) + rnd (q.y * (1 / 2)))) := by
  obtain ⟨ew, eh, es, hg, hfl, -⟩ := loadHeightmap_elevations hr sqrt t0 img hw hh
  rw [ew] at hi1
  rw [eh] at hj1
  obtain ⟨y, hy⟩ := loadHeightmap_vertex rnd sqrt t0 img i j hi0 (by omega) hj0 hj1
  obtain ⟨y2, hy2⟩ := loadHeightmap_vertex rnd sqrt t0 img (i + 1) j (by omega) hi1 hj0 hj1
  have hw2' : (loadHeightmap rnd sqrt t0 (some img)).2.width ≤ 2 ^ 23 := by rw [ew]; exact hw2
  have hh2' : (loadHeightmap rnd sqrt t0 (some img)).2.height ≤ 2 ^ 23 := by rw [eh]; exact hh2
  have hs' : (loadHeightmap rnd sqrt t0 (some img)).2.horizontalScale = 1 := by rw [es]; exact hs
  have gx := gridX_midpoint_unit hr _ hg.width_pos hw2' hs' i hi0 (by rw [ew]; exact hi1)
  have gz := gridZ_vertex_unit hr _ hg.height_pos (by omega) hs' j hj0 (by rw [eh]; exact hj1)
  rw [es] at gx gz
  obtain ⟨a, b, ea, eb, e⟩ := (getHeightAtPosition_grid_points hr _ hg (by omega) (by omega)
    hfl).2.1 i j _ _ hi0 (by rw [ew]; exact hi1) hj0 (by rw [eh]; exact hj1) gx gz
  unfold Terrain.elevation at ea eb
  rw [ew, hy] at ea
  rw [ew, hy2] at eb
  refine ⟨_, _, by rw [ew]; exact hy, by rw [ew]; exact hy2, ?_⟩
  rw [e, ← Option.some.inj ea, ← Option.some.inj eb]

/-- With the grid spacing 1, on a terrain loaded in `float` arithmetic the query
at the midpoint of the stored positions of two vertices adjacent along the z
axis returns the sum of their two halved elevations. -/
theorem getHeightAtPosition_midpoint_z_unit {rnd : R → R} (hr : IsRounding rnd) (sqrt : R → R)
    (t0 : Terrain R) (img : Terrain.Image) (hw : 1 ≤ img.width) (hw2 : img.width ≤ 2 ^ 23)
    (hh : 1 ≤ img.height) (hh2 : img.height ≤ 2 ^ 23) (hs : t0.horizontalScale = 1)
    (i j : Int) (hi0 : 0 ≤ i) (hi1 : i < (loadHeightmap rnd sqrt t0 (some img)).2.width)
    (hj0 : 0 ≤ j) (hj1 : j + 1 < (loadHeightmap rnd sqrt t0 (some img)).2.height) :
    ∃ p q : Vec3 R,
      readAt (loadHeightmap rnd sqrt t0 (some img)).2.positions
        (j * (loadHeightmap rnd sqrt t0 (some img)).2.width + i) = some p ∧
      readAt (loadHeightmap rnd sqrt t0 (some img)).2.positions
        ((j + 1) * (loadHeightmap rnd sqrt t0 (some img)).2.width + i) = some q ∧
      getHeightAtPosition rnd (loadHeightmap rnd sqrt t0 (some img)).2
          (some p.x) (some ((p.z + q.z) / 2))
        = some (rnd (rnd (p.y * (1 / 2)) + rnd (q.y * (1 / 2)))) := by
  obtain ⟨ew, eh, es, hg, hfl, -⟩ := loadHeightmap_elevations hr sqrt t0 img hw hh
  rw [ew] at hi1
  rw [eh] at hj1
  obtain ⟨y, hy⟩ := loadHeightmap_vertex rnd sqrt t0 img i j hi0 hi1 hj0 (by omega)
  obtain ⟨y2, hy2⟩ := loadHeightmap_vertex rnd sqrt t0 img i (j + 1) hi0 hi1 (by omega) hj1
  have hw2' : (loadHeightmap rnd sqrt t0 (some img)).2.width ≤ 2 ^ 23 := by rw [ew]; exact hw2
  have hh2' : (loadHeightmap rnd sqrt t0 (some img)).2.height ≤ 2 ^ 23 := by rw [eh]; exact hh2
  have hs' : (loadHeightmap rnd sqrt t0 (some img)).2.horizontalScale = 1 := by rw [es]; exact hs
  have gx := gridX_vertex_unit hr _ hg.width_pos (by omega) hs' i hi0 (by rw [ew]; exact hi1)
  have gz := gridZ_midpoint_unit hr _ hg.height_pos hh2' hs' j hj0 (by rw [eh]; exact hj1)
  rw [es] at gx gz
  obtain ⟨a, b, ea, eb, e⟩ := (getHeightAtPosition_grid_points hr _ hg (by omega) (by omega)
    hfl).2.2 i j _ _ hi0 (by rw [ew]; exact hi1) hj0 (by rw [eh]; exact hj1) gx gz
  unfold Terrain.elevation at ea eb
  rw [ew, hy] at ea
  rw [ew, hy2] at eb
  refine ⟨_, _, by rw [ew]; exact hy, by rw [ew]; exact hy2, ?_⟩
  rw [e, ← Option.some.inj ea, ← Option.some.inj eb]

end Fp

/-! ## The height query on loaded terrains in float arithmetic -/

namespace Fp

variable {R : Type} [LinearOrderedField R] [FloorRing R]

/-- For a point that is not NaN, on a loaded terrain with a non-zero grid
spacing, the four indices that the query reads are within `[0, width * height)`
and the query returns a value. -/
theorem getHeightAtPosition_in_range {rnd : R → R} (hr : IsRounding rnd) (sqrt : R → R)
    (t0 : Terrain R) (img : Terrain.Image) (hw : 1 ≤ img.width) (hw2 : img.width ≤ 2 ^ 24)
    (hh : 1 ≤ img.height) (hh2 : img.height ≤ 2 ^ 24) (hs : t0.horizontalScale ≠ 0) (x z : R) :
    let t := (loadHeightmap rnd sqrt t0 (some img)).2
    ∃ (lx lz v : R), localX rnd t (some x) = some lx ∧ localZ rnd t (some z) = some lz ∧
      (0 ≤ ⌊lz⌋ * t.width + ⌊lx⌋ ∧ ⌊lz⌋ * t.width + ⌊lx⌋ < t.width * t.height) ∧
      (0 ≤ ⌊lz⌋ * t.width + min (⌊lx⌋ + 1) (t.width - 1) ∧
        ⌊lz⌋ * t.width + min (⌊lx⌋ + 1) (t.width - 1) < t.width * t.height) ∧
      (0 ≤ min (⌊lz⌋ + 1) (t.height - 1) * t.width + ⌊lx⌋ ∧
        min (⌊lz⌋ + 1) (t.height - 1) * t.width + ⌊lx⌋ < t.width * t.height) ∧
      (0 ≤ min (⌊lz⌋ + 1) (t.height - 1) * t.width + min (⌊lx⌋ + 1) (t.width - 1) ∧
        min (⌊lz⌋ + 1) (t.height - 1) * t.width + min (⌊lx⌋ + 1) (t.width - 1)
          < t.width * t.height) ∧
      getHeightAtPosition rnd t (some x) (some z) = some v := by
  intro t
  obtain ⟨ew, eh, es, hg, -, -⟩ := loadHeightmap_elevations hr sqrt t0 img hw hh
  change t.width = img.width at ew
  change t.height = img.height at eh
  change t.horizontalScale = t0.horizontalScale at es
  change t.IsGrid at hg
  have hw2' : t.width ≤ 2 ^ 24 := by rw [ew]; exact hw2
  have hh2' : t.height ≤ 2 ^ 24 := by rw [eh]; exact hh2
  have hs' : t.horizontalScale ≠ 0 := by rw [es]; exact hs
  obtain ⟨lx, hx⟩ := localX_total hr t hg.width_pos hw2' hs' x
  obtain ⟨lz, hz⟩ := localZ_total hr t hg.height_pos hh2' hs' z
  obtain ⟨p00, p10, p01, p11, h00, h10, h01, h11, e⟩ :=
    getHeightAtPosition_corners hr t hg hw2' hh2' _ _ lx lz hx hz
  have hlen : (t.positions.length : Int) = t.width * t.height := by
    rw [hg.length_positions]
    exact Int.toNat_of_nonneg (mul_nonneg (by have := hg.width_pos; omega)
      (by have := hg.height_pos; omega))
  have r00 := Hiker.readAt_range _ _ _ h00
  have r10 := Hiker.readAt_range _ _ _ h10
  have r01 := Hiker.readAt_range _ _ _ h01
  have r11 := Hiker.readAt_range _ _ _ h11
  rw [hlen] at r00 r10 r01 r11
  exact ⟨lx, lz, _, hx, hz, r00, r10, r01, r11, e⟩

/-- C4: a NaN coordinate is not clamped.  Both comparisons of `glm::clamp` with
a NaN are false, so the clamped grid coordinate is NaN, its conversion to `int`
is undefined, and the query has no defined index to read and no defined result,
for every terrain and whatever the other coordinate is. -/
theorem getHeightAtPosition_nan (rnd : R → R) (t : Terrain R) (x z : Option R) :
    gridX rnd t none = none ∧
    Nan.clamp (gridX rnd t none) (some 0) (some (rnd ((t.width - 1 : Int) : R))) = none ∧
    localX rnd t none = none ∧ localZ rnd t none = none ∧
    Nan.toInt (localX rnd t none) = none ∧ Nan.toInt (localZ rnd t none) = none ∧
    getHeightAtPosition rnd t none z = none ∧ getHeightAtPosition rnd t x none = none := by
  have hx : localX rnd t none = none := by
    unfold localX gridX
    exact Nan.clamp_nan _ _
  have hz : localZ rnd t none = none := by
    unfold localZ gridZ
    exact Nan.clamp_nan _ _
  refine ⟨rfl, Nan.clamp_nan _ _, hx, hz, ?_, ?_, getHeightAtPosition_nan_x rnd t z,
    getHeightAtPosition_nan_z rnd t x⟩
  · rw [hx]; rfl
  · rw [hz]; rfl

/-- C2, the claim refuted: in binary32 arithmetic, on the 6x2 terrain with
spacing `0.1f` whose vertex `(1, 0)` has the elevation 37, the stored position of
that vertex has the grid column `1 - 2⁻²⁴`, and the query there returns
`9699327/262144 ≈ 36.999996`, not 37; at the midpoint of the stored positions of
the vertices `(0, 0)` and `(1, 0)`, whose elevations are 0 and 37, it returns
`9699327/524288 ≈ 18.499998`, not their mean `18.5`. -/
theorem getHeightAtPosition_vertex_inexact :
    (spikeTerrain.width = 6 ∧ spikeTerrain.height = 2 ∧ 0 < spikeTerrain.horizontalScale) ∧
    (readAt spikeTerrain.positions (0 * spikeTerrain.width + 0)
        = some ⟨-1 / 4, 0, -13421773 / 268435456⟩ ∧
      readAt spikeTerrain.positions (0 * spikeTerrain.width + 1)
        = some ⟨-5033165 / 33554432, 37, -13421773 / 268435456⟩) ∧
    (spikeTerrain.elevation 0 0 = some 0 ∧ spikeTerrain.elevation 1 0 = some 37) ∧
    gridX round32 spikeTerrain (some (-5033165 / 33554432)) = some (16777215 / 16777216) ∧
    getHeightAtPosition round32 spikeTerrain (some (-5033165 / 33554432))
        (some (-13421773 / 268435456)) = some (9699327 / 262144) ∧
    getHeightAtPosition round32 spikeTerrain (some (-5033165 / 33554432))
        (some (-13421773 / 268435456)) ≠ spikeTerrain.elevation 1 0 ∧
    ((-1 / 4 + -5033165 / 33554432) / 2 = (-13421773 / 67108864 : ℚ) ∧
      round32 (-13421773 / 67108864) = -13421773 / 67108864) ∧
    getHeightAtPosition round32 spikeTerrain (some (-13421773 / 67108864))
        (some (-13421773 / 268435456)) = some (9699327 / 524288) ∧
    getHeightAtPosition round32 spikeTerrain (some (-13421773 / 67108864))
        (some (-13421773 / 268435456)) ≠ some ((0 + 37) / 2) :=
  ⟨⟨by decide!, by decide!, by decide!⟩, ⟨by decide!, by decide!⟩, ⟨by decide!, by decide!⟩,
   by decide!, by decide!, by decide!, ⟨by decide!, by decide!⟩, by decide!, by decide!⟩

/-- C2, amended: on a terrain `t` loaded in `float` arithmetic, (a) a query
whose grid coordinates `(x + halfWidth) / horizontalScale` and
`(z + halfDepth) / horizontalScale` are computed as exactly the integers `(i, j)`
of a grid vertex returns exactly that vertex's elevation, and (b) a query whose
grid coordinates are computed as exactly the midpoint of two vertices adjacent
along one axis returns the sum of their two halved elevations,
`a * 0.5f + b * 0.5f` in `float` arithmetic.  With `horizontalScale = 1` the
stored position of every vertex and the midpoint of the stored positions of any
two adjacent vertices have such grid coordinates. -/
theorem getHeightAtPosition_exact_grid_point {rnd : R → R} (hr : IsRounding rnd)
    (sqrt : R → R) (t0 t : Terrain R) (img : Terrain.Image) (hw : 1 ≤ img.width)
    (hw2 : img.width ≤ 2 ^ 23) (hh : 1 ≤ img.height) (hh2 : img.height ≤ 2 ^ 23)
    (ht : t = (loadHeightmap rnd sqrt t0 (some img)).2) :
    (∀ (i j : Int) (x z : Option R), 0 ≤ i → i < t.width → 0 ≤ j → j < t.height →
      gridX rnd t x = some (i : R) → gridZ rnd t z = some (j : R) →
      getHeightAtPosition rnd t x z = t.elevation i j) ∧
    (∀ (i j : Int) (x z : Option R), 0 ≤ i → i + 1 < t.width → 0 ≤ j → j < t.height →
      gridX rnd t x = some ((i : R) + 1 / 2) → gridZ rnd t z = some (j : R) →
      ∃ a b : R, t.elevation i j = some a ∧ t.elevation (i + 1) j = some b ∧
        getHeightAtPosition rnd t x z = some (rnd (rnd (a * (1 / 2)) + rnd (b * (1 / 2))))) ∧
    (∀ (i j : Int) (x z : Option R), 0 ≤ i → i < t.width → 0 ≤ j → j + 1 < t.height →
      gridX rnd t x = some (i : R) → gridZ rnd t z = some ((j : R) + 1 / 2) →
      ∃ a b : R, t.elevation i j = some a ∧ t.elevation i (j + 1) = some b ∧
        getHeightAtPosition rnd t x z = some (rnd (rnd (a * (1 / 2)) + rnd (b * (1 / 2))))) ∧
    (t0.horizontalScale = 1 →
      (∀ i j : Int, 0 ≤ i → i < t.width → 0 ≤ j → j < t.height →
        ∃ p : Vec3 R, readAt t.positions (j * t.width + i) = some p ∧
          getHeightAtPosition rnd t (some p.x) (some p.z) = some p.y) ∧
      (∀ i j : Int, 0 ≤ i → i + 1 < t.width → 0 ≤ j → j < t.height →
        ∃ p q : Vec3 R, readAt t.positions (j * t.width + i) = some p ∧
          readAt t.positions (j * t.width + (i + 1)) = some q ∧
          getHeightAtPosition rnd t (some ((p.x + q.x) / 2)) (some p.z)
            = some (rnd (rnd (p.y * (1 / 2)) + rnd (q.y * (1 / 2))))) ∧
      (∀ i j : Int, 0 ≤ i → i < t.width → 0 ≤ j → j + 1 < t.height →
        ∃ p q : Vec3 R, readAt t.positions (j * t.width + i) = some p ∧
          readAt t.positions ((j + 1) * t.width + i) = some q ∧
          getHeightAtPosition rnd t (some p.x) (some ((p.z + q.z) / 2))
            = some (rnd (rnd (p.y * (1 / 2)) + rnd (q.y * (1 / 2)))))) := by
  subst ht
  obtain ⟨ew, eh, -, hg, hfl, -⟩ := loadHeightmap_elevations hr sqrt t0 img hw hh
  obtain ⟨a, b, c⟩ := getHeightAtPosition_grid_points hr _ hg (by rw [ew]; omega)
    (by rw [eh]; omega) hfl
  exact ⟨a, b, c, fun hs =>
    ⟨getHeightAtPosition_vertex_unit hr sqrt t0 img hw (by omega) hh (by omega) hs,
     getHeightAtPosition_midpoint_x_unit hr sqrt t0 img hw hw2 hh hh2 hs,
     getHeightAtPosition_midpoint_z_unit hr sqrt t0 img hw hw2 hh hh2 hs⟩⟩

/-- The 3x2 terrain with spacing 1 and the elevations `0, 1, 2, 3, 4, 5`, loaded in
binary32 arithmetic, satisfies the hypotheses of the amended C2: the stored
position `(0, 0.5)` of vertex `(1, 1)` has the grid coordinates `(1, 1)` and the
query there returns its elevation 4; the midpoint `(0.5, 0.5)` of the vertices
`(1, 1)` and `(2, 1)` has the grid coordinates `(1.5, 1)` and the query there
returns `4 * 0.5 + 5 * 0.5 = 4.5`; the midpoint `(1, 0)` of the vertices `(2, 0)` and
`(2, 1)` gives `2 * 0.5 + 5 * 0.5 = 3.5`. -/
theorem getHeightAtPosition_exact_grid_point_witness :
    (IsRounding round32 ∧ (1 ≤ stepImage.width ∧ stepImage.width ≤ 2 ^ 23 ∧
      1 ≤ stepImage.height ∧ stepImage.height ≤ 2 ^ 23) ∧
      stepTerrain
        = (loadHeightmap round32 ratSqrt (Terrain.new.setHeightScale 5) (some stepImage)).2) ∧
    (readAt stepTerrain.positions (1 * stepTerrain.width + 1) = some ⟨0, 4, 1 / 2⟩ ∧
      gridX round32 stepTerrain (some 0) = some ((1 : Int) : ℚ) ∧
      gridZ round32 stepTerrain (some (1 / 2)) = some ((1 : Int) : ℚ)) ∧
    getHeightAtPosition round32 stepTerrain (some 0) (some (1 / 2)) = stepTerrain.elevation 1 1 ∧
    stepTerrain.elevation 1 1 = some 4 ∧
    (∃ a b : ℚ, stepTerrain.elevation 1 1 = some a ∧ stepTerrain.elevation (1 + 1) 1 = some b ∧
      getHeightAtPosition round32 stepTerrain (some (1 / 2)) (some (1 / 2))
        = some (round32 (round32 (a * (1 / 2)) + round32 (b * (1 / 2))))) ∧
    getHeightAtPosition round32 stepTerrain (some (1 / 2)) (some (1 / 2)) = some (9 / 2) ∧
    (∃ p q : Vec3 ℚ, readAt stepTerrain.positions (0 * stepTerrain.width + 2) = some p ∧
      readAt stepTerrain.positions ((0 + 1) * stepTerrain.width + 2) = some q ∧
      getHeightAtPosition round32 stepTerrain (some p.x) (some ((p.z + q.z) / 2))
        = some (round32 (round32 (p.y * (1 / 2)) + round32 (q.y * (1 / 2))))) ∧
    getHeightAtPosition round32 stepTerrain (some 1) (some 0) = some (7 / 2) :=
  ⟨⟨round32_isRounding, ⟨by decide, by decide, by decide, by decide⟩, rfl⟩,
   ⟨by decide!, by decide!, by decide!⟩,
   (getHeightAtPosition_exact_grid_point round32_isRounding ratSqrt
      (Terrain.new.setHeightScale 5) stepTerrain stepImage (by decide) (by decide) (by decide)
      (by decide) rfl).1 1 1 (some 0) (some (1 / 2)) (by decide) (by decide!) (by decide)
      (by decide!) (by decide!) (by decide!),
   by decide!,
   (getHeightAtPosition_exact_grid_point round32_isRounding ratSqrt
      (Terrain.new.setHeightScale 5) stepTerrain stepImage (by decide) (by decide) (by decide)
      (by decide) rfl).2.1 1 1 (some (1 / 2)) (some (1 / 2)) (by decide) (by decide!) (by decide)
      (by decide!) (by decide!) (by decide!),
   by decide!,
   ((getHeightAtPosition_exact_grid_point round32_isRounding ratSqrt
      (Terrain.new.setHeightScale 5) stepTerrain stepImage (by decide) (by decide) (by decide)
      (by decide) rfl).2.2.2 (by decide!)).2.2 2 0 (by decide) (by decide!) (by decide)
      (by decide!),
   by decide!⟩

/-- C3, the claim refuted: in binary32 arithmetic, on the 16x2 terrain with
spacing `0.3f` whose vertex `(15, 0)` has the elevation 43 and whose other
vertices have the elevation 0, `halfWidth = 2.25` and `halfDepth = 0.15f`; the
point `(1000, -1000)` has the clamped grid column 15 and the query returns 43,
while the clamped point `(2.25, -0.15f)` has the grid column
`15728639/1048576 ≈ 14.999999` and the query returns
`11272181/262144 ≈ 42.99996`. -/
theorem getHeightAtPosition_clamp_differs :
    (ledgeTerrain.width = 16 ∧ ledgeTerrain.height = 2 ∧ 0 < ledgeTerrain.horizontalScale) ∧
    (halfWidth round32 ledgeTerrain = 9 / 4 ∧
      halfDepth round32 ledgeTerrain = 5033165 / 33554432) ∧
    (Glm.clamp (1000 : ℚ) (-halfWidth round32 ledgeTerrain) (halfWidth round32 ledgeTerrain)
        = 9 / 4 ∧
      Glm.clamp (-1000 : ℚ) (-halfDepth round32 ledgeTerrain) (halfDepth round32 ledgeTerrain)
        = -5033165 / 33554432) ∧
    (localX round32 ledgeTerrain (some 1000) = some 15 ∧
      localX round32 ledgeTerrain (some (9 / 4)) = some (15728639 / 1048576)) ∧
    getHeightAtPosition round32 ledgeTerrain (some 1000) (some (-1000)) = some 43 ∧
    getHeightAtPosition round32 ledgeTerrain (some (9 / 4)) (some (-5033165 / 33554432))
      = some (11272181 / 262144) ∧
    getHeightAtPosition round32 ledgeTerrain (some 1000) (some (-1000))
      ≠ getHeightAtPosition round32 ledgeTerrain
          (some (Glm.clamp 1000 (-halfWidth round32 ledgeTerrain) (halfWidth round32 ledgeTerrain)))
          (some (Glm.clamp (-1000) (-halfDepth round32 ledgeTerrain)
            (halfDepth round32 ledgeTerrain))) :=
  ⟨⟨by decide!, by decide!, by decide!⟩, ⟨by decide!, by decide!⟩, ⟨by decide!, by decide!⟩,
   ⟨by decide!, by decide!⟩, by decide!, by decide!, by decide!⟩

/-- C3, amended: on a terrain `t` loaded in `float` arithmetic with positive
`horizontalScale`, the query depends on the point only through its clamped grid
coordinates; a point beyond one that is mapped onto the last (the first) column
or row is mapped onto it too; and when the four boundary coordinates
`±halfWidth` and `±halfDepth` are mapped onto the last and the first column and
row, as they are with `horizontalScale = 1`, the query at any point equals the
query at `(clamp(x, -halfWidth, halfWidth), clamp(z, -halfDepth, halfDepth))`. -/
theorem getHeightAtPosition_saturates {rnd : R → R} (hr : IsRounding rnd) (sqrt : R → R)
    (t0 t : Terrain R) (img : Terrain.Image) (hw : 1 ≤ img.width) (hw2 : img.width ≤ 2 ^ 24)
    (hh : 1 ≤ img.height) (hh2 : img.height ≤ 2 ^ 24) (hs : 0 < t0.horizontalScale)
    (ht : t = (loadHeightmap rnd sqrt t0 (some img)).2) :
    (∀ x x' z z' : Option R, localX rnd t x = localX rnd t x' →
      localZ rnd t z = localZ rnd t z' →
      getHeightAtPosition rnd t x z = getHeightAtPosition rnd t x' z') ∧
    ((∀ x x' : R, x ≤ x' → localX rnd t (some x) = some ((t.width - 1 : Int) : R) →
        localX rnd t (some x') = some ((t.width - 1 : Int) : R)) ∧
      (∀ x x' : R, x' ≤ x → localX rnd t (some x) = some 0 → localX rnd t (some x') = some 0) ∧
      (∀ z z' : R, z ≤ z' → localZ rnd t (some z) = some ((t.height - 1 : Int) : R) →
        localZ rnd t (some z') = some ((t.height - 1 : Int) : R)) ∧
      (∀ z z' : R, z' ≤ z → localZ rnd t (some z) = some 0 →
        localZ rnd t (some z') = some 0)) ∧
    (localX rnd t (some (halfWidth rnd t)) = some ((t.width - 1 : Int) : R) →
      localX rnd t (some (-halfWidth rnd t)) = some 0 →
      localZ rnd t (some (halfDepth rnd t)) = some ((t.height - 1 : Int) : R) →
      localZ rnd t (some (-halfDepth rnd t)) = some 0 →
      ∀ x z : R, getHeightAtPosition rnd t (some x) (some z)
        = getHeightAtPosition rnd t (some (Glm.clamp x (-halfWidth rnd t) (halfWidth rnd t)))
            (some (Glm.clamp z (-halfDepth rnd t) (halfDepth rnd t)))) ∧
    (t0.horizontalScale = 1 →
      ∀ x z : R, getHeightAtPosition rnd t (some x) (some z)
        = getHeightAtPosition rnd t (some (Glm.clamp x (-halfWidth rnd t) (halfWidth rnd t)))
            (some (Glm.clamp z (-halfDepth rnd t) (halfDepth rnd t)))) := by
  obtain ⟨ew, eh, es, hg, -, -⟩ := loadHeightmap_elevations hr sqrt t0 img hw hh
  rw [← ht] at ew eh es hg
  have hw1 : 1 ≤ t.width := hg.width_pos
  have hh1 : 1 ≤ t.height := hg.height_pos
  have hw2' : t.width ≤ 2 ^ 24 := by rw [ew]; exact hw2
  have hh2' : t.height ≤ 2 ^ 24 := by rw [eh]; exact hh2
  have hs' : 0 < t.horizontalScale := by rw [es]; exact hs
  refine ⟨fun x x' z z' => getHeightAtPosition_of_local rnd t x x' z z',
    ⟨fun x x' => localX_saturates_high hr t hw1 hw2' hs' x x',
     fun x x' => localX_saturates_low hr t hw1 hw2' hs' x x',
     fun z z' => localZ_saturates_high hr t hh1 hh2' hs' z z',
     fun z z' => localZ_saturates_low hr t hh1 hh2' hs' z z'⟩, ?_, ?_⟩
  · intro b1 b2 b3 b4 x z
    exact (getHeightAtPosition_of_local rnd t _ _ _ _
      (localX_clamp_of_boundary hr t hw1 hw2' hs' b1 b2 x)
      (localZ_clamp_of_boundary hr t hh1 hh2' hs' b3 b4 z)).symm
  · intro h1 x z
    have hs1 : t.horizontalScale = 1 := by rw [es]; exact h1
    obtain ⟨b1, b2⟩ := localX_boundary_unit hr t hw1 hw2' hs1
    obtain ⟨b3, b4⟩ := localZ_boundary_unit hr t hh1 hh2' hs1
    exact (getHeightAtPosition_of_local rnd t _ _ _ _
      (localX_clamp_of_boundary hr t hw1 hw2' hs' b1 b2 x)
      (localZ_clamp_of_boundary hr t hh1 hh2' hs' b3 b4 z)).symm

/-- The 3x2 terrain with spacing 1 and the elevations `0, 1, 2, 3, 4, 5`, loaded in
binary32 arithmetic, satisfies the hypotheses of the amended C3, and its four
boundary coordinates `±1` and `±0.5` are mapped onto the columns 2 and 0 and the
rows 1 and 0: the query at `(1000, -1000)` equals the query at the clamped point
`(1, -0.5)`, the elevation 2 of vertex `(2, 0)`. -/
theorem getHeightAtPosition_saturates_witness :
    (IsRounding round32 ∧ (1 ≤ stepImage.width ∧ stepImage.width ≤ 2 ^ 24 ∧
      1 ≤ stepImage.height ∧ stepImage.height ≤ 2 ^ 24) ∧
      0 < (Terrain.new.setHeightScale (5 : ℚ)).horizontalScale) ∧
    (localX round32 stepTerrain (some (halfWidth round32 stepTerrain))
        = some ((stepTerrain.width - 1 : Int) : ℚ) ∧
      localX round32 stepTerrain (some (-halfWidth round32 stepTerrain)) = some 0 ∧
      localZ round32 stepTerrain (some (halfDepth round32 stepTerrain))
        = some ((stepTerrain.height - 1 : Int) : ℚ) ∧
      localZ round32 stepTerrain (some (-halfDepth round32 stepTerrain)) = some 0) ∧
    getHeightAtPosition round32 stepTerrain (some 1000) (some (-1000))
      = getHeightAtPosition round32 stepTerrain
          (some (Glm.clamp 1000 (-halfWidth round32 stepTerrain) (halfWidth round32 stepTerrain)))
          (some (Glm.clamp (-1000) (-halfDepth round32 stepTerrain)
            (halfDepth round32 stepTerrain))) ∧
    (Glm.clamp (1000 : ℚ) (-halfWidth round32 stepTerrain) (halfWidth round32 stepTerrain) = 1 ∧
      Glm.clamp (-1000 : ℚ) (-halfDepth round32 stepTerrain) (halfDepth round32 stepTerrain)
        = -1 / 2) ∧
    getHeightAtPosition round32 stepTerrain (some 1000) (some (-1000)) = some 2 ∧
    stepTerrain.elevation 2 0 = some 2 :=
  ⟨⟨round32_isRounding, ⟨by decide, by decide, by decide, by decide⟩, by decide!⟩,
   ⟨by decide!, by decide!, by decide!, by decide!⟩,
   (getHeightAtPosition_saturates round32_isRounding ratSqrt (Terrain.new.setHeightScale 5)
      stepTerrain stepImage (by decide) (by decide) (by decide) (by decide) (by decide!)
      rfl).2.2.1 (by decide!) (by decide!) (by decide!) (by decide!) 1000 (-1000),
   ⟨by decide!, by decide!⟩, by decide!, by decide!⟩

end Fp

/-! ## A track of zero length -/

namespace Hiker

variable {R : Type} [LinearOrderedField R] [FloorRing R]

/-- On a track whose only segment has length zero every step divides by zero:
the two cumulative distances that `updatePosition` reads are the two equal
entries, whatever the time step and the terrain are. -/
theorem updatePosition_zero_track (h : Hiker R) (deltaTime : R) (terrain : Terrain R) (a : R)
    (hs : h.segmentDistances = [a, a]) : updatePosition h deltaTime terrain = none := by
  cases hu : updatePosition h deltaTime terrain with
  | none => rfl
  | some h' =>
    obtain ⟨i1, i2, d0, d1, t, ht, p0, p1, -, -, hd0, hd1, -, -, ht', -⟩ :=
      updatePosition_parts h h' deltaTime terrain hu
    obtain ⟨-, f2, -⟩ := advanceDistance_frame h deltaTime
    rw [f2, hs] at hd0 hd1
    have r0 := readAt_range _ _ _ hd0
    have r1 := readAt_range _ _ _ hd1
    simp only [List.length_cons, List.length_nil] at r0 r1
    have hi : i2 = 0 := by omega
    subst hi
    have e0 : d0 = a := by
      have : readAt [a, a] (0 : Int) = some a := rfl
      rw [this] at hd0
      exact (Option.some.inj hd0).symm
    have e1 : d1 = a := by
      have : readAt [a, a] ((0 : Int) + 1) = some a := rfl
      rw [this] at hd1
      exact (Option.some.inj hd1).symm
    subst e0 e1
    unfold fdiv at ht'
    rw [if_pos (sub_self _)] at ht'
    exact absurd ht' (by simp)

/-- C13: the path file `5 0 5  5 0 5` loads as a track of two waypoints with
`segmentDistances = [0, 0]`; the hiker it leaves meets the conditions of a
loaded track of at least two points with the index and the cursor in range, and
yet no `updatePosition` leaves a position: in a step of 1 s both searches stop
at segment 0, the two distances read are 0 and 0, and the quotient
`(currentDistance - 0) / (0 - 0)` has a zero divisor; the same holds for every
time step and every terrain. -/
theorem updatePosition_no_position_on_zero_track :
    pinnedLoad.map (fun r => (r.1, r.2.pathPoints, r.2.segmentDistances, r.2.totalPathLength))
      = some (true, [⟨5, 1 / 2, 5⟩, ⟨5, 1 / 2, 5⟩], [0, 0], 0) ∧
    (2 ≤ pinnedHiker.pathPoints.length ∧ TrackLoaded ratSqrt pinnedHiker ∧
      (0 ≤ pinnedHiker.currentSegmentIndex ∧
        pinnedHiker.currentSegmentIndex ≤ (pinnedHiker.pathPoints.length : Int) - 2) ∧
      CursorInRange pinnedHiker ∧ 0 ≤ pinnedHiker.speed * 1 ∧ flatTerrain.IsGrid) ∧
    (searchForward (advanceDistance pinnedHiker 1).segmentDistances
      (advanceDistance pinnedHiker 1).currentDistance
      ((advanceDistance pinnedHiker 1).segmentDistances.length + 1)
      (advanceDistance pinnedHiker 1).currentSegmentIndex = some 0 ∧
    searchBackward (advanceDistance pinnedHiker 1).segmentDistances
      (advanceDistance pinnedHiker 1).currentDistance 1 0 = some 0 ∧
    readAt (advanceDistance pinnedHiker 1).segmentDistances 0 = some 0 ∧
    readAt (advanceDistance pinnedHiker 1).segmentDistances (0 + 1) = some 0) ∧
    fdiv ((advanceDistance pinnedHiker 1).currentDistance - 0) ((0 : ℚ) - 0) = none ∧
    ∀ (deltaTime : ℚ) (terrain : Terrain ℚ), updatePosition pinnedHiker deltaTime terrain = none :=
  ⟨by decide!,
   ⟨by decide!, ⟨by decide!, by decide!⟩, ⟨by decide!, by decide!⟩, ⟨by decide!, by decide!⟩,
    by decide!, ⟨by decide!, by decide!, by decide!⟩⟩,
   ⟨by decide!, by decide!, by decide!, by decide!⟩, by decide!,
   fun deltaTime terrain =>
     updatePosition_zero_track pinnedHiker deltaTime terrain 0 (by decide!)⟩

end Hiker

/-! ## Reading the path file -/

/-- The example path files, read character by character, give the values that
the example hikers are loaded from. -/
theorem extractions_examples :
    (extractions extractFloat ("0 0 0  10 0 0  10 0 10".toList.length + 1)
        "0 0 0  10 0 0  10 0 10".toList).takeWhile Option.isSome = cornerPathFile ∧
    (extractions extractFloat ("5 0 5".toList.length + 1) "5 0 5".toList).takeWhile
        Option.isSome = singlePathFile ∧
    (extractions extractFloat ("0 0 0  0 0 0  10 0 0".toList.length + 1)
        "0 0 0  0 0 0  10 0 0".toList).takeWhile Option.isSome = stalledPathFile ∧
    (extractions extractFloat ("5 0 5  5 0 5".toList.length + 1)
        "5 0 5  5 0 5".toList).takeWhile Option.isSome = pinnedPathFile :=
  ⟨by decide!, by decide!, by decide!, by decide!⟩

namespace Hiker

variable {R : Type} [LinearOrderedField R] [FloorRing R]

end Hiker
